import Mathlib

/-!
# pfxr: a shallow embedding of the sound-effect generator

The C sources `random.c`, `templates.c`, `audio.c`, `wav.c` and `pfxr.c` are
translated function by function.  Unsigned 32-bit words are natural numbers
reduced modulo `2^32`; `float` and `double` values are IEEE 754 binary32 and
binary64 data with round-to-nearest-even arithmetic (section `Flt`).
-/

namespace Pfxr

/-! ## random.c: the xorshift generator (integer part) -/

/-- Generator state `pfxr_random_t`: the recorded seed and the four 32-bit words. -/
structure pfxr_random_t where
  seed : Nat
  x : Nat
  y : Nat
  z : Nat
  w : Nat
deriving DecidableEq, Repr

/-- All five fields of a generator state are 32-bit words. -/
def pfxr_random_t.wf (r : pfxr_random_t) : Prop :=
  r.seed < 4294967296 ∧ r.x < 4294967296 ∧ r.y < 4294967296 ∧ r.z < 4294967296 ∧
    r.w < 4294967296

instance (r : pfxr_random_t) : Decidable r.wf := by
  unfold pfxr_random_t.wf; infer_instance

/-- One generator step, `pfxr_random_uint32` (random.c lines 23-30): the returned word and
the updated state. -/
def pfxr_random_uint32 (rng : pfxr_random_t) : Nat × pfxr_random_t :=
  let t := rng.x ^^^ (((rng.x <<< 11) % 4294967296) &&& 0xffffffff)
  let w1 := (rng.w ^^^ (rng.w >>> 19)) ^^^ (t ^^^ (t >>> 8))
  ((w1 + 0x80000000) % 4294967296, { rng with x := rng.y, y := rng.z, z := rng.w, w := w1 })

/-- The cast `(uint32_t)` applied to a signed integer. -/
def toU32 (i : Int) : Nat := (i % 4294967296).toNat

/-- The state before the warm-up loop of `pfxr_random_init` (random.c lines 7-15); `now` is
the value returned by `time(NULL)`. -/
def pfxr_random_init_start (now : Int) (seed : Nat) : pfxr_random_t :=
  let seed1 := if seed = 0 then toU32 now else seed
  { seed := seed1, x := seed1 &&& 0xffffffff, y := 362436069, z := 521288629, w := 88675123 }

/-- The loop `for (i = 0; i < n; i++) pfxr_random_uint32(rng);`. -/
def warm_up : Nat → pfxr_random_t → pfxr_random_t
  | 0, rng => rng
  | n + 1, rng => warm_up n (pfxr_random_uint32 rng).2

/-- Seeding, `pfxr_random_init` (random.c lines 6-21). -/
def pfxr_random_init (now : Int) (seed : Nat) : pfxr_random_t :=
  warm_up 32 (pfxr_random_init_start now seed)

/-! ## IEEE 754 binary floating point

`float` is binary32 and `double` is binary64.  Every arithmetic operation computes the exact
result and rounds it to nearest, ties to even, as the C implementation does when
`FLT_EVAL_METHOD` is 0 and no operations are contracted. -/

/-- A binary format: the precision in bits and the least and greatest exponent of the unit
in the last place of a finite number. -/
structure Fmt where
  prec : Nat
  emin : Int
  emax : Int
deriving DecidableEq, Repr

/-- The format of C `float`. -/
def binary32 : Fmt := ⟨24, -149, 104⟩

/-- The format of C `double`. -/
def binary64 : Fmt := ⟨53, -1074, 971⟩

/-- A floating-point datum: NaN, a signed infinity, or the finite number
`(-1)^neg * m * 2^e` (which includes the two signed zeros). -/
inductive Flt where
  | nan
  | inf (neg : Bool)
  | fin (neg : Bool) (m : Nat) (e : Int)
deriving DecidableEq, Repr

/-- Number of halvings that bring `n` below 2, with `fuel` as recursion bound. -/
def lgAux : Nat → Nat → Nat
  | 0, _ => 0
  | fuel + 1, n => if n < 2 then 0 else lgAux fuel (n / 2) + 1

/-- Position of the leading bit of `n`: `2^(lg n) ≤ n < 2^(lg n + 1)` for `n ≥ 1`. -/
def lg (n : Nat) : Nat := lgAux n n

/-- The exponent `E` with `2^E ≤ num/den < 2^(E+1)`, for `num, den ≥ 1`. -/
def ilog2q (num den : Nat) : Int :=
  (lg num : Int) - (lg den : Int) - (if num * 2 ^ lg den < den * 2 ^ lg num then 1 else 0)

/-- Nearest integer to `n/d`, ties to even. -/
def rhe (n d : Nat) : Nat :=
  let q := n / d
  let r := n % d
  if 2 * r < d then q else if d < 2 * r then q + 1 else if q % 2 = 0 then q else q + 1

/-- The finite number `m * 2^e` of format `f`, where `m ≤ 2^prec`: a significand that
rounding carried up to `2^prec` moves to the next exponent, and an exponent above `emax` is
an overflow to infinity. -/
def Fmt.pack (f : Fmt) (neg : Bool) (m : Nat) (e : Int) : Flt :=
  let m1 := if m = 2 ^ f.prec then 2 ^ (f.prec - 1) else m
  let e1 := if m = 2 ^ f.prec then e + 1 else e
  if f.emax < e1 then Flt.inf neg else Flt.fin neg m1 e1

/-- Round the exact value `(-1)^neg * (num/den) * 2^ex` (with `den ≥ 1`) to format `f`. -/
def Fmt.round (f : Fmt) (neg : Bool) (num den : Nat) (ex : Int) : Flt :=
  if num = 0 then Flt.fin neg 0 f.emin
  else
    let e := max (ilog2q num den + ex - ((f.prec : Int) - 1)) f.emin
    let sh := ex - e
    let n1 := if 0 ≤ sh then num * 2 ^ sh.toNat else num
    let d1 := if 0 ≤ sh then den else den * 2 ^ (-sh).toNat
    f.pack neg (rhe n1 d1) e

/-- The signed integer `(-1)^neg * m`. -/
def sgn (neg : Bool) (m : Nat) : Int := if neg then -(m : Int) else (m : Int)

/-- Addition in format `f`. -/
def Fmt.add (f : Fmt) : Flt → Flt → Flt
  | Flt.nan, _ => Flt.nan
  | _, Flt.nan => Flt.nan
  | Flt.inf s, Flt.inf t => if s = t then Flt.inf s else Flt.nan
  | Flt.inf s, Flt.fin _ _ _ => Flt.inf s
  | Flt.fin _ _ _, Flt.inf t => Flt.inf t
  | Flt.fin s ma ea, Flt.fin t mb eb =>
    let e0 := min ea eb
    let sum := sgn s (ma * 2 ^ (ea - e0).toNat) + sgn t (mb * 2 ^ (eb - e0).toNat)
    if sum = 0 then Flt.fin (s && t) 0 f.emin
    else f.round (decide (sum < 0)) sum.natAbs 1 e0

/-- Unary minus. -/
def Flt.neg : Flt → Flt
  | Flt.nan => Flt.nan
  | Flt.inf s => Flt.inf (!s)
  | Flt.fin s m e => Flt.fin (!s) m e

/-- Subtraction in format `f`. -/
def Fmt.sub (f : Fmt) (a b : Flt) : Flt := f.add a b.neg

/-- Multiplication in format `f`. -/
def Fmt.mul (f : Fmt) : Flt → Flt → Flt
  | Flt.nan, _ => Flt.nan
  | _, Flt.nan => Flt.nan
  | Flt.inf s, Flt.inf t => Flt.inf (xor s t)
  | Flt.inf s, Flt.fin t m _ => if m = 0 then Flt.nan else Flt.inf (xor s t)
  | Flt.fin s m _, Flt.inf t => if m = 0 then Flt.nan else Flt.inf (xor s t)
  | Flt.fin s ma ea, Flt.fin t mb eb => f.round (xor s t) (ma * mb) 1 (ea + eb)

/-- Division in format `f`. -/
def Fmt.div (f : Fmt) : Flt → Flt → Flt
  | Flt.nan, _ => Flt.nan
  | _, Flt.nan => Flt.nan
  | Flt.inf _, Flt.inf _ => Flt.nan
  | Flt.inf s, Flt.fin t _ _ => Flt.inf (xor s t)
  | Flt.fin s _ _, Flt.inf t => Flt.fin (xor s t) 0 f.emin
  | Flt.fin s ma ea, Flt.fin t mb eb =>
    if mb = 0 then (if ma = 0 then Flt.nan else Flt.inf (xor s t))
    else f.round (xor s t) ma mb (ea - eb)

/-- Conversion of an integer to format `f`, as in the casts `(float)i`. -/
def Fmt.ofInt (f : Fmt) (i : Int) : Flt := f.round (decide (i < 0)) i.natAbs 1 0

/-- The decimal constant `num/den` read in format `f` (for instance `0.05f` is
`binary32.lit 5 100`). -/
def Fmt.lit (f : Fmt) (num den : Nat) : Flt := f.round false num den 0

/-- The comparison `a < b` of C: false as soon as one side is NaN, and the two zeros
compare equal. -/
def Flt.lt : Flt → Flt → Bool
  | Flt.nan, _ => false
  | _, Flt.nan => false
  | Flt.inf s, Flt.inf t => s && !t
  | Flt.inf s, Flt.fin _ _ _ => s
  | Flt.fin _ _ _, Flt.inf t => !t
  | Flt.fin s ma ea, Flt.fin t mb eb =>
    let e0 := min ea eb
    decide (sgn s (ma * 2 ^ (ea - e0).toNat) < sgn t (mb * 2 ^ (eb - e0).toNat))

/-- The comparison `a <= b` of C. -/
def Flt.le : Flt → Flt → Bool
  | Flt.nan, _ => false
  | _, Flt.nan => false
  | Flt.inf s, Flt.inf t => s || !t
  | Flt.inf s, Flt.fin _ _ _ => s
  | Flt.fin _ _ _, Flt.inf t => !t
  | Flt.fin s ma ea, Flt.fin t mb eb =>
    let e0 := min ea eb
    decide (sgn s (ma * 2 ^ (ea - e0).toNat) ≤ sgn t (mb * 2 ^ (eb - e0).toNat))

/-- The value of a float converted to a C integer by truncation toward zero; `none` for NaN
and the infinities (the range of the target type is checked by the caller). -/
def Flt.trunc : Flt → Option Int
  | Flt.nan => none
  | Flt.inf _ => none
  | Flt.fin s m e => some (sgn s (if 0 ≤ e then m * 2 ^ e.toNat else m / 2 ^ (-e).toNat))

/-- The cast `(int)x` of a float: the truncated value when it fits a 32-bit `int`, and
`none` where C leaves the conversion undefined. -/
def Flt.toInt32 (a : Flt) : Option Int :=
  match a.trunc with
  | some i => if -2147483648 ≤ i ∧ i ≤ 2147483647 then some i else none
  | none => none

/-- The exact rational value of a finite float; `0` for NaN and the infinities. -/
def Flt.toRat : Flt → ℚ
  | Flt.fin s m e => (if s then -1 else 1) * (m : ℚ) * (2 : ℚ) ^ e
  | _ => 0

/-! ## random.c: floats, booleans and choices -/

/-- Uniform float, `pfxr_random_float` (random.c lines 32-42): the value and the new state. -/
def pfxr_random_float (rng : pfxr_random_t) (min max : Flt) : Flt × pfxr_random_t :=
  let lo := if max.lt min then max else min
  let hi := if max.lt min then min else max
  let draw := pfxr_random_uint32 rng
  let normalized := binary32.div (binary32.ofInt draw.1) (binary32.ofInt 0xffffffff)
  (binary32.add lo (binary32.mul (binary32.sub hi lo) normalized), draw.2)

/-- Biased coin, `pfxr_random_bool` (random.c lines 44-46). -/
def pfxr_random_bool (rng : pfxr_random_t) (true_probability : Flt) : Bool × pfxr_random_t :=
  let draw := pfxr_random_float rng (binary32.lit 0 1) (binary32.lit 1 1)
  (draw.1.lt true_probability, draw.2)

/-- Discrete choice, `pfxr_random_choice` (random.c lines 48-53), on the array `choices` and
the element count passed with it.  The result is `none` where the C code has no defined
behaviour: the cast `(int)` of a float outside the range of `int`, or a read outside the
array. -/
def pfxr_random_choice (rng : pfxr_random_t) (choices : List Int) (count : Int) :
    Option (Int × pfxr_random_t) :=
  if count ≤ 0 then some (0, rng)
  else
    let draw := pfxr_random_float rng (binary32.lit 0 1) (binary32.ofInt count)
    match draw.1.toInt32 with
    | none => none
    | some index0 =>
      let index := if index0 ≥ count then count - 1 else index0
      if index < 0 then none
      else
        match choices.get? index.toNat with
        | none => none
        | some c => some (c, draw.2)

/-! ## templates.c -/

/-- The parameter record `pfxr_sound_t` (pfxr.h lines 40-78). -/
structure pfxr_sound_t where
  waveForm : Int
  volume : Flt
  attackTime : Flt
  sustainTime : Flt
  sustainPunch : Flt
  decayTime : Flt
  frequency : Flt
  pitchDelta : Flt
  pitchDuration : Flt
  pitchDelay : Flt
  vibratoRate : Flt
  vibratoDepth : Flt
  tremoloRate : Flt
  tremoloDepth : Flt
  highPassCutoff : Flt
  highPassResonance : Flt
  lowPassCutoff : Flt
  lowPassResonance : Flt
  phaserBaseFrequency : Flt
  phaserLfoFrequency : Flt
  phaserDepth : Flt
  noiseAmount : Flt
deriving DecidableEq, Repr

/-- The template enumeration `pfxr_template_t` (pfxr.h lines 25-37). -/
inductive pfxr_template_t where
  | DEFAULT | PICKUP | LASER | JUMP | FALL | POWERUP | EXPLOSION | BLIP | HIT | FART | RANDOM
deriving DecidableEq, Repr

/-- A `float` decimal constant of the source, e.g. `0.05f` is `flit 5 100`. -/
def flit (num den : Nat) : Flt := binary32.lit num den

/-- The default parameter set, `pfxr_get_default_sound` (templates.c lines 6-48). -/
def pfxr_get_default_sound : pfxr_sound_t :=
  { waveForm := 0
    volume := flit 5 10
    attackTime := flit 0 1
    sustainTime := flit 7 100
    sustainPunch := flit 0 1
    decayTime := flit 3 10
    frequency := flit 700 1
    pitchDelta := flit 0 1
    pitchDuration := flit 1 1
    pitchDelay := flit 0 1
    vibratoRate := flit 0 1
    vibratoDepth := flit 0 1
    tremoloRate := flit 0 1
    tremoloDepth := flit 0 1
    highPassCutoff := flit 0 1
    highPassResonance := flit 0 1
    lowPassCutoff := flit 4000 1
    lowPassResonance := flit 0 1
    phaserBaseFrequency := flit 100 1
    phaserLfoFrequency := flit 50 1
    phaserDepth := flit 0 1
    noiseAmount := flit 0 1 }

/-- The body of `case PFXR_TEMPLATE_PICKUP` (templates.c lines 63-77). -/
def template_pickup (sound : pfxr_sound_t) (rng : pfxr_random_t) : Option pfxr_sound_t :=
  (pfxr_random_choice rng [0, 1, 2, 3] 4).map fun c =>
    let punch := pfxr_random_float c.2 (flit 0 1) (flit 8 10)
    let sustain := pfxr_random_float punch.2 (flit 5 100) (flit 2 10)
    let decay := pfxr_random_float sustain.2 (flit 1 10) (flit 3 10)
    let freq := pfxr_random_float decay.2 (flit 900 1) (flit 1700 1)
    let sound1 := { sound with
      waveForm := c.1, sustainPunch := punch.1, sustainTime := sustain.1,
      decayTime := decay.1, frequency := freq.1 }
    let coin := pfxr_random_bool freq.2 (flit 5 10)
    if coin.1 then
      let delta := pfxr_random_float coin.2 (flit 100 1) (flit 500 1)
      let delay := pfxr_random_float delta.2 (flit 0 1) (flit 7 10)
      { sound1 with pitchDelta := delta.1, pitchDuration := flit 0 1, pitchDelay := delay.1 }
    else sound1

/-- The body of `case PFXR_TEMPLATE_LASER` (templates.c lines 79-92).  The initialiser of
`delay_choices` draws its float before the index expression draws the boolean. -/
def template_laser (sound : pfxr_sound_t) (rng : pfxr_random_t) : Option pfxr_sound_t :=
  (pfxr_random_choice rng [0, 1, 2, 3] 4).map fun c =>
    let punch := pfxr_random_float c.2 (flit 0 1) (flit 8 10)
    let sustain := pfxr_random_float punch.2 (flit 5 100) (flit 1 10)
    let decay := pfxr_random_float sustain.2 (flit 0 1) (flit 2 10)
    let freq := pfxr_random_float decay.2 (flit 100 1) (flit 1300 1)
    let delta := pfxr_random_float freq.2 freq.1.neg (flit 100 1).neg
    let delay := pfxr_random_float delta.2 (flit 0 1) (flit 3 10)
    let coin := pfxr_random_bool delay.2 (flit 5 10)
    { sound with
      waveForm := c.1, sustainPunch := punch.1, sustainTime := sustain.1,
      decayTime := decay.1, frequency := freq.1, pitchDelta := delta.1,
      pitchDuration := flit 1 1,
      pitchDelay := if coin.1 then delay.1 else flit 0 1 }

/-- The body of `case PFXR_TEMPLATE_JUMP` (templates.c lines 94-107). -/
def template_jump (sound : pfxr_sound_t) (rng : pfxr_random_t) : Option pfxr_sound_t :=
  (pfxr_random_choice rng [1, 2] 2).map fun c =>
    let punch := pfxr_random_float c.2 (flit 0 1) (flit 8 10)
    let sustain := pfxr_random_float punch.2 (flit 2 10) (flit 5 10)
    let decay := pfxr_random_float sustain.2 (flit 1 10) (flit 2 10)
    let freq := pfxr_random_float decay.2 (flit 100 1) (flit 500 1)
    let delta := pfxr_random_float freq.2 (flit 200 1) (flit 500 1)
    let delay := pfxr_random_float delta.2 (flit 0 1) (flit 3 10)
    let coin := pfxr_random_bool delay.2 (flit 5 10)
    { sound with
      waveForm := c.1, sustainPunch := punch.1, sustainTime := sustain.1,
      decayTime := decay.1, frequency := freq.1, pitchDelta := delta.1,
      pitchDuration := flit 1 1,
      pitchDelay := if coin.1 then delay.1 else flit 0 1 }

/-- The body of `case PFXR_TEMPLATE_FALL` (templates.c lines 109-124). -/
def template_fall (sound : pfxr_sound_t) (rng : pfxr_random_t) : Option pfxr_sound_t :=
  (pfxr_random_choice rng [1, 2, 3] 3).map fun c =>
    let sustain := pfxr_random_float c.2 (flit 2 10) (flit 5 10)
    let decay := pfxr_random_float sustain.2 (flit 2 10) (flit 5 10)
    let freq := pfxr_random_float decay.2 (flit 80 1) (flit 500 1)
    let delay := pfxr_random_float freq.2 (flit 0 1) (flit 2 10)
    let vrate := pfxr_random_float delay.2 (flit 8 1) (flit 18 1)
    let vdepth := pfxr_random_float vrate.2 (flit 10 1) (flit 30 1)
    let trate := pfxr_random_float vdepth.2 (flit 5 1) (flit 18 1)
    let tdepth := pfxr_random_float trate.2 (flit 0 1) (flit 1 1)
    { sound with
      waveForm := c.1, sustainPunch := flit 0 1, sustainTime := sustain.1,
      decayTime := decay.1, frequency := freq.1, pitchDelta := freq.1.neg,
      pitchDuration := flit 1 1, pitchDelay := delay.1, vibratoRate := vrate.1,
      vibratoDepth := vdepth.1, tremoloRate := trate.1, tremoloDepth := tdepth.1 }

/-- The body of `case PFXR_TEMPLATE_POWERUP` (templates.c lines 126-141). -/
def template_powerup (sound : pfxr_sound_t) (rng : pfxr_random_t) : Option pfxr_sound_t :=
  (pfxr_random_choice rng [0, 1, 2, 3] 4).map fun c =>
    let punch := pfxr_random_float c.2 (flit 0 1) (flit 1 1)
    let sustain := pfxr_random_float punch.2 (flit 2 10) (flit 5 10)
    let decay := pfxr_random_float sustain.2 (flit 1 10) (flit 5 10)
    let freq := pfxr_random_float decay.2 (flit 200 1) (flit 1000 1)
    let delta := pfxr_random_float freq.2 (flit 100 1) (flit 300 1)
    let delay := pfxr_random_float delta.2 (flit 0 1) (flit 3 10)
    let coin := pfxr_random_bool delay.2 (flit 5 10)
    let vrate := pfxr_random_float coin.2 (flit 10 1) (flit 18 1)
    let vdepth := pfxr_random_float vrate.2 (flit 50 1) (flit 100 1)
    { sound with
      waveForm := c.1, sustainPunch := punch.1, sustainTime := sustain.1,
      decayTime := decay.1, frequency := freq.1, pitchDelta := delta.1,
      pitchDuration := flit 1 1,
      pitchDelay := if coin.1 then delay.1 else flit 0 1,
      vibratoRate := vrate.1, vibratoDepth := vdepth.1 }

/-- The body of `case PFXR_TEMPLATE_EXPLOSION` (templates.c lines 143-161). -/
def template_explosion (sound : pfxr_sound_t) (rng : pfxr_random_t) : Option pfxr_sound_t :=
  (pfxr_random_choice rng [0, 1, 2, 3] 4).map fun c =>
    let punch := pfxr_random_float c.2 (flit 0 1) (flit 3 10)
    let sustain := pfxr_random_float punch.2 (flit 4 10) (flit 13 10)
    let decay := pfxr_random_float sustain.2 (flit 1 10) (flit 5 10)
    let freq := pfxr_random_float decay.2 (flit 0 1) (flit 200 1)
    let delay := pfxr_random_float freq.2 (flit 0 1) (flit 3 10)
    let vrate := pfxr_random_float delay.2 (flit 0 1) (flit 70 1)
    let vdepth := pfxr_random_float vrate.2 (flit 0 1) (flit 100 1)
    let trate := pfxr_random_float vdepth.2 (flit 0 1) (flit 70 1)
    let tdepth := pfxr_random_float trate.2 (flit 0 1) (flit 1 1)
    let pdepth := pfxr_random_float tdepth.2 (flit 300 1) (flit 1000 1)
    let noise := pfxr_random_float pdepth.2 (flit 300 1) (flit 500 1)
    { sound with
      waveForm := c.1, volume := flit 3 10, sustainPunch := punch.1,
      sustainTime := sustain.1, decayTime := decay.1, frequency := freq.1,
      pitchDelta := freq.1.neg, pitchDuration := flit 1 1, pitchDelay := delay.1,
      vibratoRate := vrate.1, vibratoDepth := vdepth.1, tremoloRate := trate.1,
      tremoloDepth := tdepth.1, phaserDepth := pdepth.1, noiseAmount := noise.1 }

/-- The body of `case PFXR_TEMPLATE_BLIP` (templates.c lines 163-170). -/
def template_blip (sound : pfxr_sound_t) (rng : pfxr_random_t) : Option pfxr_sound_t :=
  (pfxr_random_choice rng [0, 1, 2, 3] 4).map fun c =>
    let sustain := pfxr_random_float c.2 (flit 2 100) (flit 1 10)
    let decay := pfxr_random_float sustain.2 (flit 0 1) (flit 4 100)
    let freq := pfxr_random_float decay.2 (flit 600 1) (flit 3000 1)
    { sound with
      waveForm := c.1, sustainTime := sustain.1, decayTime := decay.1, frequency := freq.1 }

/-- The body of `case PFXR_TEMPLATE_HIT` (templates.c lines 172-182). -/
def template_hit (sound : pfxr_sound_t) (rng : pfxr_random_t) : Option pfxr_sound_t :=
  (pfxr_random_choice rng [0, 1, 2, 3] 4).map fun c =>
    let sustain := pfxr_random_float c.2 (flit 1 100) (flit 3 100)
    let punch := pfxr_random_float sustain.2 (flit 0 1) (flit 5 10)
    let decay := pfxr_random_float punch.2 (flit 0 1) (flit 2 10)
    let freq := pfxr_random_float decay.2 (flit 20 1) (flit 500 1)
    let delta := pfxr_random_float freq.2 freq.1.neg (binary32.mul freq.1.neg (flit 2 10))
    let noise := pfxr_random_float delta.2 (flit 0 1) (flit 100 1)
    { sound with
      waveForm := c.1, sustainTime := sustain.1, sustainPunch := punch.1,
      decayTime := decay.1, frequency := freq.1, pitchDelta := delta.1,
      noiseAmount := noise.1 }

/-- The body of `case PFXR_TEMPLATE_FART` (templates.c lines 184-202). -/
def template_fart (sound : pfxr_sound_t) (rng : pfxr_random_t) : Option pfxr_sound_t :=
  let punch := pfxr_random_float rng (flit 0 1) (flit 2 10)
  let sustain := pfxr_random_float punch.2 (flit 1 10) (flit 5 10)
  let decay := pfxr_random_float sustain.2 (flit 3 10) (flit 5 10)
  let freq := pfxr_random_float decay.2 (flit 30 1) (flit 150 1)
  let vrate := pfxr_random_float freq.2 (flit 8 1) (flit 18 1)
  let vdepth := pfxr_random_float vrate.2 (flit 10 1) (flit 30 1)
  let trate := pfxr_random_float vdepth.2 (flit 35 1) (flit 70 1)
  let tdepth := pfxr_random_float trate.2 (flit 6 10) (flit 1 1)
  let noise := pfxr_random_float tdepth.2 (flit 0 1) (flit 30 1)
  some { sound with
    waveForm := 1, volume := flit 7 10, sustainPunch := punch.1, sustainTime := sustain.1,
    decayTime := decay.1, frequency := freq.1,
    pitchDelta := binary32.div freq.1.neg (flit 2 1), pitchDuration := flit 1 1,
    pitchDelay := flit 1 10, vibratoRate := vrate.1, vibratoDepth := vdepth.1,
    tremoloRate := trate.1, tremoloDepth := tdepth.1,
    lowPassCutoff := binary32.mul freq.1 (flit 10 1), lowPassResonance := flit 10 1,
    noiseAmount := noise.1 }

/-- The body of `case PFXR_TEMPLATE_RANDOM` (templates.c lines 204-230). -/
def template_random (rng : pfxr_random_t) : Option pfxr_sound_t :=
  (pfxr_random_choice rng [0, 1, 2, 3] 4).map fun c =>
    let volume := pfxr_random_float c.2 (flit 0 1) (flit 1 1)
    let attack := pfxr_random_float volume.2 (flit 0 1) (flit 2 1)
    let sustain := pfxr_random_float attack.2 (flit 0 1) (flit 2 1)
    let punch := pfxr_random_float sustain.2 (flit 0 1) (flit 1 1)
    let decay := pfxr_random_float punch.2 (flit 0 1) (flit 2 1)
    let freq := pfxr_random_float decay.2 (flit 0 1) (flit 4000 1)
    let delta := pfxr_random_float freq.2 (flit 4000 1).neg (flit 4000 1)
    let duration := pfxr_random_float delta.2 (flit 0 1) (flit 1 1)
    let delay := pfxr_random_float duration.2 (flit 0 1) (flit 1 1)
    let vrate := pfxr_random_float delay.2 (flit 0 1) (flit 70 1)
    let vdepth := pfxr_random_float vrate.2 (flit 0 1) (flit 100 1)
    let trate := pfxr_random_float vdepth.2 (flit 0 1) (flit 70 1)
    let tdepth := pfxr_random_float trate.2 (flit 0 1) (flit 1 1)
    let hpc := pfxr_random_float tdepth.2 (flit 0 1) (flit 4000 1)
    let hpr := pfxr_random_float hpc.2 (flit 0 1) (flit 30 1)
    let lpc := pfxr_random_float hpr.2 (flit 0 1) (flit 4000 1)
    let lpr := pfxr_random_float lpc.2 (flit 0 1) (flit 30 1)
    let pbase := pfxr_random_float lpr.2 (flit 0 1) (flit 1000 1)
    let plfo := pfxr_random_float pbase.2 (flit 0 1) (flit 200 1)
    let pdepth := pfxr_random_float plfo.2 (flit 0 1) (flit 1000 1)
    let noise := pfxr_random_float pdepth.2 (flit 0 1) (flit 500 1)
    { waveForm := c.1, volume := volume.1, attackTime := attack.1, sustainTime := sustain.1,
      sustainPunch := punch.1, decayTime := decay.1, frequency := freq.1,
      pitchDelta := delta.1, pitchDuration := duration.1, pitchDelay := delay.1,
      vibratoRate := vrate.1, vibratoDepth := vdepth.1, tremoloRate := trate.1,
      tremoloDepth := tdepth.1, highPassCutoff := hpc.1, highPassResonance := hpr.1,
      lowPassCutoff := lpc.1, lowPassResonance := lpr.1, phaserBaseFrequency := pbase.1,
      phaserLfoFrequency := plfo.1, phaserDepth := pdepth.1, noiseAmount := noise.1 }

/-- The switch of `pfxr_apply_template` on a default sound and a seeded generator
(templates.c lines 58-231). -/
def template_switch (template : pfxr_template_t) (sound : pfxr_sound_t)
    (rng : pfxr_random_t) : Option pfxr_sound_t :=
  match template with
  | pfxr_template_t.DEFAULT => some sound
  | pfxr_template_t.PICKUP => template_pickup sound rng
  | pfxr_template_t.LASER => template_laser sound rng
  | pfxr_template_t.JUMP => template_jump sound rng
  | pfxr_template_t.FALL => template_fall sound rng
  | pfxr_template_t.POWERUP => template_powerup sound rng
  | pfxr_template_t.EXPLOSION => template_explosion sound rng
  | pfxr_template_t.BLIP => template_blip sound rng
  | pfxr_template_t.HIT => template_hit sound rng
  | pfxr_template_t.FART => template_fart sound rng
  | pfxr_template_t.RANDOM => template_random rng

/-- Template application, `pfxr_apply_template` (templates.c lines 53-234); `now` is the
clock reading that `pfxr_random_init` takes when the seed is 0, and the result is `none`
where a draw has no defined behaviour. -/
def pfxr_apply_template (now : Int) (template : pfxr_template_t) (seed : Int) :
    Option pfxr_sound_t :=
  template_switch template pfxr_get_default_sound (pfxr_random_init now (toU32 seed))

/-! ## Rounding: specification-level definitions -/

/-- Nearest integer to a rational, ties to even. -/
def rn (x : ℚ) : ℤ :=
  if 2 * (x - ⌊x⌋) < 1 then ⌊x⌋
  else if 1 < 2 * (x - ⌊x⌋) then ⌊x⌋ + 1
  else if ⌊x⌋ % 2 = 0 then ⌊x⌋ else ⌊x⌋ + 1

/-- The rounding data of a positive rational `x` in format `f`: the exponent `e` of the unit
in the last place and the significand `m`, the nearest integer to `x / 2^e`. -/
def RD (f : Fmt) (x : ℚ) (m : Nat) (e : Int) : Prop :=
  ∃ E : Int, (2 : ℚ) ^ E ≤ x ∧ x < (2 : ℚ) ^ (E + 1) ∧
    e = max (E - ((f.prec : Int) - 1)) f.emin ∧ (m : Int) = rn (x / (2 : ℚ) ^ e)

/-- Well-formed formats: at least one bit of precision and a non-empty exponent range. -/
def Fmt.ok (f : Fmt) : Prop := 1 ≤ f.prec ∧ f.emin ≤ f.emax

instance (f : Fmt) : Decidable f.ok := by unfold Fmt.ok; infer_instance

/-- The pair `(m, e)` is the significand and exponent of a finite number of format `f` in
normal form. -/
def Fmt.canon (f : Fmt) (m : Nat) (e : Int) : Prop :=
  m < 2 ^ f.prec ∧ f.emin ≤ e ∧ e ≤ f.emax ∧ (2 ^ (f.prec - 1) ≤ m ∨ e = f.emin)

instance (f : Fmt) (m : Nat) (e : Int) : Decidable (f.canon m e) := by
  unfold Fmt.canon; infer_instance

/-- The sign factor of a sign bit. -/
def sq (neg : Bool) : ℚ := if neg then -1 else 1

/-- The overflow threshold `2^(prec + emax)` of a format. -/
def Fmt.omega (f : Fmt) : ℚ := (2 : ℚ) ^ ((f.prec : Int) + f.emax)

/-- The extended value of a datum of format `f`: infinities sit at the overflow threshold. -/
def Fmt.ev (f : Fmt) : Flt → ℚ
  | Flt.nan => 0
  | Flt.inf s => sq s * f.omega
  | Flt.fin s m e => sq s * ((m : ℚ) * (2 : ℚ) ^ e)

/-- A finite number of format `f` in normal form. -/
def Flt.IsFin (f : Fmt) : Flt → Prop
  | Flt.fin _ m e => f.canon m e
  | _ => False

/-- A datum of format `f` other than NaN. -/
def Flt.Reg (f : Fmt) : Flt → Prop
  | Flt.nan => False
  | Flt.inf _ => True
  | Flt.fin _ m e => f.canon m e

/-- The datum `r` is the rounding to format `f` of the exact value `q`. -/
def Rounded (f : Fmt) (q : ℚ) (r : Flt) : Prop :=
  ∃ (neg : Bool) (num den : Nat) (ex : Int), 0 < den ∧ r = f.round neg num den ex ∧
    sq neg * ((num : ℚ) / den * (2 : ℚ) ^ ex) = q

instance (f : Fmt) (a : Flt) : Decidable (a.IsFin f) := by
  cases a <;> unfold Flt.IsFin <;> infer_instance

/-- The smaller bound as `pfxr_random_float` selects it: `max` when `max < min`. -/
def fmin (a b : Flt) : Flt := if b.lt a then b else a

/-- The larger bound as `pfxr_random_float` selects it: `min` when `max < min`. -/
def fmax (a b : Flt) : Flt := if b.lt a then a else b

/-- The Parameter Model invariant of the specification: the four time fields are
non-negative (`0 <= x` as C compares floats) and `waveForm` is one of the four enum
values. -/
def param_invariant (s : pfxr_sound_t) : Prop :=
  (flit 0 1).le s.attackTime = true ∧ (flit 0 1).le s.sustainTime = true ∧
    (flit 0 1).le s.decayTime = true ∧ (flit 0 1).le s.pitchDelay = true ∧
    (s.waveForm = 0 ∨ s.waveForm = 1 ∨ s.waveForm = 2 ∨ s.waveForm = 3)

/-- The generator state after seeding from `seed` (with the clock at `now`) and `k` further
generator steps. -/
def seeded_state (now : Int) (seed : Int) (k : Nat) : pfxr_random_t :=
  warm_up k (pfxr_random_init now (toU32 seed))

/-! ## audio.c

The functions `sinf` and `cosf` of the C library are parameters of the model; `floorf` and
`fabsf` are exact operations.  An expression in which a `double` (the constant `M_PI`) takes
part is evaluated in binary64 and rounded to binary32 where the C code stores it in a
`float` or passes it to a `float` parameter. -/

/-- The C library functions the synthesis calls. -/
structure libm_t where
  sinf : Flt → Flt
  cosf : Flt → Flt

/-- Conversion to format `f`, as when a `double` is stored in a `float`. -/
def Fmt.cvt (f : Fmt) : Flt → Flt
  | Flt.nan => Flt.nan
  | Flt.inf s => Flt.inf s
  | Flt.fin s m e => f.round s m 1 e

/-- The constant `M_PI` of `<math.h>`, `3.14159265358979323846` read as a `double`. -/
def M_PI : Flt := binary64.lit 314159265358979323846 100000000000000000000

/-- The function `fabsf`. -/
def fabsf : Flt → Flt
  | Flt.nan => Flt.nan
  | Flt.inf _ => Flt.inf false
  | Flt.fin _ m e => Flt.fin false m e

/-- The function `floorf`: the largest integral value not above the argument. -/
def floorf : Flt → Flt
  | Flt.nan => Flt.nan
  | Flt.inf s => Flt.inf s
  | Flt.fin s m e =>
    if 0 ≤ e then Flt.fin s m e
    else
      let q := m / 2 ^ (-e).toNat
      let r := m % 2 ^ (-e).toNat
      if s then binary32.round true (if r = 0 then q else q + 1) 1 0
      else binary32.round false q 1 0

/-- The comparison `a > b` of C. -/
def Flt.gt (a b : Flt) : Bool := b.lt a

/-- The comparison `a >= b` of C. -/
def Flt.ge (a b : Flt) : Bool := b.le a

/-- The comparison `a != b` of C: true as soon as one side is NaN. -/
def Flt.ne (a b : Flt) : Bool := !(a.le b && b.le a)

/-- The cast `(uint32_t)x` of a float: `none` where C leaves it undefined. -/
def Flt.toUInt32 (a : Flt) : Option Nat :=
  match a.trunc with
  | some i => if 0 ≤ i ∧ i ≤ 4294967295 then some i.toNat else none
  | none => none

/-- The cast `(int16_t)x` of a float: `none` where C leaves it undefined. -/
def Flt.toInt16 (a : Flt) : Option Int :=
  match a.trunc with
  | some i => if -32768 ≤ i ∧ i ≤ 32767 then some i else none
  | none => none

/-- `PFXR_SAMPLE_RATE` (pfxr.h line 12). -/
def PFXR_SAMPLE_RATE : Int := 44100

/-- `PFXR_MAX_SAMPLES`, `(int)(PFXR_SAMPLE_RATE * PFXR_MAX_DURATION)` (pfxr.h lines 13-14). -/
def PFXR_MAX_SAMPLES : Option Int :=
  (binary32.mul (binary32.ofInt PFXR_SAMPLE_RATE) (flit 4 1)).toInt32

/-- The audio buffer `pfxr_audio_buffer_t` (pfxr.h lines 98-102): the memory behind
`samples`, read at indices `0 .. capacity - 1`, the logical length and the capacity. -/
structure pfxr_audio_buffer_t where
  samples : Nat → Flt
  sample_count : Int
  capacity : Int

/-- A fresh buffer, `pfxr_create_audio_buffer` (audio.c lines 7-22), the allocations
succeeding: `capacity` samples set to zero by `memset`. -/
def pfxr_create_audio_buffer (capacity : Int) : pfxr_audio_buffer_t :=
  { samples := fun _ => Flt.fin false 0 (-149), sample_count := 0, capacity := capacity }

/-- The function `clamp` (audio.c lines 35-39). -/
def clamp (value min max : Flt) : Flt :=
  if value.lt min then min else if value.gt max then max else value

/-- The function `generate_sine` (audio.c lines 42-44). -/
def generate_sine (L : libm_t) (phase : Flt) : Flt :=
  L.sinf (binary32.cvt (binary64.mul (binary32.mul phase (flit 2 1)) M_PI))

/-- The function `generate_sawtooth` (audio.c lines 47-49). -/
def generate_sawtooth (phase : Flt) : Flt :=
  binary32.mul (flit 2 1) (binary32.sub phase (floorf (binary32.add phase (flit 5 10))))

/-- The function `generate_square` (audio.c lines 52-54). -/
def generate_square (phase : Flt) : Flt :=
  if (binary32.sub phase (floorf phase)).lt (flit 5 10) then (flit 1 1).neg else flit 1 1

/-- The function `generate_triangle` (audio.c lines 57-60). -/
def generate_triangle (phase : Flt) : Flt :=
  let t := binary32.sub phase (floorf phase)
  if t.lt (flit 5 10) then binary32.sub (binary32.mul (flit 4 1) t) (flit 1 1)
  else binary32.sub (flit 3 1) (binary32.mul (flit 4 1) t)

/-- The function `generate_waveform` (audio.c lines 63-76) on the integer `waveForm`. -/
def generate_waveform (L : libm_t) (wave_type : Int) (phase : Flt) : Flt :=
  if wave_type = 0 then generate_sine L phase
  else if wave_type = 1 then generate_sawtooth phase
  else if wave_type = 2 then generate_square phase
  else if wave_type = 3 then generate_triangle phase
  else generate_sine L phase

/-- The filter record `biquad_filter_t` (audio.c lines 79-82). -/
structure biquad_filter_t where
  a0 : Flt
  a1 : Flt
  a2 : Flt
  b1 : Flt
  b2 : Flt
  x1 : Flt
  x2 : Flt
  y1 : Flt
  y2 : Flt
deriving DecidableEq, Repr

/-- The initialiser `{0}` of a filter record. -/
def biquad_zero : biquad_filter_t :=
  { a0 := flit 0 1, a1 := flit 0 1, a2 := flit 0 1, b1 := flit 0 1, b2 := flit 0 1,
    x1 := flit 0 1, x2 := flit 0 1, y1 := flit 0 1, y2 := flit 0 1 }

/-- The angular frequency `w = 2.0f * M_PI * freq / sample_rate`, stored in a `float`. -/
def biquad_w (freq sample_rate : Flt) : Flt :=
  binary32.cvt (binary64.div (binary64.mul (binary64.mul (flit 2 1) M_PI) freq) sample_rate)

/-- The function `biquad_lowpass_coeffs` (audio.c lines 84-102). -/
def biquad_lowpass_coeffs (L : libm_t) (filter : biquad_filter_t) (freq q sample_rate : Flt) :
    biquad_filter_t :=
  let w := biquad_w freq sample_rate
  let cos_w := L.cosf w
  let sin_w := L.sinf w
  let alpha := binary32.div sin_w (binary32.mul (flit 2 1) q)
  let b0 := binary32.div (binary32.sub (flit 1 1) cos_w) (flit 2 1)
  let b1 := binary32.sub (flit 1 1) cos_w
  let b2 := binary32.div (binary32.sub (flit 1 1) cos_w) (flit 2 1)
  let a0 := binary32.add (flit 1 1) alpha
  let a1 := binary32.mul (flit 2 1).neg cos_w
  let a2 := binary32.sub (flit 1 1) alpha
  { filter with
    a0 := binary32.div b0 a0, a1 := binary32.div b1 a0, a2 := binary32.div b2 a0,
    b1 := binary32.div a1 a0, b2 := binary32.div a2 a0 }

/-- The function `biquad_highpass_coeffs` (audio.c lines 104-122). -/
def biquad_highpass_coeffs (L : libm_t) (filter : biquad_filter_t) (freq q sample_rate : Flt) :
    biquad_filter_t :=
  let w := biquad_w freq sample_rate
  let cos_w := L.cosf w
  let sin_w := L.sinf w
  let alpha := binary32.div sin_w (binary32.mul (flit 2 1) q)
  let b0 := binary32.div (binary32.add (flit 1 1) cos_w) (flit 2 1)
  let b1 := (binary32.add (flit 1 1) cos_w).neg
  let b2 := binary32.div (binary32.add (flit 1 1) cos_w) (flit 2 1)
  let a0 := binary32.add (flit 1 1) alpha
  let a1 := binary32.mul (flit 2 1).neg cos_w
  let a2 := binary32.sub (flit 1 1) alpha
  { filter with
    a0 := binary32.div b0 a0, a1 := binary32.div b1 a0, a2 := binary32.div b2 a0,
    b1 := binary32.div a1 a0, b2 := binary32.div a2 a0 }

/-- The function `biquad_process` (audio.c lines 124-134): the output and the updated
filter. -/
def biquad_process (filter : biquad_filter_t) (input : Flt) : Flt × biquad_filter_t :=
  let output :=
    binary32.sub
      (binary32.sub
        (binary32.add
          (binary32.add (binary32.mul filter.a0 input) (binary32.mul filter.a1 filter.x1))
          (binary32.mul filter.a2 filter.x2))
        (binary32.mul filter.b1 filter.y1))
      (binary32.mul filter.b2 filter.y2)
  (output, { filter with x2 := filter.x1, x1 := input, y2 := filter.y1, y1 := output })

/-- One step of the noise stream: `(seed * 1103515245 + 12345) & 0x7fffffff` in unsigned
32-bit arithmetic (audio.c lines 143 and 146). -/
def noise_next (noise_seed : Nat) : Nat :=
  ((noise_seed * 1103515245 + 12345) % 4294967296) &&& 0x7fffffff

/-- The function `generate_noise_distortion` (audio.c lines 139-155): the output sample and
the updated noise seed. -/
def generate_noise_distortion (input noise_amount : Flt) (noise_seed : Nat) : Flt × Nat :=
  if noise_amount.le (flit 0 1) then (input, noise_seed)
  else
    let seed1 := noise_next noise_seed
    let rand1 := binary32.div (binary32.ofInt seed1) (binary32.ofInt 0x7fffffff)
    let seed2 := noise_next seed1
    let rand2 := binary32.div (binary32.ofInt seed2) (binary32.ofInt 0x7fffffff)
    let deg := binary32.cvt (binary64.div M_PI (flit 180 1))
    let noise_factor := binary32.add (flit 3 1) (binary32.mul rand1 noise_amount)
    let distortion :=
      binary32.cvt
        (binary64.div
          (binary32.mul (binary32.mul (binary32.mul noise_factor input) (flit 20 1)) deg)
          (binary64.add M_PI (binary32.mul (binary32.mul rand2 noise_amount) (fabsf input))))
    (clamp distortion (flit 1 1).neg (flit 1 1), seed2)

/-- The variables that the sample loop of `pfxr_generate_sound` carries from one iteration
to the next, with the memory of the buffer. -/
structure synth_t where
  phase : Flt
  vibrato_phase : Flt
  tremolo_phase : Flt
  phaser_phase : Flt
  noise_seed : Nat
  lowpass_filter : biquad_filter_t
  highpass_filter : biquad_filter_t
  samples : Nat → Flt

/-- The phase increment `(rate * 2.0f * M_PI) / sample_rate` added to a `float` phase
(audio.c lines 224, 248 and 267). -/
def advance_phase (phase rate sample_rate : Flt) : Flt :=
  binary32.cvt
    (binary64.add phase
      (binary64.div (binary64.mul (binary32.mul rate (flit 2 1)) M_PI) sample_rate))

/-- The envelope of sample time `t` (audio.c lines 197-210). -/
def envelope_at (config : pfxr_sound_t) (t : Flt) : Flt :=
  let envelope :=
    if t.lt config.attackTime then
      binary32.mul (binary32.sub (flit 1 1) config.sustainPunch)
        (binary32.div t config.attackTime)
    else if t.lt (binary32.add config.attackTime config.sustainTime) then flit 1 1
    else
      let decay_t :=
        binary32.div (binary32.sub (binary32.sub t config.attackTime) config.sustainTime)
          config.decayTime
      binary32.mul (binary32.sub (flit 1 1) config.sustainPunch)
        (binary32.sub (flit 1 1) decay_t)
  if envelope.lt (flit 0 1) then flit 0 1 else envelope

/-- The frequency after the pitch sweep at sample time `t` (audio.c lines 213-218). -/
def swept_frequency (config : pfxr_sound_t) (duration t : Flt) : Flt :=
  if config.pitchDelta.ne (flit 0 1) && t.ge config.pitchDelay then
    let pitch_t0 :=
      binary32.div (binary32.sub t config.pitchDelay) (binary32.sub duration config.pitchDelay)
    let pitch_t := if pitch_t0.gt config.pitchDuration then config.pitchDuration else pitch_t0
    binary32.add config.frequency (binary32.mul config.pitchDelta pitch_t)
  else config.frequency

/-- The body of the sample loop for index `i` (audio.c lines 193-274); `none` where the C
code has no defined behaviour (a cast of a float outside the range of `int`, an overflow of
`int`, or an access outside the `capacity` samples of the buffer). -/
def sample_step (L : libm_t) (config : pfxr_sound_t) (capacity : Int) (sample_rate duration : Flt)
    (i : Int) (st : synth_t) : Option synth_t :=
  let t := binary32.div (binary32.ofInt i) sample_rate
  let envelope := envelope_at config t
  let freq0 := swept_frequency config duration t
  -- vibrato
  let vib := config.vibratoRate.gt (flit 0 1) && config.vibratoDepth.gt (flit 0 1)
  let current_freq :=
    if vib then binary32.add freq0 (binary32.mul (L.sinf st.vibrato_phase) config.vibratoDepth)
    else freq0
  let vibrato_phase :=
    if vib then advance_phase st.vibrato_phase config.vibratoRate sample_rate
    else st.vibrato_phase
  -- base waveform
  let osc := current_freq.gt (flit 0 1)
  let sample0 := if osc then generate_waveform L config.waveForm st.phase else flit 0 1
  let phase1 := if osc then binary32.add st.phase (binary32.div current_freq sample_rate)
    else st.phase
  let phase := if osc && phase1.ge (flit 1 1) then binary32.sub phase1 (flit 1 1) else phase1
  -- noise distortion
  let noisy :=
    if config.noiseAmount.gt (flit 0 1) then
      generate_noise_distortion sample0 (binary32.div config.noiseAmount (flit 100 1))
        st.noise_seed
    else (sample0, st.noise_seed)
  -- phaser
  let phased : Option Flt :=
    if config.phaserDepth.gt (flit 0 1) then
      let phaser_freq :=
        binary32.add config.phaserBaseFrequency
          (binary32.mul (L.sinf st.phaser_phase) config.phaserDepth)
      let delay_samples := binary32.div sample_rate (binary32.add phaser_freq (flit 1 1))
      match delay_samples.toInt32 with
      | none => none
      | some d =>
        if i ≥ d then
          let j := i - d
          if j < 0 ∨ capacity ≤ j ∨ 2147483647 < j then none
          else some (binary32.add noisy.1 (binary32.mul (st.samples j.toNat) (flit 5 10)))
        else some noisy.1
    else some noisy.1
  let phaser_phase :=
    if config.phaserDepth.gt (flit 0 1) then
      advance_phase st.phaser_phase config.phaserLfoFrequency sample_rate
    else st.phaser_phase
  match phased with
  | none => none
  | some sample1 =>
    -- filters
    let lp :=
      if config.lowPassCutoff.gt (flit 0 1) && config.lowPassCutoff.lt (flit 4000 1) then
        biquad_process st.lowpass_filter sample1
      else (sample1, st.lowpass_filter)
    let hp :=
      if config.highPassCutoff.gt (flit 0 1) then biquad_process st.highpass_filter lp.1
      else (lp.1, st.highpass_filter)
    -- envelope, tremolo, volume
    let sample2 := binary32.mul hp.1 envelope
    let trem := config.tremoloRate.gt (flit 0 1) && config.tremoloDepth.gt (flit 0 1)
    let sample3 :=
      if trem then
        binary32.mul sample2
          (binary32.sub (flit 1 1)
            (binary32.mul
              (binary32.mul config.tremoloDepth
                (binary32.add (flit 1 1) (L.sinf st.tremolo_phase)))
              (flit 5 10)))
      else sample2
    let tremolo_phase :=
      if trem then advance_phase st.tremolo_phase config.tremoloRate sample_rate
      else st.tremolo_phase
    let sample4 := clamp (binary32.mul sample3 config.volume) (flit 1 1).neg (flit 1 1)
    if i < 0 ∨ capacity ≤ i then none
    else
      some
        { phase := phase, vibrato_phase := vibrato_phase, tremolo_phase := tremolo_phase,
          phaser_phase := phaser_phase, noise_seed := noisy.2, lowpass_filter := lp.2,
          highpass_filter := hp.2, samples := Function.update st.samples i.toNat sample4 }

/-- The loop `for (i = first; i < first + n; i++)` over `sample_step`. -/
def sample_loop (L : libm_t) (config : pfxr_sound_t) (capacity : Int)
    (sample_rate duration : Flt) : Nat → Int → synth_t → Option synth_t
  | 0, _, st => some st
  | n + 1, i, st =>
    match sample_step L config capacity sample_rate duration i st with
    | none => none
    | some st1 => sample_loop L config capacity sample_rate duration n (i + 1) st1

/-- The noise seed `(uint32_t)(frequency * 1000 + noiseAmount * 100 + volume * 1000)`
(audio.c line 170). -/
def initial_noise_seed (config : pfxr_sound_t) : Option Nat :=
  (binary32.add
    (binary32.add (binary32.mul config.frequency (binary32.ofInt 1000))
      (binary32.mul config.noiseAmount (binary32.ofInt 100)))
    (binary32.mul config.volume (binary32.ofInt 1000))).toUInt32

/-- The body of `pfxr_generate_sound` on non-null arguments (audio.c lines 161-277);
`none` where the C code has no defined behaviour. -/
def generate_sound (L : libm_t) (config : pfxr_sound_t) (buffer : pfxr_audio_buffer_t) :
    Option pfxr_audio_buffer_t :=
  let sample_rate := binary32.ofInt PFXR_SAMPLE_RATE
  let duration :=
    binary32.add (binary32.add config.attackTime config.sustainTime) config.decayTime
  match (binary32.mul duration sample_rate).toInt32 with
  | none => none
  | some total0 =>
    let total_samples := if total0 > buffer.capacity then buffer.capacity else total0
    match initial_noise_seed config with
    | none => none
    | some noise_seed =>
      let lowpass_filter :=
        if config.lowPassCutoff.gt (flit 0 1) then
          biquad_lowpass_coeffs L biquad_zero config.lowPassCutoff
            (if config.lowPassResonance.gt (flit 0 1) then config.lowPassResonance
              else flit 707 1000)
            sample_rate
        else biquad_zero
      let highpass_filter :=
        if config.highPassCutoff.gt (flit 0 1) then
          biquad_highpass_coeffs L biquad_zero config.highPassCutoff
            (if config.highPassResonance.gt (flit 0 1) then config.highPassResonance
              else flit 707 1000)
            sample_rate
        else biquad_zero
      let st0 : synth_t :=
        { phase := flit 0 1, vibrato_phase := flit 0 1, tremolo_phase := flit 0 1,
          phaser_phase := flit 0 1, noise_seed := noise_seed,
          lowpass_filter := lowpass_filter, highpass_filter := highpass_filter,
          samples := buffer.samples }
      match sample_loop L config buffer.capacity sample_rate duration total_samples.toNat 0
          st0 with
      | none => none
      | some st =>
        some { samples := st.samples, sample_count := total_samples,
               capacity := buffer.capacity }

/-- The function `pfxr_generate_sound` (audio.c lines 158-278) on possibly null pointers:
the buffer after the call, which is the buffer before the call when an argument is null. -/
def pfxr_generate_sound (L : libm_t) (config : Option pfxr_sound_t)
    (buffer : Option pfxr_audio_buffer_t) : Option (Option pfxr_audio_buffer_t) :=
  match config, buffer with
  | some c, some b => (generate_sound L c b).map some
  | _, _ => some buffer

/-! ## wav.c and pfxr.c

Allocations are taken to succeed, and the header is laid out as on a little-endian
machine. -/

/-- The header record `pfxr_wav_header_t` (pfxr.h lines 81-95); the four tags are byte
strings and the other fields unsigned integers. -/
structure pfxr_wav_header_t where
  riff : List Nat
  chunk_size : Nat
  wave : List Nat
  fmt : List Nat
  fmt_size : Nat
  audio_format : Nat
  num_channels : Nat
  sample_rate : Nat
  byte_rate : Nat
  block_align : Nat
  bits_per_sample : Nat
  data : List Nat
  data_size : Nat
deriving DecidableEq, Repr

/-- The two bytes of a 16-bit value, least significant first. -/
def le16 (n : Nat) : List Nat := [n % 256, n / 256 % 256]

/-- The four bytes of a 32-bit value, least significant first. -/
def le32 (n : Nat) : List Nat := [n % 256, n / 256 % 256, n / 65536 % 256, n / 16777216 % 256]

/-- The 44 bytes of the packed header. -/
def header_bytes (h : pfxr_wav_header_t) : List Nat :=
  h.riff ++ le32 h.chunk_size ++ h.wave ++ h.fmt ++ le32 h.fmt_size ++ le16 h.audio_format ++
    le16 h.num_channels ++ le32 h.sample_rate ++ le32 h.byte_rate ++ le16 h.block_align ++
    le16 h.bits_per_sample ++ h.data ++ le32 h.data_size

/-- The header that `pfxr_create_wav_data` writes (wav.c lines 23-43) for the given
`data_size` and `file_size`. -/
def wav_header (data_size file_size : Int) : pfxr_wav_header_t :=
  let num_channels := 1
  let bits_per_sample := 16
  let block_align := num_channels * bits_per_sample / 8 % 65536
  { riff := [0x52, 0x49, 0x46, 0x46]
    chunk_size := toU32 (file_size - 8)
    wave := [0x57, 0x41, 0x56, 0x45]
    fmt := [0x66, 0x6d, 0x74, 0x20]
    fmt_size := 16
    audio_format := 1
    num_channels := num_channels
    sample_rate := PFXR_SAMPLE_RATE.toNat
    byte_rate := PFXR_SAMPLE_RATE.toNat * block_align % 4294967296
    block_align := block_align
    bits_per_sample := bits_per_sample
    data := [0x64, 0x61, 0x74, 0x61]
    data_size := toU32 data_size }

/-- The 16-bit PCM value of one sample (wav.c lines 49-53): clamp to `[-1, 1]`, scale by
`32767.0f`, cast to `int16_t`; `none` where the cast is undefined. -/
def pcm_sample (s : Flt) : Option Int :=
  let s1 := if s.gt (flit 1 1) then flit 1 1 else s
  let s2 := if s1.lt (flit 1 1).neg then (flit 1 1).neg else s1
  (binary32.mul s2 (flit 32767 1)).toInt16

/-- The loop of wav.c lines 47-54 over the samples `first .. first + n - 1`: the PCM bytes,
two per sample. -/
def pcm_bytes (samples : Nat → Flt) : Nat → Nat → Option (List Nat)
  | 0, _ => some []
  | n + 1, first =>
    match pcm_sample (samples first), pcm_bytes samples n (first + 1) with
    | some v, some rest => some (le16 (v % 65536).toNat ++ rest)
    | _, _ => none

/-- The function `pfxr_create_wav_data` (wav.c lines 8-58).  The arguments `samples` and
`wav_size` are pointers that may be null; the result is `none` where the C code has no
defined behaviour (a size beyond the range of `int`, a cast of NaN), and otherwise the
returned pointer: null (`none`) or the bytes of the container with the value stored in
`*wav_size`. -/
def pfxr_create_wav_data (samples : Option (Nat → Flt)) (sample_count : Int)
    (wav_size : Bool) : Option (Option (List Nat × Int)) :=
  match samples with
  | none => some none
  | some mem =>
    if sample_count ≤ 0 ∨ wav_size = false then some none
    else
      let data_size := sample_count * 2
      let file_size := 44 + data_size
      if 2147483647 < file_size then none
      else
        match pcm_bytes mem sample_count.toNat 0 with
        | none => none
        | some pcm => some (some (header_bytes (wav_header data_size file_size) ++ pcm, file_size))

/-- The function `pfxr_create_sound_from_config` (pfxr.c lines 28-51): `none` where the C
code has no defined behaviour, and otherwise the returned pointer, null or the WAV bytes. -/
def pfxr_create_sound_from_config (L : libm_t) (config : Option pfxr_sound_t) :
    Option (Option (List Nat)) :=
  match config with
  | none => some none
  | some c =>
    (PFXR_MAX_SAMPLES.bind fun cap =>
      generate_sound L c (pfxr_create_audio_buffer cap)).bind fun buffer =>
        (pfxr_create_wav_data (some buffer.samples) buffer.sample_count true).map fun r =>
          r.map fun w => w.1

/-- The function `pfxr_create_sound_from_template` (pfxr.c lines 6-12); `now` is the clock
reading taken when the seed is 0. -/
def pfxr_create_sound_from_template (L : libm_t) (now : Int) (template : pfxr_template_t)
    (seed : Int) : Option (Option (List Nat)) :=
  (pfxr_apply_template now template seed).bind fun config =>
    pfxr_create_sound_from_config L (some config)

/-- The float `v` is the value of the float draw between `lo` and `hi` made from the state
reached `k` generator steps after seeding, and it lies between the two bounds. -/
def drawn (now seed : Int) (k : Nat) (lo hi v : Flt) : Prop :=
  v = (pfxr_random_float (seeded_state now seed k) lo hi).1 ∧ lo.le v = true ∧
    v.le hi = true

/-- The parameter set `s` differs from the default sound at most in the fields that the
table row of the template names: it is the default sound with those fields taken from
`s`. -/
def template_frame (template : pfxr_template_t) (s : pfxr_sound_t) : Prop :=
  let d := pfxr_get_default_sound
  match template with
  | pfxr_template_t.DEFAULT => s = d
  | pfxr_template_t.PICKUP | pfxr_template_t.LASER | pfxr_template_t.JUMP =>
    s = { d with
          waveForm := s.waveForm, sustainPunch := s.sustainPunch,
          sustainTime := s.sustainTime, decayTime := s.decayTime, frequency := s.frequency,
          pitchDelta := s.pitchDelta, pitchDuration := s.pitchDuration,
          pitchDelay := s.pitchDelay }
  | pfxr_template_t.FALL =>
    s = { d with
          waveForm := s.waveForm, sustainPunch := s.sustainPunch,
          sustainTime := s.sustainTime, decayTime := s.decayTime, frequency := s.frequency,
          pitchDelta := s.pitchDelta, pitchDuration := s.pitchDuration,
          pitchDelay := s.pitchDelay, vibratoRate := s.vibratoRate,
          vibratoDepth := s.vibratoDepth, tremoloRate := s.tremoloRate,
          tremoloDepth := s.tremoloDepth }
  | pfxr_template_t.POWERUP =>
    s = { d with
          waveForm := s.waveForm, sustainPunch := s.sustainPunch,
          sustainTime := s.sustainTime, decayTime := s.decayTime, frequency := s.frequency,
          pitchDelta := s.pitchDelta, pitchDuration := s.pitchDuration,
          pitchDelay := s.pitchDelay, vibratoRate := s.vibratoRate,
          vibratoDepth := s.vibratoDepth }
  | pfxr_template_t.EXPLOSION =>
    s = { d with
          waveForm := s.waveForm, volume := s.volume, sustainPunch := s.sustainPunch,
          sustainTime := s.sustainTime, decayTime := s.decayTime, frequency := s.frequency,
          pitchDelta := s.pitchDelta, pitchDuration := s.pitchDuration,
          pitchDelay := s.pitchDelay, vibratoRate := s.vibratoRate,
          vibratoDepth := s.vibratoDepth, tremoloRate := s.tremoloRate,
          tremoloDepth := s.tremoloDepth, phaserDepth := s.phaserDepth,
          noiseAmount := s.noiseAmount }
  | pfxr_template_t.BLIP =>
    s = { d with
          waveForm := s.waveForm, sustainTime := s.sustainTime, decayTime := s.decayTime,
          frequency := s.frequency }
  | pfxr_template_t.HIT =>
    s = { d with
          waveForm := s.waveForm, sustainTime := s.sustainTime,
          sustainPunch := s.sustainPunch, decayTime := s.decayTime,
          frequency := s.frequency, pitchDelta := s.pitchDelta,
          noiseAmount := s.noiseAmount }
  | pfxr_template_t.FART =>
    s = { d with
          waveForm := s.waveForm, volume := s.volume, sustainPunch := s.sustainPunch,
          sustainTime := s.sustainTime, decayTime := s.decayTime, frequency := s.frequency,
          pitchDelta := s.pitchDelta, pitchDuration := s.pitchDuration,
          pitchDelay := s.pitchDelay, vibratoRate := s.vibratoRate,
          vibratoDepth := s.vibratoDepth, tremoloRate := s.tremoloRate,
          tremoloDepth := s.tremoloDepth, lowPassCutoff := s.lowPassCutoff,
          lowPassResonance := s.lowPassResonance, noiseAmount := s.noiseAmount }
  | pfxr_template_t.RANDOM => True

/-- A float that is not below zero and not NaN: plus infinity, or a finite float that has
sign plus or is a zero. -/
def Flt.NonNeg : Flt → Prop
  | Flt.nan => False
  | Flt.inf s => s = false
  | Flt.fin s m _ => s = false ∨ m = 0

/-- A datum of format `f`: NaN, an infinity, or a finite float in canonical form. -/
def Flt.IsFloat (f : Fmt) (a : Flt) : Prop := a = Flt.nan ∨ a.Reg f

/-- The value `max(0, e)` of the envelope formula: a result below 0 is replaced by 0 and any
other result is kept. -/
def max0 (e : Flt) : Flt := if e.lt (flit 0 1) then flit 0 1 else e

/-- The envelope gain at sample time `t` as the specification words it: the attack ramp
`(1 - sustainPunch) * (t / attackTime)` while `t < attackTime`, the level 1 while
`attackTime <= t < attackTime + sustainTime`, and the decay ramp
`(1 - sustainPunch) * (1 - (t - attackTime - sustainTime) / decayTime)` otherwise, with
negative results replaced by 0; the arithmetic is that of `float`. -/
def envelope_spec (config : pfxr_sound_t) (t : Flt) : Flt :=
  let e :=
    if t.lt config.attackTime then
      binary32.mul (binary32.sub (flit 1 1) config.sustainPunch)
        (binary32.div t config.attackTime)
    else if config.attackTime.le t && t.lt (binary32.add config.attackTime config.sustainTime)
    then flit 1 1
    else
      binary32.mul (binary32.sub (flit 1 1) config.sustainPunch)
        (binary32.sub (flit 1 1)
          (binary32.div (binary32.sub (binary32.sub t config.attackTime) config.sustainTime)
            config.decayTime))
  max0 e

/-- The time of sample `i`, `(float)i / sample_rate`. -/
def sample_time (i : Int) : Flt := binary32.div (binary32.ofInt i) (binary32.ofInt PFXR_SAMPLE_RATE)

/-- The float lies in `[-1, 1]`, as C compares floats. -/
def Flt.InUnit (v : Flt) : Prop := (flit 1 1).neg.le v = true ∧ v.le (flit 1 1) = true

instance (v : Flt) : Decidable v.InUnit := by
  unfold Flt.InUnit
  infer_instance

/-- The duration `attackTime + sustainTime + decayTime` (audio.c line 162) with the additions
carried out in exact arithmetic. -/
def exact_duration (config : pfxr_sound_t) : ℚ :=
  config.attackTime.toRat + config.sustainTime.toRat + config.decayTime.toRat

/-- The conversion `(int)x` of an exact value: truncation toward zero. -/
def exact_trunc (x : ℚ) : Int := if 0 ≤ x then ⌊x⌋ else ⌈x⌉

/-- The number of samples to render (audio.c lines 163-167) in exact arithmetic:
`(int)(duration * sample_rate)`, capped at the capacity of the buffer. -/
def exact_total_samples (config : pfxr_sound_t) (capacity : Int) : Int :=
  let total_samples := exact_trunc (exact_duration config * (PFXR_SAMPLE_RATE : ℚ))
  if total_samples > capacity then capacity else total_samples

/-- The time `t = i / sample_rate` of sample `i` (audio.c line 175) in exact arithmetic. -/
def exact_time (i : Int) : ℚ := (i : ℚ) / (PFXR_SAMPLE_RATE : ℚ)

/-! ## url.c: strings, percent-coding and the query parameter

A C string is modelled by the list of its bytes before the terminating zero; a byte is a
number below 256 and a character constant is its ASCII code. The library functions of
`<ctype.h>`, `<string.h>`, `<stdlib.h>` and `<stdio.h>` are modelled as ISO C describes them
in the "C" locale, with `strtof` and `printf` rounding correctly (to nearest, ties to even).
Allocations are taken to succeed. -/

/-- The text of a character buffer read as a C string: the bytes before the first zero. -/
def cstr (buf : List Nat) : List Nat := buf.takeWhile fun c => c ≠ 0

/-- The function `isspace`: space, `\t`, `\n`, `\v`, `\f`, `\r`. -/
def isspace (c : Nat) : Bool := c = 32 || (9 ≤ c && c ≤ 13)

/-- The function `isdigit`. -/
def isdigit (c : Nat) : Bool := 48 ≤ c && c ≤ 57

/-- The function `isalnum`: the digits and the letters of ASCII. -/
def isalnum (c : Nat) : Bool :=
  isdigit c || (65 ≤ c && c ≤ 90) || (97 ≤ c && c ≤ 122)

/-- The function `tolower` on the letters of ASCII. -/
def tolower (c : Nat) : Nat := if 65 ≤ c ∧ c ≤ 90 then c + 32 else c

/-- The value of a hexadecimal digit, if the character is one. -/
def hexval (c : Nat) : Option Nat :=
  if 48 ≤ c ∧ c ≤ 57 then some (c - 48)
  else if 97 ≤ c ∧ c ≤ 102 then some (c - 87)
  else if 65 ≤ c ∧ c ≤ 70 then some (c - 55)
  else none

/-- An optional sign at the start of a number: whether it is `-`, and the text after it. -/
def read_sign : List Nat → Bool × List Nat
  | [] => (false, [])
  | c :: t => if c = 45 then (true, t) else if c = 43 then (false, t) else (false, c :: t)

/-- The decimal digits at the start of a text, read after the number `acc` and `n` earlier
digits: the number read, the count of digits, and the text after them. -/
def read_digits : List Nat → Nat → Nat → Nat × Nat × List Nat
  | [], acc, n => (acc, n, [])
  | c :: t, acc, n =>
    if isdigit c then read_digits t (acc * 10 + (c - 48)) (n + 1) else (acc, n, c :: t)

/-- The hexadecimal digits at the start of a text, read after the number `acc` and `n`
earlier digits: the number read, the count of digits, and the text after them. -/
def read_hex_digits : List Nat → Nat → Nat → Nat × Nat × List Nat
  | [], acc, n => (acc, n, [])
  | c :: t, acc, n =>
    match hexval c with
    | some d => read_hex_digits t (acc * 16 + d) (n + 1)
    | none => (acc, n, c :: t)

/-- The function `strtol` with base 16: optional white space, an optional sign, an optional
`0x` or `0X` that hexadecimal digits follow, and the digits. The result is the value,
clamped to the range of a 64-bit `long`, and the text that `endptr` points to, which is the
whole argument when there is no digit to convert. -/
def strtol16 (nptr : List Nat) : Int × List Nat :=
  let sg := read_sign (nptr.dropWhile isspace)
  let body :=
    match sg.2 with
    | z :: x :: d :: t =>
      if z = 48 ∧ (x = 120 ∨ x = 88) ∧ (hexval d).isSome then d :: t else sg.2
    | _ => sg.2
  let r := read_hex_digits body 0 0
  if r.2.1 = 0 then (0, nptr)
  else
    let v : Int := if sg.1 then -(r.1 : Int) else (r.1 : Int)
    (max (-9223372036854775808) (min v 9223372036854775807), r.2.2)

/-- The loop of `url_decode` (url.c lines 16-34): the bytes stored in `decoded`. -/
def url_decode_bytes : List Nat → List Nat
  | [] => []
  | [c] => [if c = 43 then 32 else c]
  | [c, a] => (if c = 43 then 32 else c) :: url_decode_bytes [a]
  | c :: a :: b :: rest2 =>
    if c = 37 then
      let r := strtol16 [a, b]
      if r.2 = [] then (r.1 % 256).toNat :: url_decode_bytes rest2
      else 37 :: url_decode_bytes (a :: b :: rest2)
    else if c = 43 then 32 :: url_decode_bytes (a :: b :: rest2)
    else c :: url_decode_bytes (a :: b :: rest2)

/-- The function `url_decode` (url.c lines 8-37) on a string: the string that the returned
buffer holds, which ends at the first zero byte that a `%00` stores. -/
def url_decode (encoded : List Nat) : List Nat := cstr (url_decode_bytes encoded)

/-- The upper-case hexadecimal digit of a value below 16, as `%X` prints it. -/
def hex_upper (d : Nat) : Nat := if d < 10 then 48 + d else 55 + d

/-- The bytes that `url_encode` stores for one character (url.c lines 50-58): the character
itself when it is alphanumeric or one of `-_.~`, `+` for a space, and `%` with two
hexadecimal digits otherwise. -/
def url_encode_char (c : Nat) : List Nat :=
  if isalnum c || c = 45 || c = 95 || c = 46 || c = 126 then [c]
  else if c = 32 then [43]
  else [37, hex_upper (c / 16 % 16), hex_upper (c % 16)]

/-- The function `url_encode` (url.c lines 40-62) on a string. -/
def url_encode : List Nat → List Nat
  | [] => []
  | c :: t => url_encode_char c ++ url_encode t

/-- The function `strchr`: the text from the first occurrence of `c`, if there is one. -/
def strchr : List Nat → Nat → Option (List Nat)
  | [], _ => none
  | x :: t, c => if x = c then some (x :: t) else strchr t c

/-- The function `strstr`: the text from the first occurrence of `needle`, if there is
one. -/
def strstr : List Nat → List Nat → Option (List Nat)
  | [], needle => if needle = [] then some [] else none
  | x :: t, needle => if needle.isPrefixOf (x :: t) then some (x :: t) else strstr t needle

/-- The function `get_query_param` (url.c lines 65-98) on possibly null strings: the value
of the parameter, that is the text after the first `param=` behind the first `?`, up to the
next `&` or `#` or the end; `none` is the null pointer. -/
def get_query_param (url param : Option (List Nat)) : Option (List Nat) :=
  match url, param with
  | some u, some p =>
    match strchr u 63 with
    | none => none
    | some q =>
      let query_start := q.drop 1
      let param_with_eq := (p ++ [61]).take 255
      match strstr query_start param_with_eq with
      | none => none
      | some param_pos =>
        let value_start := param_pos.drop param_with_eq.length
        some (value_start.takeWhile fun c => c ≠ 38 && c ≠ 35)
  | _, _ => none

/-- One call of `strtok` with the one-character delimiter string `delim` on the text that
remains: no token when only delimiters remain, and otherwise the token, which starts at the
first other character and ends before the next delimiter, with the text that remains after
that delimiter. -/
def strtok (s : List Nat) (delim : Nat) : Option (List Nat × List Nat) :=
  match s.dropWhile fun c => c = delim with
  | [] => none
  | c :: t =>
    some ((c :: t).takeWhile (fun x => x ≠ delim),
      ((c :: t).dropWhile fun x => x ≠ delim).drop 1)

/-! ## url.c: `strtof`, `printf` and the two conversions -/

/-- The exponent part of a floating constant: one of the two marker letters, an optional
sign and at least one decimal digit. The result is the exponent and the text after it, or
0 and the whole text when there is no exponent part. -/
def read_exponent (lower upper : Nat) : List Nat → Int × List Nat
  | [] => (0, [])
  | c :: t =>
    if c = lower ∨ c = upper then
      let sg := read_sign t
      let r := read_digits sg.2 0 0
      if r.2.1 = 0 then (0, c :: t)
      else (if sg.1 then -(r.1 : Int) else (r.1 : Int), r.2.2)
    else (0, c :: t)

/-- The digits of a floating constant with an optional point among them, read with the
given digit reader: the number that the digits spell without the point, the count of all
digits, the count of the digits after the point, and the text after them. -/
def read_mantissa (rd : List Nat → Nat → Nat → Nat × Nat × List Nat) (s : List Nat) :
    Nat × Nat × Nat × List Nat :=
  let i := rd s 0 0
  match i.2.2 with
  | [] => (i.1, i.2.1, 0, [])
  | c :: t =>
    if c = 46 then
      let f := rd t i.1 0
      (f.1, i.2.1 + f.2.1, f.2.1, f.2.2)
    else (i.1, i.2.1, 0, c :: t)

/-- A decimal floating constant at the start of a text, rounded to `float`: digits with an
optional point, at least one digit, and an optional exponent part. -/
def strtof_decimal (neg : Bool) (s : List Nat) : Option (Flt × List Nat) :=
  let m := read_mantissa read_digits s
  if m.2.1 = 0 then none
  else
    let x := read_exponent 101 69 m.2.2.2
    let k : Int := x.1 - (m.2.2.1 : Int)
    some
      (if 0 ≤ k then binary32.round neg (m.1 * 10 ^ k.toNat) 1 0
        else binary32.round neg m.1 (10 ^ (-k).toNat) 0,
       x.2)

/-- A hexadecimal floating constant at the start of a text, rounded to `float`: `0x` or
`0X`, hexadecimal digits with an optional point, at least one digit, and an optional binary
exponent part. -/
def strtof_hex (neg : Bool) : List Nat → Option (Flt × List Nat)
  | z :: x :: t =>
    if z = 48 ∧ (x = 120 ∨ x = 88) then
      let m := read_mantissa read_hex_digits t
      if m.2.1 = 0 then none
      else
        let p := read_exponent 112 80 m.2.2.2
        some (binary32.round neg m.1 1 (p.1 - 4 * (m.2.2.1 : Int)), p.2)
    else none
  | _ => none

/-- Whether the text starts with the lower-case word, letter case ignored. -/
def starts_with_word (word s : List Nat) : Bool := (s.take word.length).map tolower == word

/-- The optional `(n-char-sequence)` after `nan`: the text after it, which is the whole
text when there is none. -/
def skip_nan_tag : List Nat → List Nat
  | [] => []
  | c :: t =>
    if c = 40 then
      match t.dropWhile fun x => isalnum x || x = 95 with
      | [] => c :: t
      | d :: u => if d = 41 then u else c :: t
    else c :: t

/-- The function `strtof`: optional white space, an optional sign, and then `infinity` or
`inf`, `nan` with an optional tag, a hexadecimal or a decimal floating constant. The result
is the value, correctly rounded, and the text that `endptr` points to; when nothing can be
converted the value is 0 and `endptr` points to the whole argument. -/
def strtof (nptr : List Nat) : Flt × List Nat :=
  let sg := read_sign (nptr.dropWhile isspace)
  let r :=
    if starts_with_word [105, 110, 102, 105, 110, 105, 116, 121] sg.2 then
      some (Flt.inf sg.1, sg.2.drop 8)
    else if starts_with_word [105, 110, 102] sg.2 then some (Flt.inf sg.1, sg.2.drop 3)
    else if starts_with_word [110, 97, 110] sg.2 then some (Flt.nan, skip_nan_tag (sg.2.drop 3))
    else
      match strtof_hex sg.1 sg.2 with
      | some v => some v
      | none => strtof_decimal sg.1 sg.2
  match r with
  | some v => v
  | none => (flit 0 1, nptr)

/-- The `w` decimal digits of `n`, the most significant first. -/
def digitsN : Nat → Nat → List Nat
  | 0, _ => []
  | w + 1, n => digitsN w (n / 10) ++ [48 + n % 10]

/-- The decimal digits of `n` without leading zeros, for `n < 10^fuel`. -/
def decimal : Nat → Nat → List Nat
  | 0, _ => []
  | fuel + 1, n => if n < 10 then [48 + n] else decimal fuel (n / 10) ++ [48 + n % 10]

/-- The text that `printf("%d")` prints for an `int`. -/
def printf_d (v : Int) : List Nat :=
  if v < 0 then 45 :: decimal 10 v.natAbs else decimal 10 v.natAbs

/-- Whether `10^k ≤ num/den`. -/
def pow10_le (k : Int) (num den : Nat) : Bool :=
  if 0 ≤ k then decide (10 ^ k.toNat * den ≤ num) else decide (den ≤ num * 10 ^ (-k).toNat)

/-- The decimal exponent of the positive value `num/den`, searched downwards from `n - 46`:
the largest `X` with `10^X ≤ num/den`, and `-46` when there is none above it. A search from
`n = 85` covers the values of `float`. -/
def decimal_exponent (num den : Nat) : Nat → Int
  | 0 => -46
  | n + 1 =>
    if pow10_le ((n : Int) - 45) num den then (n : Int) - 45 else decimal_exponent num den n

/-- A digit string without its trailing zeros. -/
def strip_zeros (l : List Nat) : List Nat := (l.reverse.dropWhile fun c => c = 48).reverse

/-- The number that a string of decimal digits spells. -/
def dval (l : List Nat) : Nat := l.foldl (fun a c => a * 10 + (c - 48)) 0

/-- The digits `ip` of an integer part, followed by a point and the digits `fp` of the
fraction when there are any. -/
def point_frac (ip fp : List Nat) : List Nat := ip ++ (if fp = [] then [] else 46 :: fp)

/-- The positive value `num/den` rounded to six significant digits, as `printf("%.6g")`
does it: the decimal exponent `X` and the number `D` of six digits, the value rounding to
`D * 10^(X - 5)`. -/
def six_digits (num den : Nat) : Int × Nat :=
  let X0 := decimal_exponent num den 85
  let D0 :=
    if X0 ≤ 5 then rhe (num * 10 ^ (5 - X0).toNat) den else rhe num (den * 10 ^ (X0 - 5).toNat)
  (if D0 = 1000000 then X0 + 1 else X0, if D0 = 1000000 then 100000 else D0)

/-- The text that `printf("%.6g")` prints for six significant digits `D` with decimal
exponent `X`: for `-4 ≤ X < 6` the digits in fixed style and otherwise in exponent style, in
both without the trailing zeros of the fraction and without a point that no digit
follows. -/
def g6_layout (X : Int) (D : Nat) : List Nat :=
  let ds := digitsN 6 D
  if -4 ≤ X ∧ X < 6 then
    if 0 ≤ X then point_frac (ds.take (X.toNat + 1)) (strip_zeros (ds.drop (X.toNat + 1)))
    else point_frac [48] (List.replicate ((-X).toNat - 1) 48 ++ strip_zeros ds)
  else
    point_frac (ds.take 1) (strip_zeros (ds.drop 1)) ++
      [101, if X < 0 then 45 else 43] ++
      digitsN (if X.natAbs < 100 then 2 else 3) X.natAbs

/-- The text that `printf("%.6g")` prints for the positive value `num/den`. -/
def printf_g6_pos (num den : Nat) : List Nat :=
  g6_layout (six_digits num den).1 (six_digits num den).2

/-- The text that `printf("%.6g")` prints for a `float` argument, which is passed as a
`double` of the same value: `nan`, `inf` and `-inf`, `0` and `-0`, and the six significant
digits of the other values. The sign of a NaN is not modelled. -/
def printf_g6 : Flt → List Nat
  | Flt.nan => [110, 97, 110]
  | Flt.inf s => (if s then [45] else []) ++ [105, 110, 102]
  | Flt.fin s m e =>
    (if s then [45] else []) ++
      (if m = 0 then [48]
        else if 0 ≤ e then printf_g6_pos (m * 2 ^ e.toNat) 1
        else printf_g6_pos m (2 ^ (-e).toNat))

/-- The macro `PFXR_FIELD_COUNT` (url.c line 159). -/
def PFXR_FIELD_COUNT : Nat := 22

/-- The function `set_sound_field` (url.c lines 101-127); `none` where the cast `(int)value`
of index 0 has no defined behaviour. -/
def set_sound_field (sound : pfxr_sound_t) (index : Nat) (value : Flt) : Option pfxr_sound_t :=
  match index with
  | 0 => value.toInt32.map fun w => { sound with waveForm := w }
  | 1 => some { sound with volume := value }
  | 2 => some { sound with attackTime := value }
  | 3 => some { sound with sustainTime := value }
  | 4 => some { sound with sustainPunch := value }
  | 5 => some { sound with decayTime := value }
  | 6 => some { sound with frequency := value }
  | 7 => some { sound with pitchDelta := value }
  | 8 => some { sound with pitchDuration := value }
  | 9 => some { sound with pitchDelay := value }
  | 10 => some { sound with vibratoRate := value }
  | 11 => some { sound with vibratoDepth := value }
  | 12 => some { sound with tremoloRate := value }
  | 13 => some { sound with tremoloDepth := value }
  | 14 => some { sound with highPassCutoff := value }
  | 15 => some { sound with highPassResonance := value }
  | 16 => some { sound with lowPassCutoff := value }
  | 17 => some { sound with lowPassResonance := value }
  | 18 => some { sound with phaserBaseFrequency := value }
  | 19 => some { sound with phaserLfoFrequency := value }
  | 20 => some { sound with phaserDepth := value }
  | 21 => some { sound with noiseAmount := value }
  | _ => some sound

/-- The function `get_sound_field` (url.c lines 130-156). -/
def get_sound_field (sound : pfxr_sound_t) (index : Nat) : Flt :=
  match index with
  | 0 => binary32.ofInt sound.waveForm
  | 1 => sound.volume
  | 2 => sound.attackTime
  | 3 => sound.sustainTime
  | 4 => sound.sustainPunch
  | 5 => sound.decayTime
  | 6 => sound.frequency
  | 7 => sound.pitchDelta
  | 8 => sound.pitchDuration
  | 9 => sound.pitchDelay
  | 10 => sound.vibratoRate
  | 11 => sound.vibratoDepth
  | 12 => sound.tremoloRate
  | 13 => sound.tremoloDepth
  | 14 => sound.highPassCutoff
  | 15 => sound.highPassResonance
  | 16 => sound.lowPassCutoff
  | 17 => sound.lowPassResonance
  | 18 => sound.phaserBaseFrequency
  | 19 => sound.phaserLfoFrequency
  | 20 => sound.phaserDepth
  | 21 => sound.noiseAmount
  | _ => flit 0 1

/-- Whether the loop of `pfxr_create_params_from_url` stores the value of a token (url.c
line 193): `endptr` points to the end of the token or to a space. -/
def token_accepted (endptr : List Nat) : Bool := endptr = [] || endptr.head? = some 32

/-- The loop of `pfxr_create_params_from_url` (url.c lines 185-199) from the field `index`
on, with `n = PFXR_FIELD_COUNT - index` fields left and `rest` the text that `strtok` has
not read yet; `none` where `set_sound_field` has no defined behaviour. -/
def parse_tokens : Nat → Nat → List Nat → pfxr_sound_t → Option pfxr_sound_t
  | 0, _, _, sound => some sound
  | n + 1, index, rest, sound =>
    match strtok rest 44 with
    | none => some sound
    | some (token, rest1) =>
      let r := strtof token
      (if token_accepted r.2 then set_sound_field sound index r.1 else some sound).bind
        fun s => parse_tokens n (index + 1) rest1 s

/-- The function `pfxr_create_params_from_url` (url.c lines 161-203) on a possibly null
string: `none` where the C code has no defined behaviour, and otherwise the returned
pointer, null or the parameter set. -/
def pfxr_create_params_from_url (url : Option (List Nat)) : Option (Option pfxr_sound_t) :=
  match url with
  | none => some none
  | some u =>
    let sound := pfxr_get_default_sound
    match get_query_param (some u) (some [102, 120]) with
    | none => some (some sound)
    | some fx_param =>
      (parse_tokens PFXR_FIELD_COUNT 0 (url_decode fx_param) sound).map some

/-- The text `value_str` of field `i` (url.c lines 219-227): `%d` of `(int)value` for the
waveform and `%.6g` for the other fields, cut by `snprintf` to the 15 characters that the
buffer holds; `none` where the cast has no defined behaviour. -/
def value_str (config : pfxr_sound_t) (i : Nat) : Option (List Nat) :=
  let value := get_sound_field config i
  if i = 0 then value.toInt32.map fun v => (printf_d v).take 15
  else some ((printf_g6 value).take 15)

/-- The text of `values_buffer` after the first `n` rounds of the loop of
`pfxr_get_url_from_params` (url.c lines 218-233). -/
def values_buffer (config : pfxr_sound_t) : Nat → Option (List Nat)
  | 0 => some []
  | i + 1 =>
    (values_buffer config i).bind fun buf =>
      (value_str config i).map fun v => buf ++ (if i > 0 then [44] else []) ++ v

/-- The function `pfxr_get_url_from_params` (url.c lines 205-247) on a possibly null
parameter set: `none` where the C code has no defined behaviour, and otherwise the returned
pointer, null or the text `?fx=` with the encoded values, cut by `snprintf` to the 451
characters that the buffer holds. -/
def pfxr_get_url_from_params (config : Option pfxr_sound_t) : Option (Option (List Nat)) :=
  match config with
  | none => some none
  | some c =>
    (values_buffer c PFXR_FIELD_COUNT).map fun values =>
      some (([63, 102, 120, 61] ++ url_encode values).take (PFXR_FIELD_COUNT * 16 + 100 - 1))

/-! ## wav.c and pfxr.c: writing a file -/

/-- The file operations of `<stdio.h>` that `pfxr_write_wav_file` uses: whether `fopen`
opens the named file for writing, and the count of bytes that `fwrite` writes of the data
it is given. -/
structure stdio_t where
  fopen : List Nat → Bool
  fwrite : List Nat → List Nat → Nat

/-- The function `pfxr_write_wav_file` (wav.c lines 61-83) on possibly null pointers: `none`
where the C code has no defined behaviour, and otherwise the returned status with the
files that were opened, each with the bytes that `fwrite` was given. -/
def pfxr_write_wav_file (io : stdio_t) (filename : Option (List Nat))
    (samples : Option (Nat → Flt)) (sample_count : Int) :
    Option (Int × List (List Nat × List Nat)) :=
  match filename, samples with
  | some name, some mem =>
    if sample_count ≤ 0 then some (-1, [])
    else
      (pfxr_create_wav_data (some mem) sample_count true).map fun wav =>
        match wav with
        | none => (-1, [])
        | some (wav_data, wav_size) =>
          if io.fopen name then
            (if ((io.fwrite name wav_data : Nat) : Int) = wav_size then 0 else -1,
              [(name, wav_data)])
          else (-1, [])
  | _, _ => some (-1, [])

/-- The function `pfxr_create_sound_from_config_to_file` (pfxr.c lines 53-74). -/
def pfxr_create_sound_from_config_to_file (io : stdio_t) (L : libm_t)
    (config : Option pfxr_sound_t) (filename : Option (List Nat)) :
    Option (Int × List (List Nat × List Nat)) :=
  match config, filename with
  | some c, some name =>
    (PFXR_MAX_SAMPLES.bind fun cap =>
      generate_sound L c (pfxr_create_audio_buffer cap)).bind fun buffer =>
        pfxr_write_wav_file io (some name) (some buffer.samples) buffer.sample_count
  | _, _ => some (-1, [])

/-- The function `pfxr_create_sound_from_template_to_file` (pfxr.c lines 15-25); `now` is
the clock reading taken when the seed is 0. -/
def pfxr_create_sound_from_template_to_file (io : stdio_t) (L : libm_t) (now : Int)
    (template : pfxr_template_t) (seed : Int) (filename : Option (List Nat)) :
    Option (Int × List (List Nat × List Nat)) :=
  match filename with
  | none => some (-1, [])
  | some name =>
    (pfxr_apply_template now template seed).bind fun config =>
      pfxr_create_sound_from_config_to_file io L (some config) (some name)

/-- The comma-separated tokens of a text as the specification words them: the pieces
between the commas, of which there is one more than there are commas. -/
def split_commas : List Nat → List (List Nat)
  | [] => [[]]
  | c :: t =>
    if c = 44 then [] :: split_commas t
    else
      match split_commas t with
      | [] => [[c]]
      | h :: r => (c :: h) :: r

/-- The comma-separated tokens of a text that are not empty. -/
def nonempty_tokens (s : List Nat) : List (List Nat) :=
  (split_commas s).filter fun t => !t.isEmpty

/-- Positional decoding as the specification words it: the tokens set the fields `k`,
`k + 1`, ... in turn, a token setting its field to the value that `strtof` reads when
`strtof` stops at the end of the token or at a space, and leaving it as it is otherwise;
`none` where `set_sound_field` has no defined behaviour. -/
def set_fields_from : Nat → List (List Nat) → pfxr_sound_t → Option pfxr_sound_t
  | _, [], sound => some sound
  | k, token :: rest, sound =>
    (if token_accepted (strtof token).2 then set_sound_field sound k (strtof token).1
      else some sound).bind fun s => set_fields_from (k + 1) rest s

/-- A text that `pfxr_get_url_from_params` can store as the value of a field without loss:
not empty, of at most 15 characters also when percent-encoded, and without a comma, a zero
byte or a value that is not a byte. -/
def field_text (t : List Nat) : Prop :=
  t ≠ [] ∧ t.length ≤ 15 ∧ (url_encode t).length ≤ 15 ∧ ∀ c ∈ t, c ≠ 44 ∧ c ≠ 0 ∧ c < 256

/-- The float `y` is `x` up to a relative error of `1e-3`: `y` is `x`, or both are finite
and `|y - x| ≤ |x| / 1000`. -/
def Flt.Near (x y : Flt) : Prop :=
  y = x ∨ (x.IsFin binary32 ∧ y.IsFin binary32 ∧ |y.toRat - x.toRat| ≤ |x.toRat| / 1000)

/-- The four words `(x, y, z, w)` of a generator state. -/
def pfxr_random_t.words (r : pfxr_random_t) : Nat × Nat × Nat × Nat := (r.x, r.y, r.z, r.w)

/-- Whether a text is made of percent-coded pieces only: letters and digits of ASCII, the
characters `-`, `_`, `.`, `~` and `+`, and triplets of `%` with two upper-case hexadecimal
digits. -/
def percent_coded : List Nat → Bool
  | [] => true
  | [c] => isalnum c || c = 45 || c = 95 || c = 46 || c = 126 || c = 43
  | [c, a] =>
    (isalnum c || c = 45 || c = 95 || c = 46 || c = 126 || c = 43) && percent_coded [a]
  | c :: a :: b :: rest =>
    if c = 37 then
      ((48 ≤ a && a ≤ 57) || (65 ≤ a && a ≤ 70)) &&
        ((48 ≤ b && b ≤ 57) || (65 ≤ b && b ≤ 70)) && percent_coded rest
    else
      (isalnum c || c = 45 || c = 95 || c = 46 || c = 126 || c = 43) &&
        percent_coded (a :: b :: rest)

/-! ## audio.c: the stages of one sample and the states of the loop -/

/-- The frequency of the oscillator for sample `i` (audio.c lines 212-225): the swept
frequency, with the vibrato added when the vibrato is on. -/
def current_frequency (L : libm_t) (config : pfxr_sound_t) (sample_rate duration : Flt)
    (i : Int) (vibrato_phase : Flt) : Flt :=
  let freq0 := swept_frequency config duration (binary32.div (binary32.ofInt i) sample_rate)
  if config.vibratoRate.gt (flit 0 1) && config.vibratoDepth.gt (flit 0 1) then
    binary32.add freq0 (binary32.mul (L.sinf vibrato_phase) config.vibratoDepth)
  else freq0

/-- The oscillator (audio.c lines 227-232): the sample of the waveform and the phase for the
next sample. -/
def oscillator_stage (L : libm_t) (config : pfxr_sound_t) (sample_rate current_freq phase : Flt) :
    Flt × Flt :=
  let osc := current_freq.gt (flit 0 1)
  let phase1 := if osc then binary32.add phase (binary32.div current_freq sample_rate) else phase
  (if osc then generate_waveform L config.waveForm phase else flit 0 1,
   if osc && phase1.ge (flit 1 1) then binary32.sub phase1 (flit 1 1) else phase1)

/-- The noise stage (audio.c lines 234-237): the sample and the noise seed after it. -/
def noise_stage (config : pfxr_sound_t) (sample : Flt) (noise_seed : Nat) : Flt × Nat :=
  if config.noiseAmount.gt (flit 0 1) then
    generate_noise_distortion sample (binary32.div config.noiseAmount (flit 100 1)) noise_seed
  else (sample, noise_seed)

/-- The frequency `phaser_freq + 1.0f` by which the phaser divides the sample rate (audio.c
lines 240-243). -/
def phaser_divisor (L : libm_t) (config : pfxr_sound_t) (phaser_phase : Flt) : Flt :=
  binary32.add
    (binary32.add config.phaserBaseFrequency
      (binary32.mul (L.sinf phaser_phase) config.phaserDepth))
    (flit 1 1)

/-- The count `(int)delay_samples` of samples by which the phaser looks back (audio.c lines
243-244); `none` where the cast has no defined behaviour. -/
def phaser_delay (L : libm_t) (config : pfxr_sound_t) (sample_rate phaser_phase : Flt) :
    Option Int :=
  (binary32.div sample_rate (phaser_divisor L config phaser_phase)).toInt32

/-- The index of the buffer that the phaser reads for sample `i` (audio.c lines 239-246):
`none` where the C code has no defined behaviour, `some none` when the phaser reads nothing,
and `some (some j)` when it reads `buffer->samples[j]`. -/
def phaser_index (L : libm_t) (config : pfxr_sound_t) (sample_rate : Flt) (i : Int)
    (phaser_phase : Flt) : Option (Option Int) :=
  if config.phaserDepth.gt (flit 0 1) then
    match phaser_delay L config sample_rate phaser_phase with
    | none => none
    | some d => if i ≥ d then some (some (i - d)) else some none
  else some none

/-- The filter stage (audio.c lines 251-258): the sample after it and the two filters after
it, the low-pass filter and the high-pass filter. -/
def filter_stage (config : pfxr_sound_t) (lowpass_filter highpass_filter : biquad_filter_t)
    (sample : Flt) : Flt × biquad_filter_t × biquad_filter_t :=
  let lp :=
    if config.lowPassCutoff.gt (flit 0 1) && config.lowPassCutoff.lt (flit 4000 1) then
      biquad_process lowpass_filter sample
    else (sample, lowpass_filter)
  let hp :=
    if config.highPassCutoff.gt (flit 0 1) then biquad_process highpass_filter lp.1
    else (lp.1, highpass_filter)
  (hp.1, lp.2, hp.2)

/-- The variables of the sample loop before its first iteration (audio.c lines 172-190),
with the noise seed that line 170 computes. -/
def initial_state (L : libm_t) (config : pfxr_sound_t) (buffer : pfxr_audio_buffer_t)
    (noise_seed : Nat) : synth_t :=
  { phase := flit 0 1, vibrato_phase := flit 0 1, tremolo_phase := flit 0 1,
    phaser_phase := flit 0 1, noise_seed := noise_seed,
    lowpass_filter :=
      if config.lowPassCutoff.gt (flit 0 1) then
        biquad_lowpass_coeffs L biquad_zero config.lowPassCutoff
          (if config.lowPassResonance.gt (flit 0 1) then config.lowPassResonance
            else flit 707 1000)
          (binary32.ofInt PFXR_SAMPLE_RATE)
      else biquad_zero,
    highpass_filter :=
      if config.highPassCutoff.gt (flit 0 1) then
        biquad_highpass_coeffs L biquad_zero config.highPassCutoff
          (if config.highPassResonance.gt (flit 0 1) then config.highPassResonance
            else flit 707 1000)
          (binary32.ofInt PFXR_SAMPLE_RATE)
      else biquad_zero,
    samples := buffer.samples }

/-- The variables of the sample loop of `pfxr_generate_sound` when the iteration for sample
`i` begins, that is after the iterations `0 .. i - 1`; `none` where the C code has no
defined behaviour before that. -/
def state_at (L : libm_t) (config : pfxr_sound_t) (buffer : pfxr_audio_buffer_t) (i : Nat) :
    Option synth_t :=
  (initial_noise_seed config).bind fun noise_seed =>
    sample_loop L config buffer.capacity (binary32.ofInt PFXR_SAMPLE_RATE)
      (binary32.add (binary32.add config.attackTime config.sustainTime) config.decayTime)
      i 0 (initial_state L config buffer noise_seed)

/-- The envelope, tremolo, volume and final clamp of the sample of index `i` (audio.c lines
260-273): the value stored in the buffer for the sample that leaves the filter stage. -/
def output_stage (L : libm_t) (config : pfxr_sound_t) (sample_rate : Flt) (i : Int)
    (tremolo_phase sample : Flt) : Flt :=
  let envelope := envelope_at config (binary32.div (binary32.ofInt i) sample_rate)
  let sample2 := binary32.mul sample envelope
  let sample3 :=
    if config.tremoloRate.gt (flit 0 1) && config.tremoloDepth.gt (flit 0 1) then
      binary32.mul sample2
        (binary32.sub (flit 1 1)
          (binary32.mul
            (binary32.mul config.tremoloDepth
              (binary32.add (flit 1 1) (L.sinf tremolo_phase)))
            (flit 5 10)))
    else sample2
  clamp (binary32.mul sample3 config.volume) (flit 1 1).neg (flit 1 1)

/-- The pitch floor of a parameter set: `frequency` and `pitchDelta` are finite floats,
`frequency >= 0` and `frequency + pitchDelta >= 0` as exact values. -/
def pitch_floor (s : pfxr_sound_t) : Prop :=
  s.frequency.IsFin binary32 ∧ s.pitchDelta.IsFin binary32 ∧ 0 ≤ s.frequency.toRat ∧
    0 ≤ s.frequency.toRat + s.pitchDelta.toRat

/-- An arithmetic in which the coefficient formulas of the filters can be evaluated: the
four operations, the unary minus and the decimal constants `num/den`. -/
structure arith_t (α : Type) where
  add : α → α → α
  sub : α → α → α
  mul : α → α → α
  div : α → α → α
  neg : α → α
  const : Nat → Nat → α

/-- The arithmetic of C `float`: every operation rounds to binary32. -/
def float_arith : arith_t Flt :=
  { add := binary32.add, sub := binary32.sub, mul := binary32.mul, div := binary32.div,
    neg := Flt.neg, const := flit }

/-- The exact arithmetic of the rational numbers, without rounding. -/
def exact_arith : arith_t ℚ :=
  { add := fun a b => a + b, sub := fun a b => a - b, mul := fun a b => a * b,
    div := fun a b => a / b, neg := fun a => -a, const := fun num den => (num : ℚ) / den }

/-- The formulas of `biquad_lowpass_coeffs` (audio.c lines 88-101) in the arithmetic `A`,
from the cosine and the sine of `w` and from `q`: the five coefficients that the function
stores in `a0`, `a1`, `a2`, `b1` and `b2`, in this order. -/
def lowpass_formula {α : Type} (A : arith_t α) (cos_w sin_w q : α) : α × α × α × α × α :=
  let alpha := A.div sin_w (A.mul (A.const 2 1) q)
  let b0 := A.div (A.sub (A.const 1 1) cos_w) (A.const 2 1)
  let b1 := A.sub (A.const 1 1) cos_w
  let b2 := A.div (A.sub (A.const 1 1) cos_w) (A.const 2 1)
  let a0 := A.add (A.const 1 1) alpha
  let a1 := A.mul (A.neg (A.const 2 1)) cos_w
  let a2 := A.sub (A.const 1 1) alpha
  (A.div b0 a0, A.div b1 a0, A.div b2 a0, A.div a1 a0, A.div a2 a0)

/-- The formulas of `biquad_highpass_coeffs` (audio.c lines 108-121) in the arithmetic `A`:
the five coefficients that the function stores in `a0`, `a1`, `a2`, `b1` and `b2`. -/
def highpass_formula {α : Type} (A : arith_t α) (cos_w sin_w q : α) : α × α × α × α × α :=
  let alpha := A.div sin_w (A.mul (A.const 2 1) q)
  let b0 := A.div (A.add (A.const 1 1) cos_w) (A.const 2 1)
  let b1 := A.neg (A.add (A.const 1 1) cos_w)
  let b2 := A.div (A.add (A.const 1 1) cos_w) (A.const 2 1)
  let a0 := A.add (A.const 1 1) alpha
  let a1 := A.mul (A.neg (A.const 2 1)) cos_w
  let a2 := A.sub (A.const 1 1) alpha
  (A.div b0 a0, A.div b1 a0, A.div b2 a0, A.div a1 a0, A.div a2 a0)

/-- The Q that the filter setup passes to the coefficient functions (audio.c lines 177 and
182): the resonance when it is above zero and `0.707f` otherwise. -/
def filter_q (resonance : Flt) : Flt :=
  if resonance.gt (flit 0 1) then resonance else flit 707 1000

/-- The normalising divisor `a0 = 1.0f + alpha`, with `alpha = sin_w / (2.0f * q)`, of
`biquad_lowpass_coeffs` and `biquad_highpass_coeffs` (audio.c lines 85-93 and 105-113). -/
def biquad_divisor (L : libm_t) (freq q sample_rate : Flt) : Flt :=
  binary32.add (flit 1 1)
    (binary32.div (L.sinf (biquad_w freq sample_rate)) (binary32.mul (flit 2 1) q))

/-- The phaser stage (audio.c lines 239-247): the sample after it, which is the sample of
the noise stage plus half of `buffer->samples[i - (int)delay_samples]` when the phaser is on
and `i >= (int)delay_samples`; `none` where the C code has no defined behaviour (the cast of
the delay, the subtraction `i - (int)delay_samples` or a read outside the `capacity` samples
of the buffer). -/
def phaser_stage (L : libm_t) (config : pfxr_sound_t) (capacity : Int) (sample_rate : Flt)
    (i : Int) (phaser_phase : Flt) (samples : Nat → Flt) (sample : Flt) : Option Flt :=
  if config.phaserDepth.gt (flit 0 1) then
    match phaser_delay L config sample_rate phaser_phase with
    | none => none
    | some d =>
      if i ≥ d then
        if i - d < 0 ∨ capacity ≤ i - d ∨ 2147483647 < i - d then none
        else some (binary32.add sample (binary32.mul (samples (i - d).toNat) (flit 5 10)))
      else some sample
  else some sample

/-- The sample of index `i` that enters the phaser stage (audio.c lines 193-237): the output
of the oscillator after the noise stage. -/
def noise_sample (L : libm_t) (config : pfxr_sound_t) (sample_rate duration : Flt) (i : Int)
    (st : synth_t) : Flt :=
  (noise_stage config
    (oscillator_stage L config sample_rate
      (current_frequency L config sample_rate duration i st.vibrato_phase) st.phase).1
    st.noise_seed).1

/-- The variables of the sample loop after the iteration for index `i` (audio.c lines
193-274), for the sample `sample1` that leaves the phaser stage: the store of the iteration
is `buffer->samples[i] = sample` (line 273). -/
def step_state (L : libm_t) (config : pfxr_sound_t) (sample_rate duration : Flt) (i : Int)
    (st : synth_t) (sample1 : Flt) : synth_t :=
  let current_freq := current_frequency L config sample_rate duration i st.vibrato_phase
  let osc := oscillator_stage L config sample_rate current_freq st.phase
  let filtered := filter_stage config st.lowpass_filter st.highpass_filter sample1
  { phase := osc.2,
    vibrato_phase :=
      if config.vibratoRate.gt (flit 0 1) && config.vibratoDepth.gt (flit 0 1) then
        advance_phase st.vibrato_phase config.vibratoRate sample_rate
      else st.vibrato_phase,
    tremolo_phase :=
      if config.tremoloRate.gt (flit 0 1) && config.tremoloDepth.gt (flit 0 1) then
        advance_phase st.tremolo_phase config.tremoloRate sample_rate
      else st.tremolo_phase,
    phaser_phase :=
      if config.phaserDepth.gt (flit 0 1) then
        advance_phase st.phaser_phase config.phaserLfoFrequency sample_rate
      else st.phaser_phase,
    noise_seed := (noise_stage config osc.1 st.noise_seed).2,
    lowpass_filter := filtered.2.1,
    highpass_filter := filtered.2.2,
    samples :=
      Function.update st.samples i.toNat
        (output_stage L config sample_rate i st.tremolo_phase filtered.1) }

/-- The phase of the phaser when the iteration for sample `i` begins (audio.c lines 189 and
248): zero, advanced once for each earlier sample when the phaser is on. -/
def phaser_phase_at (config : pfxr_sound_t) : Nat → Flt
  | 0 => flit 0 1
  | i + 1 =>
    if config.phaserDepth.gt (flit 0 1) then
      advance_phase (phaser_phase_at config i) config.phaserLfoFrequency
        (binary32.ofInt PFXR_SAMPLE_RATE)
    else phaser_phase_at config i

/-- An arithmetic in which the envelope and the pitch sweep can be evaluated: the
operations and the comparisons `<` and `<=` of C, a division that may have no result, and
the decimal constants `num/den`. -/
structure checked_arith_t (α : Type) where
  add : α → α → α
  sub : α → α → α
  mul : α → α → α
  div : α → α → Option α
  lt : α → α → Bool
  le : α → α → Bool
  const : Nat → Nat → α

/-- The arithmetic of C `float`: every operation rounds to binary32, and every division has
a result, also one by zero. -/
def float_checked : checked_arith_t Flt :=
  { add := binary32.add, sub := binary32.sub, mul := binary32.mul,
    div := fun a b => some (binary32.div a b), lt := Flt.lt, le := Flt.le, const := flit }

/-- The exact arithmetic of the rational numbers, in which a division by zero has no
result. -/
def exact_checked : checked_arith_t ℚ :=
  { add := fun a b => a + b, sub := fun a b => a - b, mul := fun a b => a * b,
    div := fun a b => if b = 0 then none else some (a / b),
    lt := fun a b => decide (a < b), le := fun a b => decide (a ≤ b),
    const := fun num den => (num : ℚ) / den }

/-- The envelope of sample time `t` (audio.c lines 197-210) in the arithmetic `A`: `none`
when a division that it evaluates, `t / attackTime` in the attack branch or
`(t - attackTime - sustainTime) / decayTime` in the decay branch, has no result. -/
def envelope_formula {α : Type} (A : checked_arith_t α)
    (attackTime sustainTime decayTime sustainPunch t : α) : Option α :=
  let envelope : Option α :=
    if A.lt t attackTime then
      (A.div t attackTime).map fun q => A.mul (A.sub (A.const 1 1) sustainPunch) q
    else if A.lt t (A.add attackTime sustainTime) then some (A.const 1 1)
    else
      (A.div (A.sub (A.sub t attackTime) sustainTime) decayTime).map fun decay_t =>
        A.mul (A.sub (A.const 1 1) sustainPunch) (A.sub (A.const 1 1) decay_t)
  envelope.map fun e => if A.lt e (A.const 0 1) then A.const 0 1 else e

/-- The frequency after the pitch sweep at sample time `t` (audio.c lines 213-218) in the
arithmetic `A`: `none` when the division `(t - pitchDelay) / (duration - pitchDelay)`, which
the sweep evaluates for `pitchDelta != 0` and `t >= pitchDelay`, has no result. -/
def sweep_formula {α : Type} (A : checked_arith_t α)
    (frequency pitchDelta pitchDelay pitchDuration duration t : α) : Option α :=
  if !(A.le pitchDelta (A.const 0 1) && A.le (A.const 0 1) pitchDelta) && A.le pitchDelay t then
    (A.div (A.sub t pitchDelay) (A.sub duration pitchDelay)).map fun pitch_t0 =>
      A.add frequency
        (A.mul pitchDelta (if A.lt pitchDuration pitch_t0 then pitchDuration else pitch_t0))
  else some frequency

/-! # Theorems -/

/-! ## The generator step -/

theorem and_mask32 (a : Nat) : (a % 4294967296) &&& 0xffffffff = a % 4294967296 := by
  have h := Nat.and_pow_two_sub_one_eq_mod (a % 4294967296) 32
  norm_num at h
  exact h

theorem shiftRight_xor (a b k : Nat) : (a ^^^ b) >>> k = (a >>> k) ^^^ (b >>> k) := by
  apply Nat.eq_of_testBit_eq
  intro i
  simp [Nat.testBit_shiftRight, Nat.testBit_xor]

theorem shiftLeft_mod_xor (a b : Nat) :
    ((a ^^^ b) <<< 11) % 4294967296 = ((a <<< 11) % 4294967296) ^^^ ((b <<< 11) % 4294967296) := by
  apply Nat.eq_of_testBit_eq
  intro i
  have h32 : (4294967296 : Nat) = 2 ^ 32 := by norm_num
  rw [h32]
  simp only [Nat.testBit_mod_two_pow, Nat.testBit_xor, Nat.testBit_shiftLeft]
  by_cases h1 : i < 32 <;> by_cases h2 : 11 ≤ i <;> simp [h1, h2]

theorem xor_swap {a b c d : Nat} (h : a ^^^ b = c ^^^ d) : a ^^^ c = b ^^^ d := by
  apply Nat.xor_eq_zero.mp
  have h1 : (a ^^^ c) ^^^ (b ^^^ d) = (a ^^^ b) ^^^ (c ^^^ d) := by
    apply Nat.eq_of_testBit_eq
    intro i
    simp only [Nat.testBit_xor]
    cases a.testBit i <;> cases b.testBit i <;> cases c.testBit i <;> cases d.testBit i <;> rfl
  rw [h1, h, Nat.xor_self]

/-- The map `t ↦ t ^ (t >> 8)` is injective. -/
theorem xor_shiftRight8_inj {a b : Nat} (h : a ^^^ (a >>> 8) = b ^^^ (b >>> 8)) : a = b := by
  have h1 := xor_swap h
  rw [← shiftRight_xor] at h1
  have h2 : a ^^^ b = 0 := by
    have h3 := Nat.shiftRight_eq_div_pow (a ^^^ b) 8
    rw [h3] at h1
    omega
  exact Nat.xor_eq_zero.mp h2

/-- The map `w ↦ w ^ (w >> 19)` is injective. -/
theorem xor_shiftRight19_inj {a b : Nat} (h : a ^^^ (a >>> 19) = b ^^^ (b >>> 19)) : a = b := by
  have h1 := xor_swap h
  rw [← shiftRight_xor] at h1
  have h2 : a ^^^ b = 0 := by
    have h3 := Nat.shiftRight_eq_div_pow (a ^^^ b) 19
    rw [h3] at h1
    omega
  exact Nat.xor_eq_zero.mp h2

/-- The map `x ↦ x ^ (x << 11)` is injective on 32-bit words. -/
theorem xor_shiftLeft11_inj {a b : Nat} (ha : a < 4294967296) (hb : b < 4294967296)
    (h : a ^^^ ((a <<< 11) % 4294967296) = b ^^^ ((b <<< 11) % 4294967296)) : a = b := by
  have h1 := xor_swap h
  rw [← shiftLeft_mod_xor] at h1
  have hd : a ^^^ b < 4294967296 := by
    have := @Nat.xor_lt_two_pow a b 32 (by norm_num; exact ha) (by norm_num; exact hb)
    norm_num at this
    exact this
  have h2 : a ^^^ b = 0 := by
    rw [Nat.shiftLeft_eq] at h1
    norm_num at h1
    omega
  exact Nat.xor_eq_zero.mp h2

theorem xor_lt32 {a b : Nat} (ha : a < 4294967296) (hb : b < 4294967296) :
    a ^^^ b < 4294967296 := by
  have := @Nat.xor_lt_two_pow a b 32 (by norm_num; exact ha) (by norm_num; exact hb)
  norm_num at this
  exact this

theorem shiftRight_lt32 {a : Nat} (k : Nat) (ha : a < 4294967296) : a >>> k < 4294967296 := by
  rw [Nat.shiftRight_eq_div_pow]
  exact lt_of_le_of_lt (Nat.div_le_self a _) ha

/-- A step keeps every word of the state below `2^32`. -/
theorem pfxr_random_uint32_wf (r : pfxr_random_t) (h : r.wf) : (pfxr_random_uint32 r).2.wf := by
  obtain ⟨hs, hx, hy, hz, hw⟩ := h
  have ht : r.x ^^^ (((r.x <<< 11) % 4294967296) &&& 0xffffffff) < 4294967296 := by
    rw [and_mask32]
    exact xor_lt32 hx (Nat.mod_lt _ (by norm_num))
  refine ⟨hs, hy, hz, hw, ?_⟩
  exact xor_lt32 (xor_lt32 hw (shiftRight_lt32 19 hw)) (xor_lt32 ht (shiftRight_lt32 8 ht))

/-- The returned word is below `2^32`. -/
theorem pfxr_random_uint32_lt (r : pfxr_random_t) : (pfxr_random_uint32 r).1 < 4294967296 :=
  Nat.mod_lt _ (by norm_num)

/-- The successor state determines the state: a step is injective on 32-bit states. -/
theorem pfxr_random_uint32_inj (a b : pfxr_random_t) (ha : a.wf) (hb : b.wf)
    (h : (pfxr_random_uint32 a).2 = (pfxr_random_uint32 b).2) : a = b := by
  obtain ⟨sa, xa, ya, za, wa⟩ := a
  obtain ⟨sb, xb, yb, zb, wb⟩ := b
  obtain ⟨-, hxa, -, -, -⟩ := ha
  obtain ⟨-, hxb, -, -, -⟩ := hb
  simp only [pfxr_random_uint32, pfxr_random_t.mk.injEq] at h
  obtain ⟨hs, hy, hz, hw, hw1⟩ := h
  subst hs hy hz hw
  rw [Nat.xor_right_inj] at hw1
  have ht := xor_shiftRight8_inj hw1
  rw [and_mask32, and_mask32] at ht
  have hx := xor_shiftLeft11_inj hxa hxb ht
  subst hx
  rfl

theorem warm_up_wf (n : Nat) (r : pfxr_random_t) (h : r.wf) : (warm_up n r).wf := by
  induction n generalizing r with
  | zero => exact h
  | succ n ih => exact ih _ (pfxr_random_uint32_wf r h)

theorem warm_up_inj (n : Nat) (a b : pfxr_random_t) (ha : a.wf) (hb : b.wf)
    (h : warm_up n a = warm_up n b) : a = b := by
  induction n generalizing a b with
  | zero => exact h
  | succ n ih =>
    exact pfxr_random_uint32_inj a b ha hb
      (ih _ _ (pfxr_random_uint32_wf a ha) (pfxr_random_uint32_wf b hb) h)

theorem warm_up_seed (n : Nat) (r : pfxr_random_t) : (warm_up n r).seed = r.seed := by
  induction n generalizing r with
  | zero => rfl
  | succ n ih => rw [warm_up, ih]; rfl

theorem warm_up_eq_iterate (n : Nat) (r : pfxr_random_t) :
    warm_up n r = (fun s => (pfxr_random_uint32 s).2)^[n] r := by
  induction n generalizing r with
  | zero => rfl
  | succ n ih => rw [warm_up, ih, Function.iterate_succ_apply]

theorem toU32_lt (i : Int) : toU32 i < 4294967296 := by
  unfold toU32
  omega

theorem toU32_of_lt (n : Nat) (h : n < 4294967296) : toU32 (n : Int) = n := by
  unfold toU32
  omega

theorem and_mask32_of_lt (a : Nat) (h : a < 4294967296) : a &&& 0xffffffff = a := by
  have := and_mask32 a
  rwa [Nat.mod_eq_of_lt h] at this

theorem pfxr_random_init_start_wf (now : Int) (seed : Nat) (h : seed < 4294967296) :
    (pfxr_random_init_start now seed).wf := by
  unfold pfxr_random_init_start
  have hs : (if seed = 0 then toU32 now else seed) < 4294967296 := by
    split
    · exact toU32_lt now
    · exact h
  refine ⟨hs, ?_, by norm_num, by norm_num, by norm_num⟩
  show (if seed = 0 then toU32 now else seed) &&& 0xffffffff < 4294967296
  rw [and_mask32_of_lt _ hs]
  exact hs

/-- **C2.** One `pfxr_random_uint32` step on the 32-bit state `(x, y, z, w)` computes
`t = x ^ ((x << 11) mod 2^32)`, replaces the state by
`(y, z, w, w ^ (w >> 19) ^ t ^ (t >> 8))`, returns that new `w` plus `0x80000000` modulo
`2^32`, and the new `w` is again a 32-bit word. -/
theorem pfxr_random_uint32_spec (s x y z w : Nat) (hx : x < 4294967296)
    (hw : w < 4294967296) :
    pfxr_random_uint32 ⟨s, x, y, z, w⟩ =
        (((w ^^^ (w >>> 19) ^^^ (x ^^^ ((x <<< 11) % 4294967296)) ^^^
            ((x ^^^ ((x <<< 11) % 4294967296)) >>> 8)) + 0x80000000) % 4294967296,
          ⟨s, y, z, w, w ^^^ (w >>> 19) ^^^ (x ^^^ ((x <<< 11) % 4294967296)) ^^^
            ((x ^^^ ((x <<< 11) % 4294967296)) >>> 8)⟩) ∧
      w ^^^ (w >>> 19) ^^^ (x ^^^ ((x <<< 11) % 4294967296)) ^^^
        ((x ^^^ ((x <<< 11) % 4294967296)) >>> 8) < 4294967296 := by
  have ht : x ^^^ ((x <<< 11) % 4294967296) < 4294967296 :=
    xor_lt32 hx (Nat.mod_lt _ (by norm_num))
  constructor
  · simp only [pfxr_random_uint32, and_mask32, Nat.xor_assoc]
  · exact xor_lt32 (xor_lt32 (xor_lt32 hw (shiftRight_lt32 19 hw)) ht) (shiftRight_lt32 8 ht)

/-- The step of C2 evaluated on the state `(1, 2, 3, 4)`. -/
theorem pfxr_random_uint32_spec_witness :
    pfxr_random_uint32 ⟨7, 1, 2, 3, 4⟩ = (2147485709, ⟨7, 2, 3, 4, 2061⟩) ∧
      (2061 : Nat) < 4294967296 :=
  pfxr_random_uint32_spec 7 1 2 3 4 (by decide) (by decide)

/-- **C3.** For every 32-bit seed `s`, `pfxr_random_init` leaves the generator in the state
reached by exactly 32 `pfxr_random_uint32` steps from
`(x, y, z, w) = (s', 362436069, 521288629, 88675123)` and records `s'` in the seed field,
where `s' = s` when `s ≠ 0` and `s'` is the clock reading truncated to 32 bits when
`s = 0`. -/
theorem pfxr_random_init_spec (now : Int) (s : Nat) (hs : s < 4294967296) :
    pfxr_random_init now s =
        (fun r => (pfxr_random_uint32 r).2)^[32]
          ⟨if s = 0 then toU32 now else s, if s = 0 then toU32 now else s,
            362436069, 521288629, 88675123⟩ ∧
      (pfxr_random_init now s).seed = (if s = 0 then toU32 now else s) := by
  have hs1 : (if s = 0 then toU32 now else s) < 4294967296 := by
    split
    · exact toU32_lt now
    · exact hs
  have hstart : pfxr_random_init_start now s =
      ⟨if s = 0 then toU32 now else s, if s = 0 then toU32 now else s,
        362436069, 521288629, 88675123⟩ := by
    simp only [pfxr_random_init_start, and_mask32_of_lt _ hs1]
  constructor
  · rw [pfxr_random_init, warm_up_eq_iterate, hstart]
  · rw [pfxr_random_init, warm_up_seed, hstart]

/-- Seeding of C3 at seed 42 and at seed 0 with the clock at 1700000000. -/
theorem pfxr_random_init_spec_witness :
    (pfxr_random_init 5 42 =
        (fun r => (pfxr_random_uint32 r).2)^[32]
          ⟨if 42 = 0 then toU32 5 else 42, if 42 = 0 then toU32 5 else 42,
            362436069, 521288629, 88675123⟩ ∧
      (pfxr_random_init 5 42).seed = (if 42 = 0 then toU32 5 else 42)) ∧
    (pfxr_random_init 5 42).seed = 42 ∧ (pfxr_random_init 1700000000 0).seed = 1700000000 :=
  ⟨pfxr_random_init_spec 5 42 (by decide), by decide, by decide⟩

/-! ## Rounding to nearest -/

theorem rn_bounds (x : ℚ) : (rn x : ℚ) - 1 / 2 ≤ x ∧ x ≤ (rn x : ℚ) + 1 / 2 := by
  have h1 := Int.floor_le x
  have h2 := Int.lt_floor_add_one x
  unfold rn
  split_ifs <;> push_cast <;> constructor <;> linarith

theorem rn_intCast (k : ℤ) : rn (k : ℚ) = k := by
  unfold rn
  simp

theorem rn_mono {x y : ℚ} (h : x ≤ y) : rn x ≤ rn y := by
  by_contra hc
  push_neg at hc
  have hx := (rn_bounds x).1
  have hy := (rn_bounds y).2
  have h1 : (rn y : ℚ) + 1 ≤ rn x := by exact_mod_cast hc
  have hxy : x = y := le_antisymm h (by linarith)
  rw [hxy] at hc
  exact lt_irrefl _ hc

theorem rhe_eq_rn (n d : Nat) (hd : 0 < d) : (rhe n d : ℤ) = rn ((n : ℚ) / d) := by
  have hdq : (0 : ℚ) < d := by exact_mod_cast hd
  have hfl : ⌊(n : ℚ) / d⌋ = ((n / d : Nat) : ℤ) := by
    rw [Int.floor_eq_iff]
    constructor
    · rw [le_div_iff₀ hdq]
      have := Nat.div_mul_le_self n d
      exact_mod_cast this
    · rw [div_lt_iff₀ hdq]
      have := Nat.lt_div_mul_add hd (a := n)
      have h2 : n < (n / d + 1) * d := by rw [Nat.add_mul, one_mul]; exact this
      exact_mod_cast h2
  have hfrac : (n : ℚ) / d - ((n / d : Nat) : ℤ) = ((n % d : Nat) : ℚ) / d := by
    rw [eq_div_iff hdq.ne', sub_mul, div_mul_cancel₀ _ hdq.ne']
    have := Nat.div_add_mod n d
    have h3 : (n : ℚ) = (d : ℚ) * ((n / d : Nat) : ℚ) + ((n % d : Nat) : ℚ) := by exact_mod_cast this.symm
    rw [Int.cast_natCast]
    linarith
  unfold rn rhe
  rw [hfl, hfrac]
  have e1 : (2 * (((n % d : Nat) : ℚ) / d) < 1) ↔ 2 * (n % d) < d := by
    rw [← mul_div_assoc, div_lt_one hdq]
    exact_mod_cast Iff.rfl
  have e2 : (1 < 2 * (((n % d : Nat) : ℚ) / d)) ↔ d < 2 * (n % d) := by
    rw [← mul_div_assoc, one_lt_div hdq]
    exact_mod_cast Iff.rfl
  have e3 : (((n / d : Nat) : ℤ) % 2 = 0) ↔ (n / d) % 2 = 0 := by omega
  simp only [e1, e2, e3]
  split_ifs <;> simp

theorem lgAux_eq (fuel n : Nat) (h : n ≤ fuel) : lgAux fuel n = Nat.log 2 n := by
  induction fuel generalizing n with
  | zero =>
    have : n = 0 := by omega
    subst this; simp [lgAux]
  | succ fuel ih =>
    unfold lgAux
    split
    · rw [Nat.log_of_lt (by omega)]
    · rw [ih (n / 2) (by omega)]
      conv_rhs => rw [Nat.log_of_one_lt_of_le (by norm_num) (by omega : 2 ≤ n)]

theorem lg_spec (n : Nat) (h : 0 < n) : 2 ^ lg n ≤ n ∧ n < 2 ^ (lg n + 1) := by
  unfold lg
  rw [lgAux_eq n n le_rfl]
  exact ⟨Nat.pow_log_le_self 2 (by omega), Nat.lt_pow_succ_log_self (by norm_num) n⟩

theorem ilog2q_spec (num den : Nat) (hn : 0 < num) (hd : 0 < den) :
    (2 : ℚ) ^ ilog2q num den ≤ (num : ℚ) / den ∧
      (num : ℚ) / den < (2 : ℚ) ^ (ilog2q num den + 1) := by
  obtain ⟨ha1, ha2⟩ := lg_spec num hn
  obtain ⟨hb1, hb2⟩ := lg_spec den hd
  have hdq : (0 : ℚ) < den := by exact_mod_cast hd
  have hA : (0 : ℚ) < 2 ^ lg num := by positivity
  have hB : (0 : ℚ) < 2 ^ lg den := by positivity
  have ha1q : (2 : ℚ) ^ lg num ≤ num := by exact_mod_cast ha1
  have ha2q : (num : ℚ) < 2 * 2 ^ lg num := by
    have : num < 2 * 2 ^ lg num := by rw [pow_succ] at ha2; omega
    exact_mod_cast this
  have hb1q : (2 : ℚ) ^ lg den ≤ den := by exact_mod_cast hb1
  have hb2q : (den : ℚ) < 2 * 2 ^ lg den := by
    have : den < 2 * 2 ^ lg den := by rw [pow_succ] at hb2; omega
    exact_mod_cast this
  have two : (2 : ℚ) ≠ 0 := by norm_num
  have hsub : (2 : ℚ) ^ ((lg num : ℤ) - (lg den : ℤ)) = 2 ^ lg num / 2 ^ lg den := by
    rw [zpow_sub₀ two, zpow_natCast, zpow_natCast]
  unfold ilog2q
  split_ifs with hc
  · have hcq : (num : ℚ) * 2 ^ lg den < den * 2 ^ lg num := by exact_mod_cast hc
    have e1 : (2 : ℚ) ^ ((lg num : ℤ) - (lg den : ℤ) - 1) = 2 ^ lg num / 2 ^ lg den / 2 := by
      rw [zpow_sub₀ two, hsub, zpow_one]
    have e2 : (2 : ℚ) ^ ((lg num : ℤ) - (lg den : ℤ) - 1 + 1) = 2 ^ lg num / 2 ^ lg den := by
      rw [sub_add_cancel, hsub]
    rw [e1, e2]
    constructor
    · rw [div_div, div_le_div_iff₀ (by positivity) hdq]
      nlinarith
    · rw [div_lt_div_iff₀ hdq hB]
      linarith
  · have hcq : (den : ℚ) * 2 ^ lg num ≤ num * 2 ^ lg den := by
      push_neg at hc
      exact_mod_cast hc
    have e2 : (2 : ℚ) ^ ((lg num : ℤ) - (lg den : ℤ) - 0 + 1) = 2 * 2 ^ lg num / 2 ^ lg den := by
      rw [sub_zero, zpow_add₀ two, hsub, zpow_one]
      ring
    rw [e2, sub_zero, hsub]
    constructor
    · rw [div_le_div_iff₀ hB hdq]
      linarith
    · rw [div_lt_div_iff₀ hdq hB]
      nlinarith

theorem zpow_two_pos (e : Int) : (0 : ℚ) < (2 : ℚ) ^ e := by positivity

theorem zpow_two_le {a b : Int} (h : a ≤ b) : (2 : ℚ) ^ a ≤ (2 : ℚ) ^ b :=
  zpow_le_zpow_right₀ (by norm_num) h

theorem zpow_two_lt_imp {a b : Int} (h : (2 : ℚ) ^ a < (2 : ℚ) ^ b) : a < b := by
  by_contra hc
  push_neg at hc
  exact absurd (zpow_two_le hc) (not_le.mpr h)

theorem round_RD (f : Fmt) (neg : Bool) (num den : Nat) (ex : Int) (hn : 0 < num)
    (hd : 0 < den) :
    ∃ m e, RD f ((num : ℚ) / den * (2 : ℚ) ^ ex) m e ∧ f.round neg num den ex = f.pack neg m e := by
  obtain ⟨h1, h2⟩ := ilog2q_spec num den hn hd
  have two : (2 : ℚ) ≠ 0 := by norm_num
  have hdq : (0 : ℚ) < den := by exact_mod_cast hd
  set e := max (ilog2q num den + ex - ((f.prec : Int) - 1)) f.emin with he
  set n1 := if 0 ≤ ex - e then num * 2 ^ (ex - e).toNat else num with hn1
  set d1 := if 0 ≤ ex - e then den else den * 2 ^ (-(ex - e)).toNat with hd1
  have hd1pos : 0 < d1 := by
    rw [hd1]; split_ifs
    · exact hd
    · positivity
  refine ⟨rhe n1 d1, e, ⟨ilog2q num den + ex, ?_, ?_, ?_, ?_⟩, ?_⟩
  · rw [zpow_add₀ two]
    exact mul_le_mul_of_nonneg_right h1 (zpow_two_pos ex).le
  · rw [add_right_comm, zpow_add₀ two]
    exact mul_lt_mul_of_pos_right h2 (zpow_two_pos ex)
  · rfl
  · rw [rhe_eq_rn n1 d1 hd1pos]
    congr 1
    have hsplit : (2 : ℚ) ^ ex / (2 : ℚ) ^ e = (2 : ℚ) ^ (ex - e) := by rw [zpow_sub₀ two]
    rw [mul_div_assoc, hsplit, hn1, hd1]
    split_ifs with hs
    · have : ((2 : ℚ) ^ (ex - e)) = (2 : ℚ) ^ ((ex - e).toNat) := by
        rw [← zpow_natCast, Int.toNat_of_nonneg hs]
      rw [this]; push_cast; ring
    · have hs' : 0 ≤ -(ex - e) := by omega
      have : ((2 : ℚ) ^ (ex - e)) = ((2 : ℚ) ^ ((-(ex - e)).toNat))⁻¹ := by
        rw [← zpow_natCast, Int.toNat_of_nonneg hs', zpow_neg, inv_inv]
      rw [this]; push_cast; field_simp
  · unfold Fmt.round
    rw [if_neg (by omega)]

theorem RD_pos {f : Fmt} {x : ℚ} {m : Nat} {e : Int} (h : RD f x m e) : 0 < x := by
  obtain ⟨E, h1, -, -, -⟩ := h
  exact lt_of_lt_of_le (zpow_two_pos E) h1

theorem RD_unique {f : Fmt} {x : ℚ} {m m1 : Nat} {e e1 : Int} (h : RD f x m e)
    (h1 : RD f x m1 e1) : m = m1 ∧ e = e1 := by
  obtain ⟨E, a1, a2, a3, a4⟩ := h
  obtain ⟨E1, b1, b2, b3, b4⟩ := h1
  have c1 : E < E1 + 1 := zpow_two_lt_imp (lt_of_le_of_lt a1 b2)
  have c2 : E1 < E + 1 := zpow_two_lt_imp (lt_of_le_of_lt b1 a2)
  have hE : E = E1 := by omega
  subst hE
  have he : e = e1 := by rw [a3, b3]
  subst he
  refine ⟨?_, rfl⟩
  have : (m : Int) = m1 := by rw [a4, b4]
  exact_mod_cast this

theorem pow_pred_mul_two (p : Nat) (hp : 1 ≤ p) : (2 : ℚ) ^ (p - 1) * 2 = 2 ^ p := by
  obtain ⟨k, rfl⟩ : ∃ k, p = k + 1 := ⟨p - 1, by omega⟩
  simp [pow_succ]

theorem RD_inv {f : Fmt} {x : ℚ} {m : Nat} {e : Int} (hf : f.ok) (h : RD f x m e) :
    m ≤ 2 ^ f.prec ∧ f.emin ≤ e ∧ (2 ^ (f.prec - 1) ≤ m ∨ e = f.emin) := by
  obtain ⟨E, a1, a2, a3, a4⟩ := h
  have two : (2 : ℚ) ≠ 0 := by norm_num
  have he1 : E - ((f.prec : Int) - 1) ≤ e := by rw [a3]; exact le_max_left _ _
  have he2 : f.emin ≤ e := by rw [a3]; exact le_max_right _ _
  have hp := hf.1
  have hpos := zpow_two_pos e
  refine ⟨?_, he2, ?_⟩
  · have hx : x / (2 : ℚ) ^ e ≤ ((2 ^ f.prec : Nat) : Int) := by
      rw [div_le_iff₀ hpos]
      push_cast
      have : (2 : ℚ) ^ (E + 1) ≤ 2 ^ f.prec * 2 ^ e := by
        rw [← zpow_natCast, ← zpow_add₀ two]
        exact zpow_two_le (by omega)
      linarith
    have := rn_mono hx
    rw [rn_intCast, ← a4] at this
    exact_mod_cast this
  · rcases max_choice (E - ((f.prec : Int) - 1)) f.emin with hc | hc
    · left
      rw [hc] at a3
      have hx : (((2 ^ (f.prec - 1) : Nat) : Int) : ℚ) ≤ x / (2 : ℚ) ^ e := by
        rw [le_div_iff₀ hpos]
        push_cast
        have : (2 : ℚ) ^ (f.prec - 1) * 2 ^ e ≤ 2 ^ E := by
          rw [← zpow_natCast, ← zpow_add₀ two]
          exact zpow_two_le (by rw [a3]; omega)
        linarith
      have := rn_mono hx
      rw [rn_intCast, ← a4] at this
      exact_mod_cast this
    · right
      rw [a3, hc]

theorem RD_mono {f : Fmt} {x y : ℚ} {m m1 : Nat} {e e1 : Int} (hf : f.ok) (hx : RD f x m e)
    (hy : RD f y m1 e1) (hxy : x ≤ y) : (m : ℚ) * (2 : ℚ) ^ e ≤ (m1 : ℚ) * (2 : ℚ) ^ e1 := by
  have ix := RD_inv hf hx
  have hp := hf.1
  obtain ⟨E, a1, a2, a3, a4⟩ := hx
  obtain ⟨E1, b1, b2, b3, b4⟩ := hy
  have two : (2 : ℚ) ≠ 0 := by norm_num
  have hE : E < E1 + 1 := zpow_two_lt_imp (lt_of_le_of_lt a1 (lt_of_le_of_lt hxy b2))
  have hee : e ≤ e1 := by
    rw [a3, b3]
    exact max_le_max (by omega) le_rfl
  rcases eq_or_lt_of_le hee with heq | hlt
  · subst heq
    have : x / (2 : ℚ) ^ e ≤ y / (2 : ℚ) ^ e :=
      div_le_div_of_nonneg_right hxy (zpow_two_pos e).le
    have h3 := rn_mono this
    rw [← a4, ← b4] at h3
    have h4 : (m : ℚ) ≤ m1 := by exact_mod_cast h3
    exact mul_le_mul_of_nonneg_right h4 (zpow_two_pos e).le
  · have he1 : e1 = E1 - ((f.prec : Int) - 1) := by
      rcases max_choice (E1 - ((f.prec : Int) - 1)) f.emin with hc | hc
      · rw [b3, hc]
      · rw [hc] at b3
        have := ix.2.1
        omega
    have hm1 : (((2 ^ (f.prec - 1) : Nat) : Int) : ℚ) ≤ y / (2 : ℚ) ^ e1 := by
      rw [le_div_iff₀ (zpow_two_pos e1)]
      push_cast
      have : (2 : ℚ) ^ (f.prec - 1) * 2 ^ e1 ≤ 2 ^ E1 := by
        rw [← zpow_natCast, ← zpow_add₀ two]
        exact zpow_two_le (by omega)
      linarith
    have h5 := rn_mono hm1
    rw [rn_intCast, ← b4] at h5
    have h6 : ((2 : ℚ) ^ (f.prec - 1)) ≤ m1 := by exact_mod_cast h5
    have h7 : (m : ℚ) ≤ 2 ^ f.prec := by exact_mod_cast ix.1
    calc (m : ℚ) * (2 : ℚ) ^ e ≤ 2 ^ f.prec * (2 : ℚ) ^ e :=
          mul_le_mul_of_nonneg_right h7 (zpow_two_pos e).le
      _ ≤ 2 ^ (f.prec - 1) * (2 : ℚ) ^ e1 := by
          rw [← zpow_natCast, ← zpow_natCast, ← zpow_add₀ two, ← zpow_add₀ two]
          exact zpow_two_le (by omega)
      _ ≤ (m1 : ℚ) * (2 : ℚ) ^ e1 := mul_le_mul_of_nonneg_right h6 (zpow_two_pos e1).le

theorem lg_of_canon_normal {p m : Nat} (hp : 1 ≤ p) (h1 : 2 ^ (p - 1) ≤ m) (h2 : m < 2 ^ p) :
    lg m = p - 1 := by
  have hm : 0 < m := lt_of_lt_of_le (by positivity) h1
  obtain ⟨a, b⟩ := lg_spec m hm
  have c1 : lg m < p := (Nat.pow_lt_pow_iff_right (by norm_num)).mp (lt_of_le_of_lt a h2)
  have c2 : p - 1 < lg m + 1 :=
    (Nat.pow_lt_pow_iff_right (by norm_num)).mp (lt_of_le_of_lt h1 b)
  omega

theorem lg_lt_of_lt_pow {k m : Nat} (hm : 0 < m) (h : m < 2 ^ k) : lg m < k :=
  (Nat.pow_lt_pow_iff_right (by norm_num)).mp (lt_of_le_of_lt (lg_spec m hm).1 h)

theorem RD_exact {f : Fmt} {m : Nat} {e : Int} (hf : f.ok) (hm : 0 < m) (hc : f.canon m e) :
    RD f ((m : ℚ) * (2 : ℚ) ^ e) m e := by
  obtain ⟨c1, c2, c3, c4⟩ := hc
  obtain ⟨a, b⟩ := lg_spec m hm
  have two : (2 : ℚ) ≠ 0 := by norm_num
  have hp := hf.1
  refine ⟨(lg m : Int) + e, ?_, ?_, ?_, ?_⟩
  · rw [zpow_add₀ two, zpow_natCast]
    have : ((2 : ℚ) ^ lg m) ≤ m := by exact_mod_cast a
    exact mul_le_mul_of_nonneg_right this (zpow_two_pos e).le
  · rw [add_right_comm, zpow_add₀ two]
    have : (m : ℚ) < (2 : ℚ) ^ ((lg m : Int) + 1) := by
      rw [show ((lg m : Int) + 1) = ((lg m + 1 : Nat) : Int) by push_cast; rfl, zpow_natCast]
      exact_mod_cast b
    exact mul_lt_mul_of_pos_right this (zpow_two_pos e)
  · rcases c4 with h | h
    · have := lg_of_canon_normal hp h c1
      rw [this, max_eq_left]
      · omega
      · omega
    · have hl := lg_lt_of_lt_pow hm c1
      rw [h, max_eq_right]
      omega
  · rw [mul_div_assoc, div_self (zpow_two_pos e).ne', mul_one]
    have := rn_intCast (m : Int)
    rw [Int.cast_natCast] at this
    exact this.symm

theorem canon_lt_omega {f : Fmt} {m : Nat} {e : Int} (hc : f.canon m e) :
    (m : ℚ) * (2 : ℚ) ^ e < (2 : ℚ) ^ ((f.prec : Int) + f.emax) := by
  obtain ⟨c1, c2, c3, c4⟩ := hc
  have two : (2 : ℚ) ≠ 0 := by norm_num
  have h1 : (m : ℚ) < (2 : ℚ) ^ ((f.prec : Int)) := by
    rw [zpow_natCast]; exact_mod_cast c1
  calc (m : ℚ) * (2 : ℚ) ^ e < (2 : ℚ) ^ ((f.prec : Int)) * (2 : ℚ) ^ e :=
        mul_lt_mul_of_pos_right h1 (zpow_two_pos e)
    _ ≤ (2 : ℚ) ^ ((f.prec : Int) + f.emax) := by
        rw [← zpow_add₀ two]
        exact zpow_two_le (by omega)

theorem pack_fin {f : Fmt} (neg : Bool) {m : Nat} {e : Int} (hf : f.ok) (h1 : m ≤ 2 ^ f.prec)
    (h2 : f.emin ≤ e) (h3 : 2 ^ (f.prec - 1) ≤ m ∨ e = f.emin)
    (hlt : (m : ℚ) * (2 : ℚ) ^ e < (2 : ℚ) ^ ((f.prec : Int) + f.emax)) :
    ∃ m1 e1, f.pack neg m e = Flt.fin neg m1 e1 ∧ f.canon m1 e1 ∧
      (m1 : ℚ) * (2 : ℚ) ^ e1 = (m : ℚ) * (2 : ℚ) ^ e := by
  have two : (2 : ℚ) ≠ 0 := by norm_num
  have hp := hf.1
  have he := hf.2
  unfold Fmt.pack
  by_cases hm : m = 2 ^ f.prec
  · simp only [hm, if_true]
    have hval : ((2 ^ f.prec : Nat) : ℚ) * (2 : ℚ) ^ e = (2 : ℚ) ^ ((f.prec : Int) + e) := by
      push_cast
      rw [zpow_add₀ two, zpow_natCast]
    have hee : e < f.emax := by
      rw [hm, hval] at hlt
      have := zpow_two_lt_imp hlt
      omega
    rw [if_neg (by omega)]
    refine ⟨_, _, rfl, ⟨?_, by omega, by omega, Or.inl le_rfl⟩, ?_⟩
    · exact Nat.pow_lt_pow_right (by norm_num) (by omega)
    · rw [hval]
      push_cast
      rw [← zpow_natCast, ← zpow_add₀ two]
      congr 1
      omega
  · simp only [hm, if_false]
    have hmlt : m < 2 ^ f.prec := lt_of_le_of_ne h1 hm
    have hee : e ≤ f.emax := by
      by_contra hc
      push_neg at hc
      rcases h3 with h | h
      · have hq : ((2 : ℚ) ^ (f.prec - 1)) ≤ m := by exact_mod_cast h
        have : (2 : ℚ) ^ ((f.prec : Int) + f.emax) ≤ (m : ℚ) * (2 : ℚ) ^ e := by
          calc (2 : ℚ) ^ ((f.prec : Int) + f.emax)
              ≤ (2 : ℚ) ^ (((f.prec - 1 : Nat) : Int) + e) := zpow_two_le (by omega)
            _ = (2 : ℚ) ^ (f.prec - 1) * (2 : ℚ) ^ e := by rw [zpow_add₀ two, zpow_natCast]
            _ ≤ (m : ℚ) * (2 : ℚ) ^ e := mul_le_mul_of_nonneg_right hq (zpow_two_pos e).le
        exact absurd hlt (not_lt.mpr this)
      · omega
    rw [if_neg (by omega)]
    exact ⟨_, _, rfl, ⟨hmlt, h2, hee, h3⟩, rfl⟩

theorem pack_inf {f : Fmt} (neg : Bool) {m : Nat} {e : Int} (h1 : m ≤ 2 ^ f.prec)
    (hge : (2 : ℚ) ^ ((f.prec : Int) + f.emax) ≤ (m : ℚ) * (2 : ℚ) ^ e) :
    f.pack neg m e = Flt.inf neg := by
  have two : (2 : ℚ) ≠ 0 := by norm_num
  unfold Fmt.pack
  by_cases hm : m = 2 ^ f.prec
  · simp only [hm, if_true]
    have hval : ((2 ^ f.prec : Nat) : ℚ) * (2 : ℚ) ^ e = (2 : ℚ) ^ ((f.prec : Int) + e) := by
      push_cast
      rw [zpow_add₀ two, zpow_natCast]
    rw [hm, hval] at hge
    have : f.emax ≤ e := by
      by_contra hc
      push_neg at hc
      have : (2 : ℚ) ^ ((f.prec : Int) + e) < (2 : ℚ) ^ ((f.prec : Int) + f.emax) :=
        zpow_lt_zpow_right₀ (by norm_num) (by omega)
      exact absurd hge (not_le.mpr this)
    rw [if_pos (by omega)]
  · simp only [hm, if_false]
    have hmlt : m < 2 ^ f.prec := lt_of_le_of_ne h1 hm
    have : f.emax < e := by
      by_contra hc
      push_neg at hc
      have h1 : (m : ℚ) < (2 : ℚ) ^ ((f.prec : Int)) := by
        rw [zpow_natCast]; exact_mod_cast hmlt
      have : (m : ℚ) * (2 : ℚ) ^ e < (2 : ℚ) ^ ((f.prec : Int) + f.emax) := by
        calc (m : ℚ) * (2 : ℚ) ^ e < (2 : ℚ) ^ ((f.prec : Int)) * (2 : ℚ) ^ e :=
              mul_lt_mul_of_pos_right h1 (zpow_two_pos e)
          _ ≤ (2 : ℚ) ^ ((f.prec : Int) + f.emax) := by
              rw [← zpow_add₀ two]
              exact zpow_two_le (by omega)
      exact absurd hge (not_le.mpr this)
    rw [if_pos this]

/-! ## Rounding against representable bounds -/

theorem round_cases (f : Fmt) (hf : f.ok) (neg : Bool) (num den : Nat) (ex : Int)
    (hd : 0 < den) :
    f.round neg num den ex = Flt.inf neg ∨
      ∃ m e, f.round neg num den ex = Flt.fin neg m e ∧ f.canon m e := by
  by_cases hn : num = 0
  · right
    refine ⟨0, f.emin, ?_, ?_⟩
    · unfold Fmt.round; rw [if_pos hn]
    · exact ⟨by positivity, le_rfl, hf.2, Or.inr rfl⟩
  · obtain ⟨m, e, hrd, hr⟩ := round_RD f neg num den ex (Nat.pos_of_ne_zero hn) hd
    obtain ⟨i1, i2, i3⟩ := RD_inv hf hrd
    rw [hr]
    by_cases hlt : (m : ℚ) * (2 : ℚ) ^ e < (2 : ℚ) ^ ((f.prec : Int) + f.emax)
    · obtain ⟨m1, e1, h1, h2, -⟩ := pack_fin neg hf i1 i2 i3 hlt
      exact Or.inr ⟨m1, e1, h1, h2⟩
    · exact Or.inl (pack_inf neg i1 (not_lt.mp hlt))

/-- Rounding a value that is at most a representable number gives a finite number that is
at most that number. -/
theorem round_le_canon (f : Fmt) (hf : f.ok) (neg : Bool) (num den : Nat) (ex : Int)
    (hn : 0 < num) (hd : 0 < den) (m : Nat) (e : Int) (hc : f.canon m e)
    (hle : (num : ℚ) / den * (2 : ℚ) ^ ex ≤ (m : ℚ) * (2 : ℚ) ^ e) :
    ∃ m1 e1, f.round neg num den ex = Flt.fin neg m1 e1 ∧ f.canon m1 e1 ∧
      (m1 : ℚ) * (2 : ℚ) ^ e1 ≤ (m : ℚ) * (2 : ℚ) ^ e := by
  obtain ⟨m0, e0, hrd, hr⟩ := round_RD f neg num den ex hn hd
  obtain ⟨i1, i2, i3⟩ := RD_inv hf hrd
  have hxpos := RD_pos hrd
  have hm : 0 < m := by
    rcases Nat.eq_zero_or_pos m with h | h
    · rw [h] at hle; simp at hle; linarith
    · exact h
  have hmono := RD_mono hf hrd (RD_exact hf hm hc) hle
  have hlt := lt_of_le_of_lt hmono (canon_lt_omega hc)
  obtain ⟨m1, e1, h1, h2, h3⟩ := pack_fin neg hf i1 i2 i3 hlt
  exact ⟨m1, e1, by rw [hr, h1], h2, by rw [h3]; exact hmono⟩

/-- Rounding a value that is at least a representable number gives infinity or a finite
number that is at least that number. -/
theorem round_ge_canon (f : Fmt) (hf : f.ok) (neg : Bool) (num den : Nat) (ex : Int)
    (hn : 0 < num) (hd : 0 < den) (m : Nat) (e : Int) (hc : f.canon m e)
    (hge : (m : ℚ) * (2 : ℚ) ^ e ≤ (num : ℚ) / den * (2 : ℚ) ^ ex) :
    f.round neg num den ex = Flt.inf neg ∨
      ∃ m1 e1, f.round neg num den ex = Flt.fin neg m1 e1 ∧ f.canon m1 e1 ∧
        (m : ℚ) * (2 : ℚ) ^ e ≤ (m1 : ℚ) * (2 : ℚ) ^ e1 := by
  obtain ⟨m0, e0, hrd, hr⟩ := round_RD f neg num den ex hn hd
  obtain ⟨i1, i2, i3⟩ := RD_inv hf hrd
  by_cases hlt : (m0 : ℚ) * (2 : ℚ) ^ e0 < (2 : ℚ) ^ ((f.prec : Int) + f.emax)
  · right
    obtain ⟨m1, e1, h1, h2, h3⟩ := pack_fin neg hf i1 i2 i3 hlt
    refine ⟨m1, e1, by rw [hr, h1], h2, ?_⟩
    rw [h3]
    rcases Nat.eq_zero_or_pos m with h | h
    · rw [h]; simp; positivity
    · exact RD_mono hf (RD_exact hf h hc) hrd hge
  · exact Or.inl (by rw [hr]; exact pack_inf neg i1 (not_lt.mp hlt))

/-- Rounding is the identity on representable numbers. -/
theorem round_exact (f : Fmt) (hf : f.ok) (neg : Bool) (num den : Nat) (ex : Int)
    (hn : 0 < num) (hd : 0 < den) (m : Nat) (e : Int) (hc : f.canon m e)
    (heq : (num : ℚ) / den * (2 : ℚ) ^ ex = (m : ℚ) * (2 : ℚ) ^ e) :
    f.round neg num den ex = Flt.fin neg m e := by
  obtain ⟨m0, e0, hrd, hr⟩ := round_RD f neg num den ex hn hd
  have hxpos := RD_pos hrd
  have hm : 0 < m := by
    rcases Nat.eq_zero_or_pos m with h | h
    · rw [h] at heq; simp at heq
      rcases heq with h1 | h1
      · have : (num : ℚ) = 0 ∨ (den : ℚ) = 0 := by simpa using h1
        rcases this with h2 | h2
        · have : num = 0 := by exact_mod_cast h2
          omega
        · have : den = 0 := by exact_mod_cast h2
          omega
      · exact absurd h1 (zpow_two_pos ex).ne'
    · exact h
  have hex := RD_exact hf hm hc
  rw [heq] at hrd
  obtain ⟨e1, e2⟩ := RD_unique hrd hex
  subst e1 e2
  rw [hr]
  unfold Fmt.pack
  obtain ⟨c1, c2, c3, c4⟩ := hc
  rw [if_neg (by omega), if_neg (by omega), if_neg (by omega)]

/-! ## Signed rounding and comparisons -/

theorem toRat_fin (s : Bool) (m : Nat) (e : Int) :
    (Flt.fin s m e).toRat = sq s * ((m : ℚ) * (2 : ℚ) ^ e) := by
  simp [Flt.toRat, sq, mul_assoc]

theorem ev_of_isFin {f : Fmt} {a : Flt} (h : a.IsFin f) : f.ev a = a.toRat := by
  cases a with
  | nan => exact absurd h id
  | inf s => exact absurd h id
  | fin s m e => rw [toRat_fin]; rfl

theorem isFin_reg {f : Fmt} {a : Flt} (h : a.IsFin f) : a.Reg f := by
  cases a with
  | nan => exact absurd h id
  | inf s => trivial
  | fin s m e => exact h

theorem sq_cases (s : Bool) : sq s = 1 ∨ sq s = -1 := by
  cases s <;> simp [sq]

theorem omega_pos (f : Fmt) : 0 < f.omega := zpow_two_pos _

/-- The extended value of a rounding carries the sign of the sign bit. -/
theorem ev_round_sign (f : Fmt) (neg : Bool) (num den : Nat) (ex : Int) :
    f.ev (f.round neg num den ex) = sq neg * f.ev (f.round false num den ex) := by
  unfold Fmt.round
  split_ifs
  · simp [Fmt.ev, sq]
  · simp only [Fmt.pack]
    split_ifs <;> simp [Fmt.ev, sq]

theorem ev_round_eq (f : Fmt) (hf : f.ok) (num den : Nat) (ex : Int) (hn : 0 < num)
    (hd : 0 < den) :
    ∃ m e, RD f ((num : ℚ) / den * (2 : ℚ) ^ ex) m e ∧
      f.ev (f.round false num den ex) = min ((m : ℚ) * (2 : ℚ) ^ e) f.omega := by
  obtain ⟨m, e, hrd, hr⟩ := round_RD f false num den ex hn hd
  obtain ⟨i1, i2, i3⟩ := RD_inv hf hrd
  refine ⟨m, e, hrd, ?_⟩
  rw [hr]
  by_cases hlt : (m : ℚ) * (2 : ℚ) ^ e < f.omega
  · obtain ⟨m1, e1, h1, h2, h3⟩ := pack_fin false hf i1 i2 i3 hlt
    rw [h1, min_eq_left (le_of_lt hlt)]
    simp [Fmt.ev, sq, h3]
  · rw [pack_inf false i1 (not_lt.mp hlt), min_eq_right (not_lt.mp hlt)]
    simp [Fmt.ev, sq]

theorem ev_round_nonneg (f : Fmt) (hf : f.ok) (num den : Nat) (ex : Int) (hd : 0 < den) :
    0 ≤ f.ev (f.round false num den ex) := by
  rcases Nat.eq_zero_or_pos num with h | h
  · unfold Fmt.round; rw [if_pos h]; simp [Fmt.ev]
  · obtain ⟨m, e, -, h2⟩ := ev_round_eq f hf num den ex h hd
    rw [h2]
    exact le_min (by positivity) (omega_pos f).le

/-- Rounding of magnitudes is monotone. -/
theorem ev_round_mono (f : Fmt) (hf : f.ok) (n1 d1 : Nat) (x1 : Int) (n2 d2 : Nat) (x2 : Int)
    (hd1 : 0 < d1) (hd2 : 0 < d2)
    (h : (n1 : ℚ) / d1 * (2 : ℚ) ^ x1 ≤ (n2 : ℚ) / d2 * (2 : ℚ) ^ x2) :
    f.ev (f.round false n1 d1 x1) ≤ f.ev (f.round false n2 d2 x2) := by
  rcases Nat.eq_zero_or_pos n1 with h1 | h1
  · have : f.ev (f.round false n1 d1 x1) = 0 := by
      unfold Fmt.round; rw [if_pos h1]; simp [Fmt.ev]
    rw [this]
    exact ev_round_nonneg f hf n2 d2 x2 hd2
  · obtain ⟨m, e, hrd, he⟩ := ev_round_eq f hf n1 d1 x1 h1 hd1
    have hxpos := RD_pos hrd
    have h2 : 0 < n2 := by
      rcases Nat.eq_zero_or_pos n2 with h2 | h2
      · rw [h2] at h; simp at h; linarith
      · exact h2
    obtain ⟨m', e', hrd', he'⟩ := ev_round_eq f hf n2 d2 x2 h2 hd2
    rw [he, he']
    exact min_le_min (RD_mono hf hrd hrd' h) le_rfl

theorem round_reg (f : Fmt) (hf : f.ok) (neg : Bool) (num den : Nat) (ex : Int)
    (hd : 0 < den) : (f.round neg num den ex).Reg f := by
  rcases round_cases f hf neg num den ex hd with h | ⟨m, e, h, hc⟩
  · rw [h]; trivial
  · rw [h]; exact hc

theorem rounded_reg {f : Fmt} (hf : f.ok) {q : ℚ} {r : Flt} (h : Rounded f q r) : r.Reg f := by
  obtain ⟨neg, num, den, ex, hd, hr, -⟩ := h
  rw [hr]
  exact round_reg f hf neg num den ex hd

/-- Rounding is monotone: a smaller exact value has a smaller (extended) rounded value. -/
theorem rounded_mono {f : Fmt} (hf : f.ok) {q1 q2 : ℚ} {r1 r2 : Flt} (h1 : Rounded f q1 r1)
    (h2 : Rounded f q2 r2) (h : q1 ≤ q2) : f.ev r1 ≤ f.ev r2 := by
  obtain ⟨s1, n1, d1, x1, hd1, hr1, hq1⟩ := h1
  obtain ⟨s2, n2, d2, x2, hd2, hr2, hq2⟩ := h2
  rw [hr1, hr2, ev_round_sign f s1, ev_round_sign f s2]
  have p1 := ev_round_nonneg f hf n1 d1 x1 hd1
  have p2 := ev_round_nonneg f hf n2 d2 x2 hd2
  have y1 : 0 ≤ (n1 : ℚ) / d1 * (2 : ℚ) ^ x1 := by positivity
  have y2 : 0 ≤ (n2 : ℚ) / d2 * (2 : ℚ) ^ x2 := by positivity
  rw [← hq1, ← hq2] at h
  cases s1 <;> cases s2 <;> simp only [sq, if_true, if_false, Bool.false_eq_true] at h ⊢
  · have := ev_round_mono f hf n1 d1 x1 n2 d2 x2 hd1 hd2 (by linarith)
    linarith
  · have e1 : (n1 : ℚ) / d1 * (2 : ℚ) ^ x1 ≤ (0 : ℚ) / 1 * (2 : ℚ) ^ (0 : Int) := by
      simp; linarith
    have e2 : (n2 : ℚ) / d2 * (2 : ℚ) ^ x2 ≤ (0 : ℚ) / 1 * (2 : ℚ) ^ (0 : Int) := by
      simp; linarith
    have z : f.ev (f.round false 0 1 0) = 0 := by
      unfold Fmt.round; simp [Fmt.ev]
    have a1 := ev_round_mono f hf n1 d1 x1 0 1 0 hd1 (by norm_num) (by exact_mod_cast e1)
    have a2 := ev_round_mono f hf n2 d2 x2 0 1 0 hd2 (by norm_num) (by exact_mod_cast e2)
    rw [z] at a1 a2
    linarith
  · linarith
  · have := ev_round_mono f hf n2 d2 x2 n1 d1 x1 hd2 hd1 (by linarith)
    linarith

theorem sgn_scaled (s : Bool) (m : Nat) (e e0 : Int) (h : e0 ≤ e) :
    ((sgn s (m * 2 ^ (e - e0).toNat) : Int) : ℚ) * (2 : ℚ) ^ e0 =
      sq s * ((m : ℚ) * (2 : ℚ) ^ e) := by
  have two : (2 : ℚ) ≠ 0 := by norm_num
  have h1 : ((2 : ℚ) ^ (e - e0).toNat) * (2 : ℚ) ^ e0 = (2 : ℚ) ^ e := by
    rw [← zpow_natCast, Int.toNat_of_nonneg (by omega), ← zpow_add₀ two]
    congr 1; omega
  cases s <;> simp only [sgn, sq, if_true, if_false, Bool.false_eq_true] <;> push_cast <;>
    rw [← h1] <;> ring

theorem le_fin_iff (s : Bool) (ma : Nat) (ea : Int) (t : Bool) (mb : Nat) (eb : Int) :
    (Flt.fin s ma ea).le (Flt.fin t mb eb) = true ↔
      sq s * ((ma : ℚ) * (2 : ℚ) ^ ea) ≤ sq t * ((mb : ℚ) * (2 : ℚ) ^ eb) := by
  simp only [Flt.le, decide_eq_true_eq]
  rw [← sgn_scaled s ma ea (min ea eb) (min_le_left _ _),
    ← sgn_scaled t mb eb (min ea eb) (min_le_right _ _),
    mul_le_mul_right (zpow_two_pos _)]
  exact Int.cast_le.symm

theorem lt_fin_iff (s : Bool) (ma : Nat) (ea : Int) (t : Bool) (mb : Nat) (eb : Int) :
    (Flt.fin s ma ea).lt (Flt.fin t mb eb) = true ↔
      sq s * ((ma : ℚ) * (2 : ℚ) ^ ea) < sq t * ((mb : ℚ) * (2 : ℚ) ^ eb) := by
  simp only [Flt.lt, decide_eq_true_eq]
  rw [← sgn_scaled s ma ea (min ea eb) (min_le_left _ _),
    ← sgn_scaled t mb eb (min ea eb) (min_le_right _ _),
    mul_lt_mul_right (zpow_two_pos _)]
  exact Int.cast_lt.symm

theorem ev_fin_abs_lt {f : Fmt} {s : Bool} {m : Nat} {e : Int} (hc : f.canon m e) :
    -f.omega < f.ev (Flt.fin s m e) ∧ f.ev (Flt.fin s m e) < f.omega := by
  have h := canon_lt_omega hc
  have h0 : (0 : ℚ) ≤ (m : ℚ) * (2 : ℚ) ^ e := by positivity
  have hw : (2 : ℚ) ^ ((f.prec : Int) + f.emax) = f.omega := rfl
  rw [hw] at h
  cases s <;> simp only [Fmt.ev, sq, if_true, if_false, Bool.false_eq_true] <;>
    constructor <;> linarith

/-- On data other than NaN, the comparison `<=` of C is the order of extended values. -/
theorem le_iff_ev {f : Fmt} {a b : Flt} (ha : a.Reg f) (hb : b.Reg f) :
    a.le b = true ↔ f.ev a ≤ f.ev b := by
  have hw := omega_pos f
  cases a with
  | nan => exact absurd ha id
  | inf s =>
    cases b with
    | nan => exact absurd hb id
    | inf t => cases s <;> cases t <;> simp [Flt.le, Fmt.ev, sq] <;> linarith
    | fin t m e =>
      obtain ⟨l, u⟩ := ev_fin_abs_lt (s := t) hb
      generalize f.ev (Flt.fin t m e) = X at *
      cases s <;> simp [Flt.le, Fmt.ev, sq] <;> linarith
  | fin s m e =>
    cases b with
    | nan => exact absurd hb id
    | inf t =>
      obtain ⟨l, u⟩ := ev_fin_abs_lt (s := s) ha
      generalize f.ev (Flt.fin s m e) = X at *
      cases t <;> simp [Flt.le, Fmt.ev, sq] <;> linarith
    | fin t m' e' => exact le_fin_iff s m e t m' e'

/-- On data other than NaN, the comparison `<` of C is the strict order of extended
values. -/
theorem lt_iff_ev {f : Fmt} {a b : Flt} (ha : a.Reg f) (hb : b.Reg f) :
    a.lt b = true ↔ f.ev a < f.ev b := by
  have hw := omega_pos f
  cases a with
  | nan => exact absurd ha id
  | inf s =>
    cases b with
    | nan => exact absurd hb id
    | inf t => cases s <;> cases t <;> simp [Flt.lt, Fmt.ev, sq] <;> linarith
    | fin t m e =>
      obtain ⟨l, u⟩ := ev_fin_abs_lt (s := t) hb
      generalize f.ev (Flt.fin t m e) = X at *
      cases s <;> simp [Flt.lt, Fmt.ev, sq] <;> linarith
  | fin s m e =>
    cases b with
    | nan => exact absurd hb id
    | inf t =>
      obtain ⟨l, u⟩ := ev_fin_abs_lt (s := s) ha
      generalize f.ev (Flt.fin s m e) = X at *
      cases t <;> simp [Flt.lt, Fmt.ev, sq] <;> linarith
    | fin t m' e' => exact lt_fin_iff s m e t m' e'

/-- A finite number in normal form is its own rounding. -/
theorem rounded_self {f : Fmt} (hf : f.ok) {a : Flt} (h : a.IsFin f) : Rounded f a.toRat a := by
  cases a with
  | nan => exact absurd h id
  | inf s => exact absurd h id
  | fin s m e =>
    refine ⟨s, m, 1, e, by norm_num, ?_, ?_⟩
    · rcases Nat.eq_zero_or_pos m with hm | hm
      · subst hm
        obtain ⟨-, c2, c3, c4⟩ := h
        have he : e = f.emin := by
          rcases c4 with c | c
          · have : 0 < 2 ^ (f.prec - 1) := by positivity
            omega
          · exact c
        rw [he]
        unfold Fmt.round
        rw [if_pos rfl]
      · exact (round_exact f hf s m 1 e hm (by norm_num) m e h (by simp)).symm
    · rw [toRat_fin]; simp

/-- A rounding of a value between two finite numbers is finite and lies between them. -/
theorem rounded_between {f : Fmt} (hf : f.ok) {q : ℚ} {r lo hi : Flt} (h : Rounded f q r)
    (hlo : lo.IsFin f) (hhi : hi.IsFin f) (h1 : lo.toRat ≤ q) (h2 : q ≤ hi.toRat) :
    r.IsFin f ∧ lo.toRat ≤ r.toRat ∧ r.toRat ≤ hi.toRat := by
  have m1 := rounded_mono hf (rounded_self hf hlo) h h1
  have m2 := rounded_mono hf h (rounded_self hf hhi) h2
  rw [ev_of_isFin hlo] at m1
  rw [ev_of_isFin hhi] at m2
  have hreg := rounded_reg hf h
  have b1 : -f.omega < lo.toRat := by
    cases lo with
    | nan => exact absurd hlo id
    | inf s => exact absurd hlo id
    | fin s m e => rw [← ev_of_isFin hlo]; exact (ev_fin_abs_lt hlo).1
  have b2 : hi.toRat < f.omega := by
    cases hi with
    | nan => exact absurd hhi id
    | inf s => exact absurd hhi id
    | fin s m e => rw [← ev_of_isFin hhi]; exact (ev_fin_abs_lt hhi).2
  cases r with
  | nan => exact absurd hreg id
  | inf s =>
    exfalso
    cases s <;> simp [Fmt.ev, sq] at m1 m2 <;> linarith
  | fin s m e =>
    have hfin : (Flt.fin s m e).IsFin f := hreg
    rw [ev_of_isFin hfin] at m1 m2
    exact ⟨hfin, m1, m2⟩

/-- A rounding of a representable value is that value. -/
theorem rounded_exact {f : Fmt} (hf : f.ok) {q : ℚ} {r a : Flt} (h : Rounded f q r)
    (ha : a.IsFin f) (hq : q = a.toRat) : r.IsFin f ∧ r.toRat = q := by
  obtain ⟨h1, h2, h3⟩ := rounded_between hf h ha ha (le_of_eq hq.symm) (le_of_eq hq)
  exact ⟨h1, by rw [hq]; exact le_antisymm h3 h2⟩

/-! ## The arithmetic operations as roundings of exact results -/

theorem sq_xor (s t : Bool) : sq (xor s t) = sq s * sq t := by
  cases s <;> cases t <;> simp [sq]

theorem sgn_cast (s : Bool) (m : Nat) : ((sgn s m : Int) : ℚ) = sq s * (m : ℚ) := by
  cases s <;> simp [sgn, sq]

theorem toRat_neg (a : Flt) : a.neg.toRat = -a.toRat := by
  cases a with
  | nan => simp [Flt.neg, Flt.toRat]
  | inf s => simp [Flt.neg, Flt.toRat]
  | fin s m e => cases s <;> simp [Flt.neg, Flt.toRat]

theorem isFin_neg {f : Fmt} {a : Flt} (h : a.IsFin f) : a.neg.IsFin f := by
  cases a with
  | nan => exact absurd h id
  | inf s => exact absurd h id
  | fin s m e => exact h

theorem add_rounded (f : Fmt) {a b : Flt} (ha : a.IsFin f) (hb : b.IsFin f) :
    Rounded f (a.toRat + b.toRat) (f.add a b) := by
  cases a with
  | nan => exact absurd ha id
  | inf s => exact absurd ha id
  | fin s ma ea =>
    cases b with
    | nan => exact absurd hb id
    | inf t => exact absurd hb id
    | fin t mb eb =>
      have e1 := sgn_scaled s ma ea (min ea eb) (min_le_left _ _)
      have e2 := sgn_scaled t mb eb (min ea eb) (min_le_right _ _)
      rw [toRat_fin, toRat_fin, ← e1, ← e2, ← add_mul, ← Int.cast_add]
      simp only [Fmt.add]
      generalize sgn s (ma * 2 ^ (ea - min ea eb).toNat) +
        sgn t (mb * 2 ^ (eb - min ea eb).toNat) = sum
      split_ifs with h0
      · refine ⟨s && t, 0, 1, min ea eb, by norm_num, ?_, ?_⟩
        · unfold Fmt.round; rw [if_pos rfl]
        · rw [h0]; simp
      · refine ⟨decide (sum < 0), sum.natAbs, 1, min ea eb, by norm_num, rfl, ?_⟩
        have habs : ((sum.natAbs : Nat) : ℚ) = |(sum : ℚ)| := by
          rw [Nat.cast_natAbs, Int.cast_abs]
        rw [habs]
        by_cases hs : sum < 0
        · have : (sum : ℚ) < 0 := by exact_mod_cast hs
          simp [sq, hs, abs_of_neg this]
        · have : (0 : ℚ) ≤ sum := by
            push_neg at hs
            exact_mod_cast hs
          simp [sq, hs, abs_of_nonneg this]

theorem sub_rounded (f : Fmt) {a b : Flt} (ha : a.IsFin f) (hb : b.IsFin f) :
    Rounded f (a.toRat - b.toRat) (f.sub a b) := by
  have := add_rounded f ha (isFin_neg hb)
  rw [toRat_neg, ← sub_eq_add_neg] at this
  exact this

theorem mul_rounded (f : Fmt) {a b : Flt} (ha : a.IsFin f) (hb : b.IsFin f) :
    Rounded f (a.toRat * b.toRat) (f.mul a b) := by
  cases a with
  | nan => exact absurd ha id
  | inf s => exact absurd ha id
  | fin s ma ea =>
    cases b with
    | nan => exact absurd hb id
    | inf t => exact absurd hb id
    | fin t mb eb =>
      refine ⟨xor s t, ma * mb, 1, ea + eb, by norm_num, rfl, ?_⟩
      have two : (2 : ℚ) ≠ 0 := by norm_num
      rw [toRat_fin, toRat_fin, sq_xor, zpow_add₀ two]
      push_cast
      ring

theorem div_rounded (f : Fmt) {a b : Flt} (ha : a.IsFin f) (hb : b.IsFin f)
    (h0 : b.toRat ≠ 0) : Rounded f (a.toRat / b.toRat) (f.div a b) := by
  cases a with
  | nan => exact absurd ha id
  | inf s => exact absurd ha id
  | fin s ma ea =>
    cases b with
    | nan => exact absurd hb id
    | inf t => exact absurd hb id
    | fin t mb eb =>
      have hmb : mb ≠ 0 := by
        intro h
        apply h0
        rw [toRat_fin, h]
        simp
      have hmbq : (mb : ℚ) ≠ 0 := by exact_mod_cast hmb
      refine ⟨xor s t, ma, mb, ea - eb, Nat.pos_of_ne_zero hmb, ?_, ?_⟩
      · simp only [Fmt.div]
        rw [if_neg hmb]
      · have two : (2 : ℚ) ≠ 0 := by norm_num
        rw [toRat_fin, toRat_fin, sq_xor, zpow_sub₀ two]
        have hs : sq t ≠ 0 := by cases t <;> simp [sq]
        have hz : (2 : ℚ) ^ eb ≠ 0 := (zpow_two_pos eb).ne'
        have hss : sq t * sq t = 1 := by cases t <;> simp [sq]
        field_simp
        linear_combination (sq s * ((ma : ℚ) * (2 : ℚ) ^ ea) * ((mb : ℚ) * (2 : ℚ) ^ eb)) * hss

theorem ofInt_rounded (f : Fmt) (i : Int) : Rounded f (i : ℚ) (f.ofInt i) := by
  refine ⟨decide (i < 0), i.natAbs, 1, 0, by norm_num, rfl, ?_⟩
  have habs : ((i.natAbs : Nat) : ℚ) = |(i : ℚ)| := by
    rw [Nat.cast_natAbs, Int.cast_abs]
  rw [habs]
  by_cases hs : i < 0
  · have : (i : ℚ) < 0 := by exact_mod_cast hs
    simp [sq, hs, abs_of_neg this]
  · have : (0 : ℚ) ≤ i := by
      push_neg at hs
      exact_mod_cast hs
    simp [sq, hs, abs_of_nonneg this]

theorem lit_rounded (f : Fmt) (num den : Nat) (hd : 0 < den) :
    Rounded f ((num : ℚ) / den) (f.lit num den) :=
  ⟨false, num, den, 0, hd, rfl, by simp [sq]⟩

/-! ## Bounds on `pfxr_random_float` -/

theorem binary32_ok : binary32.ok := by decide

theorem isFin_toRat_eq_ev {f : Fmt} {a : Flt} (h : a.IsFin f) : a.toRat = f.ev a :=
  (ev_of_isFin h).symm

/-- On finite numbers the comparison `<=` of C is the order of the rational values. -/
theorem le_iff_toRat {f : Fmt} {a b : Flt} (ha : a.IsFin f) (hb : b.IsFin f) :
    a.le b = true ↔ a.toRat ≤ b.toRat := by
  rw [le_iff_ev (isFin_reg ha) (isFin_reg hb), ev_of_isFin ha, ev_of_isFin hb]

/-- On finite numbers the comparison `<` of C is the strict order of the rational values. -/
theorem lt_iff_toRat {f : Fmt} {a b : Flt} (ha : a.IsFin f) (hb : b.IsFin f) :
    a.lt b = true ↔ a.toRat < b.toRat := by
  rw [lt_iff_ev (isFin_reg ha) (isFin_reg hb), ev_of_isFin ha, ev_of_isFin hb]

/-- The normalised draw `(float)r / (float)0xffffffff` is a finite number in `[0, 1]`. -/
theorem normalized_bounds (r : Nat) (hr : r < 4294967296) :
    (binary32.div (binary32.ofInt r) (binary32.ofInt 0xffffffff)).IsFin binary32 ∧
      0 ≤ (binary32.div (binary32.ofInt r) (binary32.ofInt 0xffffffff)).toRat ∧
      (binary32.div (binary32.ofInt r) (binary32.ofInt 0xffffffff)).toRat ≤ 1 := by
  have hden : binary32.ofInt 0xffffffff = Flt.fin false 8388608 9 := by decide
  have hdenfin : (Flt.fin false 8388608 9).IsFin binary32 := by decide
  have hdenval : (Flt.fin false 8388608 9).toRat = 4294967296 := by
    rw [toRat_fin]; norm_num [sq]
  have hzero : (Flt.fin false 0 (-149)).IsFin binary32 := by decide
  have hzval : (Flt.fin false 0 (-149)).toRat = 0 := by rw [toRat_fin]; simp
  have hone : (Flt.fin false 8388608 (-23)).IsFin binary32 := by decide
  have honeval : (Flt.fin false 8388608 (-23)).toRat = 1 := by
    rw [toRat_fin]; norm_num [sq]
  have hrq : ((r : Int) : ℚ) ≤ 4294967296 := by
    have : (r : ℚ) ≤ 4294967296 := by exact_mod_cast hr.le
    exact_mod_cast this
  have hr0 : (0 : ℚ) ≤ ((r : Int) : ℚ) := by positivity
  obtain ⟨f1, f2, f3⟩ := rounded_between binary32_ok (ofInt_rounded binary32 (r : Int)) hzero
    hdenfin (by rw [hzval]; exact hr0) (by rw [hdenval]; exact hrq)
  rw [hzval] at f2
  rw [hdenval] at f3
  rw [hden]
  have hdiv := div_rounded binary32 f1 hdenfin (by rw [hdenval]; norm_num)
  rw [hdenval] at hdiv
  obtain ⟨g1, g2, g3⟩ := rounded_between binary32_ok hdiv hzero hone
    (by rw [hzval]; positivity) (by rw [honeval, div_le_one (by norm_num)]; exact f3)
  rw [hzval] at g2
  rw [honeval] at g3
  exact ⟨g1, g2, g3⟩

theorem zero_isFin : (Flt.fin false 0 (-149)).IsFin binary32 := by decide

theorem zero_toRat : (Flt.fin false 0 (-149)).toRat = 0 := by rw [toRat_fin]; simp

/-- The interpolation `a + (b - a) * n` of `pfxr_random_float`, for finite `a ≤ b` with a
finite difference and `0 ≤ n ≤ 1`: the result is not NaN, is at least `a`, and is at most
the float sum `a + (b - a)`. -/
theorem lerp_bounds {a b n : Flt} (ha : a.IsFin binary32) (hb : b.IsFin binary32)
    (hab : a.toRat ≤ b.toRat) (hd : (binary32.sub b a).IsFin binary32)
    (hn : n.IsFin binary32) (hn0 : 0 ≤ n.toRat) (hn1 : n.toRat ≤ 1) :
    (binary32.add a (binary32.mul (binary32.sub b a) n)).Reg binary32 ∧
      binary32.ev a ≤ binary32.ev (binary32.add a (binary32.mul (binary32.sub b a) n)) ∧
      binary32.ev (binary32.add a (binary32.mul (binary32.sub b a) n)) ≤
        binary32.ev (binary32.add a (binary32.sub b a)) := by
  have hf := binary32_ok
  have hdr := sub_rounded binary32 hb ha
  have hd0 : 0 ≤ (binary32.sub b a).toRat := by
    have := rounded_mono hf (rounded_self hf zero_isFin) hdr (by rw [zero_toRat]; linarith)
    rw [ev_of_isFin zero_isFin, zero_toRat, ev_of_isFin hd] at this
    exact this
  have hpr := mul_rounded binary32 hd hn
  obtain ⟨p1, p2, p3⟩ := rounded_between hf hpr zero_isFin hd
    (by rw [zero_toRat]; positivity) (by nlinarith)
  rw [zero_toRat] at p2
  have hvr := add_rounded binary32 ha p1
  refine ⟨rounded_reg hf hvr, ?_, ?_⟩
  · have := rounded_mono hf (rounded_self hf ha) hvr (by linarith)
    exact this
  · exact rounded_mono hf hvr (add_rounded binary32 ha hd) (by linarith)

theorem pfxr_random_float_state (rng : pfxr_random_t) (lo hi : Flt) :
    (pfxr_random_float rng lo hi).2 = (pfxr_random_uint32 rng).2 := rfl

theorem pfxr_random_float_val (rng : pfxr_random_t) (lo hi : Flt) :
    (pfxr_random_float rng lo hi).1 =
      binary32.add (fmin lo hi) (binary32.mul (binary32.sub (fmax lo hi) (fmin lo hi))
        (binary32.div (binary32.ofInt (pfxr_random_uint32 rng).1)
          (binary32.ofInt 0xffffffff))) := rfl

theorem fmin_isFin {lo hi : Flt} (hlo : lo.IsFin binary32) (hhi : hi.IsFin binary32) :
    (fmin lo hi).IsFin binary32 := by
  unfold fmin; split_ifs <;> assumption

theorem fmax_isFin {lo hi : Flt} (hlo : lo.IsFin binary32) (hhi : hi.IsFin binary32) :
    (fmax lo hi).IsFin binary32 := by
  unfold fmax; split_ifs <;> assumption

theorem fmin_le_fmax {lo hi : Flt} (hlo : lo.IsFin binary32) (hhi : hi.IsFin binary32) :
    (fmin lo hi).toRat ≤ (fmax lo hi).toRat := by
  unfold fmin fmax
  split_ifs with h
  · exact le_of_lt ((lt_iff_toRat hhi hlo).mp h)
  · have := (lt_iff_toRat hhi hlo).not.mp h
    linarith

/-- The draw of `pfxr_random_float` between finite bounds with a finite difference: not
NaN, at least the smaller bound, and at most the float sum `min + (max - min)`. -/
theorem pfxr_random_float_bounds (rng : pfxr_random_t) (lo hi : Flt)
    (hlo : lo.IsFin binary32) (hhi : hi.IsFin binary32)
    (hd : (binary32.sub (fmax lo hi) (fmin lo hi)).IsFin binary32) :
    (pfxr_random_float rng lo hi).1.Reg binary32 ∧
      binary32.ev (fmin lo hi) ≤ binary32.ev (pfxr_random_float rng lo hi).1 ∧
      binary32.ev (pfxr_random_float rng lo hi).1 ≤
        binary32.ev (binary32.add (fmin lo hi) (binary32.sub (fmax lo hi) (fmin lo hi))) := by
  have key := normalized_bounds (pfxr_random_uint32 rng).1 (pfxr_random_uint32_lt rng)
  rw [pfxr_random_float_val]
  generalize binary32.div (binary32.ofInt (pfxr_random_uint32 rng).1)
    (binary32.ofInt 0xffffffff) = n at key ⊢
  obtain ⟨n1, n2, n3⟩ := key
  exact lerp_bounds (fmin_isFin hlo hhi) (fmax_isFin hlo hhi) (fmin_le_fmax hlo hhi) hd n1 n2 n3

theorem canon_unique {f : Fmt} (hf : f.ok) {m m1 : Nat} {e e1 : Int} (hc : f.canon m e)
    (hc1 : f.canon m1 e1) (h : (m : ℚ) * (2 : ℚ) ^ e = (m1 : ℚ) * (2 : ℚ) ^ e1) :
    m = m1 ∧ e = e1 := by
  have zero_case : ∀ {k : Nat} {c : Int}, f.canon k c → k = 0 → c = f.emin := by
    intro k c hk hk0
    obtain ⟨-, -, -, c4⟩ := hk
    rcases c4 with c4 | c4
    · have : 0 < 2 ^ (f.prec - 1) := by positivity
      omega
    · exact c4
  rcases Nat.eq_zero_or_pos m with hm | hm
  · have hm1 : m1 = 0 := by
      rw [hm] at h
      simp only [Nat.cast_zero, zero_mul] at h
      have := (mul_eq_zero.mp h.symm).resolve_right (zpow_two_pos e1).ne'
      exact_mod_cast this
    exact ⟨by rw [hm, hm1], by rw [zero_case hc hm, zero_case hc1 hm1]⟩
  · have hm1 : 0 < m1 := by
      rcases Nat.eq_zero_or_pos m1 with h0 | h0
      · rw [h0] at h
        simp only [Nat.cast_zero, zero_mul] at h
        have := (mul_eq_zero.mp h).resolve_right (zpow_two_pos e).ne'
        have : m = 0 := by exact_mod_cast this
        omega
      · exact h0
    have r1 := RD_exact hf hm hc
    have r2 := RD_exact hf hm1 hc1
    rw [h] at r1
    exact RD_unique r1 r2

/-- Two finite numbers in normal form with the same value are the same datum, or are the
two zeros. -/
theorem isFin_eq_of_toRat_eq {f : Fmt} (hf : f.ok) {a b : Flt} (ha : a.IsFin f)
    (hb : b.IsFin f) (h : a.toRat = b.toRat) :
    a = b ∨ ∃ s t, a = Flt.fin s 0 f.emin ∧ b = Flt.fin t 0 f.emin := by
  cases a with
  | nan => exact absurd ha id
  | inf s => exact absurd ha id
  | fin s m e =>
    cases b with
    | nan => exact absurd hb id
    | inf t => exact absurd hb id
    | fin t m1 e1 =>
      rw [toRat_fin, toRat_fin] at h
      have p1 : (0 : ℚ) ≤ (m : ℚ) * (2 : ℚ) ^ e := by positivity
      have p2 : (0 : ℚ) ≤ (m1 : ℚ) * (2 : ℚ) ^ e1 := by positivity
      have habs : (m : ℚ) * (2 : ℚ) ^ e = (m1 : ℚ) * (2 : ℚ) ^ e1 := by
        cases s <;> cases t <;> simp only [sq, if_true, if_false, Bool.false_eq_true] at h <;>
          linarith
      obtain ⟨hm, he⟩ := canon_unique hf ha hb habs
      subst hm he
      rcases Nat.eq_zero_or_pos m with h0 | h0
      · right
        subst h0
        obtain ⟨-, -, -, c4⟩ := ha
        have he : e = f.emin := by
          rcases c4 with c4 | c4
          · have : 0 < 2 ^ (f.prec - 1) := by positivity
            omega
          · exact c4
        exact ⟨s, t, by rw [he], by rw [he]⟩
      · left
        have hpos : (0 : ℚ) < (m : ℚ) * (2 : ℚ) ^ e := by positivity
        cases s <;> cases t <;> simp only [sq, if_true, if_false, Bool.false_eq_true] at h
        · rfl
        · linarith
        · linarith
        · rfl

/-- The normalised draw carries the sign bit `false`. -/
theorem normalized_sign (r : Nat) :
    ∀ s m e, binary32.div (binary32.ofInt r) (binary32.ofInt 0xffffffff) = Flt.fin s m e →
      s = false := by
  intro s m e h
  have hden : binary32.ofInt 0xffffffff = Flt.fin false 8388608 9 := by decide
  rw [hden] at h
  rcases round_cases binary32 binary32_ok (decide ((r : Int) < 0)) (r : Int).natAbs 1 0
    (by norm_num) with h1 | ⟨m1, e1, h1, -⟩
  · have h1' : binary32.ofInt r = Flt.inf (decide ((r : Int) < 0)) := h1
    rw [h1'] at h
    simp [Fmt.div] at h
  · have h1' : binary32.ofInt r = Flt.fin (decide ((r : Int) < 0)) m1 e1 := h1
    have hs : decide ((r : Int) < 0) = false := by
      rw [decide_eq_false_iff_not]; omega
    rw [h1', hs] at h
    simp only [Fmt.div] at h
    rw [if_neg (by norm_num)] at h
    rcases round_cases binary32 binary32_ok (xor false false) m1 8388608 (e1 - 9)
      (by norm_num) with h2 | ⟨m2, e2, h2, -⟩
    · rw [h2] at h; exact absurd h (by simp)
    · rw [h2] at h
      have := (Flt.fin.injEq _ _ _ _ _ _).mp h
      exact this.1.symm ▸ rfl

set_option linter.constructorNameAsVariable false in
/-- Reversing the bounds of `pfxr_random_float` gives the same draw. -/
theorem pfxr_random_float_symm (rng : pfxr_random_t) (lo hi : Flt)
    (hlo : lo.IsFin binary32) (hhi : hi.IsFin binary32) :
    pfxr_random_float rng lo hi = pfxr_random_float rng hi lo := by
  by_cases h1 : hi.lt lo = true
  · have h2 : lo.lt hi = false := by
      rw [Bool.eq_false_iff]
      intro h2
      have a := (lt_iff_toRat hhi hlo).mp h1
      have b := (lt_iff_toRat hlo hhi).mp h2
      linarith
    simp only [pfxr_random_float, h1, h2, if_true, if_false, Bool.false_eq_true]
  · have h1' : hi.lt lo = false := by simpa using h1
    by_cases h2 : lo.lt hi = true
    · simp only [pfxr_random_float, h1', h2, if_true, if_false, Bool.false_eq_true]
    · have e1 : ¬ hi.toRat < lo.toRat := (lt_iff_toRat hhi hlo).not.mp h1
      have e2 : ¬ lo.toRat < hi.toRat := (lt_iff_toRat hlo hhi).not.mp h2
      have heq : lo.toRat = hi.toRat := le_antisymm (not_lt.mp e1) (not_lt.mp e2)
      rcases isFin_eq_of_toRat_eq binary32_ok hlo hhi heq with h | ⟨s, t, ha, hb⟩
      · rw [h]
      · have hsgn := normalized_sign (pfxr_random_uint32 rng).1
        obtain ⟨n1, -, -⟩ :=
          normalized_bounds (pfxr_random_uint32 rng).1 (pfxr_random_uint32_lt rng)
        refine Prod.ext ?_ rfl
        rw [pfxr_random_float_val, pfxr_random_float_val]
        generalize binary32.div (binary32.ofInt (pfxr_random_uint32 rng).1)
          (binary32.ofInt 0xffffffff) = n at hsgn n1 ⊢
        cases n with
        | nan => exact absurd n1 id
        | inf u => exact absurd n1 id
        | fin u mn en =>
          have hu := hsgn u mn en rfl
          subst hu
          rw [ha, hb]
          cases s <;> cases t <;>
            simp [fmin, fmax, Flt.lt, Fmt.sub, Fmt.add, Fmt.mul, Flt.neg, sgn, Fmt.round,
              binary32]

/-- A datum other than NaN whose extended value lies between those of two finite numbers
is finite. -/
theorem isFin_of_ev_between {f : Fmt} {r lo hi : Flt} (hr : r.Reg f) (hlo : lo.IsFin f)
    (hhi : hi.IsFin f) (h1 : f.ev lo ≤ f.ev r) (h2 : f.ev r ≤ f.ev hi) : r.IsFin f := by
  have b1 : -f.omega < f.ev lo := by
    cases lo with
    | nan => exact absurd hlo id
    | inf s => exact absurd hlo id
    | fin s m e => exact (ev_fin_abs_lt hlo).1
  have b2 : f.ev hi < f.omega := by
    cases hi with
    | nan => exact absurd hhi id
    | inf s => exact absurd hhi id
    | fin s m e => exact (ev_fin_abs_lt hhi).2
  generalize f.ev lo = L at h1 b1
  generalize f.ev hi = H at h2 b2
  cases r with
  | nan => exact absurd hr id
  | inf s =>
    exfalso
    cases s <;> simp [Fmt.ev, sq] at h1 h2 <;> linarith
  | fin s m e => exact hr

/-- **C4 (as stated) fails.** With the state `(x, y, z, w) = (0, 0, 0, 0x7FFFF000)` the
generator returns `0xFFFFFFFF`, the normalised draw is `1.0f`, and for the bounds
`lo = -1`, `hi = 3 * 2^-25` the result is `-1 + (float)(1 + 3 * 2^-25) = 2^-23`, which is
greater than `hi`. -/
theorem pfxr_random_float_range_counterexample :
    (pfxr_random_uint32 ⟨0, 0, 0, 0, 0x7FFFF000⟩).1 = 0xFFFFFFFF ∧
      (Flt.fin true 8388608 (-23)).IsFin binary32 ∧
      (Flt.fin false 12582912 (-47)).IsFin binary32 ∧
      fmax (Flt.fin true 8388608 (-23)) (Flt.fin false 12582912 (-47)) =
        Flt.fin false 12582912 (-47) ∧
      (pfxr_random_float ⟨0, 0, 0, 0, 0x7FFFF000⟩ (Flt.fin true 8388608 (-23))
        (Flt.fin false 12582912 (-47))).1 = Flt.fin false 8388608 (-46) ∧
      (pfxr_random_float ⟨0, 0, 0, 0, 0x7FFFF000⟩ (Flt.fin true 8388608 (-23))
        (Flt.fin false 12582912 (-47))).1.le
          (fmax (Flt.fin true 8388608 (-23)) (Flt.fin false 12582912 (-47))) = false := by
  refine ⟨by decide, by decide, by decide, by decide, ?_, ?_⟩ <;> decide

/-- **C4 (amended).** For every generator state and all finite bounds `lo`, `hi` (in either
order) whose float difference `max - min` is finite, `pfxr_random_float` returns `v` with
`min(lo, hi) <= v` and `v <= min + (max - min)`, the sum and the difference being the rounded
float operations (so the upper limit is `max(lo, hi)` only up to these two roundings); and
reversed bounds give the same result and the same new state. -/
theorem pfxr_random_float_range (rng : pfxr_random_t) (lo hi : Flt)
    (hlo : lo.IsFin binary32) (hhi : hi.IsFin binary32)
    (hd : (binary32.sub (fmax lo hi) (fmin lo hi)).IsFin binary32) :
    (fmin lo hi).le (pfxr_random_float rng lo hi).1 = true ∧
      (pfxr_random_float rng lo hi).1.le
        (binary32.add (fmin lo hi) (binary32.sub (fmax lo hi) (fmin lo hi))) = true ∧
      pfxr_random_float rng lo hi = pfxr_random_float rng hi lo := by
  obtain ⟨h1, h2, h3⟩ := pfxr_random_float_bounds rng lo hi hlo hhi hd
  refine ⟨?_, ?_, pfxr_random_float_symm rng lo hi hlo hhi⟩
  · exact (le_iff_ev (isFin_reg (fmin_isFin hlo hhi)) h1).mpr h2
  · exact (le_iff_ev h1 (rounded_reg binary32_ok
      (add_rounded binary32 (fmin_isFin hlo hhi) hd))).mpr h3

/-- The amended C4 at the bounds `-1` and `3 * 2^-25` and a state drawing `0xFFFFFFFF`. -/
theorem pfxr_random_float_range_witness :
    (fmin (Flt.fin true 8388608 (-23)) (Flt.fin false 12582912 (-47))).le
        (pfxr_random_float ⟨0, 0, 0, 0, 0x7FFFF000⟩ (Flt.fin true 8388608 (-23))
          (Flt.fin false 12582912 (-47))).1 = true ∧
      (pfxr_random_float ⟨0, 0, 0, 0, 0x7FFFF000⟩ (Flt.fin true 8388608 (-23))
          (Flt.fin false 12582912 (-47))).1.le
        (binary32.add (fmin (Flt.fin true 8388608 (-23)) (Flt.fin false 12582912 (-47)))
          (binary32.sub (fmax (Flt.fin true 8388608 (-23)) (Flt.fin false 12582912 (-47)))
            (fmin (Flt.fin true 8388608 (-23)) (Flt.fin false 12582912 (-47))))) = true ∧
      pfxr_random_float ⟨0, 0, 0, 0, 0x7FFFF000⟩ (Flt.fin true 8388608 (-23))
          (Flt.fin false 12582912 (-47)) =
        pfxr_random_float ⟨0, 0, 0, 0, 0x7FFFF000⟩ (Flt.fin false 12582912 (-47))
          (Flt.fin true 8388608 (-23)) :=
  pfxr_random_float_range ⟨0, 0, 0, 0, 0x7FFFF000⟩ (Flt.fin true 8388608 (-23))
    (Flt.fin false 12582912 (-47)) (by decide) (by decide) (by decide)

/-! ## `pfxr_random_choice` -/

/-- Truncation of a finite non-negative float: an integer between 0 and the value. -/
theorem trunc_nonneg {f : Fmt} {a : Flt} (ha : a.IsFin f) (h0 : 0 ≤ a.toRat) :
    ∃ k : Int, a.trunc = some k ∧ 0 ≤ k ∧ (k : ℚ) ≤ a.toRat := by
  cases a with
  | nan => exact absurd ha id
  | inf s => exact absurd ha id
  | fin s m e =>
    rw [toRat_fin] at h0 ⊢
    have hpos : (0 : ℚ) ≤ (m : ℚ) * (2 : ℚ) ^ e := by positivity
    cases s with
    | true =>
      have hm : m = 0 := by
        simp only [sq, if_true] at h0
        have h1 : (m : ℚ) * (2 : ℚ) ^ e = 0 := by linarith
        have := (mul_eq_zero.mp h1).resolve_right (zpow_two_pos e).ne'
        exact_mod_cast this
      subst hm
      refine ⟨0, ?_, le_rfl, by simp⟩
      simp [Flt.trunc, sgn]
    | false =>
      simp only [Flt.trunc, sgn, sq, if_false, Bool.false_eq_true, one_mul]
      split_ifs with he
      · refine ⟨_, rfl, by positivity, ?_⟩
        push_cast
        rw [← zpow_natCast, Int.toNat_of_nonneg he]
      · refine ⟨_, rfl, by positivity, ?_⟩
        have he' : 0 ≤ -e := by omega
        have h2 : (2 : ℚ) ^ e = ((2 : ℚ) ^ (-e).toNat)⁻¹ := by
          rw [← zpow_natCast, Int.toNat_of_nonneg he', zpow_neg, inv_inv]
        rw [h2, ← div_eq_mul_inv]
        have := @Nat.cast_div_le ℚ _ m (2 ^ (-e).toNat)
        rw [Int.cast_natCast]
        push_cast at this
        exact this

/-- A rounding between two roundings of bracketing values that are finite is finite and
lies between them. -/
theorem rounded_between_rounded {f : Fmt} (hf : f.ok) {q q1 q2 : ℚ} {r lo hi : Flt}
    (h : Rounded f q r) (hlo : Rounded f q1 lo) (hhi : Rounded f q2 hi) (flo : lo.IsFin f)
    (fhi : hi.IsFin f) (h1 : q1 ≤ q) (h2 : q ≤ q2) :
    r.IsFin f ∧ lo.toRat ≤ r.toRat ∧ r.toRat ≤ hi.toRat := by
  have m1 := rounded_mono hf hlo h h1
  have m2 := rounded_mono hf h hhi h2
  have hfin := isFin_of_ev_between (rounded_reg hf h) flo fhi m1 m2
  rw [ev_of_isFin flo, ev_of_isFin hfin] at m1
  rw [ev_of_isFin fhi, ev_of_isFin hfin] at m2
  exact ⟨hfin, m1, m2⟩

/-- The float drawn by `pfxr_random_choice` for a count between 1 and `2^31 - 65` is
finite and lies between 0 and `2^31 - 128`. -/
theorem choice_draw_bounds (rng : pfxr_random_t) (count : Int) (h1 : 1 ≤ count)
    (h2 : count ≤ 2147483583) :
    (pfxr_random_float rng (binary32.lit 0 1) (binary32.ofInt count)).1.IsFin binary32 ∧
      0 ≤ (pfxr_random_float rng (binary32.lit 0 1) (binary32.ofInt count)).1.toRat ∧
      (pfxr_random_float rng (binary32.lit 0 1) (binary32.ofInt count)).1.toRat ≤
        2147483520 := by
  have hf := binary32_ok
  have hz : binary32.lit 0 1 = Flt.fin false 0 (-149) := by decide
  have hone : binary32.ofInt 1 = Flt.fin false 8388608 (-23) := by decide
  have hmax : binary32.ofInt 2147483583 = Flt.fin false 16777215 7 := by decide
  have honeF : (Flt.fin false 8388608 (-23)).IsFin binary32 := by decide
  have hmaxF : (Flt.fin false 16777215 7).IsFin binary32 := by decide
  have honeV : (Flt.fin false 8388608 (-23)).toRat = 1 := by
    rw [toRat_fin]; norm_num [sq]
  have hmaxV : (Flt.fin false 16777215 7).toRat = 2147483520 := by
    rw [toRat_fin]; norm_num [sq]
  have r1 := ofInt_rounded binary32 1
  have r2 := ofInt_rounded binary32 2147483583
  rw [hone] at r1
  rw [hmax] at r2
  obtain ⟨c1, c2, c3⟩ := rounded_between_rounded hf (ofInt_rounded binary32 count) r1 r2
    honeF hmaxF (by exact_mod_cast h1) (by exact_mod_cast h2)
  rw [honeV] at c2
  rw [hmaxV] at c3
  rw [hz]
  have hlt : (binary32.ofInt count).lt (Flt.fin false 0 (-149)) = false := by
    rw [Bool.eq_false_iff]
    intro h
    have := (lt_iff_toRat c1 zero_isFin).mp h
    rw [zero_toRat] at this
    linarith
  have hmin : fmin (Flt.fin false 0 (-149)) (binary32.ofInt count) = Flt.fin false 0 (-149) := by
    simp [fmin, hlt]
  have hmaxe : fmax (Flt.fin false 0 (-149)) (binary32.ofInt count) = binary32.ofInt count := by
    simp [fmax, hlt]
  have hd := sub_rounded binary32 c1 zero_isFin
  rw [zero_toRat, sub_zero] at hd
  obtain ⟨d1, d2⟩ := rounded_exact hf hd c1 rfl
  have hs := add_rounded binary32 zero_isFin d1
  rw [zero_toRat, zero_add, d2] at hs
  obtain ⟨s1, s2⟩ := rounded_exact hf hs c1 rfl
  obtain ⟨b1, b2, b3⟩ := pfxr_random_float_bounds rng (Flt.fin false 0 (-149))
    (binary32.ofInt count) zero_isFin c1 (by rw [hmin, hmaxe]; exact d1)
  rw [hmin] at b2
  rw [hmin, hmaxe] at b3
  have vfin := isFin_of_ev_between b1 zero_isFin s1 b2 b3
  rw [ev_of_isFin zero_isFin, zero_toRat, ev_of_isFin vfin] at b2
  rw [ev_of_isFin vfin, ev_of_isFin s1, s2] at b3
  exact ⟨vfin, b2, by linarith⟩

set_option maxRecDepth 100000 in
/-- **C5 (as stated) fails.** For a list of `2^31 - 1` integers the count converts to the
float `2^31`; with a state that draws `0xFFFFFFFF` the float drawn is `2^31`, whose
truncation `2147483648` is outside the range of `int`, so the cast `(int)` is undefined and
no in-bounds index is produced. -/
theorem pfxr_random_choice_counterexample :
    ((List.replicate 2147483647 (0 : Int)).length : Int) = 2147483647 ∧
      (pfxr_random_float ⟨0, 0, 0, 0, 0x7FFFF000⟩ (binary32.lit 0 1)
        (binary32.ofInt 2147483647)).1.trunc = some 2147483648 ∧
      pfxr_random_choice ⟨0, 0, 0, 0, 0x7FFFF000⟩ (List.replicate 2147483647 0) 2147483647 =
        none := by
  refine ⟨by rw [List.length_replicate]; rfl, by decide, by decide⟩

/-- **C5 (amended).** For every generator state and every list of `count` integers with
`1 <= count <= 2^31 - 65`, `pfxr_random_choice` returns `choices[k]` with
`k = min(trunc(pfxr_random_float(state, 0, count)), count - 1)` and `0 <= k <= count - 1`:
the index is in bounds, the result is an element of the list, and one generator step is
consumed. -/
theorem pfxr_random_choice_index (rng : pfxr_random_t) (choices : List Int) (count : Int)
    (h1 : 1 ≤ count) (h2 : count ≤ 2147483583) (hlen : (choices.length : Int) = count) :
    ∃ (t : Int) (c : Int),
      (pfxr_random_float rng (binary32.lit 0 1) (binary32.ofInt count)).1.trunc = some t ∧
        0 ≤ min t (count - 1) ∧ min t (count - 1) ≤ count - 1 ∧
        choices.get? (min t (count - 1)).toNat = some c ∧ c ∈ choices ∧
        pfxr_random_choice rng choices count = some (c, (pfxr_random_uint32 rng).2) := by
  obtain ⟨v1, v2, v3⟩ := choice_draw_bounds rng count h1 h2
  obtain ⟨t, ht, t0, t1⟩ := trunc_nonneg v1 v2
  have t2 : t ≤ 2147483520 := by
    have : (t : ℚ) ≤ 2147483520 := le_trans t1 v3
    exact_mod_cast this
  have hk0 : 0 ≤ min t (count - 1) := le_min t0 (by omega)
  have hk1 : min t (count - 1) ≤ count - 1 := min_le_right _ _
  have hlt : (min t (count - 1)).toNat < choices.length := by omega
  have hget : choices.get? (min t (count - 1)).toNat =
      some (choices.get ⟨(min t (count - 1)).toNat, hlt⟩) := List.get?_eq_get hlt
  refine ⟨t, _, ht, hk0, hk1, hget, List.get_mem _ _ _, ?_⟩
  have hidx : (if t ≥ count then count - 1 else t) = min t (count - 1) := by
    split_ifs with h
    · rw [min_eq_right]; omega
    · rw [min_eq_left]; omega
  unfold pfxr_random_choice
  rw [if_neg (by omega)]
  simp only [Flt.toInt32, ht]
  rw [if_pos ⟨by omega, by omega⟩]
  simp only [hidx]
  rw [if_neg (by omega), hget]
  rfl

/-- The amended C5 on the four wave forms with the generator seeded by 42. -/
theorem pfxr_random_choice_index_witness :
    ∃ (t : Int) (c : Int),
      (pfxr_random_float (pfxr_random_init 0 42) (binary32.lit 0 1)
        (binary32.ofInt 4)).1.trunc = some t ∧
        0 ≤ min t (4 - 1) ∧ min t (4 - 1) ≤ 4 - 1 ∧
        [0, 1, 2, 3].get? (min t (4 - 1)).toNat = some c ∧ c ∈ [0, 1, 2, 3] ∧
        pfxr_random_choice (pfxr_random_init 0 42) [0, 1, 2, 3] 4 =
          some (c, (pfxr_random_uint32 (pfxr_random_init 0 42)).2) :=
  pfxr_random_choice_index (pfxr_random_init 0 42) [0, 1, 2, 3] 4 (by decide) (by decide)
    (by decide)

/-- **C6.** For an empty choice list (`count <= 0`) `pfxr_random_choice` returns the
default value 0 and does not draw: the generator state is returned unchanged. -/
theorem pfxr_random_choice_empty (rng : pfxr_random_t) (choices : List Int) (count : Int)
    (h : count ≤ 0) : pfxr_random_choice rng choices count = some (0, rng) := by
  unfold pfxr_random_choice
  rw [if_pos h]

/-- C6 on the empty list with the generator seeded by 42. -/
theorem pfxr_random_choice_empty_witness :
    pfxr_random_choice (pfxr_random_init 0 42) [] 0 = some (0, pfxr_random_init 0 42) :=
  pfxr_random_choice_empty (pfxr_random_init 0 42) [] 0 (by decide)

/-! ## Seeding and the wall clock -/

theorem pfxr_random_init_start_nonzero (now1 now2 : Int) (seed : Nat) (h : seed ≠ 0) :
    pfxr_random_init_start now1 seed = pfxr_random_init_start now2 seed := by
  simp only [pfxr_random_init_start, if_neg h]

/-- With a non-zero seed the state after seeding does not depend on the clock. -/
theorem pfxr_random_init_clock_free (now1 now2 : Int) (seed : Nat) (h : seed ≠ 0) :
    pfxr_random_init now1 seed = pfxr_random_init now2 seed := by
  unfold pfxr_random_init
  rw [pfxr_random_init_start_nonzero now1 now2 seed h]

/-- With a seed that is non-zero as a 32-bit word, template application does not depend on
the clock. -/
theorem pfxr_apply_template_clock_free (now1 now2 : Int) (template : pfxr_template_t)
    (seed : Int) (h : toU32 seed ≠ 0) :
    pfxr_apply_template now1 template seed = pfxr_apply_template now2 template seed := by
  unfold pfxr_apply_template
  rw [pfxr_random_init_clock_free now1 now2 (toU32 seed) h]

/-- **C7 (as stated) fails.** Two `pfxr_random_init` calls with seed 0 whose clock readings
are the same second (here both 1700000000) give the same generator state. -/
theorem pfxr_random_init_seed0_counterexample :
    ¬ (pfxr_random_init 1700000000 0 ≠ pfxr_random_init 1700000000 0) :=
  fun h => h rfl

/-- **C7 (amended).** Two `pfxr_random_init` calls with seed 0 give the same generator
state exactly when their clock readings agree modulo `2^32` (so calls within the same
second coincide); every non-zero seed gives the same state on every call, and
`pfxr_apply_template` the same parameter set, whatever the clock reads. -/
theorem pfxr_random_init_reproducible :
    (∀ now1 now2 : Int,
        pfxr_random_init now1 0 = pfxr_random_init now2 0 ↔ toU32 now1 = toU32 now2) ∧
      (∀ seed : Nat, seed ≠ 0 → ∀ now1 now2 : Int,
        pfxr_random_init now1 seed = pfxr_random_init now2 seed) ∧
      (∀ (template : pfxr_template_t) (seed : Int), toU32 seed ≠ 0 → ∀ now1 now2 : Int,
        pfxr_apply_template now1 template seed = pfxr_apply_template now2 template seed) := by
  refine ⟨?_, ?_, ?_⟩
  · intro now1 now2
    constructor
    · intro h
      have h1 := warm_up_inj 32 _ _ (pfxr_random_init_start_wf now1 0 (by norm_num))
        (pfxr_random_init_start_wf now2 0 (by norm_num)) h
      have h2 := congrArg pfxr_random_t.seed h1
      simpa [pfxr_random_init_start] using h2
    · intro h
      simp only [pfxr_random_init, pfxr_random_init_start, if_true, h]
  · intro seed h now1 now2
    exact pfxr_random_init_clock_free now1 now2 seed h
  · intro template seed h now1 now2
    exact pfxr_apply_template_clock_free now1 now2 template seed h

/-! ## The default parameter set -/

/-- **C8 (as stated) fails.** The claim lists `pitchDuration` among the fields that are
zero, but `pfxr_get_default_sound` sets `pitchDuration = 1.0f`. -/
theorem pfxr_get_default_sound_counterexample :
    ¬ (pfxr_get_default_sound.pitchDuration.toRat = 0) ∧
      pfxr_get_default_sound.pitchDuration = Flt.fin false 8388608 (-23) := by
  have h : pfxr_get_default_sound.pitchDuration = Flt.fin false 8388608 (-23) := by decide
  refine ⟨?_, h⟩
  rw [h, toRat_fin]
  norm_num [sq]

/-- **C8 (amended).** `pfxr_get_default_sound` returns the fixed baseline: `waveForm` 0
(sine), `volume` 0.5, `sustainTime` 0.07f, `decayTime` 0.3f (the floats nearest to 0.07 and
0.3), `frequency` 700, `pitchDuration` 1, `lowPassCutoff` 4000, `phaserBaseFrequency` 100,
`phaserLfoFrequency` 50, and each of the other 13 fields equal to (positive) zero. -/
theorem pfxr_get_default_sound_spec :
    pfxr_get_default_sound.waveForm = 0 ∧
      pfxr_get_default_sound.volume.toRat = 1 / 2 ∧
      pfxr_get_default_sound.sustainTime = binary32.lit 7 100 ∧
      |pfxr_get_default_sound.sustainTime.toRat - 7 / 100| ≤ 1 / 2 ^ 28 ∧
      pfxr_get_default_sound.decayTime = binary32.lit 3 10 ∧
      |pfxr_get_default_sound.decayTime.toRat - 3 / 10| ≤ 1 / 2 ^ 26 ∧
      pfxr_get_default_sound.frequency.toRat = 700 ∧
      pfxr_get_default_sound.pitchDuration.toRat = 1 ∧
      pfxr_get_default_sound.lowPassCutoff.toRat = 4000 ∧
      pfxr_get_default_sound.phaserBaseFrequency.toRat = 100 ∧
      pfxr_get_default_sound.phaserLfoFrequency.toRat = 50 ∧
      pfxr_get_default_sound.attackTime = Flt.fin false 0 (-149) ∧
      pfxr_get_default_sound.sustainPunch = Flt.fin false 0 (-149) ∧
      pfxr_get_default_sound.pitchDelta = Flt.fin false 0 (-149) ∧
      pfxr_get_default_sound.pitchDelay = Flt.fin false 0 (-149) ∧
      pfxr_get_default_sound.vibratoRate = Flt.fin false 0 (-149) ∧
      pfxr_get_default_sound.vibratoDepth = Flt.fin false 0 (-149) ∧
      pfxr_get_default_sound.tremoloRate = Flt.fin false 0 (-149) ∧
      pfxr_get_default_sound.tremoloDepth = Flt.fin false 0 (-149) ∧
      pfxr_get_default_sound.highPassCutoff = Flt.fin false 0 (-149) ∧
      pfxr_get_default_sound.highPassResonance = Flt.fin false 0 (-149) ∧
      pfxr_get_default_sound.lowPassResonance = Flt.fin false 0 (-149) ∧
      pfxr_get_default_sound.phaserDepth = Flt.fin false 0 (-149) ∧
      pfxr_get_default_sound.noiseAmount = Flt.fin false 0 (-149) := by
  have hv : pfxr_get_default_sound.volume = Flt.fin false 8388608 (-24) := by decide
  have hs : pfxr_get_default_sound.sustainTime = Flt.fin false 9395241 (-27) := by decide
  have hd : pfxr_get_default_sound.decayTime = Flt.fin false 10066330 (-25) := by decide
  have hf : pfxr_get_default_sound.frequency = Flt.fin false 11468800 (-14) := by decide
  have hp : pfxr_get_default_sound.pitchDuration = Flt.fin false 8388608 (-23) := by decide
  have hl : pfxr_get_default_sound.lowPassCutoff = Flt.fin false 16384000 (-12) := by decide
  have hb : pfxr_get_default_sound.phaserBaseFrequency = Flt.fin false 13107200 (-17) := by
    decide
  have ho : pfxr_get_default_sound.phaserLfoFrequency = Flt.fin false 13107200 (-18) := by
    decide
  refine ⟨rfl, ?_, rfl, ?_, rfl, ?_, ?_, ?_, ?_, ?_, ?_, by decide, by decide, by decide,
    by decide, by decide, by decide, by decide, by decide, by decide, by decide, by decide,
    by decide, by decide⟩
  · rw [hv, toRat_fin]; norm_num [sq]
  · rw [hs, toRat_fin, abs_le]; norm_num [sq]
  · rw [hd, toRat_fin, abs_le]; norm_num [sq]
  · rw [hf, toRat_fin]; norm_num [sq]
  · rw [hp, toRat_fin]; norm_num [sq]
  · rw [hl, toRat_fin]; norm_num [sq]
  · rw [hb, toRat_fin]; norm_num [sq]
  · rw [ho, toRat_fin]; norm_num [sq]

/-! ## The parameter invariant of the templates -/

/-- A draw between finite bounds that are at least zero is at least zero. -/
theorem draw_nonneg (rng : pfxr_random_t) (lo hi : Flt) (hlo : lo.IsFin binary32)
    (hhi : hi.IsFin binary32)
    (hd : (binary32.sub (fmax lo hi) (fmin lo hi)).IsFin binary32)
    (h0 : (flit 0 1).le (fmin lo hi) = true) :
    (flit 0 1).le (pfxr_random_float rng lo hi).1 = true := by
  obtain ⟨h1, h2, -⟩ := pfxr_random_float_bounds rng lo hi hlo hhi hd
  have hz : (flit 0 1).IsFin binary32 := by decide
  have hm := fmin_isFin hlo hhi
  rw [le_iff_ev (isFin_reg hz) (isFin_reg hm)] at h0
  rw [le_iff_ev (isFin_reg hz) h1]
  exact le_trans h0 h2

theorem choice4 (rng : pfxr_random_t) :
    ∃ c, pfxr_random_choice rng [0, 1, 2, 3] 4 = some (c, (pfxr_random_uint32 rng).2) ∧
      (c = 0 ∨ c = 1 ∨ c = 2 ∨ c = 3) := by
  obtain ⟨t, c, -, -, -, -, hc, hch⟩ :=
    pfxr_random_choice_index rng [0, 1, 2, 3] 4 (by decide) (by decide) (by decide)
  exact ⟨c, hch, by simpa using hc⟩

theorem choice3 (rng : pfxr_random_t) :
    ∃ c, pfxr_random_choice rng [1, 2, 3] 3 = some (c, (pfxr_random_uint32 rng).2) ∧
      (c = 1 ∨ c = 2 ∨ c = 3) := by
  obtain ⟨t, c, -, -, -, -, hc, hch⟩ :=
    pfxr_random_choice_index rng [1, 2, 3] 3 (by decide) (by decide) (by decide)
  exact ⟨c, hch, by simpa using hc⟩

theorem choice2 (rng : pfxr_random_t) :
    ∃ c, pfxr_random_choice rng [1, 2] 2 = some (c, (pfxr_random_uint32 rng).2) ∧
      (c = 1 ∨ c = 2) := by
  obtain ⟨t, c, -, -, -, -, hc, hch⟩ :=
    pfxr_random_choice_index rng [1, 2] 2 (by decide) (by decide) (by decide)
  exact ⟨c, hch, by simpa using hc⟩

theorem default_attack_nonneg : (flit 0 1).le pfxr_get_default_sound.attackTime = true := by
  decide

theorem default_delay_nonneg : (flit 0 1).le pfxr_get_default_sound.pitchDelay = true := by
  decide

theorem zero_le_zero : (flit 0 1).le (flit 0 1) = true := by decide

theorem zero_le_tenth : (flit 0 1).le (flit 1 10) = true := by decide

section TemplateInvariant

set_option maxRecDepth 8000

attribute [local irreducible] pfxr_random_float pfxr_random_bool pfxr_random_uint32

theorem template_pickup_inv (rng : pfxr_random_t) :
    ∃ s, template_pickup pfxr_get_default_sound rng = some s ∧ param_invariant s := by
  obtain ⟨c, hch, hc⟩ := choice4 rng
  unfold template_pickup
  rw [hch, Option.map_some']
  simp only []
  split_ifs
  · refine ⟨_, rfl, default_attack_nonneg, ?_, ?_, ?_, hc⟩
    · exact draw_nonneg _ _ _ (by decide) (by decide) (by decide) (by decide)
    · exact draw_nonneg _ _ _ (by decide) (by decide) (by decide) (by decide)
    · exact draw_nonneg _ _ _ (by decide) (by decide) (by decide) (by decide)
  · refine ⟨_, rfl, default_attack_nonneg, ?_, ?_, default_delay_nonneg, hc⟩
    · exact draw_nonneg _ _ _ (by decide) (by decide) (by decide) (by decide)
    · exact draw_nonneg _ _ _ (by decide) (by decide) (by decide) (by decide)

theorem template_laser_inv (rng : pfxr_random_t) :
    ∃ s, template_laser pfxr_get_default_sound rng = some s ∧ param_invariant s := by
  obtain ⟨c, hch, hc⟩ := choice4 rng
  unfold template_laser
  rw [hch, Option.map_some']
  refine ⟨_, rfl, default_attack_nonneg, ?_, ?_, ?_, hc⟩
  · exact draw_nonneg _ _ _ (by decide) (by decide) (by decide) (by decide)
  · exact draw_nonneg _ _ _ (by decide) (by decide) (by decide) (by decide)
  · show (flit 0 1).le (if _ then _ else _) = true
    split_ifs
    · exact draw_nonneg _ _ _ (by decide) (by decide) (by decide) (by decide)
    · exact zero_le_zero

theorem template_jump_inv (rng : pfxr_random_t) :
    ∃ s, template_jump pfxr_get_default_sound rng = some s ∧ param_invariant s := by
  obtain ⟨c, hch, hc⟩ := choice2 rng
  unfold template_jump
  rw [hch, Option.map_some']
  refine ⟨_, rfl, default_attack_nonneg, ?_, ?_, ?_, ?_⟩
  · exact draw_nonneg _ _ _ (by decide) (by decide) (by decide) (by decide)
  · exact draw_nonneg _ _ _ (by decide) (by decide) (by decide) (by decide)
  · show (flit 0 1).le (if _ then _ else _) = true
    split_ifs
    · exact draw_nonneg _ _ _ (by decide) (by decide) (by decide) (by decide)
    · exact zero_le_zero
  · rcases hc with h | h
    · exact Or.inr (Or.inl h)
    · exact Or.inr (Or.inr (Or.inl h))

theorem template_fall_inv (rng : pfxr_random_t) :
    ∃ s, template_fall pfxr_get_default_sound rng = some s ∧ param_invariant s := by
  obtain ⟨c, hch, hc⟩ := choice3 rng
  unfold template_fall
  rw [hch, Option.map_some']
  refine ⟨_, rfl, default_attack_nonneg, ?_, ?_, ?_, Or.inr hc⟩
  · exact draw_nonneg _ _ _ (by decide) (by decide) (by decide) (by decide)
  · exact draw_nonneg _ _ _ (by decide) (by decide) (by decide) (by decide)
  · exact draw_nonneg _ _ _ (by decide) (by decide) (by decide) (by decide)

theorem template_powerup_inv (rng : pfxr_random_t) :
    ∃ s, template_powerup pfxr_get_default_sound rng = some s ∧ param_invariant s := by
  obtain ⟨c, hch, hc⟩ := choice4 rng
  unfold template_powerup
  rw [hch, Option.map_some']
  refine ⟨_, rfl, default_attack_nonneg, ?_, ?_, ?_, hc⟩
  · exact draw_nonneg _ _ _ (by decide) (by decide) (by decide) (by decide)
  · exact draw_nonneg _ _ _ (by decide) (by decide) (by decide) (by decide)
  · show (flit 0 1).le (if _ then _ else _) = true
    split_ifs
    · exact draw_nonneg _ _ _ (by decide) (by decide) (by decide) (by decide)
    · exact zero_le_zero

theorem template_explosion_inv (rng : pfxr_random_t) :
    ∃ s, template_explosion pfxr_get_default_sound rng = some s ∧ param_invariant s := by
  obtain ⟨c, hch, hc⟩ := choice4 rng
  unfold template_explosion
  rw [hch, Option.map_some']
  refine ⟨_, rfl, default_attack_nonneg, ?_, ?_, ?_, hc⟩
  · exact draw_nonneg _ _ _ (by decide) (by decide) (by decide) (by decide)
  · exact draw_nonneg _ _ _ (by decide) (by decide) (by decide) (by decide)
  · exact draw_nonneg _ _ _ (by decide) (by decide) (by decide) (by decide)

theorem template_blip_inv (rng : pfxr_random_t) :
    ∃ s, template_blip pfxr_get_default_sound rng = some s ∧ param_invariant s := by
  obtain ⟨c, hch, hc⟩ := choice4 rng
  unfold template_blip
  rw [hch, Option.map_some']
  refine ⟨_, rfl, default_attack_nonneg, ?_, ?_, default_delay_nonneg, hc⟩
  · exact draw_nonneg _ _ _ (by decide) (by decide) (by decide) (by decide)
  · exact draw_nonneg _ _ _ (by decide) (by decide) (by decide) (by decide)

theorem template_hit_inv (rng : pfxr_random_t) :
    ∃ s, template_hit pfxr_get_default_sound rng = some s ∧ param_invariant s := by
  obtain ⟨c, hch, hc⟩ := choice4 rng
  unfold template_hit
  rw [hch, Option.map_some']
  refine ⟨_, rfl, default_attack_nonneg, ?_, ?_, default_delay_nonneg, hc⟩
  · exact draw_nonneg _ _ _ (by decide) (by decide) (by decide) (by decide)
  · exact draw_nonneg _ _ _ (by decide) (by decide) (by decide) (by decide)

theorem template_fart_inv (rng : pfxr_random_t) :
    ∃ s, template_fart pfxr_get_default_sound rng = some s ∧ param_invariant s := by
  unfold template_fart
  refine ⟨_, rfl, default_attack_nonneg, ?_, ?_, zero_le_tenth, Or.inr (Or.inl rfl)⟩
  · exact draw_nonneg _ _ _ (by decide) (by decide) (by decide) (by decide)
  · exact draw_nonneg _ _ _ (by decide) (by decide) (by decide) (by decide)

theorem template_random_inv (rng : pfxr_random_t) :
    ∃ s, template_random rng = some s ∧ param_invariant s := by
  obtain ⟨c, hch, hc⟩ := choice4 rng
  unfold template_random
  rw [hch, Option.map_some']
  refine ⟨_, rfl, ?_, ?_, ?_, ?_, hc⟩
  · exact draw_nonneg _ _ _ (by decide) (by decide) (by decide) (by decide)
  · exact draw_nonneg _ _ _ (by decide) (by decide) (by decide) (by decide)
  · exact draw_nonneg _ _ _ (by decide) (by decide) (by decide) (by decide)
  · exact draw_nonneg _ _ _ (by decide) (by decide) (by decide) (by decide)

end TemplateInvariant

/-- Template application always returns a parameter set, and that set satisfies the
Parameter Model invariant. -/
theorem apply_template_some (now : Int) (template : pfxr_template_t) (seed : Int) :
    ∃ s, pfxr_apply_template now template seed = some s ∧ param_invariant s := by
  unfold pfxr_apply_template template_switch
  cases template
  · exact ⟨_, rfl, default_attack_nonneg, by decide, by decide, default_delay_nonneg,
      Or.inl rfl⟩
  · exact template_pickup_inv _
  · exact template_laser_inv _
  · exact template_jump_inv _
  · exact template_fall_inv _
  · exact template_powerup_inv _
  · exact template_explosion_inv _
  · exact template_blip_inv _
  · exact template_hit_inv _
  · exact template_fart_inv _
  · exact template_random_inv _

/-- **C9.** For every template and every seed (and every clock reading),
`pfxr_apply_template` returns a parameter set, and that set satisfies the Parameter Model
invariant: `attackTime`, `sustainTime`, `decayTime` and `pitchDelay` are `>= 0` and
`waveForm` is one of 0, 1, 2, 3. -/
theorem pfxr_apply_template_invariant (now : Int) (template : pfxr_template_t) (seed : Int) :
    ∃ s, pfxr_apply_template now template seed = some s ∧ param_invariant s :=
  apply_template_some now template seed

/-! ## Representable values and the LASER template -/

/-- A value `k * 2^e` with `k < 2^prec` and `e` in the exponent range is a finite number of
the format. -/
theorem exists_isFin_of_grid (f : Fmt) (hf : f.ok) (neg : Bool) (k : Nat) (e : Int)
    (hk : k < 2 ^ f.prec) (he : f.emin ≤ e) (he2 : e ≤ f.emax) :
    ∃ a : Flt, a.IsFin f ∧ a.toRat = sq neg * ((k : ℚ) * (2 : ℚ) ^ e) := by
  have two : (2 : ℚ) ≠ 0 := by norm_num
  rcases Nat.eq_zero_or_pos k with h0 | h0
  · refine ⟨Flt.fin neg 0 f.emin, ⟨by positivity, le_rfl, hf.2, Or.inr rfl⟩, ?_⟩
    rw [toRat_fin, h0]; simp
  · obtain ⟨m0, e0, hrd, -⟩ := round_RD f neg k 1 e h0 (by norm_num)
    have hx : (k : ℚ) / (1 : Nat) * (2 : ℚ) ^ e = (k : ℚ) * (2 : ℚ) ^ e := by simp
    rw [hx] at hrd
    obtain ⟨i1, i2, i3⟩ := RD_inv hf hrd
    obtain ⟨E, a1, a2, a3, a4⟩ := hrd
    have hkq : (k : ℚ) < (2 : ℚ) ^ (f.prec : Int) := by
      rw [zpow_natCast]; exact_mod_cast hk
    have hxlt : (k : ℚ) * (2 : ℚ) ^ e < (2 : ℚ) ^ ((f.prec : Int) + e) := by
      rw [zpow_add₀ two]
      exact mul_lt_mul_of_pos_right hkq (zpow_two_pos e)
    have hE : E < (f.prec : Int) + e := zpow_two_lt_imp (lt_of_le_of_lt a1 hxlt)
    have he0 : e0 ≤ e := by
      rw [a3]
      exact max_le (by omega) he
    have hint : (k : ℚ) * (2 : ℚ) ^ e / (2 : ℚ) ^ e0 =
        (((k * 2 ^ (e - e0).toNat : Nat) : Int) : ℚ) := by
      rw [mul_div_assoc, ← zpow_sub₀ two]
      push_cast
      rw [← zpow_natCast (2 : ℚ) (e - e0).toNat, Int.toNat_of_nonneg (by omega)]
    rw [hint, rn_intCast] at a4
    have hm0 : m0 = k * 2 ^ (e - e0).toNat := by exact_mod_cast a4
    have hval : (m0 : ℚ) * (2 : ℚ) ^ e0 = (k : ℚ) * (2 : ℚ) ^ e := by
      rw [hm0]
      push_cast
      rw [← zpow_natCast (2 : ℚ) (e - e0).toNat, Int.toNat_of_nonneg (by omega), mul_assoc,
        ← zpow_add₀ two]
      congr 2
      omega
    have hlt : (m0 : ℚ) * (2 : ℚ) ^ e0 < (2 : ℚ) ^ ((f.prec : Int) + f.emax) := by
      rw [hval]
      exact lt_of_lt_of_le hxlt (zpow_two_le (by omega))
    obtain ⟨m1, e1, -, hc, hv⟩ := pack_fin neg hf i1 i2 i3 hlt
    refine ⟨Flt.fin neg m1 e1, hc, ?_⟩
    rw [toRat_fin, hv, hval]

/-- A draw between finite bounds, when the float sum `min + (max - min)` is the finite
number `U`: the draw is finite and lies between `min` and `U`. -/
theorem draw_range (rng : pfxr_random_t) (lo hi U : Flt) (hlo : lo.IsFin binary32)
    (hhi : hi.IsFin binary32)
    (hd : (binary32.sub (fmax lo hi) (fmin lo hi)).IsFin binary32)
    (hU : binary32.add (fmin lo hi) (binary32.sub (fmax lo hi) (fmin lo hi)) = U)
    (hUf : U.IsFin binary32) :
    (pfxr_random_float rng lo hi).1.IsFin binary32 ∧
      (fmin lo hi).toRat ≤ (pfxr_random_float rng lo hi).1.toRat ∧
      (pfxr_random_float rng lo hi).1.toRat ≤ U.toRat := by
  obtain ⟨h1, h2, h3⟩ := pfxr_random_float_bounds rng lo hi hlo hhi hd
  rw [hU] at h3
  have hm := fmin_isFin hlo hhi
  have hv := isFin_of_ev_between h1 hm hUf h2 h3
  rw [ev_of_isFin hm, ev_of_isFin hv] at h2
  rw [ev_of_isFin hv, ev_of_isFin hUf] at h3
  exact ⟨hv, h2, h3⟩
/-- Subtracting 100 from a float between 100 and 1300 is exact: the difference is a finite
number of binary32. -/
theorem exists_isFin_sub_100 (freq : Flt) (hf : freq.IsFin binary32)
    (h1 : 100 ≤ freq.toRat) (h2 : freq.toRat ≤ 1300) :
    ∃ a : Flt, a.IsFin binary32 ∧ a.toRat = freq.toRat - 100 := by
  cases freq with
  | nan => exact absurd hf id
  | inf s => exact absurd hf id
  | fin s m e =>
    obtain ⟨c1, c2, c3, c4⟩ := hf
    have hp : binary32.prec = 24 := rfl
    have hemin : binary32.emin = -149 := rfl
    have hemax : binary32.emax = 104 := rfl
    rw [hp] at c1 c4
    rw [hemin] at c2 c4
    rw [hemax] at c3
    norm_num at c1 c4
    rw [toRat_fin] at h1 h2 ⊢
    have hpos : (0 : ℚ) ≤ (m : ℚ) * (2 : ℚ) ^ e := by positivity
    have hs : s = false := by
      cases s
      · rfl
      · simp only [sq, if_true] at h1; linarith
    subst hs
    simp only [sq, if_false, Bool.false_eq_true, one_mul] at h1 h2 ⊢
    have hmq : (m : ℚ) < 16777216 := by exact_mod_cast c1
    have he1 : -17 ≤ e := by
      by_contra hc
      push_neg at hc
      have : (2 : ℚ) ^ e ≤ (2 : ℚ) ^ (-18 : Int) := zpow_two_le (by omega)
      have h3 : (m : ℚ) * (2 : ℚ) ^ e ≤ 16777216 * (2 : ℚ) ^ (-18 : Int) :=
        mul_le_mul hmq.le this (zpow_two_pos e).le (by norm_num)
      norm_num at h3
      linarith
    have hm2 : 8388608 ≤ m := by
      rcases c4 with h | h
      · exact h
      · omega
    have hm2q : (8388608 : ℚ) ≤ m := by exact_mod_cast hm2
    have he2 : e ≤ -13 := by
      by_contra hc
      push_neg at hc
      have : (2 : ℚ) ^ (-12 : Int) ≤ (2 : ℚ) ^ e := zpow_two_le (by omega)
      have h3 : 8388608 * (2 : ℚ) ^ (-12 : Int) ≤ (m : ℚ) * (2 : ℚ) ^ e :=
        mul_le_mul hm2q this (by positivity) (by positivity)
      norm_num at h3
      linarith
    have key : ∀ j : Nat, e = -(j : Int) →
        ∃ a : Flt, a.IsFin binary32 ∧ a.toRat = (m : ℚ) * (2 : ℚ) ^ e - 100 := by
      intro j hj
      have hje : (2 : ℚ) ^ e = 1 / (2 : ℚ) ^ j := by
        rw [hj, zpow_neg, zpow_natCast, one_div]
      have h2j : (0 : ℚ) < (2 : ℚ) ^ j := by positivity
      have hge : 100 * 2 ^ j ≤ m := by
        rw [hje, mul_one_div, le_div_iff₀ h2j] at h1
        exact_mod_cast h1
      obtain ⟨a, ha, hav⟩ := exists_isFin_of_grid binary32 binary32_ok false
        (m - 100 * 2 ^ j) e (by rw [hp]; norm_num; omega) (by rw [hemin]; omega)
        (by rw [hemax]; omega)
      refine ⟨a, ha, ?_⟩
      rw [hav, Nat.cast_sub hge]
      simp only [sq, if_false, Bool.false_eq_true, one_mul]
      push_cast
      rw [hje]
      field_simp
      ring
    exact key (-e).toNat (by omega)

/-- The LASER draw of `pitchDelta` between `-frequency` and `-100`, for a frequency between
100 and 1300, lies between its two bounds. -/
theorem laser_delta_bounds (rng : pfxr_random_t) (freq : Flt) (hf : freq.IsFin binary32)
    (h1 : 100 ≤ freq.toRat) (h2 : freq.toRat ≤ 1300) :
    freq.neg.le (pfxr_random_float rng freq.neg (flit 100 1).neg).1 = true ∧
      (pfxr_random_float rng freq.neg (flit 100 1).neg).1.le (flit 100 1).neg = true := by
  have hok := binary32_ok
  have hhi : (flit 100 1).neg = Flt.fin true 13107200 (-17) := by decide
  have hhiF : (Flt.fin true 13107200 (-17)).IsFin binary32 := by decide
  have hhiV : (Flt.fin true 13107200 (-17)).toRat = -100 := by
    rw [toRat_fin]; norm_num [sq]
  rw [hhi]
  have hloF := isFin_neg hf
  have hloV := toRat_neg freq
  have hlt : (Flt.fin true 13107200 (-17)).lt freq.neg = false := by
    rw [Bool.eq_false_iff]
    intro h
    have := (lt_iff_toRat hhiF hloF).mp h
    rw [hhiV, hloV] at this
    linarith
  have hmin : fmin freq.neg (Flt.fin true 13107200 (-17)) = freq.neg := by
    simp [fmin, hlt]
  have hmax : fmax freq.neg (Flt.fin true 13107200 (-17)) = Flt.fin true 13107200 (-17) := by
    simp [fmax, hlt]
  obtain ⟨a, ha, hav⟩ := exists_isFin_sub_100 freq hf h1 h2
  have hd := sub_rounded binary32 hhiF hloF
  rw [hhiV, hloV] at hd
  obtain ⟨d1, d2⟩ := rounded_exact hok hd ha (by rw [hav]; ring)
  have hs := add_rounded binary32 hloF d1
  rw [hloV, d2] at hs
  obtain ⟨s1, s2⟩ := rounded_exact hok hs hhiF (by rw [hhiV]; ring)
  obtain ⟨b1, b2, b3⟩ := pfxr_random_float_bounds rng freq.neg (Flt.fin true 13107200 (-17))
    hloF hhiF (by rw [hmin, hmax]; exact d1)
  rw [hmin] at b2
  rw [hmin, hmax] at b3
  refine ⟨(le_iff_ev (isFin_reg hloF) b1).mpr b2, (le_iff_ev b1 (isFin_reg hhiF)).mpr ?_⟩
  rw [ev_of_isFin s1, s2] at b3
  rw [ev_of_isFin hhiF, hhiV]
  linarith

theorem warm_up_succ (n : Nat) (r : pfxr_random_t) :
    (pfxr_random_uint32 (warm_up n r)).2 = warm_up (n + 1) r := by
  induction n generalizing r with
  | zero => rfl
  | succ n ih => exact ih _

theorem seeded_state_zero (now seed : Int) :
    seeded_state now seed 0 = pfxr_random_init now (toU32 seed) := by
  unfold seeded_state
  rw [warm_up]

theorem seeded_state_succ (now seed : Int) (k : Nat) :
    (pfxr_random_uint32 (seeded_state now seed k)).2 = seeded_state now seed (k + 1) := by
  unfold seeded_state
  exact warm_up_succ k _

theorem pfxr_random_bool_state (rng : pfxr_random_t) (p : Flt) :
    (pfxr_random_bool rng p).2 = (pfxr_random_uint32 rng).2 := rfl

/-- A draw between ordered finite bounds for which the float sum `lo + (hi - lo)` does not
exceed `hi` lies between the bounds. -/
theorem draw_in (rng : pfxr_random_t) (lo hi : Flt) (hlo : lo.IsFin binary32)
    (hhi : hi.IsFin binary32) (hord : hi.lt lo = false)
    (hd : (binary32.sub hi lo).IsFin binary32)
    (hU : (binary32.add lo (binary32.sub hi lo)).le hi = true) :
    lo.le (pfxr_random_float rng lo hi).1 = true ∧
      (pfxr_random_float rng lo hi).1.le hi = true := by
  have hmin : fmin lo hi = lo := by simp [fmin, hord]
  have hmax : fmax lo hi = hi := by simp [fmax, hord]
  obtain ⟨b1, b2, b3⟩ := pfxr_random_float_bounds rng lo hi hlo hhi (by rw [hmin, hmax]; exact hd)
  rw [hmin] at b2
  rw [hmin, hmax] at b3
  have hs := rounded_reg binary32_ok (add_rounded binary32 hlo hd)
  rw [le_iff_ev hs (isFin_reg hhi)] at hU
  exact ⟨(le_iff_ev (isFin_reg hlo) b1).mpr b2,
    (le_iff_ev b1 (isFin_reg hhi)).mpr (le_trans b3 hU)⟩

section Laser

set_option maxRecDepth 8000

attribute [local irreducible] pfxr_random_float pfxr_random_bool pfxr_random_uint32

theorem laser_freq_range (rng : pfxr_random_t) :
    (pfxr_random_float rng (flit 100 1) (flit 1300 1)).1.IsFin binary32 ∧
      100 ≤ (pfxr_random_float rng (flit 100 1) (flit 1300 1)).1.toRat ∧
      (pfxr_random_float rng (flit 100 1) (flit 1300 1)).1.toRat ≤ 1300 := by
  have hlo : fmin (flit 100 1) (flit 1300 1) = Flt.fin false 13107200 (-17) := by decide
  have hhi : flit 1300 1 = Flt.fin false 10649600 (-13) := by decide
  have hloV : (fmin (flit 100 1) (flit 1300 1)).toRat = 100 := by
    rw [hlo, toRat_fin]; norm_num [sq]
  have hhiV : (flit 1300 1).toRat = 1300 := by
    rw [hhi, toRat_fin]; norm_num [sq]
  obtain ⟨h1, h2, h3⟩ := draw_range rng (flit 100 1) (flit 1300 1) (flit 1300 1) (by decide)
    (by decide) (by decide) (by decide) (by decide)
  rw [hloV] at h2
  rw [hhiV] at h3
  exact ⟨h1, h2, h3⟩

/-- **C10.** For every seed (and clock reading) the LASER template returns a parameter set
whose fields come from successive draws of the one generator seeded from that seed, the
`k`-th draw using the state after `k - 1` steps: `waveForm` is the choice over `{0,1,2,3}`
(draw 1), `sustainPunch` a float in `[0, 0.8]` (draw 2), `sustainTime` a float in
`[0.05, 0.1]` (draw 3), `decayTime` a float in `[0, 0.2]` (draw 4), `frequency` a float in
`[100, 1300]` (draw 5), `pitchDelta` a float in `[-frequency, -100]` with the frequency
just drawn (draw 6), and `pitchDuration = 1`. -/
theorem template_laser_draws (now : Int) (seed : Int) :
    ∃ (s : pfxr_sound_t) (c : Int),
      pfxr_apply_template now pfxr_template_t.LASER seed = some s ∧
      pfxr_random_choice (seeded_state now seed 0) [0, 1, 2, 3] 4 =
        some (c, seeded_state now seed 1) ∧
      s.waveForm = c ∧ (c = 0 ∨ c = 1 ∨ c = 2 ∨ c = 3) ∧
      s.sustainPunch = (pfxr_random_float (seeded_state now seed 1) (flit 0 1) (flit 8 10)).1 ∧
      (flit 0 1).le s.sustainPunch = true ∧ s.sustainPunch.le (flit 8 10) = true ∧
      s.sustainTime =
        (pfxr_random_float (seeded_state now seed 2) (flit 5 100) (flit 1 10)).1 ∧
      (flit 5 100).le s.sustainTime = true ∧ s.sustainTime.le (flit 1 10) = true ∧
      s.decayTime = (pfxr_random_float (seeded_state now seed 3) (flit 0 1) (flit 2 10)).1 ∧
      (flit 0 1).le s.decayTime = true ∧ s.decayTime.le (flit 2 10) = true ∧
      s.frequency =
        (pfxr_random_float (seeded_state now seed 4) (flit 100 1) (flit 1300 1)).1 ∧
      (flit 100 1).le s.frequency = true ∧ s.frequency.le (flit 1300 1) = true ∧
      s.pitchDelta =
        (pfxr_random_float (seeded_state now seed 5) s.frequency.neg (flit 100 1).neg).1 ∧
      s.frequency.neg.le s.pitchDelta = true ∧ s.pitchDelta.le (flit 100 1).neg = true ∧
      s.pitchDuration = flit 1 1 := by
  obtain ⟨c, hch, hc⟩ := choice4 (seeded_state now seed 0)
  have e1 : (pfxr_random_uint32 (seeded_state now seed 0)).2 = seeded_state now seed 1 :=
    seeded_state_succ now seed 0
  have e2 : (pfxr_random_uint32 (seeded_state now seed 1)).2 = seeded_state now seed 2 :=
    seeded_state_succ now seed 1
  have e3 : (pfxr_random_uint32 (seeded_state now seed 2)).2 = seeded_state now seed 3 :=
    seeded_state_succ now seed 2
  have e4 : (pfxr_random_uint32 (seeded_state now seed 3)).2 = seeded_state now seed 4 :=
    seeded_state_succ now seed 3
  have e5 : (pfxr_random_uint32 (seeded_state now seed 4)).2 = seeded_state now seed 5 :=
    seeded_state_succ now seed 4
  rw [e1] at hch
  unfold pfxr_apply_template template_switch
  simp only []
  rw [← seeded_state_zero now seed]
  unfold template_laser
  rw [hch, Option.map_some']
  simp only [pfxr_random_float_state, e2, e3, e4, e5]
  obtain ⟨f1, f2, f3⟩ := laser_freq_range (seeded_state now seed 4)
  refine ⟨_, c, rfl, rfl, rfl, hc, rfl, ?_, ?_, rfl, ?_, ?_, rfl, ?_, ?_, rfl, ?_, ?_, rfl,
    ?_, ?_, rfl⟩
  · exact (draw_in _ _ _ (by decide) (by decide) (by decide) (by decide) (by decide)).1
  · exact (draw_in _ _ _ (by decide) (by decide) (by decide) (by decide) (by decide)).2
  · exact (draw_in _ _ _ (by decide) (by decide) (by decide) (by decide) (by decide)).1
  · exact (draw_in _ _ _ (by decide) (by decide) (by decide) (by decide) (by decide)).2
  · exact (draw_in _ _ _ (by decide) (by decide) (by decide) (by decide) (by decide)).1
  · exact (draw_in _ _ _ (by decide) (by decide) (by decide) (by decide) (by decide)).2
  · exact (draw_in _ _ _ (by decide) (by decide) (by decide) (by decide) (by decide)).1
  · exact (draw_in _ _ _ (by decide) (by decide) (by decide) (by decide) (by decide)).2
  · exact (laser_delta_bounds _ _ f1 f2 f3).1
  · exact (laser_delta_bounds _ _ f1 f2 f3).2

end Laser

/-- A seed in the range of `int` is zero as a 32-bit word only when it is zero. -/
theorem toU32_ne_zero (seed : Int) (hr : -2147483648 ≤ seed ∧ seed ≤ 2147483647)
    (h : seed ≠ 0) : toU32 seed ≠ 0 := by
  unfold toU32
  omega

/-- Independence of the clock: for every template and every non-zero seed (an `int`), and
whatever `sinf` and `cosf` compute, `pfxr_apply_template` returns one and the same
parameter set at every clock reading, so that the render into a fresh buffer and
`pfxr_create_sound_from_template` have the same outcome at any two clock readings: an
equal buffer and equal WAV bytes where the C code has defined behaviour, and no defined
result at both readings where it has none. -/
theorem pfxr_create_sound_deterministic (L : libm_t) (template : pfxr_template_t)
    (seed : Int) (hr : -2147483648 ≤ seed ∧ seed ≤ 2147483647) (h : seed ≠ 0) :
    (∃ config, ∀ now : Int, pfxr_apply_template now template seed = some config) ∧
    ∀ now1 now2 : Int,
      (∀ capacity : Int,
        ((pfxr_apply_template now1 template seed).bind fun c =>
            pfxr_generate_sound L (some c) (some (pfxr_create_audio_buffer capacity))) =
          ((pfxr_apply_template now2 template seed).bind fun c =>
            pfxr_generate_sound L (some c) (some (pfxr_create_audio_buffer capacity)))) ∧
      pfxr_create_sound_from_template L now1 template seed =
        pfxr_create_sound_from_template L now2 template seed := by
  have hu := toU32_ne_zero seed hr h
  obtain ⟨s, hs, _⟩ := apply_template_some 0 template seed
  refine ⟨⟨s, fun now => ?_⟩, fun now1 now2 => ⟨fun capacity => ?_, ?_⟩⟩
  · rw [pfxr_apply_template_clock_free now 0 template seed hu]
    exact hs
  · rw [pfxr_apply_template_clock_free now1 now2 template seed hu]
  · unfold pfxr_create_sound_from_template
    rw [pfxr_apply_template_clock_free now1 now2 template seed hu]

/-- The independence of the clock at the identity functions for `sinf` and `cosf`, the
LASER template and seed 42. -/
theorem pfxr_create_sound_deterministic_witness :
    ((-2147483648 : Int) ≤ 42 ∧ (42 : Int) ≤ 2147483647) ∧ (42 : Int) ≠ 0 ∧
    ((∃ config, ∀ now : Int,
        pfxr_apply_template now pfxr_template_t.LASER 42 = some config) ∧
    ∀ now1 now2 : Int,
      (∀ capacity : Int,
        ((pfxr_apply_template now1 pfxr_template_t.LASER 42).bind fun c =>
            pfxr_generate_sound ⟨id, id⟩ (some c)
              (some (pfxr_create_audio_buffer capacity))) =
          ((pfxr_apply_template now2 pfxr_template_t.LASER 42).bind fun c =>
            pfxr_generate_sound ⟨id, id⟩ (some c)
              (some (pfxr_create_audio_buffer capacity)))) ∧
      pfxr_create_sound_from_template ⟨id, id⟩ now1 pfxr_template_t.LASER 42 =
        pfxr_create_sound_from_template ⟨id, id⟩ now2 pfxr_template_t.LASER 42) :=
  ⟨by decide, by decide,
    pfxr_create_sound_deterministic ⟨id, id⟩ pfxr_template_t.LASER 42 (by decide) (by decide)⟩

/-! ## The draw sequences of the templates -/

/-- The state after a float draw from the `k`-th seeded state is the next seeded state. -/
theorem seeded_float (now seed : Int) (k : Nat) (lo hi : Flt) :
    (pfxr_random_float (seeded_state now seed k) lo hi).2 = seeded_state now seed (k + 1) := by
  rw [pfxr_random_float_state]
  exact seeded_state_succ now seed k

/-- The state after a boolean draw from the `k`-th seeded state is the next seeded state. -/
theorem seeded_bool (now seed : Int) (k : Nat) (p : Flt) :
    (pfxr_random_bool (seeded_state now seed k) p).2 = seeded_state now seed (k + 1) := by
  rw [pfxr_random_bool_state]
  exact seeded_state_succ now seed k

/-- The choice over `{0,1,2,3}` from the first seeded state. -/
theorem seeded_choice4 (now seed : Int) :
    ∃ c, pfxr_random_choice (seeded_state now seed 0) [0, 1, 2, 3] 4 =
        some (c, seeded_state now seed 1) ∧ (c = 0 ∨ c = 1 ∨ c = 2 ∨ c = 3) := by
  obtain ⟨c, hch, hc⟩ := choice4 (seeded_state now seed 0)
  rw [seeded_state_succ now seed 0] at hch
  exact ⟨c, hch, hc⟩

/-- The choice over `{1,2}` from the first seeded state. -/
theorem seeded_choice2 (now seed : Int) :
    ∃ c, pfxr_random_choice (seeded_state now seed 0) [1, 2] 2 =
        some (c, seeded_state now seed 1) ∧ (c = 1 ∨ c = 2) := by
  obtain ⟨c, hch, hc⟩ := choice2 (seeded_state now seed 0)
  rw [seeded_state_succ now seed 0] at hch
  exact ⟨c, hch, hc⟩

set_option maxRecDepth 100000 in
/-- **C11 (as stated) fails.** With seed 8 the LASER template's boolean draw comes out true,
and `pitchDelay` is not 0: it is `13822954 * 2^-27` (about 0.103), the value of the float
draw. -/
theorem template_delay_counterexample :
    (pfxr_random_bool (seeded_state 0 8 7) (flit 5 10)).1 = true ∧
      (pfxr_apply_template 0 pfxr_template_t.LASER 8).map (fun s => s.pitchDelay) =
        some (Flt.fin false 13822954 (-27)) ∧
      Flt.fin false 13822954 (-27) ≠ flit 0 1 := by
  decide

section TemplateDraws

set_option maxRecDepth 8000

attribute [local irreducible] pfxr_random_float pfxr_random_bool pfxr_random_uint32

/-- A draw from a seeded state between ordered finite bounds for which the float sum
`lo + (hi - lo)` does not exceed `hi`. -/
theorem drawn_intro (now seed : Int) (k : Nat) (lo hi : Flt) (hlo : lo.IsFin binary32)
    (hhi : hi.IsFin binary32) (hord : hi.lt lo = false)
    (hd : (binary32.sub hi lo).IsFin binary32)
    (hU : (binary32.add lo (binary32.sub hi lo)).le hi = true) :
    drawn now seed k lo hi (pfxr_random_float (seeded_state now seed k) lo hi).1 :=
  ⟨rfl, draw_in _ lo hi hlo hhi hord hd hU⟩

/-- **C11 (amended).** For the LASER, JUMP and POWERUP templates, for every seed (and clock
reading), the float between 0 and 0.3 is always drawn, as the seventh draw, before the
boolean, which is the eighth; `pitchDelay` is the value of that float draw when the boolean
comes out true and 0 when it comes out false. -/
theorem template_delay_rule (now seed : Int) (template : pfxr_template_t)
    (ht : template = pfxr_template_t.LASER ∨ template = pfxr_template_t.JUMP ∨
      template = pfxr_template_t.POWERUP) :
    ∃ (s : pfxr_sound_t) (delay : Flt),
      pfxr_apply_template now template seed = some s ∧
      drawn now seed 6 (flit 0 1) (flit 3 10) delay ∧
      s.pitchDelay =
        if (pfxr_random_bool (seeded_state now seed 7) (flit 5 10)).1 = true then delay
        else flit 0 1 := by
  have hd := drawn_intro now seed 6 (flit 0 1) (flit 3 10) (by decide) (by decide) (by decide)
    (by decide) (by decide)
  rcases ht with rfl | rfl | rfl
  · obtain ⟨c, hch, -⟩ := seeded_choice4 now seed
    unfold pfxr_apply_template template_switch
    simp only []
    rw [← seeded_state_zero now seed]
    unfold template_laser
    rw [hch, Option.map_some']
    simp only [seeded_float, Nat.reduceAdd]
    exact ⟨_, _, rfl, hd, rfl⟩
  · obtain ⟨c, hch, -⟩ := seeded_choice2 now seed
    unfold pfxr_apply_template template_switch
    simp only []
    rw [← seeded_state_zero now seed]
    unfold template_jump
    rw [hch, Option.map_some']
    simp only [seeded_float, Nat.reduceAdd]
    exact ⟨_, _, rfl, hd, rfl⟩
  · obtain ⟨c, hch, -⟩ := seeded_choice4 now seed
    unfold pfxr_apply_template template_switch
    simp only []
    rw [← seeded_state_zero now seed]
    unfold template_powerup
    rw [hch, Option.map_some']
    simp only [seeded_float, Nat.reduceAdd]
    exact ⟨_, _, rfl, hd, rfl⟩

/-- The statement of C11 (amended) at the LASER template and seed 8. -/
theorem template_delay_rule_witness :
    (pfxr_template_t.LASER = pfxr_template_t.LASER ∨
      pfxr_template_t.LASER = pfxr_template_t.JUMP ∨
      pfxr_template_t.LASER = pfxr_template_t.POWERUP) ∧
    ∃ (s : pfxr_sound_t) (delay : Flt),
      pfxr_apply_template 0 pfxr_template_t.LASER 8 = some s ∧
      drawn 0 8 6 (flit 0 1) (flit 3 10) delay ∧
      s.pitchDelay =
        if (pfxr_random_bool (seeded_state 0 8 7) (flit 5 10)).1 = true then delay
        else flit 0 1 :=
  ⟨Or.inl rfl, template_delay_rule 0 8 pfxr_template_t.LASER (Or.inl rfl)⟩

end TemplateDraws

section TemplatePickup

set_option maxRecDepth 8000

attribute [local irreducible] pfxr_random_float pfxr_random_bool pfxr_random_uint32

/-- **C12.** For every seed (and clock reading) the PICKUP template draws, in this order,
`waveForm` (a choice over `{0,1,2,3}`), `sustainPunch` in `[0, 0.8]`, `sustainTime` in
`[0.05, 0.2]`, `decayTime` in `[0.1, 0.3]`, `frequency` in `[900, 1700]` and one boolean
with probability 0.5.  When the boolean is true, `pitchDelta` is a further draw in
`[100, 500]`, `pitchDuration` is 0 and `pitchDelay` a further draw in `[0, 0.7]`.  When it
is false, the result is the default sound with the five drawn fields and nothing else
changed: no further draw enters it and `pitchDelta`, `pitchDuration` and `pitchDelay` keep
their default values. -/
theorem template_pickup_draws (now seed : Int) :
    ∃ (s : pfxr_sound_t) (c : Int),
      pfxr_apply_template now pfxr_template_t.PICKUP seed = some s ∧
      pfxr_random_choice (seeded_state now seed 0) [0, 1, 2, 3] 4 =
        some (c, seeded_state now seed 1) ∧
      s.waveForm = c ∧ (c = 0 ∨ c = 1 ∨ c = 2 ∨ c = 3) ∧
      drawn now seed 1 (flit 0 1) (flit 8 10) s.sustainPunch ∧
      drawn now seed 2 (flit 5 100) (flit 2 10) s.sustainTime ∧
      drawn now seed 3 (flit 1 10) (flit 3 10) s.decayTime ∧
      drawn now seed 4 (flit 900 1) (flit 1700 1) s.frequency ∧
      ((pfxr_random_bool (seeded_state now seed 5) (flit 5 10)).1 = true →
        drawn now seed 6 (flit 100 1) (flit 500 1) s.pitchDelta ∧
        s.pitchDuration = flit 0 1 ∧
        drawn now seed 7 (flit 0 1) (flit 7 10) s.pitchDelay) ∧
      ((pfxr_random_bool (seeded_state now seed 5) (flit 5 10)).1 = false →
        s.pitchDelta = pfxr_get_default_sound.pitchDelta ∧
        s.pitchDuration = pfxr_get_default_sound.pitchDuration ∧
        s.pitchDelay = pfxr_get_default_sound.pitchDelay ∧
        s = { pfxr_get_default_sound with
              waveForm := c, sustainPunch := s.sustainPunch, sustainTime := s.sustainTime,
              decayTime := s.decayTime, frequency := s.frequency }) := by
  obtain ⟨c, hch, hc⟩ := seeded_choice4 now seed
  have d1 := drawn_intro now seed 1 (flit 0 1) (flit 8 10) (by decide) (by decide) (by decide)
    (by decide) (by decide)
  have d2 := drawn_intro now seed 2 (flit 5 100) (flit 2 10) (by decide) (by decide)
    (by decide) (by decide) (by decide)
  have d3 := drawn_intro now seed 3 (flit 1 10) (flit 3 10) (by decide) (by decide)
    (by decide) (by decide) (by decide)
  have d4 := drawn_intro now seed 4 (flit 900 1) (flit 1700 1) (by decide) (by decide)
    (by decide) (by decide) (by decide)
  have d6 := drawn_intro now seed 6 (flit 100 1) (flit 500 1) (by decide) (by decide)
    (by decide) (by decide) (by decide)
  have d7 := drawn_intro now seed 7 (flit 0 1) (flit 7 10) (by decide) (by decide)
    (by decide) (by decide) (by decide)
  unfold pfxr_apply_template template_switch
  simp only []
  rw [← seeded_state_zero now seed]
  unfold template_pickup
  rw [hch, Option.map_some']
  simp only [seeded_float, seeded_bool, Nat.reduceAdd]
  cases hb : (pfxr_random_bool (seeded_state now seed 5) (flit 5 10)).1
  · simp only [Bool.false_eq_true, if_false]
    exact ⟨_, c, rfl, rfl, rfl, hc, d1, d2, d3, d4, fun h => absurd h (by decide),
      fun _ => ⟨rfl, rfl, rfl, rfl⟩⟩
  · simp only [if_true]
    exact ⟨_, c, rfl, rfl, rfl, hc, d1, d2, d3, d4, fun _ => ⟨d6, rfl, d7⟩,
      fun h => absurd h (by decide)⟩

end TemplatePickup

/-- Float multiplication is commutative. -/
theorem mul_comm_flt (f : Fmt) (a b : Flt) : f.mul a b = f.mul b a := by
  cases a <;> cases b <;> simp only [Fmt.mul, Bool.xor_comm, Nat.mul_comm, add_comm]

/-- The constant `2.0f`. -/
theorem two_eq : flit 2 1 = Flt.fin false 8388608 (-22) := by decide

/-- Halving the negation of a finite float that is at least 1 is exact. -/
theorem neg_half_exact (x : Flt) (hx : x.IsFin binary32) (h1 : 1 ≤ x.toRat) :
    (binary32.div x.neg (flit 2 1)).IsFin binary32 ∧
      (binary32.div x.neg (flit 2 1)).toRat = -x.toRat / 2 := by
  have h2F : (Flt.fin false 8388608 (-22)).IsFin binary32 := by decide
  have h2V : (Flt.fin false 8388608 (-22)).toRat = 2 := by
    rw [toRat_fin]; norm_num [sq]
  have hr := div_rounded binary32 (isFin_neg hx) h2F (by rw [h2V]; norm_num)
  rw [h2V, toRat_neg] at hr
  rw [two_eq]
  cases x with
  | nan => exact absurd hx id
  | inf s => exact absurd hx id
  | fin s m e =>
    obtain ⟨c1, c2, c3, c4⟩ := hx
    have hp : binary32.prec = 24 := rfl
    have hemin : binary32.emin = -149 := rfl
    have hemax : binary32.emax = 104 := rfl
    rw [hp] at c1
    rw [hemin] at c2
    rw [hemax] at c3
    norm_num at c1
    rw [toRat_fin] at h1 hr ⊢
    have hpos : (0 : ℚ) ≤ (m : ℚ) * (2 : ℚ) ^ e := by positivity
    have hs : s = false := by
      cases s
      · rfl
      · simp only [sq, if_true] at h1; linarith
    subst hs
    simp only [sq, if_false, Bool.false_eq_true, one_mul] at h1 hr ⊢
    have hmq : (m : ℚ) < 16777216 := by exact_mod_cast c1
    have he1 : -24 ≤ e := by
      by_contra hc
      push_neg at hc
      have : (2 : ℚ) ^ e ≤ (2 : ℚ) ^ (-25 : Int) := zpow_two_le (by omega)
      have h3 : (m : ℚ) * (2 : ℚ) ^ e ≤ 16777216 * (2 : ℚ) ^ (-25 : Int) :=
        mul_le_mul hmq.le this (zpow_two_pos e).le (by norm_num)
      norm_num at h3
      linarith
    obtain ⟨a, ha, hav⟩ := exists_isFin_of_grid binary32 binary32_ok true m (e - 1)
      (by rw [hp]; norm_num; exact c1) (by rw [hemin]; omega) (by rw [hemax]; omega)
    have hq : -((m : ℚ) * (2 : ℚ) ^ e) / 2 = a.toRat := by
      rw [hav, zpow_sub_one₀ (by norm_num : (2 : ℚ) ≠ 0)]
      simp only [sq, if_true]
      ring
    exact rounded_exact binary32_ok hr ha hq

section TemplateFart

set_option maxRecDepth 8000

attribute [local irreducible] pfxr_random_float pfxr_random_bool pfxr_random_uint32

/-- **C13.** For every seed (and clock reading) the FART template returns `waveForm = 1`
(sawtooth), `volume = 0.7f`, `pitchDuration = 1`, `pitchDelay = 0.1f` and
`lowPassResonance = 10`; `frequency` is its fourth float draw and lies in `[30, 150]`;
`pitchDelta` is the float quotient `-frequency / 2.0f`, whose value is exactly minus half
the frequency; `lowPassCutoff` is the float product `frequency * 10.0f` (the same float as
`10.0f * frequency`). -/
theorem template_fart_fields (now seed : Int) :
    ∃ s : pfxr_sound_t,
      pfxr_apply_template now pfxr_template_t.FART seed = some s ∧
      s.waveForm = 1 ∧ s.volume = flit 7 10 ∧ s.pitchDuration = flit 1 1 ∧
      s.pitchDelay = flit 1 10 ∧ s.lowPassResonance = flit 10 1 ∧
      drawn now seed 3 (flit 30 1) (flit 150 1) s.frequency ∧
      s.pitchDelta = binary32.div s.frequency.neg (flit 2 1) ∧
      s.pitchDelta.toRat = -s.frequency.toRat / 2 ∧
      s.lowPassCutoff = binary32.mul s.frequency (flit 10 1) ∧
      s.lowPassCutoff = binary32.mul (flit 10 1) s.frequency := by
  have d3 := drawn_intro now seed 3 (flit 30 1) (flit 150 1) (by decide) (by decide)
    (by decide) (by decide) (by decide)
  obtain ⟨f1, f2, -⟩ := draw_range (seeded_state now seed 3) (flit 30 1) (flit 150 1)
    (flit 150 1) (by decide) (by decide) (by decide) (by decide) (by decide)
  have hloV : (fmin (flit 30 1) (flit 150 1)).toRat = 30 := by
    have : fmin (flit 30 1) (flit 150 1) = Flt.fin false 15728640 (-19) := by decide
    rw [this, toRat_fin]; norm_num [sq]
  rw [hloV] at f2
  have hh := neg_half_exact _ f1 (by linarith)
  unfold pfxr_apply_template template_switch
  simp only []
  rw [← seeded_state_zero now seed]
  unfold template_fart
  simp only [seeded_float, Nat.reduceAdd]
  exact ⟨_, rfl, rfl, rfl, rfl, rfl, rfl, d3, rfl, hh.2, rfl, mul_comm_flt _ _ _⟩

end TemplateFart

section TemplateFrame

set_option maxRecDepth 8000

attribute [local irreducible] pfxr_random_float pfxr_random_bool pfxr_random_uint32

/-- **C14.** For every template, seed and clock reading, `pfxr_apply_template` returns a
parameter set that differs from `pfxr_get_default_sound()` at most in the fields that the
table row of the template names (`template_frame`).  In particular DEFAULT returns exactly
the default sound, BLIP can differ from it only in `waveForm`, `sustainTime`, `decayTime`
and `frequency`, and HIT only in `waveForm`, `sustainTime`, `sustainPunch`, `decayTime`,
`frequency`, `pitchDelta` and `noiseAmount`. -/
theorem pfxr_apply_template_frame (now seed : Int) (template : pfxr_template_t) :
    (∃ s, pfxr_apply_template now template seed = some s ∧ template_frame template s) ∧
    pfxr_apply_template now pfxr_template_t.DEFAULT seed = some pfxr_get_default_sound ∧
    (∃ s, pfxr_apply_template now pfxr_template_t.BLIP seed = some s ∧
      s = { pfxr_get_default_sound with
            waveForm := s.waveForm, sustainTime := s.sustainTime,
            decayTime := s.decayTime, frequency := s.frequency }) ∧
    (∃ s, pfxr_apply_template now pfxr_template_t.HIT seed = some s ∧
      s = { pfxr_get_default_sound with
            waveForm := s.waveForm, sustainTime := s.sustainTime,
            sustainPunch := s.sustainPunch, decayTime := s.decayTime,
            frequency := s.frequency, pitchDelta := s.pitchDelta,
            noiseAmount := s.noiseAmount }) := by
  have key : ∀ t : pfxr_template_t,
      ∃ s, pfxr_apply_template now t seed = some s ∧ template_frame t s := by
    intro t
    unfold pfxr_apply_template template_switch
    cases t
    · exact ⟨_, rfl, rfl⟩
    · obtain ⟨c, hch, -⟩ := choice4 (pfxr_random_init now (toU32 seed))
      simp only []
      unfold template_pickup
      rw [hch, Option.map_some']
      simp only []
      split
      · exact ⟨_, rfl, rfl⟩
      · exact ⟨_, rfl, rfl⟩
    · obtain ⟨c, hch, -⟩ := choice4 (pfxr_random_init now (toU32 seed))
      simp only []
      unfold template_laser
      rw [hch, Option.map_some']
      exact ⟨_, rfl, rfl⟩
    · obtain ⟨c, hch, -⟩ := choice2 (pfxr_random_init now (toU32 seed))
      simp only []
      unfold template_jump
      rw [hch, Option.map_some']
      exact ⟨_, rfl, rfl⟩
    · obtain ⟨c, hch, -⟩ := choice3 (pfxr_random_init now (toU32 seed))
      simp only []
      unfold template_fall
      rw [hch, Option.map_some']
      exact ⟨_, rfl, rfl⟩
    · obtain ⟨c, hch, -⟩ := choice4 (pfxr_random_init now (toU32 seed))
      simp only []
      unfold template_powerup
      rw [hch, Option.map_some']
      exact ⟨_, rfl, rfl⟩
    · obtain ⟨c, hch, -⟩ := choice4 (pfxr_random_init now (toU32 seed))
      simp only []
      unfold template_explosion
      rw [hch, Option.map_some']
      exact ⟨_, rfl, rfl⟩
    · obtain ⟨c, hch, -⟩ := choice4 (pfxr_random_init now (toU32 seed))
      simp only []
      unfold template_blip
      rw [hch, Option.map_some']
      exact ⟨_, rfl, rfl⟩
    · obtain ⟨c, hch, -⟩ := choice4 (pfxr_random_init now (toU32 seed))
      simp only []
      unfold template_hit
      rw [hch, Option.map_some']
      exact ⟨_, rfl, rfl⟩
    · simp only []
      unfold template_fart
      exact ⟨_, rfl, rfl⟩
    · obtain ⟨c, hch, -⟩ := choice4 (pfxr_random_init now (toU32 seed))
      simp only []
      unfold template_random
      rw [hch, Option.map_some']
      exact ⟨_, rfl, trivial⟩
  refine ⟨key template, ?_, key pfxr_template_t.BLIP, key pfxr_template_t.HIT⟩
  obtain ⟨s, h1, h2⟩ := key pfxr_template_t.DEFAULT
  rw [h1]
  exact congrArg some h2

end TemplateFrame

section TemplateRandom

set_option maxRecDepth 8000

attribute [local irreducible] pfxr_random_float pfxr_random_bool pfxr_random_uint32

/-- A float draw from a seeded state between 0 and a finite upper bound `hi` for which
`0 + (hi - 0)` does not exceed `hi`. -/
theorem drawn_from_zero (now seed : Int) (k : Nat) (hi : Flt) (hhi : hi.IsFin binary32)
    (hord : hi.lt (flit 0 1) = false) (hd : (binary32.sub hi (flit 0 1)).IsFin binary32)
    (hU : (binary32.add (flit 0 1) (binary32.sub hi (flit 0 1))).le hi = true) :
    drawn now seed k (flit 0 1) hi (pfxr_random_float (seeded_state now seed k) (flit 0 1) hi).1 :=
  drawn_intro now seed k (flit 0 1) hi (by decide) hhi hord hd hU

/-- **C15.** For every seed (and clock reading) the RANDOM template makes 22 generator
draws, one per field in the order of the fields of the parameter record, the `k`-th field
being drawn from the state reached `k - 1` steps after seeding: `waveForm` is the choice
over `{0,1,2,3}`, and the 21 float fields are float draws that lie in their ranges:
`volume` in `[0,1]`, `attackTime`, `sustainTime` and `decayTime` in `[0,2]`, `sustainPunch`
in `[0,1]`, `frequency` in `[0,4000]`, `pitchDelta` in `[-4000,4000]`, `pitchDuration` and
`pitchDelay` in `[0,1]`, `vibratoRate` and `tremoloRate` in `[0,70]`, `vibratoDepth` in
`[0,100]`, `tremoloDepth` in `[0,1]`, the two cutoffs in `[0,4000]`, the two resonances in
`[0,30]`, `phaserBaseFrequency` and `phaserDepth` in `[0,1000]`, `phaserLfoFrequency` in
`[0,200]` and `noiseAmount` in `[0,500]`. -/
theorem template_random_draws (now seed : Int) :
    ∃ (s : pfxr_sound_t) (c : Int),
      pfxr_apply_template now pfxr_template_t.RANDOM seed = some s ∧
      pfxr_random_choice (seeded_state now seed 0) [0, 1, 2, 3] 4 =
        some (c, seeded_state now seed 1) ∧
      s.waveForm = c ∧ (c = 0 ∨ c = 1 ∨ c = 2 ∨ c = 3) ∧
      drawn now seed 1 (flit 0 1) (flit 1 1) s.volume ∧
      drawn now seed 2 (flit 0 1) (flit 2 1) s.attackTime ∧
      drawn now seed 3 (flit 0 1) (flit 2 1) s.sustainTime ∧
      drawn now seed 4 (flit 0 1) (flit 1 1) s.sustainPunch ∧
      drawn now seed 5 (flit 0 1) (flit 2 1) s.decayTime ∧
      drawn now seed 6 (flit 0 1) (flit 4000 1) s.frequency ∧
      drawn now seed 7 (flit 4000 1).neg (flit 4000 1) s.pitchDelta ∧
      drawn now seed 8 (flit 0 1) (flit 1 1) s.pitchDuration ∧
      drawn now seed 9 (flit 0 1) (flit 1 1) s.pitchDelay ∧
      drawn now seed 10 (flit 0 1) (flit 70 1) s.vibratoRate ∧
      drawn now seed 11 (flit 0 1) (flit 100 1) s.vibratoDepth ∧
      drawn now seed 12 (flit 0 1) (flit 70 1) s.tremoloRate ∧
      drawn now seed 13 (flit 0 1) (flit 1 1) s.tremoloDepth ∧
      drawn now seed 14 (flit 0 1) (flit 4000 1) s.highPassCutoff ∧
      drawn now seed 15 (flit 0 1) (flit 30 1) s.highPassResonance ∧
      drawn now seed 16 (flit 0 1) (flit 4000 1) s.lowPassCutoff ∧
      drawn now seed 17 (flit 0 1) (flit 30 1) s.lowPassResonance ∧
      drawn now seed 18 (flit 0 1) (flit 1000 1) s.phaserBaseFrequency ∧
      drawn now seed 19 (flit 0 1) (flit 200 1) s.phaserLfoFrequency ∧
      drawn now seed 20 (flit 0 1) (flit 1000 1) s.phaserDepth ∧
      drawn now seed 21 (flit 0 1) (flit 500 1) s.noiseAmount := by
  obtain ⟨c, hch, hc⟩ := seeded_choice4 now seed
  have z : ∀ (k : Nat) (hi : Flt), hi.IsFin binary32 → hi.lt (flit 0 1) = false →
      (binary32.sub hi (flit 0 1)).IsFin binary32 →
      (binary32.add (flit 0 1) (binary32.sub hi (flit 0 1))).le hi = true →
      drawn now seed k (flit 0 1) hi
        (pfxr_random_float (seeded_state now seed k) (flit 0 1) hi).1 :=
    fun k hi => drawn_from_zero now seed k hi
  have d7 := drawn_intro now seed 7 (flit 4000 1).neg (flit 4000 1) (by decide) (by decide)
    (by decide) (by decide) (by decide)
  unfold pfxr_apply_template template_switch
  simp only []
  rw [← seeded_state_zero now seed]
  unfold template_random
  rw [hch, Option.map_some']
  simp only [seeded_float, Nat.reduceAdd]
  exact ⟨_, c, rfl, rfl, rfl, hc,
    z 1 _ (by decide) (by decide) (by decide) (by decide),
    z 2 _ (by decide) (by decide) (by decide) (by decide),
    z 3 _ (by decide) (by decide) (by decide) (by decide),
    z 4 _ (by decide) (by decide) (by decide) (by decide),
    z 5 _ (by decide) (by decide) (by decide) (by decide),
    z 6 _ (by decide) (by decide) (by decide) (by decide),
    d7,
    z 8 _ (by decide) (by decide) (by decide) (by decide),
    z 9 _ (by decide) (by decide) (by decide) (by decide),
    z 10 _ (by decide) (by decide) (by decide) (by decide),
    z 11 _ (by decide) (by decide) (by decide) (by decide),
    z 12 _ (by decide) (by decide) (by decide) (by decide),
    z 13 _ (by decide) (by decide) (by decide) (by decide),
    z 14 _ (by decide) (by decide) (by decide) (by decide),
    z 15 _ (by decide) (by decide) (by decide) (by decide),
    z 16 _ (by decide) (by decide) (by decide) (by decide),
    z 17 _ (by decide) (by decide) (by decide) (by decide),
    z 18 _ (by decide) (by decide) (by decide) (by decide),
    z 19 _ (by decide) (by decide) (by decide) (by decide),
    z 20 _ (by decide) (by decide) (by decide) (by decide),
    z 21 _ (by decide) (by decide) (by decide) (by decide)⟩

end TemplateRandom

/-! ## The sample loop of `pfxr_generate_sound` -/

/-- What a successful run of `generate_sound` consists of. -/
theorem generate_sound_inv {L : libm_t} {config : pfxr_sound_t} {buffer r : pfxr_audio_buffer_t}
    (h : generate_sound L config buffer = some r) :
    ∃ (total0 : Int) (st0 st : synth_t),
      (binary32.mul
          (binary32.add (binary32.add config.attackTime config.sustainTime) config.decayTime)
          (binary32.ofInt PFXR_SAMPLE_RATE)).toInt32 = some total0 ∧
      st0.samples = buffer.samples ∧
      sample_loop L config buffer.capacity (binary32.ofInt PFXR_SAMPLE_RATE)
        (binary32.add (binary32.add config.attackTime config.sustainTime) config.decayTime)
        (if total0 > buffer.capacity then buffer.capacity else total0).toNat 0 st0 = some st ∧
      r.samples = st.samples ∧
      r.sample_count = (if total0 > buffer.capacity then buffer.capacity else total0) ∧
      r.capacity = buffer.capacity := by
  unfold generate_sound at h
  simp only [] at h
  split at h
  · exact absurd h (by simp)
  · rename_i total0 ht
    split at h
    · exact absurd h (by simp)
    · rename_i seed0 hs
      split at h
      · exact absurd h (by simp)
      · rename_i st hl
        have hr := Option.some.inj h
        subst hr
        exact ⟨total0, _, st, ht, rfl, hl, rfl, rfl, rfl⟩

/-- A successful loop body for index `i` has `0 ≤ i < capacity` and changes the memory of
the buffer at index `i` only, where it stores the result of the final `clamp`. -/
theorem sample_step_samples {L : libm_t} {config : pfxr_sound_t} {capacity : Int}
    {sample_rate duration : Flt} {i : Int} {st st1 : synth_t}
    (h : sample_step L config capacity sample_rate duration i st = some st1) :
    0 ≤ i ∧ i < capacity ∧
      ∃ x : Flt, st1.samples =
        Function.update st.samples i.toNat (clamp x (flit 1 1).neg (flit 1 1)) := by
  unfold sample_step at h
  simp only [] at h
  split at h
  · exact absurd h (by simp)
  · split at h
    · exact absurd h (by simp)
    · rename_i hi
      have hr := Option.some.inj h
      subst hr
      push_neg at hi
      exact ⟨hi.1, hi.2, _, rfl⟩

/-- The C comparison `0 <= x` holds exactly for the floats that are `NonNeg`. -/
theorem nonNeg_of_le {x : Flt} (h : (flit 0 1).le x = true) : x.NonNeg := by
  have hz : flit 0 1 = Flt.fin false 0 (-149) := by decide
  rw [hz] at h
  cases x with
  | nan => simp [Flt.le] at h
  | inf s => simpa [Flt.le, Flt.NonNeg] using h
  | fin s m e =>
    cases s with
    | false => exact Or.inl rfl
    | true =>
      right
      simp only [Flt.le, sgn, decide_eq_true_eq, if_true, if_false, Bool.false_eq_true] at h
      have h2 : (0 : Int) < 2 ^ (e - min (-149) e).toNat := by positivity
      have h3 : ((m * 2 ^ (e - min (-149) e).toNat : Nat) : Int) ≤ 0 := by
        have := h
        push_cast at this ⊢
        simp only [zero_mul, Nat.cast_zero, Nat.cast_ofNat] at this
        linarith
      have h4 : m * 2 ^ (e - min (-149) e).toNat = 0 := by omega
      rcases Nat.mul_eq_zero.mp h4 with h5 | h5
      · exact h5
      · exact absurd h5 (by positivity)

theorem round_false_nonNeg (f : Fmt) (num den : Nat) (ex : Int) :
    (f.round false num den ex).NonNeg := by
  unfold Fmt.round Fmt.pack
  simp only []
  split_ifs <;> simp [Flt.NonNeg]

theorem round_zero (f : Fmt) (neg : Bool) (den : Nat) (ex : Int) :
    f.round neg 0 den ex = Flt.fin neg 0 f.emin := by
  unfold Fmt.round
  simp

theorem sgn_nonneg_of {s : Bool} {m : Nat} (h : s = false ∨ m = 0) (k : Nat) :
    0 ≤ sgn s (m * k) := by
  rcases h with h | h
  · subst h
    simp only [sgn, if_false, Bool.false_eq_true]
    positivity
  · subst h
    simp [sgn]

/-- The float sum of two floats that are not below zero is not below zero. -/
theorem add_nonNeg (f : Fmt) {a b : Flt} (ha : a.NonNeg) (hb : b.NonNeg) :
    (f.add a b).NonNeg := by
  cases a with
  | nan => exact absurd ha id
  | inf s =>
    cases b with
    | nan => exact absurd hb id
    | inf t =>
      simp only [Flt.NonNeg] at ha hb
      subst ha hb
      simp [Fmt.add, Flt.NonNeg]
    | fin t mb eb => simpa [Fmt.add, Flt.NonNeg] using ha
  | fin s ma ea =>
    cases b with
    | nan => exact absurd hb id
    | inf t => simpa [Fmt.add, Flt.NonNeg] using hb
    | fin t mb eb =>
      simp only [Flt.NonNeg] at ha hb
      have h1 := sgn_nonneg_of ha (2 ^ (ea - min ea eb).toNat)
      have h2 := sgn_nonneg_of hb (2 ^ (eb - min ea eb).toNat)
      simp only [Fmt.add]
      split_ifs with h0
      · exact Or.inr rfl
      · have : decide (sgn s (ma * 2 ^ (ea - min ea eb).toNat) +
            sgn t (mb * 2 ^ (eb - min ea eb).toNat) < 0) = false := by
          rw [decide_eq_false_iff_not]
          omega
        rw [this]
        exact round_false_nonNeg _ _ _ _

/-- The float product of a float that is not below zero with a positive finite float is
not below zero. -/
theorem mul_nonNeg (f : Fmt) {a : Flt} (ha : a.NonNeg) (m : Nat) (e : Int) (hm : m ≠ 0) :
    (f.mul a (Flt.fin false m e)).NonNeg := by
  cases a with
  | nan => exact absurd ha id
  | inf s =>
    simp only [Flt.NonNeg] at ha
    subst ha
    simp [Fmt.mul, Flt.NonNeg, hm]
  | fin s ma ea =>
    simp only [Flt.NonNeg] at ha
    simp only [Fmt.mul, Bool.xor_false]
    rcases ha with h | h
    · subst h
      exact round_false_nonNeg _ _ _ _
    · subst h
      rw [Nat.zero_mul, round_zero]
      exact Or.inr rfl

/-- The truncation of a float that is not below zero is the floor of its value. -/
theorem trunc_floor {a : Flt} (ha : a.NonNeg) {k : Int} (h : a.trunc = some k) :
    k = ⌊a.toRat⌋ := by
  cases a with
  | nan => exact absurd ha id
  | inf s => simp [Flt.trunc] at h
  | fin s m e =>
    simp only [Flt.NonNeg] at ha
    simp only [Flt.trunc, Option.some.injEq] at h
    rw [toRat_fin]
    rcases ha with hs | hm
    · subst hs
      simp only [sgn, sq, if_false, Bool.false_eq_true, one_mul] at h ⊢
      subst h
      split_ifs with he
      · have : (m : ℚ) * (2 : ℚ) ^ e = ((m * 2 ^ e.toNat : Nat) : ℚ) := by
          push_cast
          rw [← zpow_natCast, Int.toNat_of_nonneg he]
        rw [this, Int.floor_natCast]
      · have he' : 0 ≤ -e := by omega
        have h2 : (2 : ℚ) ^ e = ((2 : ℚ) ^ (-e).toNat)⁻¹ := by
          rw [← zpow_natCast, Int.toNat_of_nonneg he', zpow_neg, inv_inv]
        have h3 : (m : ℚ) * (2 : ℚ) ^ e = ((m : Int) : ℚ) / ((2 ^ (-e).toNat : Nat) : ℚ) := by
          rw [h2, ← div_eq_mul_inv]
          push_cast
          rfl
        rw [h3, Rat.floor_intCast_div_natCast]
        push_cast
        rfl
    · subst hm
      simp only [sgn] at h
      subst h
      cases s <;> simp

/-- The cast `(int)x`, where it is defined, is the truncation and fits 32 bits. -/
theorem toInt32_some {a : Flt} {k : Int} (h : a.toInt32 = some k) :
    a.trunc = some k ∧ -2147483648 ≤ k ∧ k ≤ 2147483647 := by
  unfold Flt.toInt32 at h
  split at h
  · rename_i i hi
    split_ifs at h with hr
    have := Option.some.inj h
    subst this
    exact ⟨hi, hr.1, hr.2⟩
  · exact absurd h (by simp)

set_option maxRecDepth 100000 in
/-- **C16 (as stated) fails.** The default sound with `attackTime = 50000` has non-negative
times, and the float product of its duration and the sample rate is 2205016320, which is
above the greatest `int`: the cast `(int)(duration * sample_rate)` has no defined value, and
`sample_count` is not made the capacity 176400 of the buffer. -/
theorem generate_sound_sample_count_counterexample :
    (flit 0 1).le (flit 50000 1) = true ∧
      (flit 0 1).le pfxr_get_default_sound.sustainTime = true ∧
      (flit 0 1).le pfxr_get_default_sound.decayTime = true ∧
      (binary32.mul
          (binary32.add (binary32.add (flit 50000 1) pfxr_get_default_sound.sustainTime)
            pfxr_get_default_sound.decayTime)
          (binary32.ofInt PFXR_SAMPLE_RATE)).trunc = some 2205016320 ∧
      ∀ L : libm_t,
        generate_sound L { pfxr_get_default_sound with attackTime := flit 50000 1 }
          (pfxr_create_audio_buffer 176400) = none :=
  ⟨by decide, by decide, by decide, by decide, fun _ => rfl⟩

/-- **C16 (amended).** For every parameter set with non-negative `attackTime`,
`sustainTime` and `decayTime` and every buffer, a call of `pfxr_generate_sound` that has
defined behaviour sets `sample_count = min(floor(p), capacity)`, where `p` is the float
product `(attackTime + sustainTime + decayTime) * 44100` computed in binary32, and `p` is
then below `2^31`; a duration longer than the buffer is truncated to the capacity. -/
theorem generate_sound_sample_count (L : libm_t) (config : pfxr_sound_t)
    (buffer r : pfxr_audio_buffer_t)
    (ha : (flit 0 1).le config.attackTime = true)
    (hs : (flit 0 1).le config.sustainTime = true)
    (hd : (flit 0 1).le config.decayTime = true)
    (h : generate_sound L config buffer = some r) :
    r.sample_count =
        min ⌊(binary32.mul
              (binary32.add (binary32.add config.attackTime config.sustainTime)
                config.decayTime)
              (binary32.ofInt PFXR_SAMPLE_RATE)).toRat⌋ buffer.capacity ∧
      ⌊(binary32.mul
          (binary32.add (binary32.add config.attackTime config.sustainTime)
            config.decayTime)
          (binary32.ofInt PFXR_SAMPLE_RATE)).toRat⌋ ≤ 2147483647 := by
  obtain ⟨total0, st0, st, ht, -, -, -, hc, -⟩ := generate_sound_inv h
  have hsr : binary32.ofInt PFXR_SAMPLE_RATE = Flt.fin false 11289600 (-8) := by decide
  rw [hsr] at ht ⊢
  have hp := mul_nonNeg binary32
    (add_nonNeg binary32 (add_nonNeg binary32 (nonNeg_of_le ha) (nonNeg_of_le hs))
      (nonNeg_of_le hd)) 11289600 (-8) (by decide)
  obtain ⟨h1, -, h3⟩ := toInt32_some ht
  have h4 := trunc_floor hp h1
  rw [← h4, hc]
  refine ⟨?_, h3⟩
  split_ifs with hgt
  · exact (min_eq_right (by omega)).symm
  · exact (min_eq_left (by omega)).symm

set_option maxRecDepth 100000 in
/-- The statement of C16 (amended) at the default sound and a fresh buffer of capacity 1,
with the identity for `sinf` and `cosf`. -/
theorem generate_sound_sample_count_witness :
    (flit 0 1).le pfxr_get_default_sound.attackTime = true ∧
    (flit 0 1).le pfxr_get_default_sound.sustainTime = true ∧
    (flit 0 1).le pfxr_get_default_sound.decayTime = true ∧
    generate_sound ⟨id, id⟩ pfxr_get_default_sound (pfxr_create_audio_buffer 1) =
      some { samples :=
               Function.update (fun _ => Flt.fin false 0 (-149)) 0 (Flt.fin false 0 (-149)),
             sample_count := 1, capacity := 1 } ∧
    ((1 : Int) =
        min ⌊(binary32.mul
              (binary32.add
                (binary32.add pfxr_get_default_sound.attackTime
                  pfxr_get_default_sound.sustainTime)
                pfxr_get_default_sound.decayTime)
              (binary32.ofInt PFXR_SAMPLE_RATE)).toRat⌋ (pfxr_create_audio_buffer 1).capacity ∧
      ⌊(binary32.mul
          (binary32.add
            (binary32.add pfxr_get_default_sound.attackTime
              pfxr_get_default_sound.sustainTime)
            pfxr_get_default_sound.decayTime)
          (binary32.ofInt PFXR_SAMPLE_RATE)).toRat⌋ ≤ 2147483647) :=
  ⟨by decide, by decide, by decide, rfl,
    generate_sound_sample_count ⟨id, id⟩ pfxr_get_default_sound (pfxr_create_audio_buffer 1)
      { samples :=
          Function.update (fun _ => Flt.fin false 0 (-149)) 0 (Flt.fin false 0 (-149)),
        sample_count := 1, capacity := 1 }
      (by decide) (by decide) (by decide) rfl⟩

/-- A successful run of the sample loop over the indices `i .. i + n - 1` stays below the
capacity, leaves the memory outside these indices as it was, and leaves at each of these
indices the result of a final `clamp`. -/
theorem sample_loop_samples {L : libm_t} {config : pfxr_sound_t} {capacity : Int}
    {sample_rate duration : Flt} (n : Nat) :
    ∀ (i : Nat) (st st1 : synth_t),
      sample_loop L config capacity sample_rate duration n (i : Int) st = some st1 →
      (n = 0 ∨ ((i + n : Nat) : Int) ≤ capacity) ∧
      (∀ j : Nat, j < i ∨ i + n ≤ j → st1.samples j = st.samples j) ∧
      (∀ j : Nat, i ≤ j → j < i + n →
        ∃ x : Flt, st1.samples j = clamp x (flit 1 1).neg (flit 1 1)) := by
  induction n with
  | zero =>
    intro i st st1 h
    rw [sample_loop] at h
    have := Option.some.inj h
    subst this
    exact ⟨Or.inl rfl, fun _ _ => rfl, fun j h1 h2 => absurd h2 (by omega)⟩
  | succ n ih =>
    intro i st st1 h
    rw [sample_loop] at h
    split at h
    · exact absurd h (by simp)
    · rename_i st2 hstep
      obtain ⟨s1, s2, x, s3⟩ := sample_step_samples hstep
      have hi : ((i : Int) + 1) = ((i + 1 : Nat) : Int) := by push_cast; rfl
      rw [hi] at h
      obtain ⟨b1, b2, b3⟩ := ih (i + 1) st2 st1 h
      have hto : (i : Int).toNat = i := Int.toNat_natCast i
      rw [hto] at s3
      refine ⟨Or.inr ?_, ?_, ?_⟩
      · rcases b1 with b1 | b1
        · subst b1
          push_cast
          omega
        · have : i + (n + 1) = i + 1 + n := by omega
          rw [this]
          exact b1
      · intro j hj
        rw [b2 j (by omega), s3]
        exact Function.update_noteq (by omega) _ _
      · intro j h1 h2
        by_cases hji : j = i
        · subst hji
          refine ⟨x, ?_⟩
          rw [b2 j (by omega), s3]
          exact Function.update_same _ _ _
        · exact b3 j (by omega) (by omega)

/-- The result of `clamp` between -1 and 1 is NaN, which happens only for a NaN argument,
or lies between -1 and 1. -/
theorem clamp_range (x : Flt) :
    (clamp x (flit 1 1).neg (flit 1 1) = Flt.nan ∧ x = Flt.nan) ∨
      ((flit 1 1).neg.le (clamp x (flit 1 1).neg (flit 1 1)) = true ∧
        (clamp x (flit 1 1).neg (flit 1 1)).le (flit 1 1) = true) := by
  have h1 : flit 1 1 = Flt.fin false 8388608 (-23) := by decide
  rw [h1]
  unfold clamp Flt.gt
  cases x with
  | nan => left; simp [Flt.lt, Flt.neg]
  | inf s =>
    right
    cases s <;> simp [Flt.lt, Flt.le, Flt.neg, sgn]
  | fin s m e =>
    right
    simp only [Flt.neg, Bool.not_false]
    split_ifs with c1 c2
    · decide
    · decide
    · simp only [Flt.lt, Flt.le, decide_eq_true_eq, not_lt] at c1 c2 ⊢
      constructor
      · rw [min_comm]
        exact c1
      · rw [min_comm]
        exact c2

/-- The memory and the length after a successful `generate_sound`: the length is at most
the capacity, the memory at and above the length is untouched, and below the length it
holds results of the final `clamp`. -/
theorem generate_sound_samples {L : libm_t} {config : pfxr_sound_t}
    {buffer r : pfxr_audio_buffer_t} (h : generate_sound L config buffer = some r) :
    r.sample_count ≤ buffer.capacity ∧ r.capacity = buffer.capacity ∧
      (∀ j : Nat, r.sample_count ≤ (j : Int) → r.samples j = buffer.samples j) ∧
      (∀ j : Nat, (j : Int) < r.sample_count →
        ∃ x : Flt, r.samples j = clamp x (flit 1 1).neg (flit 1 1)) := by
  obtain ⟨total0, st0, st, -, h0, hl, hsm, hc, hcap⟩ := generate_sound_inv h
  have hl2 : sample_loop L config buffer.capacity (binary32.ofInt PFXR_SAMPLE_RATE)
      (binary32.add (binary32.add config.attackTime config.sustainTime) config.decayTime)
      (if total0 > buffer.capacity then buffer.capacity else total0).toNat ((0 : Nat) : Int)
      st0 = some st := by
    rw [Nat.cast_zero]
    exact hl
  obtain ⟨-, b2, b3⟩ := sample_loop_samples _ 0 st0 st hl2
  rw [← hc] at b2 b3
  refine ⟨?_, hcap, ?_, ?_⟩
  · rw [hc]
    split_ifs with hgt
    · exact le_rfl
    · omega
  · intro j hj
    rw [hsm, b2 j (Or.inr (by omega)), h0]
  · intro j hj
    rw [hsm]
    exact b3 j (by omega) (by omega)

set_option maxRecDepth 100000 in
/-- **C18 (as stated) fails.** The default sound with a square wave, `sustainTime = 0` and
`sustainPunch = NaN`, rendered into a buffer of capacity 1, whatever `sinf` and `cosf`
compute: the envelope of sample 0 is NaN, `clamp` lets NaN through (both its comparisons
are false), and the sample stored at index 0 is NaN, which is not in `[-1, 1]`. -/
theorem generate_sound_clamped_counterexample :
    (∀ L : libm_t,
      (generate_sound L
          { pfxr_get_default_sound with
            waveForm := 2, sustainTime := flit 0 1, sustainPunch := Flt.nan }
          (pfxr_create_audio_buffer 1)).map (fun r => (r.sample_count, r.samples 0)) =
        some (1, Flt.nan)) ∧
      (flit 1 1).neg.le Flt.nan = false ∧ Flt.nan.le (flit 1 1) = false :=
  ⟨fun _ => rfl, by decide, by decide⟩

/-- **C18 (amended).** For every parameter set, every buffer and every index
`i < sample_count`, the sample that a call of `pfxr_generate_sound` with defined behaviour
stores at `i` is `clamp(x, -1, 1)` of the value `x` computed for it; it lies in `[-1, 1]`
when `x` is not NaN, and it is NaN when `x` is NaN. -/
theorem generate_sound_clamped (L : libm_t) (config : pfxr_sound_t)
    (buffer r : pfxr_audio_buffer_t) (h : generate_sound L config buffer = some r)
    (i : Nat) (hi : (i : Int) < r.sample_count) :
    ∃ x : Flt, r.samples i = clamp x (flit 1 1).neg (flit 1 1) ∧
      ((x = Flt.nan ∧ r.samples i = Flt.nan) ∨
        (x ≠ Flt.nan ∧ (flit 1 1).neg.le (r.samples i) = true ∧
          (r.samples i).le (flit 1 1) = true)) := by
  obtain ⟨-, -, -, hw⟩ := generate_sound_samples h
  obtain ⟨x, hx⟩ := hw i hi
  refine ⟨x, hx, ?_⟩
  rw [hx]
  rcases clamp_range x with ⟨c1, c2⟩ | ⟨c1, c2⟩
  · exact Or.inl ⟨c2, c1⟩
  · refine Or.inr ⟨?_, c1, c2⟩
    intro hn
    subst hn
    have : clamp Flt.nan (flit 1 1).neg (flit 1 1) = Flt.nan := by decide
    rw [this] at c1
    exact absurd c1 (by decide)

set_option maxRecDepth 100000 in
/-- The statement of C18 (amended) at the default sound, a fresh buffer of capacity 2 and
index 1, with the identity for `sinf` and `cosf`. -/
theorem generate_sound_clamped_witness :
    generate_sound ⟨id, id⟩ pfxr_get_default_sound (pfxr_create_audio_buffer 2) =
      some { samples :=
               Function.update
                 (Function.update (fun _ => Flt.fin false 0 (-149)) 0
                   (Flt.fin false 0 (-149)))
                 1 (Flt.fin false 13385951 (-28)),
             sample_count := 2, capacity := 2 } ∧
    ((1 : Nat) : Int) < 2 ∧
    ∃ x : Flt,
      Function.update
          (Function.update (fun _ => Flt.fin false 0 (-149)) 0 (Flt.fin false 0 (-149)))
          1 (Flt.fin false 13385951 (-28)) 1 =
        clamp x (flit 1 1).neg (flit 1 1) ∧
      ((x = Flt.nan ∧
          Function.update
              (Function.update (fun _ => Flt.fin false 0 (-149)) 0 (Flt.fin false 0 (-149)))
              1 (Flt.fin false 13385951 (-28)) 1 = Flt.nan) ∨
        (x ≠ Flt.nan ∧
          (flit 1 1).neg.le
              (Function.update
                (Function.update (fun _ => Flt.fin false 0 (-149)) 0
                  (Flt.fin false 0 (-149)))
                1 (Flt.fin false 13385951 (-28)) 1) = true ∧
          (Function.update
              (Function.update (fun _ => Flt.fin false 0 (-149)) 0 (Flt.fin false 0 (-149)))
              1 (Flt.fin false 13385951 (-28)) 1).le (flit 1 1) = true)) :=
  ⟨rfl, by decide,
    generate_sound_clamped ⟨id, id⟩ pfxr_get_default_sound (pfxr_create_audio_buffer 2)
      { samples :=
          Function.update
            (Function.update (fun _ => Flt.fin false 0 (-149)) 0 (Flt.fin false 0 (-149)))
            1 (Flt.fin false 13385951 (-28)),
        sample_count := 2, capacity := 2 }
      rfl 1 (by decide)⟩

/-! ## The envelope of the first sample and zero-length renders -/

/-- The constant `0.0f`. -/
theorem zero_eq : flit 0 1 = Flt.fin false 0 (-149) := by decide

/-- The constant `1.0f`. -/
theorem one_eq : flit 1 1 = Flt.fin false 8388608 (-23) := by decide

/-- The time of sample 0, `(float)0 / sample_rate`, is `+0`. -/
theorem first_sample_time :
    binary32.div (binary32.ofInt 0) (binary32.ofInt PFXR_SAMPLE_RATE) =
      Flt.fin false 0 (-149) := by decide

/-- Multiplying a float by `1.0f` returns it. -/
theorem mul_one_flt {x : Flt} (hx : x.IsFloat binary32) : binary32.mul x (flit 1 1) = x := by
  rw [one_eq]
  rcases hx with hx | hx
  · subst hx
    rfl
  · cases x with
    | nan => exact absurd hx id
    | inf s => simp [Fmt.mul]
    | fin s m e =>
      simp only [Fmt.mul, Bool.xor_false]
      have hc : binary32.canon m e := hx
      by_cases hm : m = 0
      · subst hm
        obtain ⟨-, -, -, c4⟩ := hc
        have he : e = binary32.emin := by
          rcases c4 with c4 | c4
          · exact absurd c4 (by decide)
          · exact c4
        rw [Nat.zero_mul, round_zero, he]
      · refine round_exact binary32 binary32_ok s (m * 8388608) 1 (e + -23)
          (Nat.mul_pos (Nat.pos_of_ne_zero hm) (by norm_num)) (by norm_num) m e hc ?_
        push_cast
        rw [zpow_add₀ (by norm_num : (2 : ℚ) ≠ 0)]
        norm_num
        ring

/-- The float difference `1.0f - x` of a datum of binary32 is a datum of binary32. -/
theorem one_sub_isFloat {x : Flt} (hx : x.IsFloat binary32) :
    (binary32.sub (flit 1 1) x).IsFloat binary32 := by
  rw [one_eq]
  rcases hx with hx | hx
  · subst hx
    exact Or.inl rfl
  · cases x with
    | nan => exact absurd hx id
    | inf s => exact Or.inr (by simp [Fmt.sub, Fmt.add, Flt.neg, Flt.Reg])
    | fin s m e =>
      have hc : (Flt.fin s m e).IsFin binary32 := hx
      exact Or.inr (rounded_reg binary32_ok
        (sub_rounded binary32 (by decide : (Flt.fin false 8388608 (-23)).IsFin binary32) hc))

/-- Adding a zero to a positive float gives a positive float. -/
theorem zero_lt_zero_add {z s : Flt} (hz : z = flit 0 1 ∨ z = (flit 0 1).neg)
    (hs : s.Reg binary32) (hpos : (flit 0 1).lt s = true) :
    (Flt.fin false 0 (-149)).lt (binary32.add z s) = true := by
  rw [zero_eq] at hz hpos
  have hzF : z.IsFin binary32 := by
    rcases hz with h | h <;> subst h <;> decide
  have hzV : z.toRat = 0 := by
    rcases hz with h | h <;> subst h <;> simp [Flt.neg, Flt.toRat]
  cases s with
  | nan => exact absurd hs id
  | inf t =>
    have ht : t = false := by simpa [Flt.lt] using hpos
    subst ht
    rcases hz with h | h <;> subst h <;> simp [Fmt.add, Flt.lt, Flt.neg]
  | fin t m e =>
    have hsF : (Flt.fin t m e).IsFin binary32 := hs
    have hr := add_rounded binary32 hzF hsF
    rw [hzV, zero_add] at hr
    obtain ⟨r1, r2⟩ := rounded_exact binary32_ok hr hsF rfl
    rw [lt_iff_toRat zero_isFin r1, r2, zero_toRat]
    have := (lt_iff_toRat zero_isFin hsF).mp hpos
    rw [zero_toRat] at this
    exact this

/-- Dividing `+0` by a positive float gives `+0`. -/
theorem zero_div_pos {d : Flt} (hpos : (flit 0 1).lt d = true) :
    binary32.div (Flt.fin false 0 (-149)) d = Flt.fin false 0 (-149) := by
  rw [zero_eq] at hpos
  cases d with
  | nan => simp [Flt.lt] at hpos
  | inf t =>
    have ht : t = false := by simpa [Flt.lt] using hpos
    subst ht
    rfl
  | fin t m e =>
    have hm : m ≠ 0 := by
      intro h
      subst h
      simp [Flt.lt, sgn] at hpos
    have ht : t = false := by
      cases t
      · rfl
      · simp only [Flt.lt, sgn, decide_eq_true_eq, if_true, if_false,
          Bool.false_eq_true] at hpos
        have : (0 : Int) ≤ ((m * 2 ^ (e - min (-149) e).toNat : Nat) : Int) :=
          Int.natCast_nonneg _
        simp only [zero_mul, Nat.cast_zero] at hpos
        omega
    subst ht
    simp only [Fmt.div, hm, if_false, Bool.xor_false]
    rw [round_zero]
    rfl

set_option maxRecDepth 100000 in
/-- **C19 (as stated) fails.** The default sound with `sustainPunch = 0.5` has
`attackTime = 0` and renders 16317 samples; sample 0 lies in the sustain phase
(`0 < 0 + 0.07`), so its envelope gain is 1 and not `1 - sustainPunch = 0.5`. -/
theorem envelope_first_sample_counterexample :
    ({ pfxr_get_default_sound with sustainPunch := flit 5 10 } : pfxr_sound_t).attackTime =
        flit 0 1 ∧
      (binary32.mul
          (binary32.add
            (binary32.add pfxr_get_default_sound.attackTime
              pfxr_get_default_sound.sustainTime)
            pfxr_get_default_sound.decayTime)
          (binary32.ofInt PFXR_SAMPLE_RATE)).toInt32 = some 16317 ∧
      envelope_at { pfxr_get_default_sound with sustainPunch := flit 5 10 }
          (binary32.div (binary32.ofInt 0) (binary32.ofInt PFXR_SAMPLE_RATE)) = flit 1 1 ∧
      binary32.sub (flit 1 1) (flit 5 10) = flit 5 10 ∧ flit 1 1 ≠ flit 5 10 := by
  decide

set_option maxRecDepth 100000 in
/-- **C19 (amended).** For every parameter set with `attackTime = 0` (either zero), the
envelope gain of the first sample (`i = 0`, `t = 0`) is 1 when `sustainTime > 0`, whatever
`sustainPunch` is; when `sustainTime = 0` and `decayTime > 0` it is the float
`1 - sustainPunch`, replaced by 0 when that is below 0. -/
theorem envelope_first_sample (config : pfxr_sound_t)
    (ha : config.attackTime = flit 0 1 ∨ config.attackTime = (flit 0 1).neg) :
    ((flit 0 1).lt config.sustainTime = true → config.sustainTime.Reg binary32 →
      envelope_at config
          (binary32.div (binary32.ofInt 0) (binary32.ofInt PFXR_SAMPLE_RATE)) = flit 1 1) ∧
    ((config.sustainTime = flit 0 1 ∨ config.sustainTime = (flit 0 1).neg) →
      (flit 0 1).lt config.decayTime = true → config.sustainPunch.IsFloat binary32 →
      envelope_at config
          (binary32.div (binary32.ofInt 0) (binary32.ofInt PFXR_SAMPLE_RATE)) =
        if (binary32.sub (flit 1 1) config.sustainPunch).lt (flit 0 1) then flit 0 1
        else binary32.sub (flit 1 1) config.sustainPunch) := by
  rw [first_sample_time]
  have h1 : (Flt.fin false 0 (-149)).lt config.attackTime = false := by
    rcases ha with h | h <;> rw [h] <;> decide
  constructor
  · intro hpos hreg
    have h2 := zero_lt_zero_add ha hreg hpos
    unfold envelope_at
    simp only [h1, h2, if_true, if_false, Bool.false_eq_true]
    decide
  · intro hs hd hp
    have h2 : (Flt.fin false 0 (-149)).lt
        (binary32.add config.attackTime config.sustainTime) = false := by
      rcases ha with h | h <;> rcases hs with h' | h' <;> rw [h, h'] <;> decide
    have h3 : binary32.sub (binary32.sub (Flt.fin false 0 (-149)) config.attackTime)
        config.sustainTime = Flt.fin false 0 (-149) := by
      rcases ha with h | h <;> rcases hs with h' | h' <;> rw [h, h'] <;> decide
    have h4 : binary32.sub (flit 1 1) (Flt.fin false 0 (-149)) = flit 1 1 := by decide
    unfold envelope_at
    simp only [h1, h2, h3, zero_div_pos hd, h4, mul_one_flt (one_sub_isFloat hp), if_false,
      Bool.false_eq_true]

/-- The statement of C19 (amended) at the default sound with `sustainPunch = 0.5`. -/
theorem envelope_first_sample_witness :
    (({ pfxr_get_default_sound with sustainPunch := flit 5 10 } : pfxr_sound_t).attackTime =
        flit 0 1 ∨
      ({ pfxr_get_default_sound with sustainPunch := flit 5 10 } : pfxr_sound_t).attackTime =
        (flit 0 1).neg) ∧
    (((flit 0 1).lt
          ({ pfxr_get_default_sound with sustainPunch := flit 5 10 } :
            pfxr_sound_t).sustainTime = true →
      ({ pfxr_get_default_sound with sustainPunch := flit 5 10 } :
          pfxr_sound_t).sustainTime.Reg binary32 →
      envelope_at { pfxr_get_default_sound with sustainPunch := flit 5 10 }
          (binary32.div (binary32.ofInt 0) (binary32.ofInt PFXR_SAMPLE_RATE)) = flit 1 1) ∧
    ((({ pfxr_get_default_sound with sustainPunch := flit 5 10 } :
            pfxr_sound_t).sustainTime = flit 0 1 ∨
        ({ pfxr_get_default_sound with sustainPunch := flit 5 10 } :
            pfxr_sound_t).sustainTime = (flit 0 1).neg) →
      (flit 0 1).lt
          ({ pfxr_get_default_sound with sustainPunch := flit 5 10 } :
            pfxr_sound_t).decayTime = true →
      ({ pfxr_get_default_sound with sustainPunch := flit 5 10 } :
          pfxr_sound_t).sustainPunch.IsFloat binary32 →
      envelope_at { pfxr_get_default_sound with sustainPunch := flit 5 10 }
          (binary32.div (binary32.ofInt 0) (binary32.ofInt PFXR_SAMPLE_RATE)) =
        if (binary32.sub (flit 1 1)
              ({ pfxr_get_default_sound with sustainPunch := flit 5 10 } :
                pfxr_sound_t).sustainPunch).lt (flit 0 1) then flit 0 1
        else binary32.sub (flit 1 1)
          ({ pfxr_get_default_sound with sustainPunch := flit 5 10 } :
            pfxr_sound_t).sustainPunch)) :=
  ⟨Or.inl rfl,
    envelope_first_sample { pfxr_get_default_sound with sustainPunch := flit 5 10 }
      (Or.inl rfl)⟩

set_option maxRecDepth 100000 in
/-- With the three times zero the float product `duration * sample_rate` casts to 0. -/
theorem zero_duration_samples {a s d : Flt} (ha : a = flit 0 1 ∨ a = (flit 0 1).neg)
    (hs : s = flit 0 1 ∨ s = (flit 0 1).neg) (hd : d = flit 0 1 ∨ d = (flit 0 1).neg) :
    (binary32.mul (binary32.add (binary32.add a s) d)
      (binary32.ofInt PFXR_SAMPLE_RATE)).toInt32 = some 0 := by
  rcases ha with h1 | h1 <;> rcases hs with h2 | h2 <;> rcases hd with h3 | h3 <;>
    rw [h1, h2, h3] <;> decide

/-- **C20 (amended).** Rendering a parameter set with
`attackTime = sustainTime = decayTime = 0` (zeros of either sign), whose noise-seed value
`frequency * 1000 + noiseAmount * 100 + volume * 1000` has a defined conversion to
`uint32_t`, into a buffer of capacity at least 0 completes and yields a zero-length buffer:
`sample_count = 0`, and no sample is written, the memory of the buffer being what it
was. -/
theorem generate_sound_zero_length (L : libm_t) (config : pfxr_sound_t)
    (buffer : pfxr_audio_buffer_t)
    (ha : config.attackTime = flit 0 1 ∨ config.attackTime = (flit 0 1).neg)
    (hs : config.sustainTime = flit 0 1 ∨ config.sustainTime = (flit 0 1).neg)
    (hd : config.decayTime = flit 0 1 ∨ config.decayTime = (flit 0 1).neg)
    (hc : 0 ≤ buffer.capacity) (hn : initial_noise_seed config ≠ none) :
    generate_sound L config buffer =
      some { samples := buffer.samples, sample_count := 0, capacity := buffer.capacity } := by
  obtain ⟨n, hn1⟩ := Option.ne_none_iff_exists'.mp hn
  have hz := zero_duration_samples ha hs hd
  have hcap : ¬ (0 : Int) > buffer.capacity := by omega
  unfold generate_sound
  simp only [hz, hn1, hcap, if_false, Int.toNat_zero, sample_loop]

set_option maxRecDepth 100000 in
/-- The statement of C20 at the default sound with its three times set to 0 and a fresh
buffer of the capacity `PFXR_MAX_SAMPLES = 176400`, with the identity for `sinf` and
`cosf`. -/
theorem generate_sound_zero_length_witness :
    (flit 0 1 = flit 0 1 ∨ flit 0 1 = (flit 0 1).neg) ∧
    (0 : Int) ≤ (pfxr_create_audio_buffer 176400).capacity ∧
    initial_noise_seed
        { pfxr_get_default_sound with
          attackTime := flit 0 1, sustainTime := flit 0 1, decayTime := flit 0 1 } ≠ none ∧
    generate_sound ⟨id, id⟩
        { pfxr_get_default_sound with
          attackTime := flit 0 1, sustainTime := flit 0 1, decayTime := flit 0 1 }
        (pfxr_create_audio_buffer 176400) =
      some { samples := (pfxr_create_audio_buffer 176400).samples, sample_count := 0,
             capacity := (pfxr_create_audio_buffer 176400).capacity } :=
  ⟨Or.inl rfl, by decide, by decide,
    generate_sound_zero_length ⟨id, id⟩
      { pfxr_get_default_sound with
        attackTime := flit 0 1, sustainTime := flit 0 1, decayTime := flit 0 1 }
      (pfxr_create_audio_buffer 176400) (Or.inl rfl) (Or.inl rfl) (Or.inl rfl) (by decide)
      (by decide)⟩

/-! ## wav.c: quantisation and the container -/

/-- The truncation of a finite float exists and is no larger in magnitude than the float. -/
theorem trunc_abs_le (s : Bool) (m : Nat) (e : Int) :
    ∃ k : Int, (Flt.fin s m e).trunc = some k ∧ |(k : ℚ)| ≤ |(Flt.fin s m e).toRat| := by
  have key : ∃ n : Nat, (Flt.fin s m e).trunc = some (sgn s n) ∧
      (n : ℚ) ≤ (m : ℚ) * (2 : ℚ) ^ e := by
    simp only [Flt.trunc]
    split_ifs with he
    · refine ⟨_, rfl, ?_⟩
      push_cast
      rw [← zpow_natCast, Int.toNat_of_nonneg he]
    · refine ⟨_, rfl, ?_⟩
      have he' : 0 ≤ -e := by omega
      have h2 : (2 : ℚ) ^ e = ((2 : ℚ) ^ (-e).toNat)⁻¹ := by
        rw [← zpow_natCast, Int.toNat_of_nonneg he', zpow_neg, inv_inv]
      rw [h2, ← div_eq_mul_inv]
      have := @Nat.cast_div_le ℚ _ m (2 ^ (-e).toNat)
      push_cast at this
      exact this
  obtain ⟨n, h1, h2⟩ := key
  refine ⟨_, h1, ?_⟩
  rw [toRat_fin]
  have hpos : (0 : ℚ) ≤ (m : ℚ) * (2 : ℚ) ^ e := by positivity
  have hn : (0 : ℚ) ≤ (n : ℚ) := by positivity
  cases s
  · simp only [sgn, sq, if_false, Bool.false_eq_true, one_mul, Int.cast_natCast]
    rw [abs_of_nonneg hn, abs_of_nonneg hpos]
    exact h2
  · simp only [sgn, sq, if_true, Int.cast_neg, Int.cast_natCast, neg_mul, one_mul, abs_neg]
    rw [abs_of_nonneg hn, abs_of_nonneg hpos]
    exact h2

/-- The two tests of wav.c lines 50-51 compute the same as `clamp(sample, -1, 1)`. -/
theorem pcm_clamp_eq (s : Flt) :
    (if (if s.gt (flit 1 1) then flit 1 1 else s).lt (flit 1 1).neg then (flit 1 1).neg
      else (if s.gt (flit 1 1) then flit 1 1 else s)) = clamp s (flit 1 1).neg (flit 1 1) := by
  rw [one_eq]
  unfold clamp Flt.gt
  cases s with
  | nan => decide
  | inf t => cases t <;> decide
  | fin t m e =>
    simp only [Flt.neg, Bool.not_false]
    by_cases h1 : (Flt.fin false 8388608 (-23)).lt (Flt.fin t m e) = true
    · have h2 : (Flt.fin t m e).lt (Flt.fin true 8388608 (-23)) = false := by
        rw [Bool.eq_false_iff]
        intro h
        rw [lt_fin_iff] at h1 h
        have a1 : sq false * ((8388608 : ℕ) * (2 : ℚ) ^ (-23 : Int)) = 1 := by norm_num [sq]
        have a2 : sq true * ((8388608 : ℕ) * (2 : ℚ) ^ (-23 : Int)) = -1 := by norm_num [sq]
        rw [a1] at h1
        rw [a2] at h
        linarith
      rw [if_pos h1, h2]
      simp only [Bool.false_eq_true, if_false]
      rfl
    · rw [if_neg h1]

/-- The clamp of a float other than NaN is a finite float between -1 and 1. -/
theorem clamp_isFin {s : Flt} (hs : s.Reg binary32) :
    (clamp s (flit 1 1).neg (flit 1 1)).IsFin binary32 ∧
      -1 ≤ (clamp s (flit 1 1).neg (flit 1 1)).toRat ∧
      (clamp s (flit 1 1).neg (flit 1 1)).toRat ≤ 1 := by
  have hm1F : ((flit 1 1).neg).IsFin binary32 := by decide
  have h1F : (flit 1 1).IsFin binary32 := by decide
  have hm1V : ((flit 1 1).neg).toRat = -1 := by
    rw [one_eq]; simp only [Flt.neg, Bool.not_false]; rw [toRat_fin]; norm_num [sq]
  have h1V : (flit 1 1).toRat = 1 := by
    rw [one_eq, toRat_fin]; norm_num [sq]
  have hfin : (clamp s (flit 1 1).neg (flit 1 1)).IsFin binary32 := by
    cases s with
    | nan => exact absurd hs id
    | inf t => cases t <;> decide
    | fin t m e =>
      unfold clamp
      split_ifs
      · exact hm1F
      · exact h1F
      · exact hs
  refine ⟨hfin, ?_⟩
  rcases clamp_range s with ⟨c1, -⟩ | ⟨c1, c2⟩
  · rw [c1] at hfin
    exact absurd hfin id
  · rw [le_iff_toRat hm1F hfin, hm1V] at c1
    rw [le_iff_toRat hfin h1F, h1V] at c2
    exact ⟨c1, c2⟩

/-- The quantisation of a sample other than NaN: the truncation of the clamped sample
scaled by `32767.0f`, which lies between -32767 and 32767. -/
theorem pcm_sample_value {s : Flt} (hs : s.Reg binary32) :
    ∃ k : Int,
      (binary32.mul (clamp s (flit 1 1).neg (flit 1 1)) (flit 32767 1)).trunc = some k ∧
      pcm_sample s = some k ∧ -32767 ≤ k ∧ k ≤ 32767 := by
  obtain ⟨cF, c1, c2⟩ := clamp_isFin hs
  have hsc : flit 32767 1 = Flt.fin false 16776704 (-9) := by decide
  have hscF : (Flt.fin false 16776704 (-9)).IsFin binary32 := by decide
  have hscV : (Flt.fin false 16776704 (-9)).toRat = 32767 := by
    rw [toRat_fin]; norm_num [sq]
  have hnF : (Flt.fin true 16776704 (-9)).IsFin binary32 := by decide
  have hnV : (Flt.fin true 16776704 (-9)).toRat = -32767 := by
    rw [toRat_fin]; norm_num [sq]
  have hr := mul_rounded binary32 cF hscF
  rw [hscV] at hr
  obtain ⟨rF, r1, r2⟩ := rounded_between binary32_ok hr hnF hscF
    (by rw [hnV]; nlinarith) (by rw [hscV]; nlinarith)
  rw [hnV] at r1
  rw [hscV] at r2
  unfold pcm_sample
  simp only []
  rw [pcm_clamp_eq, hsc]
  generalize binary32.mul (clamp s (flit 1 1).neg (flit 1 1)) (Flt.fin false 16776704 (-9)) = r
    at rF r1 r2
  cases r with
  | nan => exact absurd rF id
  | inf t => exact absurd rF id
  | fin t m e =>
    obtain ⟨k, hk, hka⟩ := trunc_abs_le t m e
    have hab : |(Flt.fin t m e).toRat| ≤ 32767 := abs_le.mpr ⟨r1, r2⟩
    have hk2 : |(k : ℚ)| ≤ 32767 := le_trans hka hab
    obtain ⟨k1, k2⟩ := abs_le.mp hk2
    have k3 : -32767 ≤ k := by exact_mod_cast k1
    have k4 : k ≤ 32767 := by exact_mod_cast k2
    refine ⟨k, hk, ?_, k3, k4⟩
    unfold Flt.toInt16
    rw [hk]
    simp only []
    rw [if_pos ⟨by omega, by omega⟩]

/-- **C26 (as stated) fails.** For the sample NaN both tests of the clamp are false, the
product with `32767.0f` is NaN, and the cast `(int16_t)` of NaN has no defined value. -/
theorem pcm_sample_counterexample :
    clamp Flt.nan (flit 1 1).neg (flit 1 1) = Flt.nan ∧
      binary32.mul (clamp Flt.nan (flit 1 1).neg (flit 1 1)) (flit 32767 1) = Flt.nan ∧
      Flt.nan.trunc = none ∧ pcm_sample Flt.nan = none := by
  decide

/-- **C26 (amended).** For every float sample `s` other than NaN (the infinities included),
the PCM value written by `pfxr_create_wav_data` is `trunc(clamp(s, -1, 1) * 32767.0f)`, the
product taken in binary32 and truncated toward zero; it is an integer between -32767 and
32767, so the cast to `int16_t` is defined. -/
theorem pcm_sample_range (s : Flt) (hs : s.Reg binary32) :
    ∃ k : Int,
      (binary32.mul (clamp s (flit 1 1).neg (flit 1 1)) (flit 32767 1)).trunc = some k ∧
      pcm_sample s = some k ∧ -32767 ≤ k ∧ k ≤ 32767 :=
  pcm_sample_value hs

/-- The statement of C26 (amended) at the sample `0.5f`, whose PCM value is 16383. -/
theorem pcm_sample_range_witness :
    (flit 5 10).Reg binary32 ∧
    ∃ k : Int,
      (binary32.mul (clamp (flit 5 10) (flit 1 1).neg (flit 1 1)) (flit 32767 1)).trunc =
        some k ∧
      pcm_sample (flit 5 10) = some k ∧ -32767 ≤ k ∧ k ≤ 32767 :=
  ⟨isFin_reg (by decide), pcm_sample_range (flit 5 10) (isFin_reg (by decide))⟩

/-- The PCM bytes of `n` samples, where the loop has defined behaviour, are `2 * n` bytes. -/
theorem pcm_bytes_length (mem : Nat → Flt) (n : Nat) :
    ∀ (first : Nat) (l : List Nat), pcm_bytes mem n first = some l → l.length = 2 * n := by
  induction n with
  | zero =>
    intro first l h
    rw [pcm_bytes] at h
    have := Option.some.inj h
    subst this
    rfl
  | succ n ih =>
    intro first l h
    rw [pcm_bytes] at h
    split at h
    · rename_i v rest hv hrest
      have := Option.some.inj h
      subst this
      rw [List.length_append, ih _ _ hrest]
      simp only [le16, List.length_cons, List.length_nil]
      omega
    · exact absurd h (by simp)

/-- The PCM loop has defined behaviour when none of the samples it reads is NaN. -/
theorem pcm_bytes_some (mem : Nat → Flt) (n : Nat) :
    ∀ first : Nat, (∀ i : Nat, first ≤ i → i < first + n → (mem i).Reg binary32) →
      ∃ l, pcm_bytes mem n first = some l := by
  induction n with
  | zero =>
    intro first _
    exact ⟨[], by rw [pcm_bytes]⟩
  | succ n ih =>
    intro first hs
    obtain ⟨k, -, hk, -, -⟩ := pcm_sample_value (hs first (le_refl _) (by omega))
    obtain ⟨l, hl⟩ := ih (first + 1) (fun i h1 h2 => hs i (by omega) (by omega))
    refine ⟨le16 (k % 65536).toNat ++ l, ?_⟩
    rw [pcm_bytes, hk, hl]

/-- The packed header is 44 bytes long, with the chunk size at offset 4 and the data size
at offset 40. -/
theorem header_bytes_layout (data_size file_size : Int) (rest : List Nat) :
    (header_bytes (wav_header data_size file_size)).length = 44 ∧
      ((header_bytes (wav_header data_size file_size) ++ rest).drop 4).take 4 =
        le32 (wav_header data_size file_size).chunk_size ∧
      ((header_bytes (wav_header data_size file_size) ++ rest).drop 40).take 4 =
        le32 (wav_header data_size file_size).data_size := by
  simp [header_bytes, wav_header, le32, le16]

/-- **C25 (amended).** For every `N > 0` samples with `2N + 44` in the range of `int`, none
of them NaN (so that the casts to `int16_t` are defined), `pfxr_create_wav_data` returns a
container of `44 + 2N` bytes, the 44 header bytes followed by `2N` PCM bytes, and reports
`wav_size = 44 + 2N`; the header declares `data_size = 2N` and
`chunk_size = data_size + 36`, stored least significant byte first at offsets 40 and 4. -/
theorem pfxr_create_wav_data_size (mem : Nat → Flt) (N : Int) (hN : 0 < N)
    (hrep : 44 + 2 * N ≤ 2147483647)
    (hs : ∀ i : Nat, (i : Int) < N → (mem i).Reg binary32) :
    ∃ pcm : List Nat,
      pfxr_create_wav_data (some mem) N true =
        some (some (header_bytes (wav_header (2 * N) (44 + 2 * N)) ++ pcm, 44 + 2 * N)) ∧
      ((header_bytes (wav_header (2 * N) (44 + 2 * N)) ++ pcm).length : Int) = 44 + 2 * N ∧
      (pcm.length : Int) = 2 * N ∧
      ((wav_header (2 * N) (44 + 2 * N)).data_size : Int) = 2 * N ∧
      (wav_header (2 * N) (44 + 2 * N)).chunk_size =
        (wav_header (2 * N) (44 + 2 * N)).data_size + 36 ∧
      ((header_bytes (wav_header (2 * N) (44 + 2 * N)) ++ pcm).drop 4).take 4 =
        le32 (wav_header (2 * N) (44 + 2 * N)).chunk_size ∧
      ((header_bytes (wav_header (2 * N) (44 + 2 * N)) ++ pcm).drop 40).take 4 =
        le32 (wav_header (2 * N) (44 + 2 * N)).data_size := by
  obtain ⟨pcm, hp⟩ := pcm_bytes_some mem N.toNat 0 (fun i _ h2 => hs i (by omega))
  have hlen := pcm_bytes_length mem N.toNat 0 pcm hp
  obtain ⟨l1, l2, l3⟩ := header_bytes_layout (2 * N) (44 + 2 * N) pcm
  have hds : ((wav_header (2 * N) (44 + 2 * N)).data_size : Int) = 2 * N := by
    show ((toU32 (2 * N) : Nat) : Int) = 2 * N
    unfold toU32
    omega
  have hcs : (wav_header (2 * N) (44 + 2 * N)).chunk_size =
      (wav_header (2 * N) (44 + 2 * N)).data_size + 36 := by
    show toU32 (44 + 2 * N - 8) = toU32 (2 * N) + 36
    unfold toU32
    omega
  refine ⟨pcm, ?_, ?_, ?_, hds, hcs, l2, l3⟩
  · unfold pfxr_create_wav_data
    have h1 : ¬ (N ≤ 0 ∨ true = false) := by
      intro h
      rcases h with h | h
      · omega
      · exact absurd h (by decide)
    have h2 : ¬ (2147483647 < 44 + 2 * N) := by omega
    have h3 : N * 2 = 2 * N := by ring
    simp only [h1, h3, h2, if_false, hp]
  · rw [List.length_append, l1, hlen]
    push_cast
    omega
  · rw [hlen]
    push_cast
    omega

set_option maxRecDepth 100000 in
/-- The statement of C25 at one sample, `0.5f`. -/
theorem pfxr_create_wav_data_size_witness :
    (0 : Int) < 1 ∧ (44 + 2 * 1 : Int) ≤ 2147483647 ∧
    (∀ i : Nat, (i : Int) < 1 → ((fun _ => flit 5 10) i : Flt).Reg binary32) ∧
    ∃ pcm : List Nat,
      pfxr_create_wav_data (some (fun _ => flit 5 10)) 1 true =
        some (some (header_bytes (wav_header (2 * 1) (44 + 2 * 1)) ++ pcm, 44 + 2 * 1)) ∧
      ((header_bytes (wav_header (2 * 1) (44 + 2 * 1)) ++ pcm).length : Int) = 44 + 2 * 1 ∧
      (pcm.length : Int) = 2 * 1 ∧
      ((wav_header (2 * 1) (44 + 2 * 1)).data_size : Int) = 2 * 1 ∧
      (wav_header (2 * 1) (44 + 2 * 1)).chunk_size =
        (wav_header (2 * 1) (44 + 2 * 1)).data_size + 36 ∧
      ((header_bytes (wav_header (2 * 1) (44 + 2 * 1)) ++ pcm).drop 4).take 4 =
        le32 (wav_header (2 * 1) (44 + 2 * 1)).chunk_size ∧
      ((header_bytes (wav_header (2 * 1) (44 + 2 * 1)) ++ pcm).drop 40).take 4 =
        le32 (wav_header (2 * 1) (44 + 2 * 1)).data_size :=
  ⟨by decide, by decide,
    fun _ _ => isFin_reg (show (flit 5 10).IsFin binary32 by decide),
    pfxr_create_wav_data_size (fun _ => flit 5 10) 1 (by decide) (by decide)
      (fun _ _ => isFin_reg (show (flit 5 10).IsFin binary32 by decide))⟩

/-! ## The envelope and the pitch sweep -/

/-- Two floats neither of which is NaN are comparable: when `a < b` fails, `b <= a`. -/
theorem le_of_not_lt_flt {a b : Flt} (ha : a ≠ Flt.nan) (hb : b ≠ Flt.nan)
    (h : a.lt b = false) : b.le a = true := by
  cases a with
  | nan => exact absurd rfl ha
  | inf s =>
    cases b with
    | nan => exact absurd rfl hb
    | inf t => cases s <;> cases t <;> simp_all [Flt.lt, Flt.le]
    | fin t m e => cases s <;> simp_all [Flt.lt, Flt.le]
  | fin s m e =>
    cases b with
    | nan => exact absurd rfl hb
    | inf t => cases t <;> simp_all [Flt.lt, Flt.le]
    | fin t mb eb =>
      simp only [Flt.lt, Flt.le, decide_eq_false_iff_not, decide_eq_true_eq, not_lt] at h ⊢
      rw [min_comm]
      exact h

/-- A float sum that is not NaN has no NaN operand. -/
theorem add_ne_nan_left (f : Fmt) {a b : Flt} (h : f.add a b ≠ Flt.nan) : a ≠ Flt.nan := by
  intro ha
  subst ha
  exact h (by simp [Fmt.add])

/-- A float that compares below another is not NaN, and neither is the other. -/
theorem ne_nan_of_lt {a b : Flt} (h : a.lt b = true) : a ≠ Flt.nan ∧ b ≠ Flt.nan := by
  constructor
  · intro ha
    subst ha
    simp [Flt.lt] at h
  · intro hb
    subst hb
    cases a <;> simp [Flt.lt] at h

/-- The time of a sample is not NaN. -/
theorem sample_time_ne_nan (i : Int) : sample_time i ≠ Flt.nan := by
  unfold sample_time
  have hsr : binary32.ofInt PFXR_SAMPLE_RATE = Flt.fin false 11289600 (-8) := by decide
  rw [hsr]
  have hr := round_reg binary32 binary32_ok (decide (i < 0)) i.natAbs 1 0 (by norm_num)
  unfold Fmt.ofInt
  generalize binary32.round (decide (i < 0)) i.natAbs 1 0 = x at hr
  cases x with
  | nan => exact absurd hr id
  | inf s => simp [Fmt.div]
  | fin s m e =>
    simp only [Fmt.div]
    rw [if_neg (by decide)]
    intro h
    have h2 := round_reg binary32 binary32_ok (xor s false) m 11289600 (e - -8) (by norm_num)
    rw [h] at h2
    exact h2

/-- The envelope that the sample loop computes is the envelope of the specification at
every time that is not NaN. -/
theorem envelope_at_eq_spec (config : pfxr_sound_t) {t : Flt} (ht : t ≠ Flt.nan) :
    envelope_at config t = envelope_spec config t := by
  unfold envelope_at envelope_spec max0
  simp only []
  by_cases h1 : t.lt config.attackTime = true
  · simp only [h1, if_true]
  · have h1f : t.lt config.attackTime = false := by simpa using h1
    simp only [h1f, Bool.false_eq_true, if_false]
    by_cases h2 : t.lt (binary32.add config.attackTime config.sustainTime) = true
    · have ha : config.attackTime ≠ Flt.nan :=
        add_ne_nan_left binary32 (ne_nan_of_lt h2).2
      have h3 := le_of_not_lt_flt ht ha h1f
      simp only [h2, h3, Bool.and_self, if_true]
    · have h2f : t.lt (binary32.add config.attackTime config.sustainTime) = false := by
        simpa using h2
      simp only [h2f, Bool.and_false, Bool.false_eq_true, if_false]

/-- The value that a successful loop body stores at index `i`: some sample `x` times the
envelope of time `(float)i / sample_rate`, times the tremolo gain `g` when the tremolo is
on, times the volume, clamped. -/
theorem sample_step_value {L : libm_t} {config : pfxr_sound_t} {capacity : Int}
    {sample_rate duration : Flt} {i : Int} {st st1 : synth_t}
    (h : sample_step L config capacity sample_rate duration i st = some st1) :
    ∃ x s3 : Flt,
      (s3 = binary32.mul x (envelope_at config (binary32.div (binary32.ofInt i) sample_rate)) ∨
        ∃ g : Flt, s3 =
          binary32.mul
            (binary32.mul x (envelope_at config (binary32.div (binary32.ofInt i) sample_rate)))
            g) ∧
      st1.samples i.toNat = clamp (binary32.mul s3 config.volume) (flit 1 1).neg (flit 1 1) := by
  unfold sample_step at h
  simp only [] at h
  split at h
  · exact absurd h (by simp)
  · split at h
    · exact absurd h (by simp)
    · have hr := Option.some.inj h
      subst hr
      simp only [Function.update_same]
      by_cases htr :
          (config.tremoloRate.gt (flit 0 1) && config.tremoloDepth.gt (flit 0 1)) = true
      · simp only [htr, if_true]
        exact ⟨_, _, Or.inr ⟨_, rfl⟩, rfl⟩
      · simp only [htr, if_false]
        exact ⟨_, _, Or.inl rfl, rfl⟩

/-- What every successful loop body establishes for the value it stores holds in the final
memory at every index of the loop. -/
theorem sample_loop_stored {L : libm_t} {config : pfxr_sound_t} {capacity : Int}
    {sample_rate duration : Flt} (Q : Nat → Flt → Prop)
    (hQ : ∀ (i : Nat) (st st1 : synth_t),
      sample_step L config capacity sample_rate duration (i : Int) st = some st1 →
      Q i (st1.samples i))
    (n : Nat) :
    ∀ (i : Nat) (st st1 : synth_t),
      sample_loop L config capacity sample_rate duration n (i : Int) st = some st1 →
      ∀ j : Nat, i ≤ j → j < i + n → Q j (st1.samples j) := by
  induction n with
  | zero =>
    intro i st st1 _ j h1 h2
    exact absurd h2 (by omega)
  | succ n ih =>
    intro i st st1 h j h1 h2
    rw [sample_loop] at h
    split at h
    · exact absurd h (by simp)
    · rename_i st2 hstep
      have hi : ((i : Int) + 1) = ((i + 1 : Nat) : Int) := by push_cast; rfl
      rw [hi] at h
      by_cases hji : j = i
      · subst hji
        obtain ⟨-, b2, -⟩ := sample_loop_samples n (j + 1) st2 st1 h
        rw [b2 j (Or.inl (by omega))]
        exact hQ j st st2 hstep
      · exact ih (i + 1) st2 st1 h j (by omega) (by omega)

/-- What every successful loop body establishes for the value it stores holds, after a
successful `generate_sound`, at every index below `sample_count`. -/
theorem generate_sound_stored {L : libm_t} {config : pfxr_sound_t}
    {buffer r : pfxr_audio_buffer_t} (Q : Nat → Flt → Prop)
    (hQ : ∀ (i : Nat) (st st1 : synth_t),
      sample_step L config buffer.capacity (binary32.ofInt PFXR_SAMPLE_RATE)
        (binary32.add (binary32.add config.attackTime config.sustainTime) config.decayTime)
        (i : Int) st = some st1 →
      Q i (st1.samples i))
    (h : generate_sound L config buffer = some r) (j : Nat) (hj : (j : Int) < r.sample_count) :
    Q j (r.samples j) := by
  obtain ⟨total0, st0, st, -, -, hl, hsm, hc, -⟩ := generate_sound_inv h
  have hl2 : sample_loop L config buffer.capacity (binary32.ofInt PFXR_SAMPLE_RATE)
      (binary32.add (binary32.add config.attackTime config.sustainTime) config.decayTime)
      (if total0 > buffer.capacity then buffer.capacity else total0).toNat ((0 : Nat) : Int)
      st0 = some st := by
    rw [Nat.cast_zero]
    exact hl
  rw [hsm]
  rw [hc] at hj
  exact sample_loop_stored Q hQ _ 0 st0 st hl2 j (by omega) (by omega)

/-- **C27.** For every parameter set and every rendered sample index `i`, with
`t = (float)i / 44100`, the envelope gain that `pfxr_generate_sound` applies is
`max(0, e)` (a negative `e` replaced by 0), where `e = (1 - sustainPunch) * (t /
attackTime)` if `t < attackTime`, `e = 1` if `attackTime <= t < attackTime + sustainTime`,
and `e = (1 - sustainPunch) * (1 - (t - attackTime - sustainTime) / decayTime)` otherwise,
in `float` arithmetic (`envelope_spec`); the sample stored at `i` is a sample `x` times this
gain, times the tremolo gain when the tremolo is on, times the volume, clamped. -/
theorem envelope_gain (L : libm_t) (config : pfxr_sound_t) (buffer r : pfxr_audio_buffer_t)
    (h : generate_sound L config buffer = some r) (i : Nat) (hi : (i : Int) < r.sample_count) :
    envelope_at config (sample_time i) = envelope_spec config (sample_time i) ∧
    ∃ x s3 : Flt,
      (s3 = binary32.mul x (envelope_spec config (sample_time i)) ∨
        ∃ g : Flt, s3 = binary32.mul (binary32.mul x (envelope_spec config (sample_time i))) g) ∧
      r.samples i = clamp (binary32.mul s3 config.volume) (flit 1 1).neg (flit 1 1) := by
  have he : ∀ k : Nat, envelope_at config (sample_time k) = envelope_spec config (sample_time k) :=
    fun k => envelope_at_eq_spec config (sample_time_ne_nan k)
  refine ⟨he i, ?_⟩
  refine generate_sound_stored
    (fun k v => ∃ x s3 : Flt,
      (s3 = binary32.mul x (envelope_spec config (sample_time k)) ∨
        ∃ g : Flt, s3 = binary32.mul (binary32.mul x (envelope_spec config (sample_time k))) g) ∧
      v = clamp (binary32.mul s3 config.volume) (flit 1 1).neg (flit 1 1)) ?_ h i hi
  intro k st st1 hstep
  obtain ⟨x, s3, h1, h2⟩ := sample_step_value hstep
  rw [Int.toNat_natCast] at h2
  rw [← he k]
  exact ⟨x, s3, h1, h2⟩

set_option maxRecDepth 100000 in
/-- The statement of C27 at the default sound, a fresh buffer of capacity 2 and index 1,
with the identity for `sinf` and `cosf`. -/
theorem envelope_gain_witness :
    generate_sound ⟨id, id⟩ pfxr_get_default_sound (pfxr_create_audio_buffer 2) =
      some { samples :=
               Function.update
                 (Function.update (fun _ => Flt.fin false 0 (-149)) 0
                   (Flt.fin false 0 (-149)))
                 1 (Flt.fin false 13385951 (-28)),
             sample_count := 2, capacity := 2 } ∧
    ((1 : Nat) : Int) < 2 ∧
    envelope_at pfxr_get_default_sound (sample_time (1 : Nat)) =
      envelope_spec pfxr_get_default_sound (sample_time (1 : Nat)) ∧
    ∃ x s3 : Flt,
      (s3 = binary32.mul x (envelope_spec pfxr_get_default_sound (sample_time (1 : Nat))) ∨
        ∃ g : Flt, s3 =
          binary32.mul
            (binary32.mul x (envelope_spec pfxr_get_default_sound (sample_time (1 : Nat)))) g) ∧
      Function.update
          (Function.update (fun _ => Flt.fin false 0 (-149)) 0 (Flt.fin false 0 (-149)))
          1 (Flt.fin false 13385951 (-28)) 1 =
        clamp (binary32.mul s3 pfxr_get_default_sound.volume) (flit 1 1).neg (flit 1 1) :=
  ⟨rfl, by decide,
    envelope_gain ⟨id, id⟩ pfxr_get_default_sound (pfxr_create_audio_buffer 2)
      { samples :=
          Function.update
            (Function.update (fun _ => Flt.fin false 0 (-149)) 0 (Flt.fin false 0 (-149)))
            1 (Flt.fin false 13385951 (-28)),
        sample_count := 2, capacity := 2 }
      rfl 1 (by decide)⟩

/-- A float that compares below another does not compare at or above it. -/
theorem not_ge_of_lt {a b : Flt} (h : a.lt b = true) : a.ge b = false := by
  unfold Flt.ge
  cases a with
  | nan => simp [Flt.lt] at h
  | inf s =>
    cases b with
    | nan => simp [Flt.lt] at h
    | inf t => cases s <;> cases t <;> simp_all [Flt.lt, Flt.le]
    | fin t m e => cases s <;> simp_all [Flt.lt, Flt.le]
  | fin s m e =>
    cases b with
    | nan => simp [Flt.lt] at h
    | inf t => cases t <;> simp_all [Flt.lt, Flt.le]
    | fin t mb eb =>
      simp only [Flt.lt, Flt.le, decide_eq_false_iff_not, decide_eq_true_eq, not_le] at h ⊢
      rw [min_comm]
      exact h

/-- A float that C compares equal to zero is a zero. -/
theorem zero_of_not_ne {a : Flt} (h : a.ne (flit 0 1) = false) : ∃ s e, a = Flt.fin s 0 e := by
  rw [zero_eq] at h
  unfold Flt.ne at h
  cases a with
  | nan => simp [Flt.le] at h
  | inf s => cases s <;> simp [Flt.le] at h
  | fin s m e =>
    refine ⟨s, e, ?_⟩
    simp only [Flt.le, sgn, Bool.not_eq_false', Bool.and_eq_true, decide_eq_true_eq,
      if_false, Bool.false_eq_true, zero_mul, Nat.cast_zero] at h
    obtain ⟨h1, h2⟩ := h
    have hp : (0 : Int) < 2 ^ (e - min e (-149)).toNat := by positivity
    have hp2 : (0 : Int) < 2 ^ (e - min (-149) e).toNat := by positivity
    have hm : m = 0 := by
      by_contra hm
      have hmpos : (0 : Int) < m := by omega
      cases s
      · simp only [if_false, Bool.false_eq_true] at h1
        push_cast at h1
        have := mul_pos hmpos hp
        omega
      · simp only [if_true] at h2
        push_cast at h2
        have := mul_pos hmpos hp2
        omega
    rw [hm]

/-- The product of a zero and a finite float is a zero of the format. -/
theorem zero_mul_flt (f : Fmt) (s : Bool) (e : Int) (t : Bool) (m : Nat) (e1 : Int) :
    f.mul (Flt.fin s 0 e) (Flt.fin t m e1) = Flt.fin (xor s t) 0 f.emin := by
  simp only [Fmt.mul, Nat.zero_mul]
  exact round_zero f _ _ _

/-- Adding a zero of the format to a finite float does not change its value. -/
theorem add_zero_value {a : Flt} (ha : a.IsFin binary32) (s : Bool) :
    (binary32.add a (Flt.fin s 0 binary32.emin)).IsFin binary32 ∧
      (binary32.add a (Flt.fin s 0 binary32.emin)).toRat = a.toRat := by
  have hz : (Flt.fin s 0 binary32.emin).IsFin binary32 := by cases s <;> decide
  have hzV : (Flt.fin s 0 binary32.emin).toRat = 0 := by
    rw [toRat_fin]; simp
  have hr := add_rounded binary32 ha hz
  rw [hzV, add_zero] at hr
  exact rounded_exact binary32_ok hr ha rfl

/-- The pitch sweep as the specification words it, for any time `t` and duration `D`. -/
theorem swept_frequency_cases (config : pfxr_sound_t) (D t : Flt) :
    (t.lt config.pitchDelay = true → swept_frequency config D t = config.frequency) ∧
    (t.ge config.pitchDelay = true → config.pitchDelta.ne (flit 0 1) = true →
      swept_frequency config D t =
        binary32.add config.frequency
          (binary32.mul config.pitchDelta
            (fmin
              (binary32.div (binary32.sub t config.pitchDelay)
                (binary32.sub D config.pitchDelay))
              config.pitchDuration))) ∧
    (t.ge config.pitchDelay = true → config.pitchDelta.ne (flit 0 1) = false →
      swept_frequency config D t = config.frequency ∧
      (config.frequency.IsFin binary32 →
        (fmin
            (binary32.div (binary32.sub t config.pitchDelay)
              (binary32.sub D config.pitchDelay))
            config.pitchDuration).IsFin binary32 →
        (binary32.add config.frequency
            (binary32.mul config.pitchDelta
              (fmin
                (binary32.div (binary32.sub t config.pitchDelay)
                  (binary32.sub D config.pitchDelay))
                config.pitchDuration))).toRat = config.frequency.toRat)) := by
  refine ⟨?_, ?_, ?_⟩
  · intro h
    unfold swept_frequency
    simp only [not_ge_of_lt h, Bool.and_false, Bool.false_eq_true, if_false]
  · intro h1 h2
    unfold swept_frequency fmin Flt.gt
    simp only [h1, h2, Bool.and_self, if_true]
  · intro h1 h2
    constructor
    · unfold swept_frequency
      simp only [h2, Bool.false_and, Bool.false_eq_true, if_false]
    · intro hf hm
      obtain ⟨s, e, hd⟩ := zero_of_not_ne h2
      rw [hd]
      generalize fmin
        (binary32.div (binary32.sub t config.pitchDelay) (binary32.sub D config.pitchDelay))
        config.pitchDuration = m at hm
      cases m with
      | nan => exact absurd hm id
      | inf u => exact absurd hm id
      | fin u mm em =>
        rw [zero_mul_flt]
        exact (add_zero_value hf _).2

/-- **C29 (amended).** For every parameter set and every sample index `i`, with
`t = (float)i / 44100` and `D = attackTime + sustainTime + decayTime`, the swept frequency
(before vibrato) is `frequency` when `t < pitchDelay`; when `t >= pitchDelay` and
`pitchDelta != 0` it is the float `frequency + pitchDelta * min((t - pitchDelay) /
(D - pitchDelay), pitchDuration)`; when `t >= pitchDelay` and `pitchDelta == 0` the code
skips the sweep and returns `frequency`, which is the value of that formula whenever
`frequency` and the minimum are finite. -/
theorem swept_frequency_formula (config : pfxr_sound_t) (i : Int) :
    ((sample_time i).lt config.pitchDelay = true →
      swept_frequency config
        (binary32.add (binary32.add config.attackTime config.sustainTime) config.decayTime)
        (sample_time i) = config.frequency) ∧
    ((sample_time i).ge config.pitchDelay = true → config.pitchDelta.ne (flit 0 1) = true →
      swept_frequency config
        (binary32.add (binary32.add config.attackTime config.sustainTime) config.decayTime)
        (sample_time i) =
        binary32.add config.frequency
          (binary32.mul config.pitchDelta
            (fmin
              (binary32.div (binary32.sub (sample_time i) config.pitchDelay)
                (binary32.sub
                  (binary32.add (binary32.add config.attackTime config.sustainTime)
                    config.decayTime)
                  config.pitchDelay))
              config.pitchDuration))) ∧
    ((sample_time i).ge config.pitchDelay = true → config.pitchDelta.ne (flit 0 1) = false →
      swept_frequency config
        (binary32.add (binary32.add config.attackTime config.sustainTime) config.decayTime)
        (sample_time i) = config.frequency ∧
      (config.frequency.IsFin binary32 →
        (fmin
            (binary32.div (binary32.sub (sample_time i) config.pitchDelay)
              (binary32.sub
                (binary32.add (binary32.add config.attackTime config.sustainTime)
                  config.decayTime)
                config.pitchDelay))
            config.pitchDuration).IsFin binary32 →
        (binary32.add config.frequency
            (binary32.mul config.pitchDelta
              (fmin
                (binary32.div (binary32.sub (sample_time i) config.pitchDelay)
                  (binary32.sub
                    (binary32.add (binary32.add config.attackTime config.sustainTime)
                      config.decayTime)
                    config.pitchDelay))
                config.pitchDuration))).toRat = config.frequency.toRat)) :=
  swept_frequency_cases config _ _

/-! ## The waveforms -/

/-- The shape of a canonical finite float of binary32 with a value in `[2^k, 2^(k+1))`,
for an exponent `k` in the normal range: its unit in the last place is `2^(k-23)`. -/
theorem canon_exponent {m : Nat} {e : Int} (hc : binary32.canon m e) (k : Int)
    (hk : -126 ≤ k) (h1 : (2 : ℚ) ^ k ≤ (m : ℚ) * (2 : ℚ) ^ e)
    (h2 : (m : ℚ) * (2 : ℚ) ^ e < (2 : ℚ) ^ (k + 1)) : e = k - 23 := by
  obtain ⟨c1, c2, c3, c4⟩ := hc
  have hp : binary32.prec = 24 := rfl
  have hemin : binary32.emin = -149 := rfl
  rw [hp] at c1 c4
  rw [hemin] at c2 c4
  norm_num at c1 c4
  have hmq : (m : ℚ) < 16777216 := by exact_mod_cast c1
  have hpe := zpow_two_pos e
  -- upper bound on e
  have he1 : k - 23 ≤ e := by
    by_contra hc
    push_neg at hc
    have h3 : (2 : ℚ) ^ e ≤ (2 : ℚ) ^ (k - 24) := zpow_two_le (by omega)
    have h4 : (m : ℚ) * (2 : ℚ) ^ e < 16777216 * (2 : ℚ) ^ (k - 24) := by
      calc (m : ℚ) * (2 : ℚ) ^ e ≤ (m : ℚ) * (2 : ℚ) ^ (k - 24) :=
            mul_le_mul_of_nonneg_left h3 (by positivity)
        _ < 16777216 * (2 : ℚ) ^ (k - 24) :=
            mul_lt_mul_of_pos_right hmq (zpow_two_pos _)
    have h5 : (16777216 : ℚ) * (2 : ℚ) ^ (k - 24) = (2 : ℚ) ^ k := by
      rw [zpow_sub₀ (by norm_num : (2 : ℚ) ≠ 0)]
      norm_num
      ring
    rw [h5] at h4
    linarith
  have he2 : e ≤ k - 23 := by
    by_contra hc
    push_neg at hc
    have hem : e ≠ -149 := by omega
    have hm2 : 8388608 ≤ m := by
      rcases c4 with h | h
      · exact h
      · exact absurd h hem
    have hm2q : (8388608 : ℚ) ≤ m := by exact_mod_cast hm2
    have h3 : (2 : ℚ) ^ (k - 22) ≤ (2 : ℚ) ^ e := zpow_two_le (by omega)
    have h4 : 8388608 * (2 : ℚ) ^ (k - 22) ≤ (m : ℚ) * (2 : ℚ) ^ e :=
      mul_le_mul hm2q h3 (zpow_two_pos _).le (by positivity)
    have h5 : (8388608 : ℚ) * (2 : ℚ) ^ (k - 22) = (2 : ℚ) ^ (k + 1) := by
      rw [zpow_sub₀ (by norm_num : (2 : ℚ) ≠ 0), zpow_add₀ (by norm_num : (2 : ℚ) ≠ 0)]
      norm_num
      ring
    rw [h5] at h4
    linarith
  omega

/-- A finite float of binary32 whose value is at least 0 has sign plus or is a zero. -/
theorem sign_of_nonneg {s : Bool} {m : Nat} {e : Int}
    (h : 0 ≤ (Flt.fin s m e).toRat) : s = false ∨ m = 0 := by
  rw [toRat_fin] at h
  cases s
  · exact Or.inl rfl
  · right
    simp only [sq, if_true] at h
    have hpos : (0 : ℚ) ≤ (m : ℚ) * (2 : ℚ) ^ e := by positivity
    have h1 : (m : ℚ) * (2 : ℚ) ^ e = 0 := by linarith
    have := (mul_eq_zero.mp h1).resolve_right (zpow_two_pos e).ne'
    exact_mod_cast this

/-- The floor of a float with a value in `[1, 2)` is `1.0f`. -/
theorem floorf_one {x : Flt} (hx : x.IsFin binary32) (h1 : 1 ≤ x.toRat) (h2 : x.toRat < 2) :
    floorf x = flit 1 1 := by
  cases x with
  | nan => exact absurd hx id
  | inf s => exact absurd hx id
  | fin s m e =>
    have hs : s = false := by
      rcases sign_of_nonneg (by linarith : 0 ≤ (Flt.fin s m e).toRat) with h | h
      · exact h
      · subst h
        rw [toRat_fin] at h1
        simp at h1
        linarith
    subst hs
    rw [toRat_fin] at h1 h2
    simp only [sq, if_false, Bool.false_eq_true, one_mul] at h1 h2
    have he := canon_exponent hx 0 (by norm_num) (by simpa using h1) (by simpa using h2)
    norm_num at he
    subst he
    have hm1 : 8388608 ≤ m := by
      have : (8388608 : ℚ) ≤ m := by
        have h3 : (2 : ℚ) ^ (-23 : Int) = 1 / 8388608 := by norm_num
        rw [h3] at h1
        linarith
      exact_mod_cast this
    have hm2 : m < 16777216 := by
      have : (m : ℚ) < 16777216 := by
        have h3 : (2 : ℚ) ^ (-23 : Int) = 1 / 8388608 := by norm_num
        rw [h3] at h2
        linarith
      exact_mod_cast this
    have hq : m / 2 ^ (23 : Nat) = 1 := by omega
    simp only [floorf]
    rw [if_neg (by norm_num)]
    simp only [Bool.false_eq_true, if_false]
    have : (-(-23 : Int)).toNat = 23 := by decide
    rw [this, hq]
    decide

/-- The floor of a float with a value in `[0, 1)` and sign plus is `+0`. -/
theorem floorf_zero {m : Nat} {e : Int} (hx : binary32.canon m e)
    (h2 : (Flt.fin false m e).toRat < 1) : floorf (Flt.fin false m e) = Flt.fin false 0 (-149) := by
  rw [toRat_fin] at h2
  simp only [sq, if_false, Bool.false_eq_true, one_mul] at h2
  have he : e < 0 := by
    by_contra hc
    push_neg at hc
    obtain ⟨c1, c2, c3, c4⟩ := hx
    by_cases hm : m = 0
    · subst hm
      rcases c4 with h | h
      · exact absurd h (by decide)
      · have : binary32.emin = -149 := rfl
        omega
    · have h3 : (1 : ℚ) ≤ (2 : ℚ) ^ e := by
        have := @zpow_two_le 0 e hc
        simpa using this
      have h4 : (1 : ℚ) ≤ m := by exact_mod_cast Nat.one_le_iff_ne_zero.mpr hm
      nlinarith
  have hq : m / 2 ^ (-e).toNat = 0 := by
    apply Nat.div_eq_of_lt
    have h3 : (2 : ℚ) ^ e = ((2 : ℚ) ^ (-e).toNat)⁻¹ := by
      rw [← zpow_natCast, Int.toNat_of_nonneg (by omega), zpow_neg, inv_inv]
    rw [h3, ← div_eq_mul_inv, div_lt_one (by positivity)] at h2
    exact_mod_cast h2
  simp only [floorf]
  rw [if_neg (by omega)]
  simp only [Bool.false_eq_true, if_false]
  rw [hq]
  decide

/-- The constant `0.5f`. -/
theorem half_eq : flit 5 10 = Flt.fin false 8388608 (-24) := by decide

/-- Multiplying a finite float by `2^j` (here the float `c` with that value) is exact when
the exponent stays in range. -/
theorem mul_pow_two_exact {a c : Flt} (ha : a.IsFin binary32) (hc : c.IsFin binary32) (j : Nat)
    (hcv : c.toRat = (2 : ℚ) ^ j) (hmag : |a.toRat| < 4) (hj : j ≤ 8) :
    (binary32.mul c a).IsFin binary32 ∧ (binary32.mul c a).toRat = (2 : ℚ) ^ j * a.toRat := by
  have hr := mul_rounded binary32 hc ha
  rw [hcv] at hr
  cases a with
  | nan => exact absurd ha id
  | inf s => exact absurd ha id
  | fin s m e =>
    obtain ⟨c1, c2, c3, c4⟩ := ha
    have hp : binary32.prec = 24 := rfl
    have hemin : binary32.emin = -149 := rfl
    have hemax : binary32.emax = 104 := rfl
    rw [hp] at c1 c4
    rw [hemin] at c2 c4
    norm_num at c1 c4
    rw [toRat_fin] at hmag hr ⊢
    have he : e ≤ 2 := by
      by_contra hcon
      push_neg at hcon
      have hem : e ≠ -149 := by omega
      have hm2 : 8388608 ≤ m := by
        rcases c4 with h | h
        · exact h
        · exact absurd h hem
      have hm2q : (8388608 : ℚ) ≤ m := by exact_mod_cast hm2
      have h3 : (2 : ℚ) ^ (3 : Int) ≤ (2 : ℚ) ^ e := zpow_two_le (by omega)
      have h4 : 8388608 * (2 : ℚ) ^ (3 : Int) ≤ (m : ℚ) * (2 : ℚ) ^ e :=
        mul_le_mul hm2q h3 (zpow_two_pos _).le (by positivity)
      have hnn : (0 : ℚ) ≤ (m : ℚ) * (2 : ℚ) ^ e := by positivity
      have h5 : |sq s * ((m : ℚ) * (2 : ℚ) ^ e)| = (m : ℚ) * (2 : ℚ) ^ e := by
        rw [abs_mul, abs_of_nonneg hnn]
        rcases sq_cases s with h | h <;> rw [h] <;> simp
      rw [h5] at hmag
      norm_num at h4
      linarith
    obtain ⟨b, hb, hbv⟩ := exists_isFin_of_grid binary32 binary32_ok s m (e + j)
      (by rw [hp]; norm_num; exact c1) (by rw [hemin]; omega) (by rw [hemax]; omega)
    refine rounded_exact binary32_ok hr hb ?_
    rw [hbv, zpow_add₀ (by norm_num : (2 : ℚ) ≠ 0), zpow_natCast]
    ring

/-- The fractional part `phase - floorf(phase)` of a phase in `[0, 1)` is the phase: the
same float, or `+0` for a phase that is a zero. -/
theorem frac_of_phase {p : Flt} (hp : p.IsFin binary32) (h0 : 0 ≤ p.toRat)
    (h1 : p.toRat < 1) :
    (binary32.sub p (floorf p) = p ∨
      (p = Flt.fin true 0 (-149) ∧ binary32.sub p (floorf p) = Flt.fin false 0 (-149))) ∧
    (binary32.sub p (floorf p)).IsFin binary32 ∧
    (binary32.sub p (floorf p)).toRat = p.toRat := by
  cases p with
  | nan => exact absurd hp id
  | inf s => exact absurd hp id
  | fin s m e =>
    by_cases hm : m = 0
    · subst hm
      have he : e = -149 := by
        obtain ⟨-, -, -, c4⟩ := hp
        rcases c4 with h | h
        · exact absurd h (by decide)
        · exact h
      subst he
      cases s
      · have hv : binary32.sub (Flt.fin false 0 (-149)) (floorf (Flt.fin false 0 (-149))) =
            Flt.fin false 0 (-149) := by decide
        rw [hv]
        exact ⟨Or.inl rfl, by decide, rfl⟩
      · refine ⟨Or.inr ⟨rfl, by decide⟩, ?_, ?_⟩
        · have : binary32.sub (Flt.fin true 0 (-149)) (floorf (Flt.fin true 0 (-149))) =
              Flt.fin false 0 (-149) := by decide
          rw [this]
          decide
        · have : binary32.sub (Flt.fin true 0 (-149)) (floorf (Flt.fin true 0 (-149))) =
              Flt.fin false 0 (-149) := by decide
          rw [this]
          simp [Flt.toRat]
    · have hs : s = false := by
        rcases sign_of_nonneg h0 with h | h
        · exact h
        · exact absurd h hm
      subst hs
      rw [floorf_zero hp h1]
      have hz := add_zero_value hp true
      have hsub : binary32.sub (Flt.fin false m e) (Flt.fin false 0 (-149)) =
          binary32.add (Flt.fin false m e) (Flt.fin true 0 binary32.emin) := rfl
      rw [hsub]
      refine ⟨Or.inl ?_, hz.1, hz.2⟩
      rcases isFin_eq_of_toRat_eq binary32_ok hz.1 hp hz.2 with h | ⟨s1, t1, -, h⟩
      · exact h
      · have := (Flt.fin.injEq _ _ _ _ _ _).mp h
        exact absurd this.2.1 hm

/-- A float in `[0, 1/2)` other than the largest float below `0.5` is at most
`1/2 - 2^-24`. -/
theorem below_half_grid {p : Flt} (hp : p.IsFin binary32) (h0 : 0 ≤ p.toRat)
    (h1 : p.toRat < 1 / 2) (hne : p ≠ Flt.fin false 16777215 (-25)) :
    p.toRat ≤ 1 / 2 - (2 : ℚ) ^ (-24 : Int) := by
  by_cases hq : p.toRat < 1 / 4
  · have : (2 : ℚ) ^ (-24 : Int) ≤ 1 / 4 := by norm_num
    linarith
  · push_neg at hq
    cases p with
    | nan => exact absurd hp id
    | inf s => exact absurd hp id
    | fin s m e =>
      have hs : s = false := by
        rcases sign_of_nonneg h0 with h | h
        · exact h
        · subst h
          rw [toRat_fin] at hq
          simp at hq
          linarith
      subst hs
      rw [toRat_fin] at h1 hq ⊢
      simp only [sq, if_false, Bool.false_eq_true, one_mul] at h1 hq ⊢
      have he := canon_exponent hp (-2) (by norm_num)
        (by have : (2 : ℚ) ^ (-2 : Int) = 1 / 4 := by norm_num
            rw [this]; exact hq)
        (by have : (2 : ℚ) ^ ((-2 : Int) + 1) = 1 / 2 := by norm_num
            rw [this]; exact h1)
      norm_num at he
      subst he
      have h25 : (2 : ℚ) ^ (-25 : Int) = 1 / 33554432 := by norm_num
      have h24 : (2 : ℚ) ^ (-24 : Int) = 1 / 16777216 := by norm_num
      rw [h25] at h1 ⊢
      rw [h24]
      have hm1 : (m : ℚ) < 16777216 := by linarith
      have hm2 : m < 16777216 := by exact_mod_cast hm1
      have hm3 : m ≠ 16777215 := by
        intro h
        subst h
        exact hne rfl
      have hm4 : m ≤ 16777214 := by omega
      have hm5 : (m : ℚ) ≤ 16777214 := by exact_mod_cast hm4
      linarith

/-- The sawtooth of a phase in `[0, 1)` other than the largest float below `0.5` is exactly
`2 * (p - round(p))`, with `round(p) = floor(p + 1/2)` in exact arithmetic. -/
theorem sawtooth_value {p : Flt} (hp : p.IsFin binary32) (h0 : 0 ≤ p.toRat)
    (h1 : p.toRat < 1) (hne : p ≠ Flt.fin false 16777215 (-25)) :
    (generate_sawtooth p).IsFin binary32 ∧
      (generate_sawtooth p).toRat = 2 * (p.toRat - ⌊p.toRat + 1 / 2⌋) := by
  have hhF : (Flt.fin false 8388608 (-24)).IsFin binary32 := by decide
  have hhV : (Flt.fin false 8388608 (-24)).toRat = 1 / 2 := by
    rw [toRat_fin]; norm_num [sq]
  have h2F : (flit 2 1).IsFin binary32 := by decide
  have h2V : (flit 2 1).toRat = (2 : ℚ) ^ (1 : Nat) := by
    rw [two_eq, toRat_fin]; norm_num [sq]
  unfold generate_sawtooth
  rw [half_eq]
  have hr := add_rounded binary32 hp hhF
  rw [hhV] at hr
  by_cases hlt : p.toRat < 1 / 2
  · have hg := below_half_grid hp h0 hlt hne
    have hhiF : (Flt.fin false 16777215 (-24)).IsFin binary32 := by decide
    have hhiV : (Flt.fin false 16777215 (-24)).toRat = 1 - (2 : ℚ) ^ (-24 : Int) := by
      rw [toRat_fin]; norm_num [sq]
    obtain ⟨xF, x1, x2⟩ := rounded_between binary32_ok hr hhF hhiF (by rw [hhV]; linarith)
      (by rw [hhiV]; linarith)
    rw [hhV] at x1
    rw [hhiV] at x2
    have hfl : floorf (binary32.add p (Flt.fin false 8388608 (-24))) =
        Flt.fin false 0 (-149) := by
      generalize binary32.add p (Flt.fin false 8388608 (-24)) = x at xF x1 x2
      cases x with
      | nan => exact absurd xF id
      | inf s => exact absurd xF id
      | fin s m e =>
        have hs : s = false := by
          rcases sign_of_nonneg (by linarith : 0 ≤ (Flt.fin s m e).toRat) with h | h
          · exact h
          · subst h
            rw [toRat_fin] at x1
            simp at x1
            linarith
        subst hs
        have : (2 : ℚ) ^ (-24 : Int) > 0 := by positivity
        exact floorf_zero xF (by linarith)
    rw [hfl]
    have hz := add_zero_value hp true
    have hsub : binary32.sub p (Flt.fin false 0 (-149)) =
        binary32.add p (Flt.fin true 0 binary32.emin) := rfl
    rw [hsub]
    have hm := mul_pow_two_exact hz.1 h2F 1 h2V
      (by rw [hz.2, abs_of_nonneg h0]; linarith) (by norm_num)
    rw [hz.2] at hm
    refine ⟨hm.1, ?_⟩
    rw [hm.2]
    have hfloor : ⌊p.toRat + 1 / 2⌋ = 0 := by
      rw [Int.floor_eq_zero_iff]
      constructor <;> linarith
    rw [hfloor]
    norm_num
  · push_neg at hlt
    have h1F : (Flt.fin false 8388608 (-23)).IsFin binary32 := by decide
    have h1V : (Flt.fin false 8388608 (-23)).toRat = 1 := by
      rw [toRat_fin]; norm_num [sq]
    have hhiF : (Flt.fin false 12582912 (-23)).IsFin binary32 := by decide
    have hhiV : (Flt.fin false 12582912 (-23)).toRat = 3 / 2 := by
      rw [toRat_fin]; norm_num [sq]
    obtain ⟨xF, x1, x2⟩ := rounded_between binary32_ok hr h1F hhiF (by rw [h1V]; linarith)
      (by rw [hhiV]; linarith)
    rw [h1V] at x1
    rw [hhiV] at x2
    rw [floorf_one xF x1 (by linarith), one_eq]
    have hsr := sub_rounded binary32 hp h1F
    rw [h1V] at hsr
    have hex : (binary32.sub p (Flt.fin false 8388608 (-23))).IsFin binary32 ∧
        (binary32.sub p (Flt.fin false 8388608 (-23))).toRat = p.toRat - 1 := by
      cases p with
      | nan => exact absurd hp id
      | inf s => exact absurd hp id
      | fin s m e =>
        have hs : s = false := by
          rcases sign_of_nonneg h0 with h | h
          · exact h
          · subst h
            rw [toRat_fin] at hlt
            simp at hlt
            linarith
        subst hs
        have hpv := toRat_fin false m e
        simp only [sq, if_false, Bool.false_eq_true, one_mul] at hpv
        have he := canon_exponent hp (-1) (by norm_num)
          (by have : (2 : ℚ) ^ (-1 : Int) = 1 / 2 := by norm_num
              rw [this, ← hpv]; exact hlt)
          (by have : (2 : ℚ) ^ ((-1 : Int) + 1) = 1 := by norm_num
              rw [this, ← hpv]; exact h1)
        norm_num at he
        subst he
        have h24 : (2 : ℚ) ^ (-24 : Int) = 1 / 16777216 := by norm_num
        have hm1 : m < 16777216 := by
          have : (m : ℚ) < 16777216 := by
            rw [hpv, h24] at h1
            linarith
          exact_mod_cast this
        have hm0 : 0 < m := by
          rcases Nat.eq_zero_or_pos m with h | h
          · subst h
            rw [hpv] at hlt
            simp at hlt
            linarith
          · exact h
        obtain ⟨b, hb, hbv⟩ := exists_isFin_of_grid binary32 binary32_ok true
          (16777216 - m) (-24) (by
            have h24p : binary32.prec = 24 := rfl
            have hpow : (2 : Nat) ^ 24 = 16777216 := by norm_num
            rw [h24p, hpow]
            omega) (by decide) (by decide)
        refine rounded_exact binary32_ok hsr hb ?_
        rw [hbv, hpv, Nat.cast_sub hm1.le, h24]
        simp only [sq, if_true]
        push_cast
        ring
    have hm := mul_pow_two_exact hex.1 h2F 1 h2V
      (by rw [hex.2, abs_lt]; constructor <;> linarith) (by norm_num)
    rw [hex.2] at hm
    refine ⟨hm.1, ?_⟩
    rw [hm.2]
    have hfloor : ⌊p.toRat + 1 / 2⌋ = 1 := by
      rw [Int.floor_eq_iff]
      constructor
      · push_cast; linarith
      · push_cast; linarith
    rw [hfloor]
    norm_num

/-- A finite float with a value between -1 and 1 lies in `[-1, 1]`. -/
theorem inUnit_of_toRat {v : Flt} (hv : v.IsFin binary32) (h1 : -1 ≤ v.toRat)
    (h2 : v.toRat ≤ 1) : v.InUnit := by
  have hm1F : ((flit 1 1).neg).IsFin binary32 := by decide
  have h1F : (flit 1 1).IsFin binary32 := by decide
  have hm1V : ((flit 1 1).neg).toRat = -1 := by
    rw [one_eq]; simp only [Flt.neg, Bool.not_false]; rw [toRat_fin]; norm_num [sq]
  have h1V : (flit 1 1).toRat = 1 := by
    rw [one_eq, toRat_fin]; norm_num [sq]
  constructor
  · rw [le_iff_toRat hm1F hv, hm1V]
    exact h1
  · rw [le_iff_toRat hv h1F, h1V]
    exact h2

/-- The square wave of a phase in `[0, 1)`. -/
theorem square_value {p : Flt} (hp : p.IsFin binary32) (h0 : 0 ≤ p.toRat) (h1 : p.toRat < 1) :
    generate_square p = if p.lt (flit 5 10) then (flit 1 1).neg else flit 1 1 := by
  obtain ⟨-, tF, tV⟩ := frac_of_phase hp h0 h1
  have hhF : (flit 5 10).IsFin binary32 := by decide
  unfold generate_square
  have : (binary32.sub p (floorf p)).lt (flit 5 10) = p.lt (flit 5 10) := by
    rw [Bool.eq_iff_iff, lt_iff_toRat tF hhF, lt_iff_toRat hp hhF, tV]
  rw [this]

set_option maxRecDepth 100000 in
/-- The triangle wave of a phase in `[0, 1)`, and its range. -/
theorem triangle_value {p : Flt} (hp : p.IsFin binary32) (h0 : 0 ≤ p.toRat)
    (h1 : p.toRat < 1) :
    generate_triangle p =
        (if p.lt (flit 5 10) then binary32.sub (binary32.mul (flit 4 1) p) (flit 1 1)
          else binary32.sub (flit 3 1) (binary32.mul (flit 4 1) p)) ∧
      (generate_triangle p).InUnit := by
  obtain ⟨tE, tF, tV⟩ := frac_of_phase hp h0 h1
  have hhF : (flit 5 10).IsFin binary32 := by decide
  have hhV : (flit 5 10).toRat = 1 / 2 := by
    rw [half_eq, toRat_fin]; norm_num [sq]
  have h4F : (flit 4 1).IsFin binary32 := by decide
  have h4V : (flit 4 1).toRat = (2 : ℚ) ^ (2 : Nat) := by
    have : flit 4 1 = Flt.fin false 8388608 (-21) := by decide
    rw [this, toRat_fin]; norm_num [sq]
  have h1F : (flit 1 1).IsFin binary32 := by decide
  have h1V : (flit 1 1).toRat = 1 := by
    rw [one_eq, toRat_fin]; norm_num [sq]
  have h3F : (flit 3 1).IsFin binary32 := by decide
  have h3V : (flit 3 1).toRat = 3 := by
    have : flit 3 1 = Flt.fin false 12582912 (-22) := by decide
    rw [this, toRat_fin]; norm_num [sq]
  have hmF : ((flit 1 1).neg).IsFin binary32 := by decide
  have hmV : ((flit 1 1).neg).toRat = -1 := by
    rw [one_eq]; simp only [Flt.neg, Bool.not_false]; rw [toRat_fin]; norm_num [sq]
  have hlt : (binary32.sub p (floorf p)).lt (flit 5 10) = p.lt (flit 5 10) := by
    rw [Bool.eq_iff_iff, lt_iff_toRat tF hhF, lt_iff_toRat hp hhF, tV]
  have hq := mul_pow_two_exact tF h4F 2 h4V (by rw [tV, abs_of_nonneg h0]; linarith)
    (by norm_num)
  rw [tV] at hq
  constructor
  · unfold generate_triangle
    simp only []
    rw [hlt]
    rcases tE with h | ⟨h, h'⟩
    · rw [h]
    · rw [h', h]
      decide
  · unfold generate_triangle
    simp only []
    rw [hlt]
    by_cases hc : p.lt (flit 5 10) = true
    · rw [if_pos hc]
      have hc2 := (lt_iff_toRat hp hhF).mp hc
      rw [hhV] at hc2
      have hr := sub_rounded binary32 hq.1 h1F
      rw [hq.2, h1V] at hr
      obtain ⟨rF, r1, r2⟩ := rounded_between binary32_ok hr hmF h1F
        (by rw [hmV]; norm_num; linarith) (by rw [h1V]; norm_num; linarith)
      rw [hmV] at r1
      rw [h1V] at r2
      exact inUnit_of_toRat rF r1 r2
    · rw [if_neg hc]
      have hc2 : ¬ p.toRat < 1 / 2 := by
        rw [← hhV]
        exact fun h => hc ((lt_iff_toRat hp hhF).mpr h)
      push_neg at hc2
      have hr := sub_rounded binary32 h3F hq.1
      rw [hq.2, h3V] at hr
      obtain ⟨rF, r1, r2⟩ := rounded_between binary32_ok hr hmF h1F
        (by rw [hmV]; norm_num; linarith) (by rw [h1V]; norm_num; linarith)
      rw [hmV] at r1
      rw [h1V] at r2
      exact inUnit_of_toRat rF r1 r2

set_option maxRecDepth 100000 in
/-- The sawtooth wave of a phase in `[0, 1)` lies in `[-1, 1]`. -/
theorem sawtooth_inUnit {p : Flt} (hp : p.IsFin binary32) (h0 : 0 ≤ p.toRat)
    (h1 : p.toRat < 1) : (generate_sawtooth p).InUnit := by
  by_cases hne : p = Flt.fin false 16777215 (-25)
  · subst hne
    decide
  · obtain ⟨sF, sV⟩ := sawtooth_value hp h0 h1 hne
    by_cases hlt : p.toRat < 1 / 2
    · have hfloor : ⌊p.toRat + 1 / 2⌋ = 0 := by
        rw [Int.floor_eq_zero_iff]
        constructor <;> linarith
      rw [hfloor] at sV
      exact inUnit_of_toRat sF (by rw [sV]; norm_num; linarith) (by rw [sV]; norm_num; linarith)
    · push_neg at hlt
      have hfloor : ⌊p.toRat + 1 / 2⌋ = 1 := by
        rw [Int.floor_eq_iff]
        constructor
        · push_cast; linarith
        · push_cast; linarith
      rw [hfloor] at sV
      exact inUnit_of_toRat sF (by rw [sV]; norm_num; linarith) (by rw [sV]; norm_num; linarith)

/-- The square wave lies in `[-1, 1]`. -/
theorem square_inUnit (p : Flt) : (generate_square p).InUnit := by
  unfold generate_square
  split_ifs <;> decide

set_option maxRecDepth 100000 in
/-- **C30 (as stated) fails.** The phase `16777215 * 2^-25`, the largest float below `0.5`,
lies in `[0, 0.5)`, so `round(p) = 0` and `2 * (p - round(p))` is `2p`, the float
`16777215 * 2^-24` (about 0.99999994).  The code computes `floorf(p + 0.5f)`, where the
float sum rounds up to `1.0f`, and returns `2 * (p - 1) = -1`, whatever `sinf` is. -/
theorem generate_sawtooth_counterexample :
    (Flt.fin false 16777215 (-25)).IsFin binary32 ∧
      (flit 0 1).le (Flt.fin false 16777215 (-25)) = true ∧
      (Flt.fin false 16777215 (-25)).lt (flit 5 10) = true ∧
      binary32.add (Flt.fin false 16777215 (-25)) (flit 5 10) = flit 1 1 ∧
      (∀ L : libm_t, generate_waveform L 1 (Flt.fin false 16777215 (-25)) = (flit 1 1).neg) ∧
      binary32.mul (flit 2 1) (binary32.sub (Flt.fin false 16777215 (-25)) (flit 0 1)) =
        Flt.fin false 16777215 (-24) ∧
      (flit 1 1).neg ≠ Flt.fin false 16777215 (-24) :=
  ⟨by decide, by decide, by decide, by decide, fun _ => rfl, by decide, by decide⟩

set_option maxRecDepth 100000 in
/-- **C30 (amended).** For every phase `p` in `[0, 1)`: `generate_waveform` returns
`sinf(p * 2.0f * M_PI)` for sine; for sawtooth it returns `2 * (p - floorf(p + 0.5f))`,
which is exactly `2 * (p - round(p))` for every `p` other than the largest float below
`0.5`, where it is `-1`; for square `-1` if `p < 0.5` and `+1` otherwise; for triangle the
float `4p - 1` if `p < 0.5` and `3 - 4p` otherwise (`-1` at `p = 0`, `+1` at `p = 0.5`).
The sawtooth, square and triangle lie in `[-1, 1]`, and so does the sine when `sinf` only
returns values in `[-1, 1]`; a `waveForm` outside `0..3` is rendered as sine. -/
theorem generate_waveform_shapes (L : libm_t) (p : Flt) (hp : p.IsFin binary32)
    (h0 : 0 ≤ p.toRat) (h1 : p.toRat < 1) :
    generate_waveform L 0 p =
        L.sinf (binary32.cvt (binary64.mul (binary32.mul p (flit 2 1)) M_PI)) ∧
    generate_waveform L 1 p =
        binary32.mul (flit 2 1) (binary32.sub p (floorf (binary32.add p (flit 5 10)))) ∧
    (p ≠ Flt.fin false 16777215 (-25) →
      (generate_waveform L 1 p).IsFin binary32 ∧
      (generate_waveform L 1 p).toRat = 2 * (p.toRat - ⌊p.toRat + 1 / 2⌋)) ∧
    (p = Flt.fin false 16777215 (-25) → generate_waveform L 1 p = (flit 1 1).neg) ∧
    generate_waveform L 2 p = (if p.lt (flit 5 10) then (flit 1 1).neg else flit 1 1) ∧
    generate_waveform L 3 p =
        (if p.lt (flit 5 10) then binary32.sub (binary32.mul (flit 4 1) p) (flit 1 1)
          else binary32.sub (flit 3 1) (binary32.mul (flit 4 1) p)) ∧
    generate_waveform L 3 (flit 0 1) = (flit 1 1).neg ∧
    generate_waveform L 3 (flit 5 10) = flit 1 1 ∧
    (generate_waveform L 1 p).InUnit ∧ (generate_waveform L 2 p).InUnit ∧
    (generate_waveform L 3 p).InUnit ∧
    ((∀ x : Flt, (L.sinf x).InUnit) → ∀ w : Int, (generate_waveform L w p).InUnit) ∧
    (∀ w : Int, w < 0 ∨ 3 < w → generate_waveform L w p = generate_waveform L 0 p) := by
  have e0 : generate_waveform L 0 p = generate_sine L p := by
    unfold generate_waveform
    simp
  have e1 : generate_waveform L 1 p = generate_sawtooth p := by
    unfold generate_waveform
    simp
  have e2 : generate_waveform L 2 p = generate_square p := by
    unfold generate_waveform
    simp
  have e3 : ∀ q, generate_waveform L 3 q = generate_triangle q := by
    intro q
    unfold generate_waveform
    simp
  have hdef : ∀ w : Int, w < 0 ∨ 3 < w → generate_waveform L w p = generate_waveform L 0 p := by
    intro w hw
    rw [e0]
    unfold generate_waveform
    have w0 : w ≠ 0 := by omega
    have w1 : w ≠ 1 := by omega
    have w2 : w ≠ 2 := by omega
    have w3 : w ≠ 3 := by omega
    simp only [w0, w1, w2, w3, if_false]
  have hsaw := sawtooth_inUnit hp h0 h1
  have hsq := square_inUnit p
  have htr := triangle_value hp h0 h1
  refine ⟨e0, ?_, ?_, ?_, ?_, ?_, ?_, ?_, ?_, ?_, ?_, ?_, hdef⟩
  · rw [e1]; rfl
  · intro hne
    rw [e1]
    exact sawtooth_value hp h0 h1 hne
  · intro he
    rw [e1, he]
    decide
  · rw [e2]
    exact square_value hp h0 h1
  · rw [e3]
    exact htr.1
  · rw [e3]
    decide
  · rw [e3]
    decide
  · rw [e1]; exact hsaw
  · rw [e2]; exact hsq
  · rw [e3]; exact htr.2
  · intro hL w
    by_cases hw : w < 0 ∨ 3 < w
    · rw [hdef w hw, e0]
      exact hL _
    · have : w = 0 ∨ w = 1 ∨ w = 2 ∨ w = 3 := by omega
      rcases this with h | h | h | h <;> subst h
      · rw [e0]; exact hL _
      · rw [e1]; exact hsaw
      · rw [e2]; exact hsq
      · rw [e3]; exact htr.2

set_option maxRecDepth 100000 in
/-- The statement of C30 (amended) at the phase `0.25f`, with the identity for `sinf` and
`cosf`. -/
theorem generate_waveform_shapes_witness :
    (flit 25 100).IsFin binary32 ∧ 0 ≤ (flit 25 100).toRat ∧ (flit 25 100).toRat < 1 ∧
    (generate_waveform ⟨id, id⟩ 0 (flit 25 100) =
        (⟨id, id⟩ : libm_t).sinf
          (binary32.cvt (binary64.mul (binary32.mul (flit 25 100) (flit 2 1)) M_PI)) ∧
    generate_waveform ⟨id, id⟩ 1 (flit 25 100) =
        binary32.mul (flit 2 1)
          (binary32.sub (flit 25 100) (floorf (binary32.add (flit 25 100) (flit 5 10)))) ∧
    (flit 25 100 ≠ Flt.fin false 16777215 (-25) →
      (generate_waveform ⟨id, id⟩ 1 (flit 25 100)).IsFin binary32 ∧
      (generate_waveform ⟨id, id⟩ 1 (flit 25 100)).toRat =
        2 * ((flit 25 100).toRat - ⌊(flit 25 100).toRat + 1 / 2⌋)) ∧
    (flit 25 100 = Flt.fin false 16777215 (-25) →
      generate_waveform ⟨id, id⟩ 1 (flit 25 100) = (flit 1 1).neg) ∧
    generate_waveform ⟨id, id⟩ 2 (flit 25 100) =
      (if (flit 25 100).lt (flit 5 10) then (flit 1 1).neg else flit 1 1) ∧
    generate_waveform ⟨id, id⟩ 3 (flit 25 100) =
        (if (flit 25 100).lt (flit 5 10) then
          binary32.sub (binary32.mul (flit 4 1) (flit 25 100)) (flit 1 1)
          else binary32.sub (flit 3 1) (binary32.mul (flit 4 1) (flit 25 100))) ∧
    generate_waveform ⟨id, id⟩ 3 (flit 0 1) = (flit 1 1).neg ∧
    generate_waveform ⟨id, id⟩ 3 (flit 5 10) = flit 1 1 ∧
    (generate_waveform ⟨id, id⟩ 1 (flit 25 100)).InUnit ∧
    (generate_waveform ⟨id, id⟩ 2 (flit 25 100)).InUnit ∧
    (generate_waveform ⟨id, id⟩ 3 (flit 25 100)).InUnit ∧
    ((∀ x : Flt, ((⟨id, id⟩ : libm_t).sinf x).InUnit) →
      ∀ w : Int, (generate_waveform ⟨id, id⟩ w (flit 25 100)).InUnit) ∧
    (∀ w : Int, w < 0 ∨ 3 < w →
      generate_waveform ⟨id, id⟩ w (flit 25 100) =
        generate_waveform ⟨id, id⟩ 0 (flit 25 100))) := by
  have hq : flit 25 100 = Flt.fin false 8388608 (-25) := by decide
  have hv : (flit 25 100).toRat = 1 / 4 := by
    rw [hq, toRat_fin]; norm_num [sq]
  exact ⟨by decide, by rw [hv]; norm_num, by rw [hv]; norm_num,
    generate_waveform_shapes ⟨id, id⟩ (flit 25 100) (by decide) (by rw [hv]; norm_num)
      (by rw [hv]; norm_num)⟩

/-! ## Rounding error, and the time of a rendered sample -/

/-- The error of rounding a positive exact value `q` to a finite float: at most half a unit
in the last place of the binade `[2^E, 2^(E+1))` of `q`. -/
theorem rounded_pos_err {f : Fmt} (hf : f.ok) {q : ℚ} {r : Flt} (h : Rounded f q r)
    (hq : 0 < q) (hr : r.IsFin f) :
    ∃ E : Int, (2 : ℚ) ^ E ≤ q ∧ q < (2 : ℚ) ^ (E + 1) ∧
      |r.toRat - q| ≤ (2 : ℚ) ^ (max (E - ((f.prec : Int) - 1)) f.emin) / 2 := by
  obtain ⟨neg, num, den, ex, hd, hr1, hq1⟩ := h
  have hpos : (0 : ℚ) ≤ (num : ℚ) / den * (2 : ℚ) ^ ex := by positivity
  have hneg : neg = false := by
    cases neg
    · rfl
    · simp only [sq, if_true] at hq1
      linarith
  subst hneg
  simp only [sq, if_false, Bool.false_eq_true, one_mul] at hq1
  have hn : 0 < num := by
    rcases Nat.eq_zero_or_pos num with h0 | h0
    · subst h0
      simp at hq1
      linarith
    · exact h0
  obtain ⟨m, e, hrd, hpk⟩ := round_RD f false num den ex hn hd
  obtain ⟨i1, i2, i3⟩ := RD_inv hf hrd
  rw [hq1] at hrd
  have hlt : (m : ℚ) * (2 : ℚ) ^ e < (2 : ℚ) ^ ((f.prec : Int) + f.emax) := by
    by_contra hc
    rw [hr1, hpk, pack_inf false i1 (not_lt.mp hc)] at hr
    exact hr
  obtain ⟨m1, e1, p1, p2, p3⟩ := pack_fin false hf i1 i2 i3 hlt
  obtain ⟨E, a1, a2, a3, a4⟩ := hrd
  refine ⟨E, a1, a2, ?_⟩
  rw [hr1, hpk, p1, toRat_fin]
  simp only [sq, if_false, Bool.false_eq_true, one_mul]
  rw [p3, ← a3]
  have hb := rn_bounds (q / (2 : ℚ) ^ e)
  rw [← a4] at hb
  have hpe := zpow_two_pos e
  have h1 : q = q / (2 : ℚ) ^ e * (2 : ℚ) ^ e := by field_simp
  rw [abs_le]
  obtain ⟨b1, b2⟩ := hb
  rw [Int.cast_natCast] at b1 b2
  constructor
  · have : (m : ℚ) * (2 : ℚ) ^ e - q = ((m : ℚ) - q / (2 : ℚ) ^ e) * (2 : ℚ) ^ e := by
      field_simp
    rw [this]
    have : -(1 / 2 : ℚ) ≤ (m : ℚ) - q / (2 : ℚ) ^ e := by linarith
    nlinarith
  · have : (m : ℚ) * (2 : ℚ) ^ e - q = ((m : ℚ) - q / (2 : ℚ) ^ e) * (2 : ℚ) ^ e := by
      field_simp
    rw [this]
    have : (m : ℚ) - q / (2 : ℚ) ^ e ≤ 1 / 2 := by linarith
    nlinarith

/-- The relative error of rounding a positive exact value in the normal range of binary32
to a finite float is at most `2^-24`. -/
theorem rounded_rel_err {q : ℚ} {r : Flt} (h : Rounded binary32 q r)
    (hq : (2 : ℚ) ^ (-126 : Int) ≤ q) (hr : r.IsFin binary32) :
    |r.toRat - q| ≤ q * (2 : ℚ) ^ (-24 : Int) := by
  have hq0 : 0 < q := lt_of_lt_of_le (zpow_two_pos _) hq
  obtain ⟨E, a1, a2, a3⟩ := rounded_pos_err binary32_ok h hq0 hr
  have hE : -126 ≤ E := by
    by_contra hc
    push_neg at hc
    have : (2 : ℚ) ^ (E + 1) ≤ (2 : ℚ) ^ (-126 : Int) := zpow_two_le (by omega)
    linarith
  have hp : binary32.prec = 24 := rfl
  have hemin : binary32.emin = -149 := rfl
  rw [hp, hemin, max_eq_left (by push_cast; omega)] at a3
  have h2 : (2 : ℚ) ^ (E - (((24 : Nat) : Int) - 1)) / 2 = (2 : ℚ) ^ E * (2 : ℚ) ^ (-24 : Int) := by
    rw [zpow_sub₀ (by norm_num : (2 : ℚ) ≠ 0)]
    norm_num
    ring
  rw [h2] at a3
  have h3 : (2 : ℚ) ^ E * (2 : ℚ) ^ (-24 : Int) ≤ q * (2 : ℚ) ^ (-24 : Int) :=
    mul_le_mul_of_nonneg_right a1 (zpow_two_pos _).le
  linarith

/-- The float sum is a datum of the format: NaN, an infinity or a canonical finite float. -/
theorem add_isFloat (f : Fmt) (hf : f.ok) (a b : Flt) : (f.add a b).IsFloat f := by
  cases a with
  | nan => exact Or.inl (by simp [Fmt.add])
  | inf s =>
    cases b with
    | nan => exact Or.inl (by simp [Fmt.add])
    | inf t =>
      simp only [Fmt.add]
      split_ifs
      · exact Or.inr trivial
      · exact Or.inl rfl
    | fin t mb eb => exact Or.inr (by simp [Fmt.add, Flt.Reg])
  | fin s ma ea =>
    cases b with
    | nan => exact Or.inl (by simp [Fmt.add])
    | inf t => exact Or.inr (by simp [Fmt.add, Flt.Reg])
    | fin t mb eb =>
      simp only [Fmt.add]
      split_ifs
      · right
        refine ⟨by positivity, le_refl _, hf.2, Or.inr rfl⟩
      · exact Or.inr (round_reg f hf _ _ _ _ (by norm_num))

/-- A finite float whose truncation is at least 1 is at least its truncation. -/
theorem trunc_pos_le {a : Flt} {k : Int} (h : a.trunc = some k) (hk : 1 ≤ k) :
    (k : ℚ) ≤ a.toRat := by
  cases a with
  | nan => simp [Flt.trunc] at h
  | inf s => simp [Flt.trunc] at h
  | fin s m e =>
    obtain ⟨k1, h1, h2⟩ := trunc_abs_le s m e
    rw [h] at h1
    have := Option.some.inj h1
    subst this
    have hs : s = false := by
      cases s
      · rfl
      · simp only [Flt.trunc, sgn, if_true, Option.some.injEq] at h
        have : (0 : Int) ≤ ((if 0 ≤ e then m * 2 ^ e.toNat else m / 2 ^ (-e).toNat : Nat) : Int) :=
          Int.natCast_nonneg _
        omega
    subst hs
    have hk0 : (0 : ℚ) ≤ (k : ℚ) := by
      have : (1 : ℚ) ≤ (k : ℚ) := by exact_mod_cast hk
      linarith
    rw [abs_of_nonneg hk0] at h2
    rw [toRat_fin] at h2 ⊢
    simp only [sq, if_false, Bool.false_eq_true, one_mul] at h2 ⊢
    have hpos : (0 : ℚ) ≤ (m : ℚ) * (2 : ℚ) ^ e := by positivity
    rw [abs_of_nonneg hpos] at h2
    exact h2

/-- The sample rate as a float: 44100 exactly. -/
theorem sample_rate_value :
    (binary32.ofInt PFXR_SAMPLE_RATE).IsFin binary32 ∧
      (binary32.ofInt PFXR_SAMPLE_RATE).toRat = 44100 := by
  have hsr : binary32.ofInt PFXR_SAMPLE_RATE = Flt.fin false 11289600 (-8) := by decide
  rw [hsr]
  refine ⟨by decide, ?_⟩
  rw [toRat_fin]
  simp only [sq, if_false, Bool.false_eq_true, one_mul]
  rw [show (-8 : Int) = -(8 : Nat) by norm_num, zpow_neg, zpow_natCast]
  norm_num

/-- The time `i / 44100` of a sample index below `2^23`, in float arithmetic: a finite float,
not negative, and at most `(i + 1/2) / 44100`. -/
theorem sample_time_bound (i : Nat) (h23 : i < 8388608) :
    (sample_time i).IsFin binary32 ∧ 0 ≤ (sample_time i).toRat ∧
      (sample_time i).toRat * 44100 ≤ (i : ℚ) + 1 / 2 := by
  obtain ⟨hsr, hsrv⟩ := sample_rate_value
  obtain ⟨a, ha, hav⟩ := exists_isFin_of_grid binary32 binary32_ok false i 0
    (by show i < 2 ^ 24; omega) (by decide) (by decide)
  simp only [sq, if_false, Bool.false_eq_true, one_mul, zpow_zero, mul_one] at hav
  have hi := ofInt_rounded binary32 (i : Int)
  rw [Int.cast_natCast] at hi
  obtain ⟨hiF, hiV⟩ := rounded_exact binary32_ok hi ha hav.symm
  have hdiv := div_rounded binary32 hiF hsr (by rw [hsrv]; norm_num)
  rw [hiV, hsrv] at hdiv
  have hq0 : (0 : ℚ) ≤ (i : ℚ) / 44100 := by positivity
  obtain ⟨b, hb, hbv⟩ := exists_isFin_of_grid binary32 binary32_ok false 8388608 0
    (by decide) (by decide) (by decide)
  simp only [sq, if_false, Bool.false_eq_true, one_mul, zpow_zero, mul_one] at hbv
  have hle : (i : ℚ) / 44100 ≤ b.toRat := by
    rw [hbv]
    have : (i : ℚ) ≤ 8388608 := by exact_mod_cast h23.le
    push_cast
    rw [div_le_iff₀ (by norm_num)]
    linarith
  have hz := rounded_between binary32_ok hdiv zero_isFin hb (by rw [zero_toRat]; exact hq0) hle
  obtain ⟨hf, h0, -⟩ := hz
  rw [zero_toRat] at h0
  refine ⟨hf, h0, ?_⟩
  rcases Nat.eq_zero_or_pos i with hi0 | hi0
  · subst hi0
    have hq : ((0 : Nat) : ℚ) / 44100 = (Flt.fin false 0 (-149)).toRat := by
      rw [zero_toRat]; simp
    obtain ⟨-, hv⟩ := rounded_exact binary32_ok hdiv zero_isFin hq
    show (sample_time ((0 : Nat) : Int)).toRat * 44100 ≤ _
    unfold sample_time
    rw [hv]
    norm_num
  · have hi1 : (1 : ℚ) ≤ (i : ℚ) := by exact_mod_cast hi0
    have hnorm : (2 : ℚ) ^ (-126 : Int) ≤ (i : ℚ) / 44100 := by
      have h1 : (2 : ℚ) ^ (-126 : Int) ≤ (2 : ℚ) ^ (-16 : Int) := zpow_two_le (by norm_num)
      have h2 : (2 : ℚ) ^ (-16 : Int) = 1 / 65536 := by
        rw [show (-16 : Int) = -(16 : Nat) by norm_num, zpow_neg, zpow_natCast]
        norm_num
      have h3 : (1 : ℚ) / 65536 ≤ (i : ℚ) / 44100 := by
        rw [div_le_div_iff₀ (by norm_num) (by norm_num)]
        linarith
      linarith
    have herr := rounded_rel_err hdiv hnorm hf
    have h24 : (2 : ℚ) ^ (-24 : Int) = 1 / 16777216 := by
      rw [show (-24 : Int) = -(24 : Nat) by norm_num, zpow_neg, zpow_natCast]
      norm_num
    rw [h24] at herr
    have hup := (abs_le.mp herr).2
    have hi2 : (i : ℚ) ≤ 8388608 := by exact_mod_cast h23.le
    have : (sample_time (i : Int)).toRat ≤ (i : ℚ) / 44100 * (1 + 1 / 16777216) := by
      unfold sample_time
      linarith
    have h5 : (sample_time (i : Int)).toRat * 44100 ≤
        (i : ℚ) / 44100 * (1 + 1 / 16777216) * 44100 :=
      mul_le_mul_of_nonneg_right this (by norm_num)
    have h6 : (i : ℚ) / 44100 * (1 + 1 / 16777216) * 44100 = (i : ℚ) * (1 + 1 / 16777216) := by
      field_simp
      ring
    rw [h6] at h5
    linarith

/-- Every sample index below the sample count that the duration `D` yields, and below `2^23`,
has a time strictly before `D`: with `total0 = (int)(D * 44100)` and `i < total0`, the float
`i / 44100` is less than `D`. -/
theorem rendered_time_lt {D : Flt} (hD : D.IsFloat binary32) {total0 : Int}
    (ht : (binary32.mul D (binary32.ofInt PFXR_SAMPLE_RATE)).toInt32 = some total0)
    (i : Nat) (hi : (i : Int) < total0) (h23 : i < 8388608) :
    D.IsFin binary32 ∧ (sample_time i).toRat < D.toRat := by
  obtain ⟨hsr, hsrv⟩ := sample_rate_value
  obtain ⟨htr, -, -⟩ := toInt32_some ht
  have hDf : D.IsFin binary32 := by
    have hsr2 : binary32.ofInt PFXR_SAMPLE_RATE = Flt.fin false 11289600 (-8) := by decide
    rw [hsr2] at htr
    rcases hD with hD | hD
    · subst hD
      simp [Fmt.mul, Flt.trunc] at htr
    · cases D with
      | nan => exact absurd hD id
      | inf s => simp [Fmt.mul, Flt.trunc] at htr
      | fin s m e => exact hD
  refine ⟨hDf, ?_⟩
  by_contra hc
  push_neg at hc
  obtain ⟨hf, h0, hb⟩ := sample_time_bound i h23
  have hmul := mul_rounded binary32 hDf hsr
  rw [hsrv] at hmul
  obtain ⟨u, hu, huv⟩ := exists_isFin_of_grid binary32 binary32_ok false (2 * i + 1) (-1)
    (by show 2 * i + 1 < 2 ^ 24; omega) (by decide) (by decide)
  have huv2 : u.toRat = (i : ℚ) + 1 / 2 := by
    rw [huv]
    simp only [sq, if_false, Bool.false_eq_true, one_mul]
    rw [show (-1 : Int) = -(1 : Nat) by norm_num, zpow_neg, zpow_natCast]
    push_cast
    ring
  have hle : D.toRat * 44100 ≤ u.toRat := by
    rw [huv2]
    have : D.toRat * 44100 ≤ (sample_time (i : Int)).toRat * 44100 :=
      mul_le_mul_of_nonneg_right hc (by norm_num)
    linarith
  have hmono := rounded_mono binary32_ok hmul (rounded_self binary32_ok hu) hle
  rw [ev_of_isFin hu, huv2] at hmono
  have h1 : (1 : Int) ≤ total0 := by omega
  have hk := trunc_pos_le htr h1
  have hpf : (binary32.mul D (binary32.ofInt PFXR_SAMPLE_RATE)).IsFin binary32 := by
    have hreg := rounded_reg binary32_ok hmul
    generalize binary32.mul D (binary32.ofInt PFXR_SAMPLE_RATE) = p at hreg htr
    cases p with
    | nan => exact absurd hreg id
    | inf s => simp [Flt.trunc] at htr
    | fin s m e => exact hreg
  rw [ev_of_isFin hpf] at hmono
  have h2 : ((i : Int) : ℚ) + 1 ≤ (total0 : ℚ) := by exact_mod_cast hi
  rw [Int.cast_natCast] at h2
  linarith

/-! ## The divisors of the envelope and of the pitch sweep -/

/-- In exact arithmetic every index below the sample count has a time before the duration. -/
theorem exact_time_lt (config : pfxr_sound_t) (capacity : Int) (i : Nat)
    (hi : (i : Int) < exact_total_samples config capacity) :
    0 ≤ exact_time i ∧ exact_time i < exact_duration config := by
  unfold exact_total_samples at hi
  simp only [] at hi
  have h1 : (i : Int) < exact_trunc (exact_duration config * (PFXR_SAMPLE_RATE : ℚ)) := by
    split_ifs at hi with hc
    · omega
    · exact hi
  have hsr : ((PFXR_SAMPLE_RATE : Int) : ℚ) = 44100 := by
    unfold PFXR_SAMPLE_RATE
    norm_num
  rw [hsr] at h1
  unfold exact_time
  rw [hsr, Int.cast_natCast]
  refine ⟨by positivity, ?_⟩
  unfold exact_trunc at h1
  have hx : (i : ℚ) + 1 ≤ exact_duration config * 44100 := by
    split_ifs at h1 with hc
    · have h2 : (i : Int) + 1 ≤ ⌊exact_duration config * 44100⌋ := by omega
      have h3 : (((i : Int) + 1 : Int) : ℚ) ≤ exact_duration config * 44100 :=
        Int.le_floor.mp h2
      push_cast at h3
      exact h3
    · push_neg at hc
      have h2 : ⌈exact_duration config * 44100⌉ ≤ 0 := by
        apply Int.ceil_le.mpr
        push_cast
        exact hc.le
      omega
  rw [div_lt_iff₀ (by norm_num)]
  linarith

/-- A float above a finite float that is not negative is above zero. -/
theorem pos_of_nonneg_lt {t a : Flt} (ht : t.IsFin binary32) (h0 : 0 ≤ t.toRat)
    (h : t.lt a = true) : (flit 0 1).lt a = true := by
  rw [zero_eq]
  cases t with
  | nan => exact absurd ht id
  | inf s => exact absurd ht id
  | fin st mt et =>
    cases a with
    | nan => simp [Flt.lt] at h
    | inf s => simpa [Flt.lt] using h
    | fin sa ma ea =>
      rw [lt_fin_iff] at h ⊢
      rw [toRat_fin] at h0
      have : sq false * (((0 : Nat) : ℚ) * (2 : ℚ) ^ (-149 : Int)) = 0 := by simp
      rw [this]
      linarith

/-- Every finite float of binary32 is an integer multiple of `2^-149`. -/
theorem isFin_grid {a : Flt} (ha : a.IsFin binary32) :
    ∃ k : Int, a.toRat = (k : ℚ) * (2 : ℚ) ^ (-149 : Int) := by
  cases a with
  | nan => exact absurd ha id
  | inf s => exact absurd ha id
  | fin s m e =>
    have hc : binary32.canon m e := ha
    have he : (-149 : Int) ≤ e := hc.2.1
    exact ⟨sgn s (m * 2 ^ (e - -149).toNat), by rw [toRat_fin, sgn_scaled s m e (-149) he]⟩

/-- The float difference of two finite floats is above zero when the first is the larger. -/
theorem sub_pos_of_lt {a b : Flt} (ha : a.IsFin binary32) (hb : b.IsFin binary32)
    (h : b.toRat < a.toRat) : (flit 0 1).lt (binary32.sub a b) = true := by
  obtain ⟨ka, hka⟩ := isFin_grid ha
  obtain ⟨kb, hkb⟩ := isFin_grid hb
  have hs := sub_rounded binary32 ha hb
  have hp := zpow_two_pos (-149)
  have hk : kb < ka := by
    rw [hka, hkb] at h
    have := lt_of_mul_lt_mul_right h hp.le
    exact_mod_cast this
  have hk1 : (1 : ℚ) ≤ (ka : ℚ) - (kb : ℚ) := by
    have : (1 : Int) ≤ ka - kb := by omega
    exact_mod_cast this
  have hu : (Flt.fin false 1 (-149)).IsFin binary32 := by decide
  have huv : (Flt.fin false 1 (-149)).toRat = (2 : ℚ) ^ (-149 : Int) := by
    rw [toRat_fin]; simp [sq]
  have hle : (Flt.fin false 1 (-149)).toRat ≤ a.toRat - b.toRat := by
    rw [huv, hka, hkb]
    nlinarith
  have hmono := rounded_mono binary32_ok (rounded_self binary32_ok hu) hs hle
  rw [ev_of_isFin hu, huv] at hmono
  rw [zero_eq, lt_iff_ev (isFin_reg zero_isFin) (rounded_reg binary32_ok hs),
    ev_of_isFin zero_isFin, zero_toRat]
  linarith

/-- When a float sum with a finite second term is finite, the first term is finite. -/
theorem isFin_of_add_isFin {x d : Flt} (hx : x.IsFloat binary32) (hd : d.IsFin binary32)
    (h : (binary32.add x d).IsFin binary32) : x.IsFin binary32 := by
  cases d with
  | nan => exact absurd hd id
  | inf s => exact absurd hd id
  | fin sd md ed =>
    rcases hx with hx | hx
    · subst hx
      exact absurd h (by simp [Fmt.add, Flt.IsFin])
    · cases x with
      | nan => exact absurd hx id
      | inf s => exact absurd h (by simp [Fmt.add, Flt.IsFin])
      | fin s m e => exact hx

set_option maxRecDepth 100000 in
/-- The divisors of a render in the arithmetic of `float`, next to those of exact arithmetic.
In exact arithmetic, at every index `j` below the sample count: the attack branch
`t < attackTime` is entered only when `attackTime > 0`, with `decayTime = 0` the time is
before `attackTime + sustainTime` so that the decay branch is not entered, and the
pitch-sweep branch `t >= pitchDelay` is entered only when `duration - pitchDelay > 0`, which
excludes a `pitchDelay` equal to the duration. In the arithmetic of `float` the same holds
at every rendered index `i < sample_count` of a render with defined behaviour into a buffer
of at most `2^23` samples, with a `pitchDelay` that is a datum of the format. -/
theorem rendered_divisors (L : libm_t) (config : pfxr_sound_t) (buffer r : pfxr_audio_buffer_t)
    (h : generate_sound L config buffer = some r) (i : Nat) (hi : (i : Int) < r.sample_count) :
    (∀ j : Nat, (j : Int) < exact_total_samples config buffer.capacity →
      (exact_time j < config.attackTime.toRat → 0 < config.attackTime.toRat) ∧
      (config.decayTime.toRat = 0 →
        exact_time j < config.attackTime.toRat + config.sustainTime.toRat) ∧
      (config.pitchDelay.toRat ≤ exact_time j →
        0 < exact_duration config - config.pitchDelay.toRat) ∧
      (config.pitchDelay.toRat = exact_duration config →
        ¬ config.pitchDelay.toRat ≤ exact_time j)) ∧
    (buffer.capacity ≤ 8388608 → config.pitchDelay.IsFloat binary32 →
      ((sample_time i).lt config.attackTime = true →
        (flit 0 1).lt config.attackTime = true) ∧
      (config.decayTime = flit 0 1 ∨ config.decayTime = (flit 0 1).neg →
        (sample_time i).lt config.attackTime = false →
        (sample_time i).lt (binary32.add config.attackTime config.sustainTime) = true) ∧
      ((sample_time i).ge config.pitchDelay = true →
        (flit 0 1).lt
          (binary32.sub
            (binary32.add (binary32.add config.attackTime config.sustainTime)
              config.decayTime)
            config.pitchDelay) = true) ∧
      (config.pitchDelay =
          binary32.add (binary32.add config.attackTime config.sustainTime) config.decayTime →
        (sample_time i).ge config.pitchDelay = false)) := by
  constructor
  · intro j hj
    obtain ⟨h0, hlt⟩ := exact_time_lt config buffer.capacity j hj
    refine ⟨fun ha => by linarith, fun hd => ?_, fun hp => by linarith, fun hp hq => by linarith⟩
    unfold exact_duration at hlt
    rw [hd] at hlt
    linarith
  · intro hcap hdl
    obtain ⟨total0, st0, st, ht, -, -, -, hcnt, -⟩ := generate_sound_inv h
    have hi0 : (i : Int) < total0 := by
      rw [hcnt] at hi
      split_ifs at hi with hc
      · omega
      · exact hi
    have hi23 : i < 8388608 := by
      rw [hcnt] at hi
      split_ifs at hi with hc
      · omega
      · omega
    have hDfl := add_isFloat binary32 binary32_ok
      (binary32.add config.attackTime config.sustainTime) config.decayTime
    obtain ⟨hD, hlt⟩ := rendered_time_lt hDfl ht i hi0 hi23
    obtain ⟨htf, ht0, -⟩ := sample_time_bound i hi23
    have hge : ∀ {x : Flt}, x.IsFloat binary32 → (sample_time i).ge x = true →
        (x = Flt.inf true ∨ (x.IsFin binary32 ∧ x.toRat ≤ (sample_time i).toRat)) := by
      intro x hx hle
      unfold Flt.ge at hle
      rcases hx with hx | hx
      · subst hx
        simp [Flt.le] at hle
      · cases x with
        | nan => exact absurd hx id
        | inf s =>
          generalize sample_time i = t at htf hle
          cases t with
          | nan => exact absurd htf id
          | inf s2 => exact absurd htf id
          | fin s2 m2 e2 =>
            simp only [Flt.le] at hle
            left
            rw [hle]
        | fin s m e =>
          right
          have hxf : (Flt.fin s m e).IsFin binary32 := hx
          exact ⟨hxf, (le_iff_toRat hxf htf).mp hle⟩
    refine ⟨fun ha => pos_of_nonneg_lt htf ht0 ha, ?_, ?_, ?_⟩
    · intro hd _
      have hxfl := add_isFloat binary32 binary32_ok config.attackTime config.sustainTime
      have hneg : (flit 0 1).neg = Flt.fin true 0 binary32.emin := by decide
      have hpos : flit 0 1 = Flt.fin false 0 binary32.emin := by decide
      have hd2 : ∃ s, config.decayTime = Flt.fin s 0 binary32.emin := by
        rcases hd with hd | hd
        · exact ⟨false, by rw [hd, hpos]⟩
        · exact ⟨true, by rw [hd, hneg]⟩
      obtain ⟨s, hs⟩ := hd2
      rw [hs] at hD hlt
      have hzf : (Flt.fin s 0 binary32.emin).IsFin binary32 := by cases s <;> decide
      have hxf := isFin_of_add_isFin hxfl hzf hD
      obtain ⟨-, hv⟩ := add_zero_value hxf s
      rw [hv] at hlt
      exact (lt_iff_toRat htf hxf).mpr hlt
    · intro hp
      rcases hge hdl hp with hx | ⟨hxf, hxv⟩
      · rw [hx]
        generalize binary32.add (binary32.add config.attackTime config.sustainTime)
          config.decayTime = D at hD
        cases D with
        | nan => exact absurd hD id
        | inf s => exact absurd hD id
        | fin s m e => rfl
      · exact sub_pos_of_lt hD hxf (by linarith)
    · intro hp
      by_contra hc
      have hc2 : (sample_time i).ge config.pitchDelay = true := by simpa using hc
      rcases hge hdl hc2 with hx | ⟨hxf, hxv⟩
      · rw [hp] at hx
        rw [hx] at hD
        exact hD
      · rw [hp] at hxv
        linarith

/-! ## url.c: missing inputs and URLs without the parameter -/

/-- Claim C24: a missing required input makes the operation report failure.
`pfxr_create_params_from_url(NULL)`, `pfxr_get_url_from_params(NULL)` and
`pfxr_create_sound_from_config(NULL)` return the null pointer, and
`pfxr_create_sound_from_config_to_file`, `pfxr_create_sound_from_template_to_file` and
`pfxr_write_wav_file` return -1, without opening a file, when the config, the samples or
the filename is missing. -/
theorem missing_input_fails (io : stdio_t) (L : libm_t) (now : Int) :
    pfxr_create_params_from_url none = some none ∧
    pfxr_get_url_from_params none = some none ∧
    pfxr_create_sound_from_config L none = some none ∧
    (∀ filename, pfxr_create_sound_from_config_to_file io L none filename = some (-1, [])) ∧
    (∀ config, pfxr_create_sound_from_config_to_file io L config none = some (-1, [])) ∧
    (∀ template seed,
      pfxr_create_sound_from_template_to_file io L now template seed none = some (-1, [])) ∧
    (∀ samples sample_count,
      pfxr_write_wav_file io none samples sample_count = some (-1, [])) ∧
    (∀ filename sample_count,
      pfxr_write_wav_file io filename none sample_count = some (-1, [])) := by
  refine ⟨rfl, rfl, rfl, ?_, ?_, ?_, ?_, ?_⟩
  · intro filename
    cases filename <;> rfl
  · intro config
    cases config <;> rfl
  · intro template seed
    rfl
  · intro samples sample_count
    cases samples <;> rfl
  · intro filename sample_count
    cases filename <;> rfl

/-- The function `strchr` finds nothing exactly in a text without the character. -/
theorem strchr_eq_none (s : List Nat) (c : Nat) : strchr s c = none ↔ c ∉ s := by
  induction s with
  | nil => simp [strchr]
  | cons x t ih =>
    unfold strchr
    by_cases h : x = c
    · simp [h]
    · simp only [h, if_false, ih, List.mem_cons]
      constructor
      · intro h1 h2
        rcases h2 with h2 | h2
        · exact h h2.symm
        · exact h1 h2
      · intro h1 h2
        exact h1 (Or.inr h2)

/-- What `strchr` finds is the text from the first occurrence of the character. -/
theorem strchr_eq_some {s : List Nat} {c : Nat} {q : List Nat} (h : strchr s c = some q) :
    ∃ pre suf, s = pre ++ c :: suf ∧ c ∉ pre ∧ q = c :: suf := by
  induction s with
  | nil => simp [strchr] at h
  | cons x t ih =>
    unfold strchr at h
    by_cases hx : x = c
    · simp only [hx, if_true, Option.some.injEq] at h
      exact ⟨[], t, by simp [hx], by simp, h.symm⟩
    · simp only [hx, if_false] at h
      obtain ⟨pre, suf, h1, h2, h3⟩ := ih h
      refine ⟨x :: pre, suf, by simp [h1], ?_, h3⟩
      simp only [List.mem_cons, not_or]
      exact ⟨fun hc => hx hc.symm, h2⟩

/-- The function `strstr` finds nothing exactly in a text that does not contain the
needle. -/
theorem strstr_eq_none (s needle : List Nat) : strstr s needle = none ↔ ¬ needle <:+: s := by
  induction s with
  | nil =>
    unfold strstr
    by_cases h : needle = []
    · simp [h]
    · simp [h]
  | cons x t ih =>
    unfold strstr
    by_cases h : needle.isPrefixOf (x :: t) = true
    · simp only [h, if_true]
      have hp : needle <+: x :: t := List.isPrefixOf_iff_prefix.mp h
      simp [hp.isInfix]
    · have hp : ¬ needle <+: x :: t := fun hc => h (List.isPrefixOf_iff_prefix.mpr hc)
      rw [if_neg h, List.infix_cons_iff, ih]
      simp [hp]

/-- Claim C23: for every URL without an `fx` parameter, that is without a `?` or without
the text `fx=` behind the first `?`, `pfxr_create_params_from_url` returns the default
parameter set. -/
theorem params_from_url_without_fx (url : List Nat)
    (h : 63 ∉ url ∨
      ∃ pre suf, url = pre ++ 63 :: suf ∧ 63 ∉ pre ∧ ¬ [102, 120, 61] <:+: suf) :
    pfxr_create_params_from_url (some url) = some (some pfxr_get_default_sound) := by
  have hq : get_query_param (some url) (some [102, 120]) = none := by
    unfold get_query_param
    simp only []
    rcases h with h | ⟨pre, suf, h1, h2, h3⟩
    · rw [(strchr_eq_none url 63).mpr h]
    · cases hs : strchr url 63 with
      | none => rfl
      | some q =>
        obtain ⟨pre2, suf2, e1, e2, e3⟩ := strchr_eq_some hs
        have hsplit : pre = pre2 ∧ suf = suf2 := by
          rw [h1] at e1
          have := List.append_eq_append_iff.mp e1
          rcases this with ⟨a, ha1, ha2⟩ | ⟨a, ha1, ha2⟩
          · cases a with
            | nil =>
              simp only [List.append_nil, List.nil_append] at ha1 ha2
              exact ⟨ha1.symm, (List.cons.inj ha2).2⟩
            | cons y a =>
              simp only [List.cons_append] at ha2
              have hy := (List.cons.inj ha2).1
              exfalso
              apply e2
              rw [ha1, ← hy]
              simp
          · cases a with
            | nil =>
              simp only [List.append_nil, List.nil_append] at ha1 ha2
              exact ⟨ha1, (List.cons.inj ha2).2.symm⟩
            | cons y a =>
              simp only [List.cons_append] at ha2
              have hy := (List.cons.inj ha2).1
              exfalso
              apply h2
              rw [ha1, ← hy]
              simp
        simp only []
        have hdrop : q.drop 1 = suf := by rw [e3, hsplit.2]; rfl
        rw [hdrop]
        have htk : ([102, 120] ++ [61] : List Nat).take 255 = [102, 120, 61] := rfl
        rw [htk, (strstr_eq_none suf [102, 120, 61]).mpr h3]
  unfold pfxr_create_params_from_url
  simp only [hq]

/-- The statement of C23 at the URL `https://example.com/test?other=value` of the tests. -/
theorem params_from_url_without_fx_witness :
    (63 ∉ ([104, 116, 116, 112, 115, 58, 47, 47, 101, 120, 97, 109, 112, 108, 101, 46, 99,
        111, 109, 47, 116, 101, 115, 116, 63, 111, 116, 104, 101, 114, 61, 118, 97, 108, 117,
        101] : List Nat) ∨
      ∃ pre suf,
        ([104, 116, 116, 112, 115, 58, 47, 47, 101, 120, 97, 109, 112, 108, 101, 46, 99,
          111, 109, 47, 116, 101, 115, 116, 63, 111, 116, 104, 101, 114, 61, 118, 97, 108,
          117, 101] : List Nat) = pre ++ 63 :: suf ∧ 63 ∉ pre ∧ ¬ [102, 120, 61] <:+: suf) ∧
    pfxr_create_params_from_url
        (some [104, 116, 116, 112, 115, 58, 47, 47, 101, 120, 97, 109, 112, 108, 101, 46, 99,
          111, 109, 47, 116, 101, 115, 116, 63, 111, 116, 104, 101, 114, 61, 118, 97, 108,
          117, 101]) =
      some (some pfxr_get_default_sound) :=
  have h : 63 ∉ ([104, 116, 116, 112, 115, 58, 47, 47, 101, 120, 97, 109, 112, 108, 101, 46,
        99, 111, 109, 47, 116, 101, 115, 116, 63, 111, 116, 104, 101, 114, 61, 118, 97, 108,
        117, 101] : List Nat) ∨
      ∃ pre suf,
        ([104, 116, 116, 112, 115, 58, 47, 47, 101, 120, 97, 109, 112, 108, 101, 46, 99,
          111, 109, 47, 116, 101, 115, 116, 63, 111, 116, 104, 101, 114, 61, 118, 97, 108,
          117, 101] : List Nat) = pre ++ 63 :: suf ∧ 63 ∉ pre ∧ ¬ [102, 120, 61] <:+: suf :=
    Or.inr ⟨[104, 116, 116, 112, 115, 58, 47, 47, 101, 120, 97, 109, 112, 108, 101, 46, 99,
        111, 109, 47, 116, 101, 115, 116],
      [111, 116, 104, 101, 114, 61, 118, 97, 108, 117, 101], rfl, by decide, by decide⟩
  ⟨h, params_from_url_without_fx _ h⟩

/-! ## url.c: positional decoding -/

/-- The first comma-separated token is the text before the first comma, and the other
tokens are those of the text after that comma. -/
theorem split_commas_eq (s : List Nat) :
    split_commas s =
      s.takeWhile (fun x => x ≠ 44) ::
        (match s.dropWhile (fun x => x ≠ 44) with
         | [] => []
         | _ :: r => split_commas r) := by
  induction s with
  | nil => rfl
  | cons c t ih =>
    conv_lhs => rw [split_commas]
    by_cases hc : c = 44
    · subst hc
      simp [List.takeWhile, List.dropWhile]
    · simp only [hc, if_false]
      rw [ih]
      simp [List.takeWhile, List.dropWhile, hc]

/-- Leading commas contribute no token that is not empty. -/
theorem nonempty_tokens_dropWhile (s : List Nat) :
    nonempty_tokens (s.dropWhile fun c => c = 44) = nonempty_tokens s := by
  induction s with
  | nil => rfl
  | cons c t ih =>
    by_cases hc : c = 44
    · subst hc
      rw [List.dropWhile_cons_of_pos (by simp), ih]
      simp [nonempty_tokens, split_commas]
    · rw [List.dropWhile_cons_of_neg (by simp [hc])]

/-- The function `strtok` finds no token exactly when the text has no token that is not
empty, and otherwise finds the first of them and leaves a text with the others. -/
theorem strtok_tokens (s : List Nat) :
    match strtok s 44 with
    | none => nonempty_tokens s = []
    | some (token, rest) => nonempty_tokens s = token :: nonempty_tokens rest := by
  unfold strtok
  rw [← nonempty_tokens_dropWhile s]
  have hhead : ∀ c t, (c :: t : List Nat) = s.dropWhile (fun c => c = 44) → c ≠ 44 := by
    intro c t h
    have := List.head_dropWhile_not (fun c => decide (c = 44)) s
      (by rw [← h]; simp)
    simp only [← h, List.head_cons] at this
    simpa using this
  cases hs : s.dropWhile (fun c => c = 44) with
  | nil => rfl
  | cons c t =>
    have hc := hhead c t hs.symm
    simp only []
    unfold nonempty_tokens
    rw [split_commas_eq (c :: t)]
    have htw : (c :: t).takeWhile (fun x => decide (x ≠ 44)) =
        c :: t.takeWhile (fun x => decide (x ≠ 44)) := by
      rw [List.takeWhile_cons_of_pos (by simp [hc])]
    rw [List.filter_cons_of_pos (by rw [htw]; rfl)]
    congr 1
    cases hd : (c :: t).dropWhile (fun x => decide (x ≠ 44)) with
    | nil => rfl
    | cons d r => rfl

/-- The loop of `pfxr_create_params_from_url` sets the fields from the first tokens that are
not empty, one field per token. -/
theorem parse_tokens_eq (n : Nat) : ∀ (index : Nat) (rest : List Nat) (sound : pfxr_sound_t),
    parse_tokens n index rest sound =
      set_fields_from index ((nonempty_tokens rest).take n) sound := by
  induction n with
  | zero =>
    intro index rest sound
    simp [parse_tokens, set_fields_from]
  | succ n ih =>
    intro index rest sound
    unfold parse_tokens
    have h := strtok_tokens rest
    cases hs : strtok rest 44 with
    | none =>
      rw [hs] at h
      simp only [] at h
      rw [h]
      rfl
    | some p =>
      obtain ⟨token, rest1⟩ := p
      rw [hs] at h
      simp only [] at h
      rw [h, List.take_succ_cons]
      simp only [set_fields_from]
      congr 1
      funext s
      exact ih (index + 1) rest1 s

set_option maxRecDepth 100000 in
/-- Claim C22 fails for an empty token: in `?fx=1,,3` the comma-separated tokens are `1`,
the empty text and `3`, so that positionally the token `3` belongs to field 2,
`attackTime`, and field 1, `volume`, has no number; `pfxr_create_params_from_url` stores
the 3 in `volume` and leaves `attackTime` at its default. -/
theorem params_from_url_positional_counterexample :
    split_commas [49, 44, 44, 51] = [[49], [], [51]] ∧
    (strtof [51]).1 = flit 3 1 ∧
    ∃ s : pfxr_sound_t,
      pfxr_create_params_from_url (some [63, 102, 120, 61, 49, 44, 44, 51]) = some (some s) ∧
      s.volume = flit 3 1 ∧ s.volume ≠ pfxr_get_default_sound.volume ∧
      s.attackTime = pfxr_get_default_sound.attackTime ∧ s.attackTime ≠ flit 3 1 :=
  ⟨by decide, by decide,
    { pfxr_get_default_sound with waveForm := 1, volume := flit 3 1 },
    by decide, rfl, by decide, rfl, by decide⟩

set_option maxRecDepth 100000 in
/-- Claim C22, amended: decoding is positional over the tokens that are not empty. After
locating the `fx` value and percent-decoding it, the `k`-th of the comma-separated tokens
that are not empty (`k = 0..21`) sets the `k`-th field when `strtof` reads it to its end or
up to a space, and otherwise leaves the `k`-th field as it is; tokens after the 22nd are
ignored and fields for which there is no token keep their defaults. For `fx=abc,def,123`
the result has the default `waveForm` and `volume`, and `attackTime = 123`. -/
theorem params_from_url_positional (url fx : List Nat)
    (h : get_query_param (some url) (some [102, 120]) = some fx) :
    pfxr_create_params_from_url (some url) =
        (set_fields_from 0 ((nonempty_tokens (url_decode fx)).take 22)
          pfxr_get_default_sound).map some ∧
    pfxr_create_params_from_url
        (some [104, 116, 116, 112, 115, 58, 47, 47, 101, 120, 97, 109, 112, 108, 101, 46, 99,
          111, 109, 47, 116, 101, 115, 116, 63, 102, 120, 61, 97, 98, 99, 44, 100, 101, 102,
          44, 49, 50, 51]) =
      some (some { pfxr_get_default_sound with attackTime := flit 123 1 }) := by
  refine ⟨?_, by decide⟩
  unfold pfxr_create_params_from_url
  simp only [h]
  rw [parse_tokens_eq]
  rfl

set_option maxRecDepth 100000 in
/-- The statement of C22 at the URL `?fx=2%2C0.5%2C0%2C0.07` of the tests. -/
theorem params_from_url_positional_witness :
    get_query_param
        (some [63, 102, 120, 61, 50, 37, 50, 67, 48, 46, 53, 37, 50, 67, 48, 37, 50, 67, 48,
          46, 48, 55])
        (some [102, 120]) =
      some [50, 37, 50, 67, 48, 46, 53, 37, 50, 67, 48, 37, 50, 67, 48, 46, 48, 55] ∧
    (pfxr_create_params_from_url
        (some [63, 102, 120, 61, 50, 37, 50, 67, 48, 46, 53, 37, 50, 67, 48, 37, 50, 67, 48,
          46, 48, 55]) =
        (set_fields_from 0
          ((nonempty_tokens
            (url_decode
              [50, 37, 50, 67, 48, 46, 53, 37, 50, 67, 48, 37, 50, 67, 48, 46, 48, 55])).take
            22)
          pfxr_get_default_sound).map some ∧
      pfxr_create_params_from_url
          (some [104, 116, 116, 112, 115, 58, 47, 47, 101, 120, 97, 109, 112, 108, 101, 46,
            99, 111, 109, 47, 116, 101, 115, 116, 63, 102, 120, 61, 97, 98, 99, 44, 100, 101,
            102, 44, 49, 50, 51]) =
        some (some { pfxr_get_default_sound with attackTime := flit 123 1 })) :=
  ⟨by decide,
    params_from_url_positional
      [63, 102, 120, 61, 50, 37, 50, 67, 48, 46, 53, 37, 50, 67, 48, 37, 50, 67, 48, 46, 48, 55]
      [50, 37, 50, 67, 48, 46, 53, 37, 50, 67, 48, 37, 50, 67, 48, 46, 48, 55] (by decide)⟩

/-! ## url.c: strings of decimal digits -/

/-- Reading digits after a number `acc`: the digits shift `acc` to the left. -/
theorem dval_foldl (l : List Nat) (acc : Nat) :
    l.foldl (fun a c => a * 10 + (c - 48)) acc = acc * 10 ^ l.length + dval l := by
  induction l generalizing acc with
  | nil => simp [dval]
  | cons c t ih =>
    simp only [List.foldl_cons, List.length_cons, dval]
    rw [ih, ih (0 * 10 + (c - 48))]
    ring

theorem dval_nil : dval [] = 0 := rfl

theorem dval_append (l m : List Nat) : dval (l ++ m) = dval l * 10 ^ m.length + dval m := by
  unfold dval
  rw [List.foldl_append, dval_foldl]
  rfl

theorem dval_replicate_zero (z : Nat) : dval (List.replicate z 48) = 0 := by
  induction z with
  | zero => rfl
  | succ z ih =>
    rw [List.replicate_succ']
    rw [dval_append, ih]
    rfl

/-- The digits of `digitsN` are digits, and there are `w` of them. -/
theorem digitsN_length (w n : Nat) : (digitsN w n).length = w := by
  induction w generalizing n with
  | zero => rfl
  | succ w ih => simp [digitsN, ih]

theorem digitsN_isdigit (w n : Nat) : ∀ c ∈ digitsN w n, isdigit c = true := by
  induction w generalizing n with
  | zero => simp [digitsN]
  | succ w ih =>
    intro c hc
    simp only [digitsN, List.mem_append, List.mem_singleton] at hc
    rcases hc with hc | hc
    · exact ih _ c hc
    · subst hc
      have : n % 10 < 10 := Nat.mod_lt _ (by norm_num)
      simp only [isdigit, Bool.and_eq_true, decide_eq_true_eq]
      omega

/-- The `w` digits of a number below `10^w` spell the number. -/
theorem dval_digitsN (w n : Nat) : dval (digitsN w n) = n % 10 ^ w := by
  induction w generalizing n with
  | zero => simp [digitsN, dval, Nat.mod_one]
  | succ w ih =>
    simp only [digitsN]
    rw [dval_append, ih]
    have h1 : dval [48 + n % 10] = n % 10 := by simp [dval]
    rw [h1]
    simp only [List.length_singleton, pow_one]
    rw [pow_succ]
    have h2 : n % (10 ^ w * 10) = n % 10 + 10 * (n / 10 % 10 ^ w) := by
      rw [mul_comm (10 ^ w) 10]
      exact Nat.mod_mul
    rw [h2]
    ring

/-- The digits of `decimal` are digits, there is at least one and there are at most `fuel`
of them, and they spell the number when it is below `10^fuel`. -/
theorem decimal_spec (fuel : Nat) : ∀ n, n < 10 ^ (fuel + 1) →
    (∀ c ∈ decimal (fuel + 1) n, isdigit c = true) ∧ decimal (fuel + 1) n ≠ [] ∧
      (decimal (fuel + 1) n).length ≤ fuel + 1 ∧ dval (decimal (fuel + 1) n) = n := by
  induction fuel with
  | zero =>
    intro n hn
    have hn1 : n < 10 := by simpa using hn
    simp only [decimal, hn1, if_true]
    refine ⟨?_, by simp, by simp, by simp [dval]⟩
    intro c hc
    simp only [List.mem_singleton] at hc
    subst hc
    simp only [isdigit, Bool.and_eq_true, decide_eq_true_eq]
    omega
  | succ fuel ih =>
    intro n hn
    rw [decimal]
    by_cases h10 : n < 10
    · simp only [h10, if_true]
      refine ⟨?_, by simp, by simp, by simp [dval]⟩
      intro c hc
      simp only [List.mem_singleton] at hc
      subst hc
      simp only [isdigit, Bool.and_eq_true, decide_eq_true_eq]
      omega
    · simp only [h10, if_false]
      have hdiv : n / 10 < 10 ^ (fuel + 1) := by
        rw [Nat.div_lt_iff_lt_mul (by norm_num)]
        rw [pow_succ] at hn
        exact hn
      obtain ⟨a1, a2, a3, a4⟩ := ih (n / 10) hdiv
      refine ⟨?_, by simp, ?_, ?_⟩
      · intro c hc
        simp only [List.mem_append, List.mem_singleton] at hc
        rcases hc with hc | hc
        · exact a1 c hc
        · subst hc
          have : n % 10 < 10 := Nat.mod_lt _ (by norm_num)
          simp only [isdigit, Bool.and_eq_true, decide_eq_true_eq]
          omega
      · simp only [List.length_append, List.length_singleton]
        omega
      · rw [dval_append, a4]
        have h1 : dval [48 + n % 10] = n % 10 := by simp [dval]
        rw [h1]
        simp only [List.length_singleton, pow_one]
        omega

/-- A digit string is its stripped string followed by zeros. -/
theorem strip_zeros_append (l : List Nat) :
    ∃ z, l = strip_zeros l ++ List.replicate z 48 := by
  unfold strip_zeros
  have h := List.takeWhile_append_dropWhile (fun c => decide (c = 48)) l.reverse
  have h2 : l = (l.reverse.dropWhile fun c => decide (c = 48)).reverse ++
      (l.reverse.takeWhile fun c => decide (c = 48)).reverse := by
    rw [← List.reverse_append, h, List.reverse_reverse]
  have h3 : ∀ c ∈ (l.reverse.takeWhile fun c => decide (c = 48)).reverse, c = 48 := by
    intro c hc
    rw [List.mem_reverse] at hc
    have := List.mem_takeWhile_imp hc
    simpa using this
  refine ⟨(l.reverse.takeWhile fun c => decide (c = 48)).reverse.length, ?_⟩
  rw [← List.eq_replicate_of_mem h3]
  exact h2

theorem strip_zeros_sublist (l : List Nat) : ∀ c ∈ strip_zeros l, c ∈ l := by
  obtain ⟨z, hz⟩ := strip_zeros_append l
  intro c hc
  rw [hz]
  exact List.mem_append_left _ hc

/-! ## url.c: `strtof` on the numerals that `printf` prints -/

theorem dval_cons (c : Nat) (l : List Nat) : dval (c :: l) = (c - 48) * 10 ^ l.length + dval l := by
  have h := dval_append [c] l
  simp only [List.singleton_append] at h
  rw [h]
  simp [dval]

/-- The function `read_digits` reads a string of digits up to a character that is not a
digit. -/
theorem read_digits_append (l : List Nat) (hl : ∀ c ∈ l, isdigit c = true) (rest : List Nat)
    (hr : ∀ c t, rest = c :: t → isdigit c = false) (acc n : Nat) :
    read_digits (l ++ rest) acc n = (acc * 10 ^ l.length + dval l, n + l.length, rest) := by
  induction l generalizing acc n with
  | nil =>
    cases rest with
    | nil => simp [read_digits, dval]
    | cons c t => simp [read_digits, hr c t rfl, dval]
  | cons c l ih =>
    have hc : isdigit c = true := hl c (List.mem_cons_self _ _)
    have hl2 : ∀ x ∈ l, isdigit x = true := fun x hx => hl x (List.mem_cons_of_mem _ hx)
    simp only [List.cons_append, read_digits, hc, if_true]
    show read_digits (l ++ rest) (acc * 10 + (c - 48)) (n + 1) = _
    rw [ih hl2, dval_cons]
    simp only [List.length_cons, Prod.mk.injEq, and_true]
    constructor
    · ring
    · omega

/-- The function `read_mantissa` reads an integer part and a fraction up to a character
that is neither a digit nor a point. -/
theorem read_mantissa_point_frac (ip fp tl : List Nat) (hip : ∀ c ∈ ip, isdigit c = true)
    (hfp : ∀ c ∈ fp, isdigit c = true)
    (htl : ∀ c t, tl = c :: t → isdigit c = false ∧ c ≠ 46) :
    read_mantissa read_digits (point_frac ip fp ++ tl) =
      (dval (ip ++ fp), ip.length + fp.length, fp.length, tl) := by
  have htl1 : ∀ c t, tl = c :: t → isdigit c = false := fun c t h => (htl c t h).1
  unfold read_mantissa point_frac
  by_cases hf : fp = []
  · subst hf
    simp only [if_true, List.append_nil]
    rw [read_digits_append ip hip tl htl1]
    simp only [zero_mul, zero_add, List.length_nil, add_zero]
    cases tl with
    | nil => rfl
    | cons c t => simp [(htl c t rfl).2]
  · simp only [hf, if_false, List.append_assoc, List.cons_append]
    rw [read_digits_append ip hip (46 :: (fp ++ tl)) (by
      intro c t h
      have := (List.cons.inj h).1
      subst this
      rfl)]
    simp only [zero_mul, zero_add, if_true]
    rw [read_digits_append fp hfp tl htl1, dval_append]
    simp

theorem read_sign_digit (c : Nat) (t : List Nat) (hc : isdigit c = true) :
    read_sign (c :: t) = (false, c :: t) := by
  simp only [isdigit, Bool.and_eq_true, decide_eq_true_eq] at hc
  have h1 : c ≠ 45 := by omega
  have h2 : c ≠ 43 := by omega
  simp [read_sign, h1, h2]

/-- The exponent part that `printf` prints is read back. -/
theorem read_exponent_digits (neg : Bool) (w n : Nat) (hw : 0 < w) (hn : n < 10 ^ w) :
    read_exponent 101 69 ([101, if neg then 45 else 43] ++ digitsN w n) =
      (if neg then -(n : Int) else (n : Int), []) := by
  have hs : read_sign ((if neg then 45 else 43) :: digitsN w n) = (neg, digitsN w n) := by
    cases neg <;> simp [read_sign]
  simp only [List.cons_append, List.nil_append, read_exponent, true_or, if_true, hs]
  have h := read_digits_append (digitsN w n) (digitsN_isdigit w n) []
    (by intro c t h; exact absurd h (by simp)) 0 0
  rw [List.append_nil] at h
  rw [h, digitsN_length, dval_digitsN, Nat.mod_eq_of_lt hn]
  have hw0 : ¬ (w = 0) := by omega
  simp [hw0]

/-- A decimal numeral is converted to the rounding of its value. -/
theorem strtof_decimal_point_frac (neg : Bool) (ip fp tl : List Nat) (ex : Int)
    (hip : ∀ c ∈ ip, isdigit c = true) (hip0 : ip ≠ [])
    (hfp : ∀ c ∈ fp, isdigit c = true)
    (htl : ∀ c t, tl = c :: t → isdigit c = false ∧ c ≠ 46)
    (hex : read_exponent 101 69 tl = (ex, [])) :
    strtof_decimal neg (point_frac ip fp ++ tl) =
      some
        (if 0 ≤ ex - (fp.length : Int)
          then binary32.round neg (dval (ip ++ fp) * 10 ^ (ex - (fp.length : Int)).toNat) 1 0
          else binary32.round neg (dval (ip ++ fp)) (10 ^ (-(ex - (fp.length : Int))).toNat) 0,
         []) := by
  unfold strtof_decimal
  simp only [read_mantissa_point_frac ip fp tl hip hfp htl, hex]
  have hlen : ip.length + fp.length ≠ 0 := by
    cases ip with
    | nil => exact absurd rfl hip0
    | cons c t => simp
  simp [hlen]

theorem starts_with_word_ne (w0 : Nat) (w : List Nat) (c0 : Nat) (t : List Nat)
    (h : tolower c0 ≠ w0) : starts_with_word (w0 :: w) (c0 :: t) = false := by
  simp [starts_with_word, h]

/-- The function `strtof` reads a text that starts with a digit, after an optional minus
sign, as a decimal numeral, unless the text starts with `0x` or `0X`. -/
theorem strtof_numeral (neg : Bool) (c0 : Nat) (t : List Nat) (hc0 : isdigit c0 = true)
    (ht : ∀ x t2, t = x :: t2 → x ≠ 120 ∧ x ≠ 88) (v : Flt × List Nat)
    (hd : strtof_decimal neg (c0 :: t) = some v) :
    strtof ((if neg then [45] else []) ++ c0 :: t) = v := by
  have hc := hc0
  simp only [isdigit, Bool.and_eq_true, decide_eq_true_eq] at hc
  have hsp : isspace c0 = false := by
    simp only [isspace, Bool.or_eq_false_iff, decide_eq_false_iff_not, Bool.and_eq_false_iff]
    omega
  have hlow : tolower c0 = c0 := by
    unfold tolower
    rw [if_neg (by omega)]
  have hdrop : ((if neg then [45] else []) ++ c0 :: t).dropWhile isspace =
      (if neg then [45] else []) ++ c0 :: t := by
    cases neg
    · simp [List.dropWhile, hsp]
    · simp [List.dropWhile, isspace]
  have hsign : read_sign ((if neg then [45] else []) ++ c0 :: t) = (neg, c0 :: t) := by
    cases neg
    · simpa using read_sign_digit c0 t hc0
    · simp [read_sign]
  have hhex : strtof_hex neg (c0 :: t) = none := by
    cases t with
    | nil => rfl
    | cons x t2 =>
      have := ht x t2 rfl
      simp only [strtof_hex]
      rw [if_neg]
      intro hcon
      rcases hcon.2 with h | h
      · exact this.1 h
      · exact this.2 h
  unfold strtof
  simp only [hdrop, hsign]
  rw [starts_with_word_ne _ _ _ _ (by rw [hlow]; omega),
    starts_with_word_ne _ _ _ _ (by rw [hlow]; omega),
    starts_with_word_ne _ _ _ _ (by rw [hlow]; omega)]
  simp only [Bool.false_eq_true, if_false, hhex, hd]

/-- The value that `strtof_decimal` computes for the digits `mm` with decimal exponent `k` is
the rounding of `mm * 10^k`. -/
theorem decimal_rounded (neg : Bool) (mm : Nat) (k : Int) :
    Rounded binary32 (sq neg * ((mm : ℚ) * (10 : ℚ) ^ k))
      (if 0 ≤ k then binary32.round neg (mm * 10 ^ k.toNat) 1 0
        else binary32.round neg mm (10 ^ (-k).toNat) 0) := by
  by_cases hk : 0 ≤ k
  · rw [if_pos hk]
    refine ⟨neg, mm * 10 ^ k.toNat, 1, 0, by norm_num, rfl, ?_⟩
    have : (10 : ℚ) ^ k = (10 : ℚ) ^ k.toNat := by
      rw [← zpow_natCast, Int.toNat_of_nonneg hk]
    rw [this]
    push_cast
    simp
  · rw [if_neg hk]
    refine ⟨neg, mm, 10 ^ (-k).toNat, 0, by positivity, rfl, ?_⟩
    have : (10 : ℚ) ^ k = ((10 : ℚ) ^ (-k).toNat)⁻¹ := by
      rw [← zpow_natCast, Int.toNat_of_nonneg (by omega), zpow_neg, inv_inv]
    rw [this]
    push_cast
    simp [div_eq_mul_inv]

theorem url_encode_append (a b : List Nat) : url_encode (a ++ b) = url_encode a ++ url_encode b := by
  induction a with
  | nil => rfl
  | cons c t ih => simp [url_encode, ih]

/-- Digits, `-`, `.` and the letter `e` are encoded as themselves. -/
theorem url_encode_plain (l : List Nat)
    (h : ∀ c ∈ l, isdigit c = true ∨ c = 45 ∨ c = 46 ∨ c = 101) : url_encode l = l := by
  induction l with
  | nil => rfl
  | cons c t ih =>
    have hc := h c (List.mem_cons_self _ _)
    have ht := ih fun x hx => h x (List.mem_cons_of_mem _ hx)
    simp only [url_encode, ht]
    have : url_encode_char c = [c] := by
      unfold url_encode_char
      rw [if_pos]
      rcases hc with hc | hc | hc | hc
      · simp [isalnum, hc]
      · simp [hc]
      · simp [hc]
      · subst hc
        decide
    rw [this]
    rfl

/-- A digit string with a tail: the digits before the tail and those of the stripped tail
spell the number without its trailing zeros. -/
theorem dval_strip (a b : List Nat) :
    ∃ z, dval (a ++ b) = dval (a ++ strip_zeros b) * 10 ^ z ∧ (strip_zeros b).length + z = b.length := by
  obtain ⟨z, hz⟩ := strip_zeros_append b
  refine ⟨z, ?_, ?_⟩
  · conv_lhs => rw [hz, ← List.append_assoc, dval_append, dval_replicate_zero]
    simp
  · conv_rhs => rw [hz]
    simp

theorem strip_zeros_isdigit (l : List Nat) (h : ∀ c ∈ l, isdigit c = true) :
    ∀ c ∈ strip_zeros l, isdigit c = true :=
  fun c hc => h c (strip_zeros_sublist l c hc)

theorem strip_zeros_length_le (l : List Nat) : (strip_zeros l).length ≤ l.length := by
  obtain ⟨z, hz⟩ := strip_zeros_append l
  conv_rhs => rw [hz]
  simp

theorem pow10_shift (mm D : ℚ) (z : Nat) (k1 k2 : Int) (h : D = mm * (10 : ℚ) ^ z)
    (hk : k1 = (z : Int) + k2) : mm * (10 : ℚ) ^ k1 = D * (10 : ℚ) ^ k2 := by
  rw [h, hk, zpow_add₀ (by norm_num : (10 : ℚ) ≠ 0), zpow_natCast]
  ring

/-- The shape of the text of six significant digits: an integer part, a fraction without
trailing zeros and, in exponent style, an exponent part; the digits with the exponent spell
`D * 10^(X - 5)`. -/
theorem g6_layout_shape (X : Int) (D : Nat) (hD2 : D < 1000000) (hX1 : -100 < X)
    (hX2 : X < 100) :
    ∃ (ip fp tl : List Nat) (ex : Int),
      g6_layout X D = point_frac ip fp ++ tl ∧ (∀ c ∈ ip, isdigit c = true) ∧ ip ≠ [] ∧
      (∀ c ∈ fp, isdigit c = true) ∧
      ((tl = [] ∧ ex = 0 ∧ ip.length + fp.length ≤ 10) ∨
        (tl = [101, if X < 0 then 45 else 43] ++ digitsN 2 X.natAbs ∧ ex = X ∧
          ip.length + fp.length ≤ 6)) ∧
      ((dval (ip ++ fp) : Nat) : ℚ) * (10 : ℚ) ^ (ex - (fp.length : Int)) =
        (D : ℚ) * (10 : ℚ) ^ (X - 5) := by
  have hds := digitsN_isdigit 6 D
  have hlen := digitsN_length 6 D
  have hval : dval (digitsN 6 D) = D := by
    rw [dval_digitsN]
    exact Nat.mod_eq_of_lt (by norm_num; exact hD2)
  unfold g6_layout
  simp only []
  by_cases hfix : -4 ≤ X ∧ X < 6
  · rw [if_pos hfix]
    by_cases h0 : 0 ≤ X
    · rw [if_pos h0]
      have hn : X.toNat + 1 ≤ 6 := by omega
      obtain ⟨z, hz1, hz2⟩ := dval_strip ((digitsN 6 D).take (X.toNat + 1))
        ((digitsN 6 D).drop (X.toNat + 1))
      rw [List.take_append_drop, hval] at hz1
      have hdl : ((digitsN 6 D).drop (X.toNat + 1)).length = 6 - (X.toNat + 1) := by
        rw [List.length_drop, hlen]
      have htl : ((digitsN 6 D).take (X.toNat + 1)).length = X.toNat + 1 := by
        rw [List.length_take, hlen]
        omega
      refine ⟨_, _, [], 0, by rw [List.append_nil],
        fun c hc => hds c (List.mem_of_mem_take hc), ?_,
        strip_zeros_isdigit _ fun c hc => hds c (List.mem_of_mem_drop hc),
        Or.inl ⟨rfl, rfl, ?_⟩, ?_⟩
      · intro hc
        have := congrArg List.length hc
        rw [htl] at this
        simp at this
      · have := strip_zeros_length_le ((digitsN 6 D).drop (X.toNat + 1))
        omega
      · exact pow10_shift _ _ z _ _ (by exact_mod_cast hz1) (by omega)
    · rw [if_neg h0]
      obtain ⟨z, hz1, hz2⟩ := dval_strip [] (digitsN 6 D)
      simp only [List.nil_append] at hz1
      rw [hval] at hz1
      rw [hlen] at hz2
      have hsl := strip_zeros_length_le (digitsN 6 D)
      rw [hlen] at hsl
      refine ⟨[48], _, [], 0, by rw [List.append_nil], by decide, by simp, ?_,
        Or.inl ⟨rfl, rfl, ?_⟩, ?_⟩
      · intro c hc
        rw [List.mem_append] at hc
        rcases hc with hc | hc
        · rw [List.eq_of_mem_replicate hc]
          rfl
        · exact strip_zeros_isdigit _ hds c hc
      · simp only [List.length_singleton, List.length_append, List.length_replicate]
        omega
      · have hmm : dval ([48] ++ (List.replicate ((-X).toNat - 1) 48 ++
            strip_zeros (digitsN 6 D))) = dval (strip_zeros (digitsN 6 D)) := by
          rw [dval_append, dval_append, dval_replicate_zero]
          simp [dval]
        rw [hmm]
        refine pow10_shift _ _ z _ _ (by exact_mod_cast hz1) ?_
        simp only [List.length_append, List.length_replicate]
        omega
  · rw [if_neg hfix]
    have habs : X.natAbs < 100 := by omega
    rw [if_pos habs]
    obtain ⟨z, hz1, hz2⟩ := dval_strip ((digitsN 6 D).take 1) ((digitsN 6 D).drop 1)
    rw [List.take_append_drop, hval] at hz1
    have hdl : ((digitsN 6 D).drop 1).length = 5 := by
      rw [List.length_drop, hlen]
    have htl : ((digitsN 6 D).take 1).length = 1 := by
      rw [List.length_take, hlen]
      rfl
    refine ⟨_, _, [101, if X < 0 then 45 else 43] ++ digitsN 2 X.natAbs, X,
      by rw [List.append_assoc],
      fun c hc => hds c (List.mem_of_mem_take hc), ?_,
      strip_zeros_isdigit _ fun c hc => hds c (List.mem_of_mem_drop hc),
      Or.inr ⟨rfl, rfl, ?_⟩, ?_⟩
    · intro hc
      have := congrArg List.length hc
      rw [htl] at this
      simp at this
    · have := strip_zeros_length_le ((digitsN 6 D).drop 1)
      omega
    · exact pow10_shift _ _ z _ _ (by exact_mod_cast hz1) (by omega)

theorem point_frac_length (ip fp : List Nat) :
    (point_frac ip fp).length ≤ ip.length + fp.length + 1 := by
  unfold point_frac
  split_ifs <;> simp <;> omega

theorem point_frac_chars (ip fp : List Nat) (hip : ∀ c ∈ ip, isdigit c = true)
    (hfp : ∀ c ∈ fp, isdigit c = true) :
    ∀ c ∈ point_frac ip fp, isdigit c = true ∨ c = 45 ∨ c = 46 ∨ c = 101 := by
  unfold point_frac
  intro c hc
  rw [List.mem_append] at hc
  rcases hc with hc | hc
  · exact Or.inl (hip c hc)
  · split_ifs at hc with hf
    · simp at hc
    · rcases List.mem_cons.mp hc with h | h
      · exact Or.inr (Or.inr (Or.inl h))
      · exact Or.inl (hfp c h)

theorem plain_char_ok {c : Nat} (h : isdigit c = true ∨ c = 45 ∨ c = 46 ∨ c = 101) :
    c ≠ 44 ∧ c ≠ 0 ∧ c < 256 ∧ c ≠ 120 ∧ c ≠ 88 := by
  simp only [isdigit, Bool.and_eq_true, decide_eq_true_eq] at h
  omega

/-- The text that `printf("%.6g")` prints for six digits `D` with decimal exponent `X`, after
a minus sign for a negative value, is a field text that `strtof` reads to its end as the
rounding of `D * 10^(X - 5)`. -/
theorem g6_layout_parse (neg : Bool) (X : Int) (D : Nat) (hD2 : D < 1000000) (hX1 : -100 < X)
    (hX2 : X < 100) :
    field_text ((if neg then [45] else []) ++ g6_layout X D) ∧
      ∃ r, strtof ((if neg then [45] else []) ++ g6_layout X D) = (r, []) ∧
        Rounded binary32 (sq neg * ((D : ℚ) * (10 : ℚ) ^ (X - 5))) r := by
  obtain ⟨ip, fp, tl, ex, hs, hip, hip0, hfp, htl, hv⟩ := g6_layout_shape X D hD2 hX1 hX2
  have hpc := point_frac_chars ip fp hip hfp
  have hsign : ∀ c ∈ (if neg then [45] else [] : List Nat),
      isdigit c = true ∨ c = 45 ∨ c = 46 ∨ c = 101 := by
    intro c hc
    cases neg
    · simp at hc
    · simp only [if_true, List.mem_singleton] at hc
      exact Or.inr (Or.inl hc)
  have hsl : (if neg then [45] else [] : List Nat).length ≤ 1 := by
    cases neg <;> simp
  have hdd := digitsN_isdigit 2 X.natAbs
  have htlc : ∀ c ∈ tl, c ≠ 44 ∧ c ≠ 0 ∧ c < 256 ∧ c ≠ 120 ∧ c ≠ 88 := by
    intro c hc
    rcases htl with ⟨h, -, -⟩ | ⟨h, -, -⟩
    · rw [h] at hc
      simp at hc
    · rw [h] at hc
      simp only [List.cons_append, List.nil_append, List.mem_cons] at hc
      rcases hc with hc | hc | hc
      · omega
      · rw [hc]
        split_ifs <;> omega
      · exact plain_char_ok (Or.inl (hdd c hc))
  have hchars : ∀ c ∈ g6_layout X D, c ≠ 44 ∧ c ≠ 0 ∧ c < 256 ∧ c ≠ 120 ∧ c ≠ 88 := by
    intro c hc
    rw [hs, List.mem_append] at hc
    rcases hc with hc | hc
    · exact plain_char_ok (hpc c hc)
    · exact htlc c hc
  have hpl := point_frac_length ip fp
  have htll : tl.length ≤ 4 ∧ (url_encode tl).length ≤ 6 := by
    rcases htl with ⟨h, -, -⟩ | ⟨h, -, -⟩
    · rw [h]
      exact ⟨by simp, by simp [url_encode]⟩
    · rw [h, url_encode_append, url_encode_plain (digitsN 2 X.natAbs) fun c hc => Or.inl (hdd c hc)]
      simp only [List.length_append, digitsN_length, List.length_cons, List.length_nil]
      refine ⟨by omega, ?_⟩
      split_ifs <;> simp [url_encode, url_encode_char, isalnum, isdigit]
  have hlen2 : ip.length + fp.length + tl.length ≤ 10 := by
    rcases htl with ⟨h, -, h2⟩ | ⟨h, -, h2⟩
    · rw [h]
      simp only [List.length_nil]
      omega
    · have := htll.1
      omega
  have hlen3 : ip.length + fp.length + (url_encode tl).length ≤ 12 := by
    rcases htl with ⟨h, -, h2⟩ | ⟨h, -, h2⟩
    · rw [h]
      simp only [url_encode, List.length_nil]
      omega
    · have := htll.2
      omega
  refine ⟨⟨?_, ?_, ?_, ?_⟩, ?_⟩
  · intro hc
    have hl := congrArg List.length hc
    rw [hs] at hl
    simp only [List.length_append, List.length_nil] at hl
    have : ip.length ≠ 0 := fun h0 => hip0 (List.length_eq_zero.mp h0)
    unfold point_frac at hl
    simp only [List.length_append] at hl
    omega
  · rw [hs]
    simp only [List.length_append]
    omega
  · rw [hs, url_encode_append, url_encode_append, url_encode_plain _ hsign,
      url_encode_plain _ hpc]
    simp only [List.length_append]
    omega
  · intro c hc
    rw [List.mem_append] at hc
    rcases hc with hc | hc
    · have := plain_char_ok (hsign c hc)
      exact ⟨this.1, this.2.1, this.2.2.1⟩
    · have := hchars c hc
      exact ⟨this.1, this.2.1, this.2.2.1⟩
  · have htl2 : ∀ c t, tl = c :: t → isdigit c = false ∧ c ≠ 46 := by
      intro c t h
      rcases htl with ⟨h2, -, -⟩ | ⟨h2, -, -⟩
      · rw [h2] at h
        exact absurd h (by simp)
      · rw [h2] at h
        simp only [List.cons_append, List.nil_append] at h
        have := (List.cons.inj h).1
        rw [← this]
        exact ⟨by decide, by decide⟩
    have hex : read_exponent 101 69 tl = (ex, []) := by
      rcases htl with ⟨h2, h3, -⟩ | ⟨h2, h3, -⟩
      · rw [h2, h3]
        rfl
      · rw [h2, h3]
        have := read_exponent_digits (decide (X < 0)) 2 X.natAbs (by norm_num)
          (by norm_num; omega)
        simp only [decide_eq_true_eq] at this
        rw [this]
        congr 1
        split_ifs <;> omega
    have hdec := strtof_decimal_point_frac neg ip fp tl ex hip hip0 hfp htl2 hex
    rw [← hs] at hdec
    cases hg : g6_layout X D with
    | nil =>
      exfalso
      have hl := congrArg List.length hs
      rw [hg] at hl
      have : ip.length ≠ 0 := fun h0 => hip0 (List.length_eq_zero.mp h0)
      unfold point_frac at hl
      simp only [List.length_append, List.length_nil] at hl
      omega
    | cons c0 t =>
      rw [hg] at hdec hchars hs
      have hc0 : isdigit c0 = true := by
        cases ip with
        | nil => exact absurd rfl hip0
        | cons i0 it =>
          unfold point_frac at hs
          simp only [List.cons_append] at hs
          rw [(List.cons.inj hs).1]
          exact hip i0 (List.mem_cons_self _ _)
      have ht : ∀ x t2, t = x :: t2 → x ≠ 120 ∧ x ≠ 88 := by
        intro x t2 h
        have := hchars x (by rw [h]; simp)
        exact ⟨this.2.2.2.1, this.2.2.2.2⟩
      refine ⟨_, strtof_numeral neg c0 t hc0 ht _ hdec, ?_⟩
      have hr := decimal_rounded neg (dval (ip ++ fp)) (ex - (fp.length : Int))
      rw [hv] at hr
      exact hr

/-! ## url.c: six significant digits -/

theorem zpow_ten_pos (e : Int) : (0 : ℚ) < (10 : ℚ) ^ e := by positivity

theorem zpow_ten_le {a b : Int} (h : a ≤ b) : (10 : ℚ) ^ a ≤ (10 : ℚ) ^ b :=
  zpow_le_zpow_right₀ (by norm_num) h

/-- The test `pow10_le` compares a power of ten with the value `num/den`. -/
theorem pow10_le_iff (k : Int) (num den : Nat) (hd : 0 < den) :
    pow10_le k num den = true ↔ (10 : ℚ) ^ k ≤ (num : ℚ) / den := by
  have hdq : (0 : ℚ) < den := by exact_mod_cast hd
  unfold pow10_le
  by_cases hk : 0 ≤ k
  · rw [if_pos hk, decide_eq_true_eq, le_div_iff₀ hdq]
    have : (10 : ℚ) ^ k = ((10 ^ k.toNat : Nat) : ℚ) := by
      push_cast
      rw [← zpow_natCast, Int.toNat_of_nonneg hk]
    rw [this]
    exact_mod_cast Iff.rfl
  · rw [if_neg hk, decide_eq_true_eq]
    have h1 : (10 : ℚ) ^ k = (((10 ^ (-k).toNat : Nat) : ℚ))⁻¹ := by
      push_cast
      rw [← zpow_natCast, Int.toNat_of_nonneg (by omega), zpow_neg, inv_inv]
    have hp : (0 : ℚ) < ((10 ^ (-k).toNat : Nat) : ℚ) := by positivity
    rw [h1, inv_eq_one_div, div_le_div_iff₀ hp hdq, one_mul]
    exact_mod_cast Iff.rfl

/-- The search `decimal_exponent` finds the largest exponent in its range whose power of
ten is at most the value. -/
theorem decimal_exponent_spec (num den : Nat) (hd : 0 < den)
    (hlo : (10 : ℚ) ^ (-46 : Int) ≤ (num : ℚ) / den) (n : Nat) :
    -46 ≤ decimal_exponent num den n ∧ decimal_exponent num den n ≤ (n : Int) - 46 ∧
      (10 : ℚ) ^ decimal_exponent num den n ≤ (num : ℚ) / den ∧
      ∀ Y : Int, decimal_exponent num den n < Y → Y ≤ (n : Int) - 46 →
        (num : ℚ) / den < (10 : ℚ) ^ Y := by
  induction n with
  | zero =>
    refine ⟨le_refl _, by simp [decimal_exponent], hlo, ?_⟩
    intro Y h1 h2
    simp only [decimal_exponent] at h1
    simp only [Nat.cast_zero, zero_sub] at h2
    omega
  | succ n ih =>
    obtain ⟨i1, i2, i3, i4⟩ := ih
    unfold decimal_exponent
    by_cases hp : pow10_le ((n : Int) - 45) num den = true
    · rw [if_pos hp]
      refine ⟨by omega, by push_cast; omega, (pow10_le_iff _ _ _ hd).mp hp, ?_⟩
      intro Y h1 h2
      push_cast at h2
      omega
    · rw [if_neg hp]
      refine ⟨i1, by push_cast; omega, i3, ?_⟩
      intro Y h1 h2
      push_cast at h2
      by_cases hY : Y ≤ (n : Int) - 46
      · exact i4 Y h1 hY
      · have hYe : Y = (n : Int) - 45 := by omega
        rw [hYe]
        have := (pow10_le_iff ((n : Int) - 45) num den hd).not.mp hp
        exact not_le.mp this

/-- The six digits `D` and the exponent `X` of a positive value `v = num/den` in the range of
`float`: `D` has six digits, `D * 10^(X - 5)` is `v` up to half a unit of the sixth digit,
and does not exceed the largest `float`. -/
theorem six_digits_spec (num den : Nat) (hd : 0 < den)
    (hlo : (10 : ℚ) ^ (-46 : Int) ≤ (num : ℚ) / den)
    (hhi : (num : ℚ) / den ≤ 340282346638528859811704183484516925440) :
    100000 ≤ (six_digits num den).2 ∧ (six_digits num den).2 < 1000000 ∧
      -100 < (six_digits num den).1 ∧ (six_digits num den).1 < 100 ∧
      |((six_digits num den).2 : ℚ) * (10 : ℚ) ^ ((six_digits num den).1 - 5) - (num : ℚ) / den| ≤
        (num : ℚ) / den / 200000 ∧
      ((six_digits num den).2 : ℚ) * (10 : ℚ) ^ ((six_digits num den).1 - 5) ≤
        340282346638528859811704183484516925440 := by
  have ten : (10 : ℚ) ≠ 0 := by norm_num
  have hdq : (0 : ℚ) < den := by exact_mod_cast hd
  obtain ⟨i1, i2, i3, i4⟩ := decimal_exponent_spec num den hd hlo 85
  generalize hX0 : decimal_exponent num den 85 = X0 at i1 i2 i3 i4
  have h39 : (10 : ℚ) ^ (39 : Int) = 1000000000000000000000000000000000000000 := by norm_num
  have h38 : (10 : ℚ) ^ (38 : Int) = 100000000000000000000000000000000000000 := by norm_num
  have hlt39 : (num : ℚ) / den < (10 : ℚ) ^ (39 : Int) := by rw [h39]; linarith
  have hX38 : X0 ≤ 38 := by
    by_contra hc
    have : (10 : ℚ) ^ (39 : Int) ≤ (10 : ℚ) ^ X0 := zpow_ten_le (by omega)
    linarith
  have hup : (num : ℚ) / den < (10 : ℚ) ^ (X0 + 1) := i4 (X0 + 1) (by omega) (by push_cast; omega)
  -- the scaled value and its rounding
  set q : ℚ := (num : ℚ) / den * (10 : ℚ) ^ (5 - X0) with hq
  have hpw : (10 : ℚ) ^ (5 - X0) * (10 : ℚ) ^ (X0 - 5) = 1 := by
    rw [← zpow_add₀ ten, show 5 - X0 + (X0 - 5) = 0 by ring]
    norm_num
  have hq1 : (100000 : ℚ) ≤ q := by
    have : (10 : ℚ) ^ X0 * (10 : ℚ) ^ (5 - X0) = 100000 := by
      rw [← zpow_add₀ ten, show X0 + (5 - X0) = 5 by ring]
      norm_num
    rw [← this, hq]
    exact mul_le_mul_of_nonneg_right i3 (zpow_ten_pos _).le
  have hq2 : q < 1000000 := by
    have : (10 : ℚ) ^ (X0 + 1) * (10 : ℚ) ^ (5 - X0) = 1000000 := by
      rw [← zpow_add₀ ten, show X0 + 1 + (5 - X0) = 6 by ring]
      norm_num
    rw [← this, hq]
    exact mul_lt_mul_of_pos_right hup (zpow_ten_pos _)
  have hD0 : ∃ D0 : Nat,
      (if X0 ≤ 5 then rhe (num * 10 ^ (5 - X0).toNat) den
        else rhe num (den * 10 ^ (X0 - 5).toNat)) = D0 ∧ (D0 : Int) = rn q := by
    refine ⟨_, rfl, ?_⟩
    by_cases h5 : X0 ≤ 5
    · rw [if_pos h5, rhe_eq_rn _ _ hd]
      congr 1
      rw [hq]
      push_cast
      rw [← zpow_natCast, Int.toNat_of_nonneg (by omega)]
      ring
    · rw [if_neg h5, rhe_eq_rn _ _ (by positivity)]
      congr 1
      rw [hq]
      push_cast
      rw [← zpow_natCast, Int.toNat_of_nonneg (by omega)]
      have : (10 : ℚ) ^ (5 - X0) = ((10 : ℚ) ^ (X0 - 5))⁻¹ := by
        rw [← zpow_neg]
        congr 1
        ring
      rw [this]
      field_simp
  obtain ⟨D0, hD0e, hD0r⟩ := hD0
  have hb := rn_bounds q
  rw [← hD0r] at hb
  obtain ⟨b1, b2⟩ := hb
  rw [Int.cast_natCast] at b1 b2
  have hD0lo : 100000 ≤ D0 := by
    have : (99999 : ℚ) < (D0 : ℚ) := by linarith
    have : 99999 < D0 := by exact_mod_cast this
    omega
  have hD0hi : D0 ≤ 1000000 := by
    have : (D0 : ℚ) < 1000001 := by linarith
    have : D0 < 1000001 := by exact_mod_cast this
    omega
  -- the value of the digits
  have hv : (num : ℚ) / den = q * (10 : ℚ) ^ (X0 - 5) := by
    rw [hq, mul_assoc, hpw, mul_one]
  have hpos5 := zpow_ten_pos (X0 - 5)
  have hscale : (10 : ℚ) ^ (X0 - 5) ≤ (num : ℚ) / den / 100000 := by
    have : (10 : ℚ) ^ (X0 - 5) = (10 : ℚ) ^ X0 / 100000 := by
      rw [zpow_sub₀ ten]
      norm_num
    rw [this]
    exact div_le_div_of_nonneg_right i3 (by norm_num)
  have herr : |(D0 : ℚ) * (10 : ℚ) ^ (X0 - 5) - (num : ℚ) / den| ≤ (num : ℚ) / den / 200000 := by
    rw [hv, ← sub_mul, abs_mul, abs_of_pos hpos5]
    have h1 : |(D0 : ℚ) - q| ≤ 1 / 2 := by
      rw [abs_le]
      constructor <;> linarith
    have h2 : |(D0 : ℚ) - q| * (10 : ℚ) ^ (X0 - 5) ≤ 1 / 2 * (10 : ℚ) ^ (X0 - 5) :=
      mul_le_mul_of_nonneg_right h1 hpos5.le
    rw [← hv]
    linarith
  have hmax : (D0 : ℚ) * (10 : ℚ) ^ (X0 - 5) ≤ 340282346638528859811704183484516925440 := by
    by_cases h37 : X0 ≤ 37
    · have h1 : (D0 : ℚ) ≤ 1000000 := by exact_mod_cast hD0hi
      have h2 : (10 : ℚ) ^ (X0 - 5) ≤ (10 : ℚ) ^ (32 : Int) := zpow_ten_le (by omega)
      have h3 : (10 : ℚ) ^ (32 : Int) = 100000000000000000000000000000000 := by norm_num
      rw [h3] at h2
      nlinarith
    · have hX : X0 = 38 := by omega
      subst hX
      have h33 : (10 : ℚ) ^ ((38 : Int) - 5) = 1000000000000000000000000000000000 := by norm_num
      have h33b : (10 : ℚ) ^ ((5 : Int) - 38) = 1 / 1000000000000000000000000000000000 := by
        norm_num
      rw [h33]
      rw [h33b] at hq
      have hq3 : q < 340282 + 1 / 2 := by
        rw [hq]
        have := mul_le_mul_of_nonneg_right hhi
          (by norm_num : (0 : ℚ) ≤ 1 / 1000000000000000000000000000000000)
        have hnum : (340282346638528859811704183484516925440 : ℚ) *
            (1 / 1000000000000000000000000000000000) < 340282 + 1 / 2 := by norm_num
        linarith
      have : (D0 : ℚ) < 340283 := by linarith
      have : D0 < 340283 := by exact_mod_cast this
      have : (D0 : ℚ) ≤ 340282 := by exact_mod_cast (by omega : D0 ≤ 340282)
      linarith
  -- normalisation
  unfold six_digits
  simp only [hX0, hD0e]
  by_cases hm : D0 = 1000000
  · simp only [hm, if_true]
    subst hm
    have hsame : ((100000 : Nat) : ℚ) * (10 : ℚ) ^ (X0 + 1 - 5) =
        ((1000000 : Nat) : ℚ) * (10 : ℚ) ^ (X0 - 5) := by
      have : X0 + 1 - 5 = (X0 - 5) + 1 := by ring
      rw [this, zpow_add₀ ten]
      push_cast
      ring
    rw [hsame]
    exact ⟨by norm_num, by norm_num, by omega, by omega, herr, hmax⟩
  · simp only [hm, if_false]
    exact ⟨hD0lo, by omega, by omega, by omega, herr, hmax⟩

/-! ## url.c: a float printed with six digits and read back -/

/-- Rounding with the sign bit set is the negation of rounding without it. -/
theorem round_true_eq (f : Fmt) (num den : Nat) (ex : Int) :
    f.round true num den ex = (f.round false num den ex).neg := by
  unfold Fmt.round
  by_cases h : num = 0
  · simp [h, Flt.neg]
  · simp only [h, if_false, Fmt.pack]
    split_ifs <;> rfl

/-- The largest finite `float`. -/
theorem max_float :
    (Flt.fin false 16777215 104).IsFin binary32 ∧
      (Flt.fin false 16777215 104).toRat = 340282346638528859811704183484516925440 := by
  refine ⟨by decide, ?_⟩
  rw [toRat_fin]
  simp only [sq, if_false, Bool.false_eq_true, one_mul]
  rw [show (104 : Int) = ((104 : Nat) : Int) by norm_num, zpow_natCast]
  norm_num

/-- A finite float `x` of magnitude `v`, a value `w` within `v / 200000` of `v` and not above
the largest float: the rounding of `w`, with the sign of `x`, is finite and within
`|x| / 1000` of `x`. -/
theorem near_of_rounded {x r : Flt} (hx : x.IsFin binary32) (s : Bool) (v w : ℚ)
    (hxv : x.toRat = sq s * v) (hv : 0 < v) (hw : |w - v| ≤ v / 200000)
    (hmax : w ≤ 340282346638528859811704183484516925440)
    (hr : Rounded binary32 (sq s * w) r) :
    r.IsFin binary32 ∧ |r.toRat - x.toRat| ≤ |x.toRat| / 1000 := by
  have hw0 : 0 < w := by
    have := (abs_le.mp hw).1
    linarith
  have hw1 := (abs_le.mp hw).1
  have hw2 := (abs_le.mp hw).2
  obtain ⟨neg, n, d, ex, hd, hr1, hq⟩ := hr
  have hnn : (0 : ℚ) ≤ (n : ℚ) / d * (2 : ℚ) ^ ex := by positivity
  have hneg : neg = s ∧ (n : ℚ) / d * (2 : ℚ) ^ ex = w := by
    cases neg <;> cases s <;> simp only [sq, if_true, if_false, Bool.false_eq_true] at hq
    · exact ⟨rfl, by linarith⟩
    · exfalso; linarith
    · exfalso; linarith
    · exact ⟨rfl, by linarith⟩
  obtain ⟨hns, hnw⟩ := hneg
  have hns2 := hns.symm
  subst hns2
  have hpos : Rounded binary32 w (binary32.round false n d ex) :=
    ⟨false, n, d, ex, hd, rfl, by simp only [sq, if_false, Bool.false_eq_true, one_mul]; exact hnw⟩
  obtain ⟨hM, hMv⟩ := max_float
  obtain ⟨hf, hf0, -⟩ := rounded_between binary32_ok hpos zero_isFin hM
    (by rw [zero_toRat]; exact hw0.le) (by rw [hMv]; exact hmax)
  rw [zero_toRat] at hf0
  have hkey : |(binary32.round false n d ex).toRat - v| ≤ v / 1000 := by
    obtain ⟨E, e1, e2, e3⟩ := rounded_pos_err binary32_ok hpos hw0 hf
    have hp : ((binary32.prec : Nat) : Int) = 24 := rfl
    have hemin : binary32.emin = -149 := rfl
    rw [hp, hemin] at e3
    have he3a := (abs_le.mp e3).1
    have he3b := (abs_le.mp e3).2
    rcases le_total (-149 : Int) (E - (24 - 1)) with hE | hE
    · rw [max_eq_left hE] at he3a he3b
      have h2 : (2 : ℚ) ^ (E - (24 - 1)) / 2 = (2 : ℚ) ^ E / 16777216 := by
        rw [zpow_sub₀ (by norm_num : (2 : ℚ) ≠ 0)]
        norm_num
        ring
      rw [h2] at he3a he3b
      have h3 : (2 : ℚ) ^ E / 16777216 ≤ w / 16777216 :=
        div_le_div_of_nonneg_right e1 (by norm_num)
      rw [abs_le]
      constructor <;> linarith
    · rw [max_eq_right hE] at he3a he3b
      obtain ⟨k, hk⟩ := isFin_grid hx
      obtain ⟨j, hj⟩ := isFin_grid hf
      have hu := zpow_two_pos (-149)
      generalize (2 : ℚ) ^ (-149 : Int) = u at hk hj he3a he3b hu
      have hvk : v = sq s * (k : ℚ) * u := by
        have hs2 : sq s * sq s = 1 := by cases s <;> simp [sq]
        calc v = sq s * sq s * v := by rw [hs2, one_mul]
          _ = sq s * (sq s * v) := by ring
          _ = sq s * (k : ℚ) * u := by rw [← hxv, hk]; ring
      have hsk : ∃ k2 : Int, sq s * (k : ℚ) = (k2 : ℚ) := by
        cases s
        · exact ⟨k, by simp [sq]⟩
        · exact ⟨-k, by simp [sq]⟩
      obtain ⟨k2, hk2⟩ := hsk
      rw [hk2] at hvk
      have hk2pos : 0 < k2 := by
        have : (0 : ℚ) < (k2 : ℚ) * u := by rw [← hvk]; exact hv
        have : (0 : ℚ) < (k2 : ℚ) := by
          by_contra hc
          push_neg at hc
          have := mul_nonpos_of_nonpos_of_nonneg hc hu.le
          linarith
        exact_mod_cast this
      rw [hj] at he3a he3b ⊢
      by_cases hsmall : k2 < 100000
      · have hjk : j = k2 := by
          have hk2q : (k2 : ℚ) < 100000 := by exact_mod_cast hsmall
          have hku : (k2 : ℚ) * u < 100000 * u := mul_lt_mul_of_pos_right hk2q hu
          have hw1b := hw1
          have hw2b := hw2
          rw [hvk] at hw1b hw2b
          have h1 : ((j : ℚ) - k2) * u < 1 * u := by linarith
          have h2 : -1 * u < ((j : ℚ) - k2) * u := by linarith
          have h3 : (j : ℚ) - k2 < 1 := lt_of_mul_lt_mul_right h1 hu.le
          have h4 : (-1 : ℚ) < (j : ℚ) - k2 := lt_of_mul_lt_mul_right h2 hu.le
          have h5 : j - k2 < 1 := by exact_mod_cast h3
          have h6 : -1 < j - k2 := by exact_mod_cast h4
          omega
        rw [hjk, hvk, sub_self, abs_zero]
        positivity
      · have hk2q : (100000 : ℚ) ≤ (k2 : ℚ) := by exact_mod_cast (not_lt.mp hsmall)
        have hu2 : u ≤ v / 100000 := by
          rw [hvk, le_div_iff₀ (by norm_num)]
          have := mul_le_mul_of_nonneg_right hk2q hu.le
          linarith
        rw [abs_le]
        constructor <;> linarith
  have hxabs : |x.toRat| = v := by
    rw [hxv, abs_mul, abs_of_pos hv]
    cases s <;> simp [sq]
  rw [hxabs, hr1]
  cases s
  · simp only [sq, if_false, Bool.false_eq_true, one_mul] at hxv
    rw [hxv]
    exact ⟨hf, hkey⟩
  · simp only [sq, if_true] at hxv
    rw [round_true_eq, toRat_neg, hxv]
    refine ⟨isFin_neg hf, ?_⟩
    have : -(binary32.round false n d ex).toRat - -1 * v =
        -((binary32.round false n d ex).toRat - v) := by ring
    rw [this, abs_neg]
    exact hkey

set_option maxRecDepth 100000 in
/-- Every float is printed by `%.6g` as a field text that `strtof` reads to its end, as a
float within a relative error of `1e-3` of the printed one. -/
theorem printf_g6_round_trip (x : Flt) (hx : x.IsFloat binary32) :
    field_text (printf_g6 x) ∧ ∃ y, strtof (printf_g6 x) = (y, []) ∧ x.Near y := by
  rcases hx with hx | hx
  · subst hx
    exact ⟨by unfold field_text; decide, Flt.nan, by decide, Or.inl rfl⟩
  · cases x with
    | nan => exact absurd hx id
    | inf s =>
      cases s
      · exact ⟨by unfold field_text; decide, _, by decide, Or.inl rfl⟩
      · exact ⟨by unfold field_text; decide, _, by decide, Or.inl rfl⟩
    | fin s m e =>
      have hc : binary32.canon m e := hx
      have hxf : (Flt.fin s m e).IsFin binary32 := hc
      obtain ⟨c1, c2, c3, c4⟩ := hc
      have hp : binary32.prec = 24 := rfl
      have hemin : binary32.emin = -149 := rfl
      have hemax : binary32.emax = 104 := rfl
      rw [hp] at c1 c4
      rw [hemin] at c2 c4
      rw [hemax] at c3
      by_cases hm : m = 0
      · subst hm
        have he : e = -149 := by
          rcases c4 with h | h
          · norm_num at h
          · exact h
        subst he
        cases s
        · exact ⟨by unfold field_text; decide, _, by decide, Or.inl rfl⟩
        · exact ⟨by unfold field_text; decide, _, by decide, Or.inl rfl⟩
      · have hm1 : (1 : ℚ) ≤ (m : ℚ) := by
          have : 1 ≤ m := Nat.one_le_iff_ne_zero.mpr hm
          exact_mod_cast this
        have hm2 : (m : ℚ) ≤ 16777215 := by
          have : m ≤ 16777215 := by
            have : (2 : Nat) ^ 24 = 16777216 := by norm_num
            omega
          exact_mod_cast this
        have hvlo : (10 : ℚ) ^ (-46 : Int) ≤ (m : ℚ) * (2 : ℚ) ^ e := by
          have h1 : (2 : ℚ) ^ (-149 : Int) ≤ (2 : ℚ) ^ e := zpow_two_le c2
          have h2 : (10 : ℚ) ^ (-46 : Int) ≤ (2 : ℚ) ^ (-149 : Int) := by
            rw [show (-46 : Int) = -((46 : Nat) : Int) by norm_num,
              show (-149 : Int) = -((149 : Nat) : Int) by norm_num, zpow_neg, zpow_neg,
              zpow_natCast, zpow_natCast]
            rw [inv_le_inv₀ (by positivity) (by positivity)]
            norm_num
          have h3 := zpow_two_pos e
          nlinarith
        have hvhi : (m : ℚ) * (2 : ℚ) ^ e ≤ 340282346638528859811704183484516925440 := by
          have h1 : (2 : ℚ) ^ e ≤ (2 : ℚ) ^ (104 : Int) := zpow_two_le c3
          have h2 : (2 : ℚ) ^ (104 : Int) = 20282409603651670423947251286016 := by
            rw [show (104 : Int) = ((104 : Nat) : Int) by norm_num, zpow_natCast]
            norm_num
          rw [h2] at h1
          have h3 := zpow_two_pos e
          nlinarith
        have hvpos : (0 : ℚ) < (m : ℚ) * (2 : ℚ) ^ e := by positivity
        have hxv : (Flt.fin s m e).toRat = sq s * ((m : ℚ) * (2 : ℚ) ^ e) := toRat_fin s m e
        have hmain : ∀ num den : Nat, 0 < den → (num : ℚ) / den = (m : ℚ) * (2 : ℚ) ^ e →
            field_text ((if s then [45] else []) ++ printf_g6_pos num den) ∧
              ∃ y, strtof ((if s then [45] else []) ++ printf_g6_pos num den) = (y, []) ∧
                (Flt.fin s m e).Near y := by
          intro num den hd hnd
          obtain ⟨d1, d2, d3, d4, d5, d6⟩ := six_digits_spec num den hd
            (by rw [hnd]; exact hvlo) (by rw [hnd]; exact hvhi)
          rw [hnd] at d5
          obtain ⟨ft, r, hr1, hr2⟩ := g6_layout_parse s (six_digits num den).1
            (six_digits num den).2 d2 d3 d4
          refine ⟨ft, r, hr1, Or.inr ?_⟩
          have := near_of_rounded hxf s _ _ hxv hvpos d5 d6 hr2
          exact ⟨hxf, this.1, this.2⟩
        unfold printf_g6
        simp only [hm, if_false]
        by_cases he : 0 ≤ e
        · rw [if_pos he]
          apply hmain
          · norm_num
          · push_cast
            rw [← zpow_natCast, Int.toNat_of_nonneg he]
            simp
        · rw [if_neg he]
          apply hmain
          · positivity
          · push_cast
            rw [← zpow_natCast, Int.toNat_of_nonneg (by omega), zpow_neg]
            rw [div_eq_mul_inv, inv_inv]

/-! ## url.c: percent-coding is lossless -/

theorem url_decode_bytes_cons (c : Nat) (rest : List Nat) (h1 : c ≠ 37) :
    url_decode_bytes (c :: rest) = (if c = 43 then 32 else c) :: url_decode_bytes rest := by
  cases rest with
  | nil => simp [url_decode_bytes]
  | cons a r =>
    cases r with
    | nil => simp [url_decode_bytes]
    | cons b r2 =>
      rw [url_decode_bytes]
      simp only [h1, if_false]
      split_ifs <;> rfl

theorem url_decode_bytes_percent (a b : Nat) (rest : List Nat) (v : Int)
    (h : strtol16 [a, b] = (v, [])) :
    url_decode_bytes (37 :: a :: b :: rest) = (v % 256).toNat :: url_decode_bytes rest := by
  rw [url_decode_bytes]
  simp [h]

set_option maxRecDepth 100000 in
/-- Two upper-case hexadecimal digits are read by `strtol` to their end. -/
theorem strtol16_hex_upper :
    ∀ d1 < 16, ∀ d2 < 16,
      strtol16 [hex_upper d1, hex_upper d2] = (((16 * d1 + d2 : Nat) : Int), []) := by
  decide

/-- Decoding undoes the encoding of one byte. -/
theorem url_decode_encode_char (c : Nat) (hc : c < 256) (rest : List Nat) :
    url_decode_bytes (url_encode_char c ++ rest) = c :: url_decode_bytes rest := by
  unfold url_encode_char
  by_cases h1 : (isalnum c || c = 45 || c = 95 || c = 46 || c = 126) = true
  · rw [if_pos h1]
    have hne : c ≠ 37 ∧ c ≠ 43 := by
      simp only [isalnum, isdigit, Bool.or_eq_true, Bool.and_eq_true, decide_eq_true_eq] at h1
      omega
    simp only [List.singleton_append]
    rw [url_decode_bytes_cons c rest hne.1, if_neg hne.2]
  · rw [if_neg h1]
    by_cases h2 : c = 32
    · subst h2
      simp only [if_true, List.singleton_append]
      rw [url_decode_bytes_cons 43 rest (by norm_num)]
      rfl
    · rw [if_neg h2]
      have hd1 : c / 16 % 16 < 16 := Nat.mod_lt _ (by norm_num)
      have hd2 : c % 16 < 16 := Nat.mod_lt _ (by norm_num)
      have hs := strtol16_hex_upper (c / 16 % 16) hd1 (c % 16) hd2
      simp only [List.cons_append, List.nil_append]
      rw [url_decode_bytes_percent _ _ rest _ hs]
      congr 1
      have : 16 * (c / 16 % 16) + c % 16 = c := by omega
      rw [this]
      omega

theorem url_decode_bytes_encode (s : List Nat) (h : ∀ c ∈ s, c < 256) :
    url_decode_bytes (url_encode s) = s := by
  induction s with
  | nil => rfl
  | cons c t ih =>
    rw [url_encode, url_decode_encode_char c (h c (List.mem_cons_self _ _)),
      ih fun x hx => h x (List.mem_cons_of_mem _ hx)]

theorem cstr_eq_self (s : List Nat) (h : ∀ c ∈ s, c ≠ 0) : cstr s = s := by
  unfold cstr
  rw [List.takeWhile_eq_self_iff]
  intro c hc
  simpa using h c hc

/-- Decoding undoes encoding on every string of non-zero bytes. -/
theorem url_decode_encode (s : List Nat) (h : ∀ c ∈ s, c ≠ 0 ∧ c < 256) :
    url_decode (url_encode s) = s := by
  unfold url_decode
  rw [url_decode_bytes_encode s fun c hc => (h c hc).2, cstr_eq_self s fun c hc => (h c hc).1]

theorem hex_upper_cases (d : Nat) (hd : d < 16) :
    (48 ≤ hex_upper d ∧ hex_upper d ≤ 57) ∨ (65 ≤ hex_upper d ∧ hex_upper d ≤ 70) := by
  unfold hex_upper
  split_ifs <;> omega

/-- The characters of an encoded string: letters and digits, `-`, `_`, `.`, `~`, `+` and `%`. -/
theorem url_encode_chars (s : List Nat) :
    ∀ c ∈ url_encode s,
      isalnum c = true ∨ c = 45 ∨ c = 95 ∨ c = 46 ∨ c = 126 ∨ c = 43 ∨ c = 37 := by
  induction s with
  | nil => simp [url_encode]
  | cons x t ih =>
    intro c hc
    rw [url_encode, List.mem_append] at hc
    rcases hc with hc | hc
    · unfold url_encode_char at hc
      by_cases h1 : (isalnum x || x = 45 || x = 95 || x = 46 || x = 126) = true
      · rw [if_pos h1, List.mem_singleton] at hc
        subst hc
        simp only [Bool.or_eq_true, decide_eq_true_eq] at h1
        tauto
      · rw [if_neg h1] at hc
        by_cases h2 : x = 32
        · rw [if_pos h2, List.mem_singleton] at hc
          tauto
        · rw [if_neg h2] at hc
          simp only [List.mem_cons, List.mem_singleton, List.not_mem_nil, or_false] at hc
          rcases hc with hc | hc | hc
          · tauto
          · left
            have := hex_upper_cases (x / 16 % 16) (Nat.mod_lt _ (by norm_num))
            rw [hc]
            simp only [isalnum, isdigit, Bool.or_eq_true, Bool.and_eq_true, decide_eq_true_eq]
            omega
          · left
            have := hex_upper_cases (x % 16) (Nat.mod_lt _ (by norm_num))
            rw [hc]
            simp only [isalnum, isdigit, Bool.or_eq_true, Bool.and_eq_true, decide_eq_true_eq]
            omega
    · exact ih c hc

/-! ## url.c: the waveform printed with `%d` and read back -/

/-- The truncation of a finite float whose value is an integer is that integer. -/
theorem trunc_of_int {a : Flt} (ha : a.IsFin binary32) (w : Int) (h : a.toRat = (w : ℚ)) :
    a.trunc = some w := by
  cases a with
  | nan => exact absurd ha id
  | inf s => exact absurd ha id
  | fin s m e =>
    rw [toRat_fin] at h
    simp only [Flt.trunc]
    congr 1
    have key : (((if 0 ≤ e then m * 2 ^ e.toNat else m / 2 ^ (-e).toNat : Nat) : ℚ)) =
        (m : ℚ) * (2 : ℚ) ^ e := by
      by_cases he : 0 ≤ e
      · rw [if_pos he]
        push_cast
        rw [← zpow_natCast, Int.toNat_of_nonneg he]
      · rw [if_neg he]
        have hpe : (2 : ℚ) ^ e = ((2 : ℚ) ^ (-e).toNat)⁻¹ := by
          rw [← zpow_natCast, Int.toNat_of_nonneg (by omega), zpow_neg, inv_inv]
        have hnn : (0 : ℚ) ≤ (m : ℚ) * (2 : ℚ) ^ e := by positivity
        have habs : (m : ℚ) * (2 : ℚ) ^ e = ((w.natAbs : Nat) : ℚ) := by
          have h1 : |sq s * ((m : ℚ) * (2 : ℚ) ^ e)| = |(w : ℚ)| := by rw [h]
          rw [abs_mul, abs_of_nonneg hnn] at h1
          have hsq : |sq s| = 1 := by cases s <;> simp [sq]
          rw [hsq, one_mul] at h1
          rw [h1, Nat.cast_natAbs, Int.cast_abs]
        have hm : m = w.natAbs * 2 ^ (-e).toNat := by
          have hp : (0 : ℚ) < (2 : ℚ) ^ (-e).toNat := by positivity
          rw [hpe] at habs
          have : (m : ℚ) = ((w.natAbs : Nat) : ℚ) * (2 : ℚ) ^ (-e).toNat := by
            field_simp at habs
            linarith
          exact_mod_cast this
        rw [hm, Nat.mul_div_cancel _ (by positivity), ← habs, hm]
    generalize (if 0 ≤ e then m * 2 ^ e.toNat else m / 2 ^ (-e).toNat : Nat) = N at key ⊢
    have hcast : ((sgn s N : Int) : ℚ) = (w : ℚ) := by
      rw [← h, ← key]
      cases s <;> simp [sgn, sq]
    exact_mod_cast hcast

/-- A waveform of magnitude at most `2^24` is converted to `float` and back without change,
and `%d` prints it as a field text that `strtof` reads to its end as that float. -/
theorem printf_d_round_trip (w : Int) (hw : |w| ≤ 16777216) :
    (binary32.ofInt w).toInt32 = some w ∧ field_text (printf_d w) ∧
      strtof (printf_d w) = (binary32.ofInt w, []) := by
  have hw2 := abs_le.mp hw
  have hn : w.natAbs ≤ 16777216 := by omega
  refine ⟨?_, ?_⟩
  · have hr := ofInt_rounded binary32 w
    have hgrid : ∃ a : Flt, a.IsFin binary32 ∧ a.toRat = (w : ℚ) := by
      have hsgn : (w : ℚ) = sq (decide (w < 0)) * ((w.natAbs : Nat) : ℚ) := by
        rw [Nat.cast_natAbs, Int.cast_abs]
        by_cases h0 : w < 0
        · have : (w : ℚ) < 0 := by exact_mod_cast h0
          simp [sq, h0, abs_of_neg this]
        · have : (0 : ℚ) ≤ (w : ℚ) := by exact_mod_cast (not_lt.mp h0)
          simp [sq, h0, abs_of_nonneg this]
      by_cases h24 : w.natAbs < 16777216
      · obtain ⟨a, ha, hav⟩ := exists_isFin_of_grid binary32 binary32_ok (decide (w < 0))
          w.natAbs 0 (by show w.natAbs < 2 ^ 24; omega) (by decide) (by decide)
        refine ⟨a, ha, ?_⟩
        rw [hav, hsgn]
        simp
      · obtain ⟨a, ha, hav⟩ := exists_isFin_of_grid binary32 binary32_ok (decide (w < 0))
          8388608 1 (by decide) (by decide) (by decide)
        refine ⟨a, ha, ?_⟩
        have : w.natAbs = 16777216 := by omega
        rw [hav, hsgn, this]
        norm_num
    obtain ⟨a, ha, hav⟩ := hgrid
    obtain ⟨hf, hv⟩ := rounded_exact binary32_ok hr ha hav.symm
    have ht := trunc_of_int hf w hv
    unfold Flt.toInt32
    rw [ht]
    have : -2147483648 ≤ w ∧ w ≤ 2147483647 := by
      constructor <;> omega
    simp [this]
  · have h10 : w.natAbs < 10 ^ (9 + 1) := by norm_num; omega
    obtain ⟨a1, a2, a3, a4⟩ := decimal_spec 9 w.natAbs h10
    simp only [Nat.reduceAdd] at a1 a2 a3 a4
    have hform : printf_d w = (if decide (w < 0) then [45] else []) ++ decimal 10 w.natAbs := by
      unfold printf_d
      by_cases h0 : w < 0 <;> simp [h0]
    have hplain : ∀ c ∈ printf_d w, isdigit c = true ∨ c = 45 ∨ c = 46 ∨ c = 101 := by
      intro c hc
      rw [hform, List.mem_append] at hc
      rcases hc with hc | hc
      · split_ifs at hc
        · simp only [List.mem_singleton] at hc
          exact Or.inr (Or.inl hc)
        · simp at hc
      · exact Or.inl (a1 c hc)
    have hlen : (printf_d w).length ≤ 11 := by
      rw [hform, List.length_append]
      split_ifs <;> simp <;> omega
    refine ⟨⟨?_, by omega, by rw [url_encode_plain _ hplain]; omega, ?_⟩, ?_⟩
    · rw [hform]
      intro hc
      exact a2 (List.append_eq_nil.mp hc).2
    · intro c hc
      have := plain_char_ok (hplain c hc)
      exact ⟨this.1, this.2.1, this.2.2.1⟩
    · rw [hform]
      cases hdec : decimal 10 w.natAbs with
      | nil => exact absurd hdec a2
      | cons c0 t =>
        rw [hdec] at a1 a4
        have hd := strtof_decimal_point_frac (decide (w < 0)) (c0 :: t) [] [] 0 a1 (by simp)
          (by simp) (by intro c t h; exact absurd h (by simp)) rfl
        simp only [point_frac, if_true, List.append_nil, List.length_nil, Nat.cast_zero,
          sub_zero, le_refl, Int.toNat_zero, pow_zero, mul_one, a4] at hd
        have ht : ∀ x t2, t = x :: t2 → x ≠ 120 ∧ x ≠ 88 := by
          intro x t2 h
          have := plain_char_ok (Or.inl (a1 x (by rw [h]; simp)) :
            isdigit x = true ∨ x = 45 ∨ x = 46 ∨ x = 101)
          exact ⟨this.2.2.2.1, this.2.2.2.2⟩
        exact strtof_numeral _ c0 t (a1 c0 (List.mem_cons_self _ _)) ht _ hd

/-! ## url.c: the round trip through a URL -/

theorem split_commas_ne_nil (s : List Nat) : split_commas s ≠ [] := by
  rw [split_commas_eq]
  simp

theorem split_commas_comma_free (t : List Nat) (h : 44 ∉ t) : split_commas t = [t] := by
  rw [split_commas_eq]
  have h1 : t.takeWhile (fun x => decide (x ≠ 44)) = t := by
    rw [List.takeWhile_eq_self_iff]
    intro c hc
    have : c ≠ 44 := fun h2 => h (h2 ▸ hc)
    simpa using this
  have h2 : t.dropWhile (fun x => decide (x ≠ 44)) = [] := by
    rw [List.dropWhile_eq_nil_iff]
    intro c hc
    have : c ≠ 44 := fun h2 => h (h2 ▸ hc)
    simpa using this
  rw [h1, h2]

/-- The tokens of two texts joined by a comma are the tokens of the one and of the other. -/
theorem split_commas_append (a b : List Nat) :
    split_commas (a ++ 44 :: b) = split_commas a ++ split_commas b := by
  induction a with
  | nil =>
    simp only [List.nil_append]
    conv_lhs => rw [split_commas]
    simp [split_commas]
  | cons c t ih =>
    simp only [List.cons_append]
    conv_lhs => rw [split_commas]
    conv_rhs => rw [split_commas]
    by_cases hc : c = 44
    · simp only [hc, if_true, ih, List.cons_append]
    · simp only [hc, if_false, ih]
      cases hs : split_commas t with
      | nil => exact absurd hs (split_commas_ne_nil t)
      | cons h r => rfl

theorem strchr_append (pre : List Nat) (c : Nat) (rest : List Nat) (h : c ∉ pre) :
    strchr (pre ++ c :: rest) c = some (c :: rest) := by
  induction pre with
  | nil => simp [strchr]
  | cons x t ih =>
    have hx : x ≠ c := fun hc => h (hc ▸ List.mem_cons_self _ _)
    have ht : c ∉ t := fun hc => h (List.mem_cons_of_mem _ hc)
    simp only [List.cons_append, strchr, hx, if_false]
    exact ih ht

/-- The value of the `fx` parameter of a URL that ends with `?fx=` and a text without `&`
and `#`, after a prefix without `?`, is that text. -/
theorem get_query_param_fx (pre enc : List Nat) (hpre : 63 ∉ pre)
    (henc : ∀ c ∈ enc, c ≠ 38 ∧ c ≠ 35) :
    get_query_param (some (pre ++ ([63, 102, 120, 61] ++ enc))) (some [102, 120]) =
      some enc := by
  unfold get_query_param
  simp only [List.cons_append, List.nil_append]
  rw [strchr_append pre 63 _ hpre]
  simp only [List.drop_succ_cons, List.drop_zero]
  have htk : ([102, 120, 61] : List Nat).take 255 = [102, 120, 61] := rfl
  rw [htk]
  have hstr : strstr (102 :: 120 :: 61 :: enc) [102, 120, 61] = some (102 :: 120 :: 61 :: enc) := by
    rw [strstr]
    simp [List.isPrefixOf]
  rw [hstr]
  simp only [List.length_cons, List.length_nil, List.drop_succ_cons, List.drop_zero,
    Option.some.injEq]
  rw [List.takeWhile_eq_self_iff]
  intro c hc
  have := henc c hc
  simp [this.1, this.2]

/-- The text of `values_buffer` after the round `n`: its comma-separated tokens are the
texts of the fields `0 .. n`, and its encoding has at most `18 (n + 1) - 3` characters. -/
theorem values_buffer_tokens (config : pfxr_sound_t) (n : Nat)
    (h : ∀ i < n + 1, ∃ t, value_str config i = some t ∧ field_text t) :
    ∃ b, values_buffer config (n + 1) = some b ∧
      split_commas b = (List.range (n + 1)).map (fun i => (value_str config i).getD []) ∧
      (url_encode b).length + 3 ≤ 18 * (n + 1) ∧ ∀ c ∈ b, c ≠ 0 ∧ c < 256 := by
  induction n with
  | zero =>
    obtain ⟨t, ht, f1, f2, f3, f4⟩ := h 0 (by norm_num)
    refine ⟨t, ?_, ?_, by omega, fun c hc => (f4 c hc).2⟩
    · simp [values_buffer, ht]
    · rw [split_commas_comma_free t fun hc => (f4 44 hc).1 rfl]
      simp [List.range_succ, ht]
  | succ n ih =>
    obtain ⟨b, hb, hs, hl, hc⟩ := ih fun i hi => h i (by omega)
    obtain ⟨t, ht, f1, f2, f3, f4⟩ := h (n + 1) (by omega)
    refine ⟨b ++ [44] ++ t, ?_, ?_, ?_, ?_⟩
    · rw [values_buffer, hb]
      simp [ht]
    · rw [List.append_assoc, List.singleton_append, split_commas_append, hs,
        split_commas_comma_free t fun hc => (f4 44 hc).1 rfl]
      conv_rhs => rw [List.range_succ, List.map_append]
      simp [ht]
    · rw [url_encode_append, url_encode_append]
      have : (url_encode [44]).length = 3 := rfl
      simp only [List.length_append, this]
      omega
    · intro c hcm
      simp only [List.mem_append, List.mem_singleton] at hcm
      rcases hcm with (hcm | hcm) | hcm
      · exact hc c hcm
      · subst hcm
        exact ⟨by norm_num, by norm_num⟩
      · exact (f4 c hcm).2

/-- A parameter set whose 22 fields have field texts is encoded to a URL from which, after
any prefix without `?`, decoding sets the fields from those 22 texts in turn. -/
theorem round_trip_decode (config : pfxr_sound_t) (pre : List Nat) (hpre : 63 ∉ pre)
    (h : ∀ i < 22, ∃ t, value_str config i = some t ∧ field_text t) :
    ∃ u, pfxr_get_url_from_params (some config) = some (some u) ∧
      pfxr_create_params_from_url (some (pre ++ u)) =
        (set_fields_from 0 ((List.range 22).map fun i => (value_str config i).getD [])
          pfxr_get_default_sound).map some := by
  obtain ⟨b, hb, hs, hl, hc⟩ := values_buffer_tokens config 21 h
  have hlen : ([63, 102, 120, 61] ++ url_encode b).length ≤ 451 := by
    simp only [List.length_append, List.length_cons, List.length_nil]
    omega
  refine ⟨[63, 102, 120, 61] ++ url_encode b, ?_, ?_⟩
  · unfold pfxr_get_url_from_params
    simp only [PFXR_FIELD_COUNT, hb, Option.map_some']
    rw [List.take_of_length_le (by simpa using hlen)]
  · have henc : ∀ c ∈ url_encode b, c ≠ 38 ∧ c ≠ 35 := by
      intro c hcm
      have := url_encode_chars b c hcm
      simp only [isalnum, isdigit, Bool.or_eq_true, Bool.and_eq_true, decide_eq_true_eq] at this
      omega
    unfold pfxr_create_params_from_url
    simp only [get_query_param_fx pre (url_encode b) hpre henc]
    rw [url_decode_encode b hc, parse_tokens_eq]
    congr 2
    unfold nonempty_tokens
    rw [hs]
    have hfil : ((List.range (21 + 1)).map fun i => (value_str config i).getD []).filter
        (fun t => !t.isEmpty) =
        (List.range (21 + 1)).map fun i => (value_str config i).getD [] := by
      rw [List.filter_eq_self]
      intro t ht
      rw [List.mem_map] at ht
      obtain ⟨i, hi, hti⟩ := ht
      rw [List.mem_range] at hi
      obtain ⟨t2, ht2, f1, -⟩ := h i hi
      rw [ht2] at hti
      simp only [Option.getD_some] at hti
      rw [← hti]
      cases t2 with
      | nil => exact absurd rfl f1
      | cons c r => rfl
    rw [hfil]
    exact List.take_of_length_le (by simp [PFXR_FIELD_COUNT])

/-- Decoding 22 texts that `strtof` reads to their ends sets every field from its text. -/
theorem set_fields_all (tk : Nat → List Nat) (w : Int)
    (hacc : ∀ i < 22, (strtof (tk i)).2 = [])
    (h0 : (strtof (tk 0)).1.toInt32 = some w) :
    set_fields_from 0 [tk 0, tk 1, tk 2, tk 3, tk 4, tk 5, tk 6, tk 7, tk 8, tk 9, tk 10, tk 11, tk 12, tk 13, tk 14, tk 15, tk 16, tk 17, tk 18, tk 19, tk 20, tk 21] pfxr_get_default_sound =
      some
        { waveForm := w,
          volume := (strtof (tk 1)).1,
          attackTime := (strtof (tk 2)).1,
          sustainTime := (strtof (tk 3)).1,
          sustainPunch := (strtof (tk 4)).1,
          decayTime := (strtof (tk 5)).1,
          frequency := (strtof (tk 6)).1,
          pitchDelta := (strtof (tk 7)).1,
          pitchDuration := (strtof (tk 8)).1,
          pitchDelay := (strtof (tk 9)).1,
          vibratoRate := (strtof (tk 10)).1,
          vibratoDepth := (strtof (tk 11)).1,
          tremoloRate := (strtof (tk 12)).1,
          tremoloDepth := (strtof (tk 13)).1,
          highPassCutoff := (strtof (tk 14)).1,
          highPassResonance := (strtof (tk 15)).1,
          lowPassCutoff := (strtof (tk 16)).1,
          lowPassResonance := (strtof (tk 17)).1,
          phaserBaseFrequency := (strtof (tk 18)).1,
          phaserLfoFrequency := (strtof (tk 19)).1,
          phaserDepth := (strtof (tk 20)).1,
          noiseAmount := (strtof (tk 21)).1 } := by
  have a0 := hacc 0 (by norm_num)
  have a1 := hacc 1 (by norm_num)
  have a2 := hacc 2 (by norm_num)
  have a3 := hacc 3 (by norm_num)
  have a4 := hacc 4 (by norm_num)
  have a5 := hacc 5 (by norm_num)
  have a6 := hacc 6 (by norm_num)
  have a7 := hacc 7 (by norm_num)
  have a8 := hacc 8 (by norm_num)
  have a9 := hacc 9 (by norm_num)
  have a10 := hacc 10 (by norm_num)
  have a11 := hacc 11 (by norm_num)
  have a12 := hacc 12 (by norm_num)
  have a13 := hacc 13 (by norm_num)
  have a14 := hacc 14 (by norm_num)
  have a15 := hacc 15 (by norm_num)
  have a16 := hacc 16 (by norm_num)
  have a17 := hacc 17 (by norm_num)
  have a18 := hacc 18 (by norm_num)
  have a19 := hacc 19 (by norm_num)
  have a20 := hacc 20 (by norm_num)
  have a21 := hacc 21 (by norm_num)
  simp only [set_fields_from, a0, a1, a2, a3, a4, a5, a6, a7, a8, a9, a10, a11, a12, a13, a14, a15, a16, a17, a18, a19, a20, a21, h0, token_accepted, set_sound_field,
    Bool.true_or, decide_True, if_true, Option.map_some', Option.some_bind, Option.bind_some,
    Nat.reduceAdd]

/-- The fields of the default parameter set are finite floats. -/
theorem default_fields_isFloat :
    ∀ i, 1 ≤ i → i < 22 → (get_sound_field pfxr_get_default_sound i).IsFloat binary32 := by
  intro i h1 h2
  interval_cases i <;> exact Or.inr (isFin_reg (by decide))

/-- The texts of the fields of a parameter set whose waveform has magnitude at most `2^24`
and whose other fields are floats: field texts that `strtof` reads to their ends, the
waveform coming back unchanged and every other field within a relative error of `1e-3`. -/
theorem value_str_text (P : pfxr_sound_t) (hw : |P.waveForm| ≤ 16777216)
    (hf : ∀ i, 1 ≤ i → i < 22 → (get_sound_field P i).IsFloat binary32) :
    (∀ i < 22, ∃ t, value_str P i = some t ∧ field_text t) ∧
      (∀ i < 22, (strtof ((value_str P i).getD [])).2 = []) ∧
      (strtof ((value_str P 0).getD [])).1.toInt32 = some P.waveForm ∧
      ∀ i, 1 ≤ i → i < 22 →
        (get_sound_field P i).Near (strtof ((value_str P i).getD [])).1 := by
  obtain ⟨w1, w2, w3⟩ := printf_d_round_trip P.waveForm hw
  have hv0 : value_str P 0 = some (printf_d P.waveForm) := by
    unfold value_str
    simp only [if_true]
    have : get_sound_field P 0 = binary32.ofInt P.waveForm := rfl
    rw [this, w1]
    simp only [Option.map_some', Option.some.injEq]
    exact List.take_of_length_le w2.2.1
  have hvi : ∀ i, 1 ≤ i → i < 22 →
      value_str P i = some (printf_g6 (get_sound_field P i)) := by
    intro i h1 h2
    obtain ⟨ft, -⟩ := printf_g6_round_trip _ (hf i h1 h2)
    unfold value_str
    simp only [show ¬ (i = 0) by omega, if_false, Option.some.injEq]
    exact List.take_of_length_le ft.2.1
  refine ⟨?_, ?_, ?_, ?_⟩
  · intro i hi
    rcases Nat.eq_zero_or_pos i with h0 | h0
    · subst h0
      exact ⟨_, hv0, w2⟩
    · exact ⟨_, hvi i h0 hi, (printf_g6_round_trip _ (hf i h0 hi)).1⟩
  · intro i hi
    rcases Nat.eq_zero_or_pos i with h0 | h0
    · subst h0
      rw [hv0, Option.getD_some, w3]
    · obtain ⟨-, y, hy, -⟩ := printf_g6_round_trip _ (hf i h0 hi)
      rw [hvi i h0 hi, Option.getD_some, hy]
  · rw [hv0, Option.getD_some, w3]
    exact w1
  · intro i h1 h2
    obtain ⟨-, y, hy, hn⟩ := printf_g6_round_trip _ (hf i h1 h2)
    rw [hvi i h1 h2, Option.getD_some, hy]
    exact hn

set_option maxRecDepth 100000 in
/-- Claim C21 fails for a waveform that `float` cannot hold: the parameter set with
`waveForm = 16777217` is encoded with the waveform text `16777216`, and decoding the URL
returns `waveForm = 16777216`. -/
theorem url_round_trip_counterexample :
    ∃ (u : List Nat) (Q : pfxr_sound_t),
      pfxr_get_url_from_params (some { pfxr_get_default_sound with waveForm := 16777217 }) =
        some (some u) ∧
      pfxr_create_params_from_url (some u) = some (some Q) ∧
      Q.waveForm = 16777216 ∧
      Q.waveForm ≠ ({ pfxr_get_default_sound with waveForm := 16777217 } : pfxr_sound_t).waveForm :=
  ⟨[63, 102, 120, 61, 49, 54, 55, 55, 55, 50, 49, 54, 37, 50, 67, 48, 46, 53, 37,
        50, 67, 48, 37, 50, 67, 48, 46, 48, 55, 37, 50, 67, 48, 37, 50, 67, 48, 46, 51,
        37, 50, 67, 55, 48, 48, 37, 50, 67, 48, 37, 50, 67, 49, 37, 50, 67, 48, 37, 50,
        67, 48, 37, 50, 67, 48, 37, 50, 67, 48, 37, 50, 67, 48, 37, 50, 67, 48, 37, 50,
        67, 48, 37, 50, 67, 52, 48, 48, 48, 37, 50, 67, 48, 37, 50, 67, 49, 48, 48, 37,
        50, 67, 53, 48, 37, 50, 67, 48, 37, 50, 67, 48],
    { pfxr_get_default_sound with waveForm := 16777216 }, by decide, by decide, rfl,
    by decide⟩

set_option maxRecDepth 100000 in
/-- Claim C21, amended: decoding undoes encoding for every parameter set whose waveform is
a whole number that `float` holds exactly. For every parameter set `P` with
`|waveForm| ≤ 2^24` and floats in its other fields, and every URL prefix without `?`,
`pfxr_create_params_from_url(prefix ++ pfxr_get_url_from_params(P))` succeeds and returns a
parameter set whose `waveForm` equals that of `P` and whose every other field is that of
`P` up to a relative error of `1e-3` (NaN and the infinities coming back as they are); for
the default parameter set the result is the default parameter set, with `waveForm` 0,
`frequency` 700, `sustainTime` 0.07 and `lowPassCutoff` 4000. -/
theorem url_round_trip (P : pfxr_sound_t) (pre : List Nat) (hpre : 63 ∉ pre)
    (hw : |P.waveForm| ≤ 16777216)
    (hf : ∀ i, 1 ≤ i → i < 22 → (get_sound_field P i).IsFloat binary32) :
    (∃ (u : List Nat) (Q : pfxr_sound_t),
      pfxr_get_url_from_params (some P) = some (some u) ∧
      pfxr_create_params_from_url (some (pre ++ u)) = some (some Q) ∧
      Q.waveForm = P.waveForm ∧
      ∀ i, 1 ≤ i → i < 22 → (get_sound_field P i).Near (get_sound_field Q i)) ∧
    ∃ u : List Nat,
      pfxr_get_url_from_params (some pfxr_get_default_sound) = some (some u) ∧
      pfxr_create_params_from_url (some (pre ++ u)) = some (some pfxr_get_default_sound) ∧
      pfxr_get_default_sound.waveForm = 0 ∧
      pfxr_get_default_sound.frequency = flit 700 1 ∧
      pfxr_get_default_sound.sustainTime = flit 7 100 ∧
      pfxr_get_default_sound.lowPassCutoff = flit 4000 1 := by
  constructor
  · obtain ⟨t1, t2, t3, t4⟩ := value_str_text P hw hf
    obtain ⟨u, hu1, hu2⟩ := round_trip_decode P pre hpre t1
    have hlist : ((List.range 22).map fun i => (value_str P i).getD []) =
        (fun tk : Nat → List Nat => [tk 0, tk 1, tk 2, tk 3, tk 4, tk 5, tk 6, tk 7, tk 8, tk 9, tk 10, tk 11, tk 12, tk 13, tk 14, tk 15, tk 16, tk 17, tk 18, tk 19, tk 20, tk 21]) (fun i => (value_str P i).getD []) := rfl
    rw [hlist] at hu2
    simp only [] at hu2
    rw [set_fields_all (fun i => (value_str P i).getD []) P.waveForm t2 t3] at hu2
    refine ⟨u, _, hu1, hu2, rfl, ?_⟩
    intro i h1 h2
    interval_cases i <;> exact t4 _ (by norm_num) (by norm_num)
  · have hw0 : |pfxr_get_default_sound.waveForm| ≤ 16777216 := by
      rw [show pfxr_get_default_sound.waveForm = 0 from rfl]
      norm_num
    obtain ⟨t1, -⟩ := value_str_text pfxr_get_default_sound hw0 default_fields_isFloat
    obtain ⟨u, hu1, hu2⟩ := round_trip_decode pfxr_get_default_sound pre hpre t1
    have hval : (set_fields_from 0
        ((List.range 22).map fun i => (value_str pfxr_get_default_sound i).getD [])
        pfxr_get_default_sound).map some = some (some pfxr_get_default_sound) := by decide
    rw [hval] at hu2
    exact ⟨u, hu1, hu2, rfl, rfl, rfl, rfl⟩

set_option maxRecDepth 100000 in
/-- The statement of C21 at the default parameter set and the prefix
`https://example.com/sound` of the tests. -/
theorem url_round_trip_witness :
    63 ∉ ([104, 116, 116, 112, 115, 58, 47, 47, 101, 120, 97, 109, 112, 108, 101, 46, 99,
        111, 109, 47, 115, 111, 117, 110, 100] : List Nat) ∧
    |pfxr_get_default_sound.waveForm| ≤ 16777216 ∧
    (∀ i, 1 ≤ i → i < 22 → (get_sound_field pfxr_get_default_sound i).IsFloat binary32) ∧
    ((∃ (u : List Nat) (Q : pfxr_sound_t),
      pfxr_get_url_from_params (some pfxr_get_default_sound) = some (some u) ∧
      pfxr_create_params_from_url
          (some ([104, 116, 116, 112, 115, 58, 47, 47, 101, 120, 97, 109, 112, 108, 101, 46, 99,
        111, 109, 47, 115, 111, 117, 110, 100] ++ u)) = some (some Q) ∧
      Q.waveForm = pfxr_get_default_sound.waveForm ∧
      ∀ i, 1 ≤ i → i < 22 →
        (get_sound_field pfxr_get_default_sound i).Near (get_sound_field Q i)) ∧
    ∃ u : List Nat,
      pfxr_get_url_from_params (some pfxr_get_default_sound) = some (some u) ∧
      pfxr_create_params_from_url
          (some ([104, 116, 116, 112, 115, 58, 47, 47, 101, 120, 97, 109, 112, 108, 101, 46, 99,
        111, 109, 47, 115, 111, 117, 110, 100] ++ u)) = some (some pfxr_get_default_sound) ∧
      pfxr_get_default_sound.waveForm = 0 ∧
      pfxr_get_default_sound.frequency = flit 700 1 ∧
      pfxr_get_default_sound.sustainTime = flit 7 100 ∧
      pfxr_get_default_sound.lowPassCutoff = flit 4000 1) :=
  ⟨by decide, by rw [show pfxr_get_default_sound.waveForm = 0 from rfl]; norm_num,
    default_fields_isFloat,
    url_round_trip pfxr_get_default_sound
      [104, 116, 116, 112, 115, 58, 47, 47, 101, 120, 97, 109, 112, 108, 101, 46, 99,
        111, 109, 47, 115, 111, 117, 110, 100]
      (by decide) (by rw [show pfxr_get_default_sound.waveForm = 0 from rfl]; norm_num)
      default_fields_isFloat⟩

/-! ## Injectivity of the generator step -/

/-- The words of the successor state determine the words of the state. -/
theorem pfxr_random_uint32_words_inj (a b : pfxr_random_t) (ha : a.wf) (hb : b.wf)
    (h : (pfxr_random_uint32 a).2.words = (pfxr_random_uint32 b).2.words) :
    a.words = b.words := by
  have ha2 : ({ a with seed := 0 } : pfxr_random_t).wf :=
    ⟨by norm_num, ha.2.1, ha.2.2.1, ha.2.2.2.1, ha.2.2.2.2⟩
  have hb2 : ({ b with seed := 0 } : pfxr_random_t).wf :=
    ⟨by norm_num, hb.2.1, hb.2.2.1, hb.2.2.2.1, hb.2.2.2.2⟩
  have heq : (pfxr_random_uint32 { a with seed := 0 }).2 =
      (pfxr_random_uint32 { b with seed := 0 }).2 := by
    simp only [pfxr_random_uint32, pfxr_random_t.words, Prod.mk.injEq] at h ⊢
    obtain ⟨h1, h2, h3, h4⟩ := h
    simp only [pfxr_random_t.mk.injEq, true_and]
    exact ⟨h1, h2, h3, h4⟩
  have := pfxr_random_uint32_inj _ _ ha2 hb2 heq
  simp only [pfxr_random_t.mk.injEq, true_and] at this
  obtain ⟨h1, h2, h3, h4⟩ := this
  simp only [pfxr_random_t.words, h1, h2, h3, h4]

theorem warm_up_words_inj (n : Nat) (a b : pfxr_random_t) (ha : a.wf) (hb : b.wf)
    (h : (warm_up n a).words = (warm_up n b).words) : a.words = b.words := by
  induction n generalizing a b with
  | zero => exact h
  | succ n ih =>
    exact pfxr_random_uint32_words_inj a b ha hb
      (ih _ _ (pfxr_random_uint32_wf a ha) (pfxr_random_uint32_wf b hb) h)

/-- The all-zero state is a fixed point of the step. -/
theorem pfxr_random_uint32_zero (s : Nat) :
    (pfxr_random_uint32 ⟨s, 0, 0, 0, 0⟩).2 = ⟨s, 0, 0, 0, 0⟩ := by
  simp [pfxr_random_uint32]

theorem warm_up_zero (n : Nat) (s : Nat) :
    (warm_up n ⟨s, 0, 0, 0, 0⟩).words = (0, 0, 0, 0) := by
  induction n with
  | zero => rfl
  | succ n ih =>
    rw [warm_up, pfxr_random_uint32_zero]
    exact ih

theorem warm_up_add (m k : Nat) (r : pfxr_random_t) :
    warm_up k (warm_up m r) = warm_up (m + k) r := by
  induction m generalizing r with
  | zero => rw [Nat.zero_add]; rfl
  | succ m ih =>
    rw [show m + 1 + k = (m + k) + 1 by omega, warm_up, warm_up, ih]

/-- Claim C36: the generator step is injective on states. Two 32-bit states with different
words `(x, y, z, w)` have successors with different words; two different non-zero seeds
leave `pfxr_random_init` in states with different words after the 32 warm-up steps; and no
state reached from `pfxr_random_init`, after any number of further steps, is the all-zero
state, which is a fixed point of the step. -/
theorem pfxr_random_uint32_injective :
    (∀ a b : pfxr_random_t, a.wf → b.wf → a.words ≠ b.words →
      (pfxr_random_uint32 a).2.words ≠ (pfxr_random_uint32 b).2.words) ∧
    (∀ (now : Int) (s1 s2 : Nat), s1 < 4294967296 → s2 < 4294967296 → s1 ≠ 0 → s2 ≠ 0 →
      s1 ≠ s2 → (pfxr_random_init now s1).words ≠ (pfxr_random_init now s2).words) ∧
    (∀ (now : Int) (seed : Nat) (k : Nat), seed < 4294967296 →
      (warm_up k (pfxr_random_init now seed)).words ≠ (0, 0, 0, 0)) ∧
    (∀ s : Nat, (pfxr_random_uint32 ⟨s, 0, 0, 0, 0⟩).2.words = (0, 0, 0, 0)) := by
  refine ⟨?_, ?_, ?_, ?_⟩
  · intro a b ha hb hne h
    exact hne (pfxr_random_uint32_words_inj a b ha hb h)
  · intro now s1 s2 h1 h2 n1 n2 hne h
    have hw := warm_up_words_inj 32 _ _ (pfxr_random_init_start_wf now s1 h1)
      (pfxr_random_init_start_wf now s2 h2) h
    simp only [pfxr_random_init_start, pfxr_random_t.words, n1, n2, if_false,
      Prod.mk.injEq] at hw
    have hx := hw.1
    rw [and_mask32_of_lt _ h1, and_mask32_of_lt _ h2] at hx
    exact hne hx
  · intro now seed k hs h
    have hz := warm_up_zero (32 + k) 0
    have hcomb : warm_up k (pfxr_random_init now seed) =
        warm_up (32 + k) (pfxr_random_init_start now seed) := warm_up_add 32 k _
    rw [hcomb, ← hz] at h
    have hw := warm_up_words_inj (32 + k) _ _ (pfxr_random_init_start_wf now seed hs)
      (by decide) h
    simp only [pfxr_random_init_start, pfxr_random_t.words, Prod.mk.injEq] at hw
    exact absurd hw.2.1 (by norm_num)
  · intro s
    rw [pfxr_random_uint32_zero]
    rfl

/-- The statement of C36 at the states `(1, 2, 3, 4)` and `(5, 2, 3, 4)`, the seeds 1 and 2
and one step after seeding with 1. -/
theorem pfxr_random_uint32_injective_witness :
    (⟨0, 1, 2, 3, 4⟩ : pfxr_random_t).wf ∧ (⟨0, 5, 2, 3, 4⟩ : pfxr_random_t).wf ∧
    (⟨0, 1, 2, 3, 4⟩ : pfxr_random_t).words ≠ (⟨0, 5, 2, 3, 4⟩ : pfxr_random_t).words ∧
    (pfxr_random_uint32 ⟨0, 1, 2, 3, 4⟩).2.words ≠ (pfxr_random_uint32 ⟨0, 5, 2, 3, 4⟩).2.words ∧
    (pfxr_random_init 0 1).words ≠ (pfxr_random_init 0 2).words ∧
    (warm_up 1 (pfxr_random_init 0 1)).words ≠ (0, 0, 0, 0) :=
  ⟨by decide, by decide, by decide,
    pfxr_random_uint32_injective.1 _ _ (by decide) (by decide) (by decide),
    pfxr_random_uint32_injective.2.1 0 1 2 (by norm_num) (by norm_num) (by norm_num)
      (by norm_num) (by norm_num),
    pfxr_random_uint32_injective.2.2.1 0 1 1 (by norm_num)⟩

/-! ## url.c: the form of an encoded text -/

theorem percent_coded_cons (c : Nat) (rest : List Nat)
    (hc : (isalnum c || c = 45 || c = 95 || c = 46 || c = 126 || c = 43) = true)
    (h : percent_coded rest = true) : percent_coded (c :: rest) = true := by
  have hne : c ≠ 37 := by
    simp only [isalnum, isdigit, Bool.or_eq_true, Bool.and_eq_true, decide_eq_true_eq] at hc
    omega
  cases rest with
  | nil => simpa [percent_coded] using hc
  | cons a r =>
    cases r with
    | nil =>
      rw [percent_coded, hc, h]
      rfl
    | cons b r2 =>
      rw [percent_coded, if_neg hne, hc, h]
      rfl

theorem percent_coded_triplet (a b : Nat) (rest : List Nat)
    (ha : (48 ≤ a ∧ a ≤ 57) ∨ (65 ≤ a ∧ a ≤ 70)) (hb : (48 ≤ b ∧ b ≤ 57) ∨ (65 ≤ b ∧ b ≤ 70))
    (h : percent_coded rest = true) : percent_coded (37 :: a :: b :: rest) = true := by
  rw [percent_coded, if_pos rfl, h]
  simp only [Bool.and_true, Bool.and_eq_true, Bool.or_eq_true, decide_eq_true_eq]
  exact ⟨ha, hb⟩

/-- An encoded text is made of percent-coded pieces only. -/
theorem percent_coded_url_encode (s : List Nat) : percent_coded (url_encode s) = true := by
  induction s with
  | nil => rfl
  | cons c t ih =>
    rw [url_encode]
    unfold url_encode_char
    by_cases h1 : (isalnum c || c = 45 || c = 95 || c = 46 || c = 126) = true
    · rw [if_pos h1]
      exact percent_coded_cons c _ (by rw [Bool.or_eq_true]; exact Or.inl h1) ih
    · rw [if_neg h1]
      by_cases h2 : c = 32
      · rw [if_pos h2]
        exact percent_coded_cons 43 _ (by decide) ih
      · rw [if_neg h2]
        exact percent_coded_triplet _ _ _
          (hex_upper_cases _ (Nat.mod_lt _ (by norm_num)))
          (hex_upper_cases _ (Nat.mod_lt _ (by norm_num))) ih

/-- Claim C40: percent-coding is lossless. For every string `s` of non-zero bytes,
`url_decode(url_encode(s)) = s`, and `url_encode(s)` consists only of ASCII letters, digits,
`-`, `_`, `.`, `~`, `+` and `%XX` triplets with two upper-case hexadecimal digits, so that it
contains no `,`, `&`, `#` or `?`. -/
theorem url_coding_lossless (s : List Nat) (h : ∀ c ∈ s, c ≠ 0 ∧ c < 256) :
    url_decode (url_encode s) = s ∧ percent_coded (url_encode s) = true ∧
      ∀ c ∈ url_encode s, c ≠ 44 ∧ c ≠ 38 ∧ c ≠ 35 ∧ c ≠ 63 := by
  refine ⟨url_decode_encode s h, percent_coded_url_encode s, ?_⟩
  intro c hc
  have := url_encode_chars s c hc
  simp only [isalnum, isdigit, Bool.or_eq_true, Bool.and_eq_true, decide_eq_true_eq] at this
  omega

set_option maxRecDepth 100000 in
/-- The statement of C40 at the string `a b,c+d%?&#` followed by the byte 200. -/
theorem url_coding_lossless_witness :
    (∀ c ∈ ([97, 32, 98, 44, 99, 43, 100, 37, 63, 38, 35, 200] : List Nat), c ≠ 0 ∧ c < 256) ∧
    url_decode (url_encode [97, 32, 98, 44, 99, 43, 100, 37, 63, 38, 35, 200]) =
      [97, 32, 98, 44, 99, 43, 100, 37, 63, 38, 35, 200] ∧
    percent_coded (url_encode [97, 32, 98, 44, 99, 43, 100, 37, 63, 38, 35, 200]) = true ∧
    ∀ c ∈ url_encode [97, 32, 98, 44, 99, 43, 100, 37, 63, 38, 35, 200],
      c ≠ 44 ∧ c ≠ 38 ∧ c ≠ 35 ∧ c ≠ 63 :=
  ⟨by decide, url_coding_lossless _ (by decide)⟩

/-! ## Renders without samples -/

/-- The constant `PFXR_MAX_SAMPLES` is 176400. -/
theorem max_samples_eq : PFXR_MAX_SAMPLES = some 176400 := by decide

/-- The function `pfxr_create_wav_data` returns the null pointer for every count that is not
positive. -/
theorem pfxr_create_wav_data_rejects (samples : Option (Nat → Flt)) (sample_count : Int)
    (wav_size : Bool) (h : sample_count ≤ 0) :
    pfxr_create_wav_data samples sample_count wav_size = some none := by
  unfold pfxr_create_wav_data
  cases samples with
  | none => rfl
  | some mem => simp [h]

/-- With samples and a place for the size, `pfxr_create_wav_data` does not return the null
pointer for a positive count. -/
theorem pfxr_create_wav_data_accepts (mem : Nat → Flt) (sample_count : Int)
    (h : 0 < sample_count) :
    pfxr_create_wav_data (some mem) sample_count true ≠ some none := by
  unfold pfxr_create_wav_data
  have h1 : ¬ (sample_count ≤ 0 ∨ true = false) := by
    intro hc
    rcases hc with hc | hc
    · omega
    · exact absurd hc (by decide)
  simp only [h1, if_false]
  split_ifs
  · exact fun hc => absurd hc (by simp)
  · cases pcm_bytes mem sample_count.toNat 0 with
    | none => exact fun hc => absurd hc (by simp)
    | some pcm => exact fun hc => absurd hc (by simp)

set_option maxRecDepth 100000 in
/-- Claim C39 fails in its example: the parameter set with `attackTime = 12466118 * 2^-39`,
the largest float below `1/44100`, and `sustainTime = decayTime = 0` has a duration below
`1/44100`, and its render into a buffer of `PFXR_MAX_SAMPLES` samples yields
`sample_count = 1`, the float product `duration * 44100` rounding to 1. -/
theorem wav_rejects_empty_counterexample :
    (binary32.add
        (binary32.add (Flt.fin false 12466118 (-39)) (flit 0 1)) (flit 0 1)).toRat <
      1 / 44100 ∧
    ∀ L : libm_t, ∃ r : pfxr_audio_buffer_t,
      generate_sound L
          { pfxr_get_default_sound with
            attackTime := Flt.fin false 12466118 (-39), sustainTime := flit 0 1,
            decayTime := flit 0 1 }
          (pfxr_create_audio_buffer 176400) = some r ∧
      r.sample_count = 1 := by
  constructor
  · have h : binary32.add (binary32.add (Flt.fin false 12466118 (-39)) (flit 0 1)) (flit 0 1) =
        Flt.fin false 12466118 (-39) := by decide
    rw [h, toRat_fin]
    simp only [sq, if_false, Bool.false_eq_true, one_mul]
    rw [show (-39 : Int) = -((39 : Nat) : Int) by norm_num, zpow_neg, zpow_natCast]
    norm_num
  · intro L
    exact ⟨_, rfl, rfl⟩

/-- Claim C39, amended in its example: for every parameter set whose render into the buffer
of `PFXR_MAX_SAMPLES` samples yields `sample_count <= 0`, `pfxr_create_sound_from_config`
returns the null pointer and `pfxr_create_sound_from_config_to_file` returns -1 without
opening a file, because `pfxr_create_wav_data` returns the null pointer for every
`sample_count <= 0`; a render that yields at least one sample is not rejected by
`pfxr_create_wav_data`. A duration `attackTime + sustainTime + decayTime` of at most
`12466117 * 2^-39`, the second float below `1/44100`, yields `sample_count <= 0`. -/
theorem wav_rejects_empty (L : libm_t) (config : pfxr_sound_t) (r : pfxr_audio_buffer_t)
    (h : generate_sound L config (pfxr_create_audio_buffer 176400) = some r) :
    (r.sample_count ≤ 0 →
      pfxr_create_sound_from_config L (some config) = some none ∧
      ∀ (io : stdio_t) (name : List Nat),
        pfxr_create_sound_from_config_to_file io L (some config) (some name) =
          some (-1, [])) ∧
    (0 < r.sample_count →
      pfxr_create_wav_data (some r.samples) r.sample_count true ≠ some none) ∧
    (∀ (samples : Option (Nat → Flt)) (sample_count : Int) (wav_size : Bool),
      sample_count ≤ 0 → pfxr_create_wav_data samples sample_count wav_size = some none) ∧
    ((binary32.add (binary32.add config.attackTime config.sustainTime)
          config.decayTime).IsFin binary32 →
      (binary32.add (binary32.add config.attackTime config.sustainTime)
          config.decayTime).toRat ≤ 12466117 * (2 : ℚ) ^ (-39 : Int) →
      r.sample_count ≤ 0) := by
  refine ⟨?_, pfxr_create_wav_data_accepts _ _, pfxr_create_wav_data_rejects, ?_⟩
  · intro hc
    constructor
    · unfold pfxr_create_sound_from_config
      simp only [max_samples_eq, Option.some_bind, Option.bind_some, h]
      rw [pfxr_create_wav_data_rejects _ _ _ hc]
      rfl
    · intro io name
      unfold pfxr_create_sound_from_config_to_file
      simp only [max_samples_eq, Option.some_bind, Option.bind_some, h]
      unfold pfxr_write_wav_file
      simp [hc]
  · intro hD hval
    obtain ⟨total0, st0, st, ht, -, -, -, hcnt, -⟩ := generate_sound_inv h
    obtain ⟨hsr, hsrv⟩ := sample_rate_value
    obtain ⟨htr, -, -⟩ := toInt32_some ht
    have hmul := mul_rounded binary32 hD hsr
    rw [hsrv] at hmul
    have hu : (Flt.fin false 16777215 (-24)).IsFin binary32 := by decide
    have huv : (Flt.fin false 16777215 (-24)).toRat = 16777215 / 16777216 := by
      rw [toRat_fin]
      simp only [sq, if_false, Bool.false_eq_true, one_mul]
      rw [show (-24 : Int) = -((24 : Nat) : Int) by norm_num, zpow_neg, zpow_natCast]
      norm_num
    have h39 : (2 : ℚ) ^ (-39 : Int) = 1 / 549755813888 := by
      rw [show (-39 : Int) = -((39 : Nat) : Int) by norm_num, zpow_neg, zpow_natCast]
      norm_num
    rw [h39] at hval
    have hle : (binary32.add (binary32.add config.attackTime config.sustainTime)
        config.decayTime).toRat * 44100 ≤ (Flt.fin false 16777215 (-24)).toRat := by
      rw [huv]
      linarith
    have hmono := rounded_mono binary32_ok hmul (rounded_self binary32_ok hu) hle
    rw [ev_of_isFin hu, huv] at hmono
    have hpf : (binary32.mul
        (binary32.add (binary32.add config.attackTime config.sustainTime) config.decayTime)
        (binary32.ofInt PFXR_SAMPLE_RATE)).IsFin binary32 := by
      have hreg := rounded_reg binary32_ok hmul
      generalize binary32.mul
        (binary32.add (binary32.add config.attackTime config.sustainTime) config.decayTime)
        (binary32.ofInt PFXR_SAMPLE_RATE) = p at hreg htr
      cases p with
      | nan => exact absurd hreg id
      | inf s => simp [Flt.trunc] at htr
      | fin s m e => exact hreg
    rw [ev_of_isFin hpf] at hmono
    have ht0 : total0 ≤ 0 := by
      by_contra hc
      have h1 : (1 : Int) ≤ total0 := by omega
      have hk := trunc_pos_le htr h1
      have : (1 : ℚ) ≤ (total0 : ℚ) := by exact_mod_cast h1
      linarith
    rw [hcnt]
    split_ifs with hgt
    · have : (pfxr_create_audio_buffer 176400).capacity = 176400 := rfl
      omega
    · exact ht0

set_option maxRecDepth 100000 in
/-- The statement of C39 at the default sound with its three times set to 0, with the
identity for `sinf` and `cosf`. -/
theorem wav_rejects_empty_witness :
    generate_sound ⟨id, id⟩
        { pfxr_get_default_sound with
          attackTime := flit 0 1, sustainTime := flit 0 1, decayTime := flit 0 1 }
        (pfxr_create_audio_buffer 176400) =
      some { samples := (pfxr_create_audio_buffer 176400).samples, sample_count := 0,
             capacity := 176400 } ∧
    pfxr_create_sound_from_config ⟨id, id⟩
        (some { pfxr_get_default_sound with
          attackTime := flit 0 1, sustainTime := flit 0 1, decayTime := flit 0 1 }) =
      some none :=
  ⟨rfl,
    ((wav_rejects_empty ⟨id, id⟩
      { pfxr_get_default_sound with
        attackTime := flit 0 1, sustainTime := flit 0 1, decayTime := flit 0 1 }
      { samples := (pfxr_create_audio_buffer 176400).samples, sample_count := 0,
        capacity := 176400 } rfl).1 (le_refl _)).1⟩

/-! ## The stages of one sample and the states of the loop -/

/-- One iteration of the sample loop in terms of its stages: the phase and the noise seed
that it leaves, the index that the phaser reads, which lies in the buffer, and the filters
that it leaves. -/
theorem sample_step_stages {L : libm_t} {config : pfxr_sound_t} {capacity : Int}
    {sample_rate duration : Flt} {i : Int} {st st1 : synth_t}
    (h : sample_step L config capacity sample_rate duration i st = some st1) :
    st1.phase =
        (oscillator_stage L config sample_rate
          (current_frequency L config sample_rate duration i st.vibrato_phase) st.phase).2 ∧
    st1.noise_seed =
        (noise_stage config
          (oscillator_stage L config sample_rate
            (current_frequency L config sample_rate duration i st.vibrato_phase) st.phase).1
          st.noise_seed).2 ∧
    (∃ r, phaser_index L config sample_rate i st.phaser_phase = some r ∧
      ∀ j, r = some j → 0 ≤ j ∧ j < capacity) ∧
    ∃ s1 : Flt,
      st1.lowpass_filter =
          (filter_stage config st.lowpass_filter st.highpass_filter s1).2.1 ∧
      st1.highpass_filter =
          (filter_stage config st.lowpass_filter st.highpass_filter s1).2.2 ∧
      ((config.phaserDepth.gt (flit 0 1) = false ∨
          phaser_index L config sample_rate i st.phaser_phase = some none) →
        s1 =
          (noise_stage config
            (oscillator_stage L config sample_rate
              (current_frequency L config sample_rate duration i st.vibrato_phase)
              st.phase).1
            st.noise_seed).1) := by
  unfold sample_step at h
  simp only [] at h
  split at h
  · exact absurd h (by simp)
  · rename_i s1 hs1
    split at h
    · exact absurd h (by simp)
    · have hr := Option.some.inj h
      subst hr
      refine ⟨rfl, rfl, ?_, s1, rfl, rfl, ?_⟩
      · unfold phaser_index phaser_delay phaser_divisor
        by_cases hp : config.phaserDepth.gt (flit 0 1) = true
        · simp only [hp, if_true] at hs1 ⊢
          split at hs1
          · exact absurd hs1 (by simp)
          · rename_i d hd
            by_cases hid : i ≥ d
            · simp only [hid, if_true] at hs1 ⊢
              refine ⟨_, rfl, ?_⟩
              intro j hj
              have hj2 := Option.some.inj hj
              subst hj2
              by_cases hc : i - d < 0 ∨ capacity ≤ i - d ∨ 2147483647 < i - d
              · simp only [hc, if_true] at hs1
                exact absurd hs1 (by simp)
              · push_neg at hc
                exact ⟨hc.1, hc.2.1⟩
            · simp only [hid, if_false]
              exact ⟨_, rfl, fun j hj => absurd hj (by simp)⟩
        · simp only [hp, if_false]
          exact ⟨_, rfl, fun j hj => absurd hj (by simp)⟩
      · intro hcase
        unfold noise_stage oscillator_stage current_frequency
        simp only []
        rcases hcase with hp | hp
        · simp only [hp, Bool.false_eq_true, if_false] at hs1
          exact (Option.some.inj hs1).symm
        · unfold phaser_index phaser_delay phaser_divisor at hp
          by_cases hpd : config.phaserDepth.gt (flit 0 1) = true
          · simp only [hpd, if_true] at hs1 hp
            split at hs1
            · exact absurd hs1 (by simp)
            · rename_i d hd
              by_cases hid : i ≥ d
              · rw [hd] at hp
                simp only [hid, if_true] at hp
                exact absurd hp (by simp)
              · simp only [hid, if_false] at hs1
                exact (Option.some.inj hs1).symm
          · simp only [hpd, if_false] at hs1
            exact (Option.some.inj hs1).symm

/-- The loop over `n + m` samples is the loop over `n` samples followed by the loop over
the next `m` samples. -/
theorem sample_loop_add {L : libm_t} {config : pfxr_sound_t} {capacity : Int}
    {sample_rate duration : Flt} (n m : Nat) :
    ∀ (i : Int) (st : synth_t),
      sample_loop L config capacity sample_rate duration (n + m) i st =
        (sample_loop L config capacity sample_rate duration n i st).bind
          (sample_loop L config capacity sample_rate duration m (i + n)) := by
  induction n with
  | zero =>
    intro i st
    simp [sample_loop]
  | succ n ih =>
    intro i st
    rw [show n + 1 + m = (n + m) + 1 by omega, sample_loop, sample_loop]
    cases hs : sample_step L config capacity sample_rate duration i st with
    | none => rfl
    | some st1 =>
      simp only []
      rw [ih]
      congr 2
      push_cast
      ring_nf

/-- In a render with defined behaviour every rendered index `i` has a state in which its
iteration begins, the iteration leaves the state in which the next one begins, and the
sample that it stores is the sample of the rendered buffer. -/
theorem generate_sound_states {L : libm_t} {config : pfxr_sound_t}
    {buffer r : pfxr_audio_buffer_t} (h : generate_sound L config buffer = some r)
    (i : Nat) (hi : (i : Int) < r.sample_count) :
    ∃ st st1 : synth_t,
      state_at L config buffer i = some st ∧
      sample_step L config buffer.capacity (binary32.ofInt PFXR_SAMPLE_RATE)
        (binary32.add (binary32.add config.attackTime config.sustainTime) config.decayTime)
        (i : Int) st = some st1 ∧
      state_at L config buffer (i + 1) = some st1 ∧
      r.samples i = st1.samples i := by
  unfold generate_sound at h
  simp only [] at h
  split at h
  · exact absurd h (by simp)
  · rename_i total0 ht
    split at h
    · exact absurd h (by simp)
    · rename_i ns hns
      split at h
      · exact absurd h (by simp)
      · rename_i st hl
        have hr := Option.some.inj h
        subst hr
        simp only [] at hi
        change sample_loop L config buffer.capacity (binary32.ofInt PFXR_SAMPLE_RATE)
          (binary32.add (binary32.add config.attackTime config.sustainTime) config.decayTime)
          (if total0 > buffer.capacity then buffer.capacity else total0).toNat 0
          (initial_state L config buffer ns) = some st at hl
        generalize hT : (if total0 > buffer.capacity then buffer.capacity else total0) = T
          at hl hi
        have hsplit : T.toNat = i + (1 + (T.toNat - (i + 1))) := by omega
        rw [hsplit, sample_loop_add] at hl
        cases h1 : sample_loop L config buffer.capacity (binary32.ofInt PFXR_SAMPLE_RATE)
          (binary32.add (binary32.add config.attackTime config.sustainTime) config.decayTime)
          i 0 (initial_state L config buffer ns) with
        | none =>
          rw [h1] at hl
          exact absurd hl (by simp)
        | some sti =>
          rw [h1, Option.some_bind, sample_loop_add] at hl
          simp only [zero_add] at hl
          cases h2 : sample_loop L config buffer.capacity (binary32.ofInt PFXR_SAMPLE_RATE)
            (binary32.add (binary32.add config.attackTime config.sustainTime)
              config.decayTime)
            1 (i : Int) sti with
          | none =>
            rw [h2] at hl
            exact absurd hl (by simp)
          | some stj =>
            rw [h2, Option.some_bind] at hl
            have hstep : sample_step L config buffer.capacity
                (binary32.ofInt PFXR_SAMPLE_RATE)
                (binary32.add (binary32.add config.attackTime config.sustainTime)
                  config.decayTime)
                (i : Int) sti = some stj := by
              rw [sample_loop] at h2
              cases h3 : sample_step L config buffer.capacity
                (binary32.ofInt PFXR_SAMPLE_RATE)
                (binary32.add (binary32.add config.attackTime config.sustainTime)
                  config.decayTime)
                (i : Int) sti with
              | none =>
                rw [h3] at h2
                exact absurd h2 (by simp)
              | some x =>
                rw [h3] at h2
                simp only [sample_loop] at h2
                rw [h2]
            refine ⟨sti, stj, ?_, hstep, ?_, ?_⟩
            · unfold state_at
              rw [hns, Option.some_bind]
              exact h1
            · unfold state_at
              rw [hns, Option.some_bind, sample_loop_add, h1, Option.some_bind]
              simp only [zero_add]
              exact h2
            · have hl2 : sample_loop L config buffer.capacity
                  (binary32.ofInt PFXR_SAMPLE_RATE)
                  (binary32.add (binary32.add config.attackTime config.sustainTime)
                    config.decayTime)
                  (T.toNat - (i + 1)) (((i + 1 : Nat)) : Int) stj = some st := by
                rw [← hl]
                congr 1
              obtain ⟨-, b2, -⟩ := sample_loop_samples _ (i + 1) stj st hl2
              exact b2 i (Or.inl (by omega))

/-! ## C35: the noise stream -/

/-- One step of the noise stream is the linear congruence modulo `2^31`. -/
theorem noise_next_eq (s : Nat) :
    noise_next s = (1103515245 * s + 12345) % 2 ^ 31 ∧ noise_next s < 2 ^ 31 := by
  have h : noise_next s = (1103515245 * s + 12345) % 2 ^ 31 := by
    unfold noise_next
    rw [show (0x7fffffff : Nat) = 2 ^ 31 - 1 by norm_num, Nat.and_pow_two_sub_one_eq_mod]
    omega
  rw [h]
  exact ⟨rfl, Nat.mod_lt _ (by norm_num)⟩

/-- The quotient `noiseAmount / 100.0f` is above zero exactly when `noiseAmount` is above
`50 * 2^-149`: a smaller positive amount underflows to zero. -/
theorem noise_amount_pos_iff {a : Flt} (ha : a.IsFloat binary32) :
    (flit 0 1).lt (binary32.div a (flit 100 1)) = true ↔
      (Flt.fin false 50 (-149)).lt a = true := by
  have h100 : flit 100 1 = Flt.fin false 13107200 (-17) := by decide
  have h0 : flit 0 1 = Flt.fin false 0 (-149) := by decide
  have f100 : (Flt.fin false 13107200 (-17)).IsFin binary32 := by decide
  have v100 : (Flt.fin false 13107200 (-17)).toRat = 100 := by
    rw [toRat_fin]
    simp only [sq, if_false, Bool.false_eq_true, one_mul]
    rw [show (-17 : Int) = -((17 : Nat) : Int) by norm_num, zpow_neg, zpow_natCast]
    norm_num
  have f50 : (Flt.fin false 50 (-149)).IsFin binary32 := by decide
  have v50 : (Flt.fin false 50 (-149)).toRat = 50 * (2 : ℚ) ^ (-149 : Int) := by
    rw [toRat_fin]
    simp [sq]
  have f1 : (Flt.fin false 1 (-149)).IsFin binary32 := by decide
  have v1 : (Flt.fin false 1 (-149)).toRat = (2 : ℚ) ^ (-149 : Int) := by
    rw [toRat_fin]
    simp [sq]
  have fz : (Flt.fin false 0 (-149)).IsFin binary32 := by decide
  have vz : (Flt.fin false 0 (-149)).toRat = 0 := by
    rw [toRat_fin]
    simp [sq]
  have hu : (0 : ℚ) < (2 : ℚ) ^ (-149 : Int) := zpow_two_pos _
  rw [h100, h0]
  rcases ha with ha | ha
  · subst ha
    decide
  · cases a with
    | nan => exact absurd ha (by simp [Flt.Reg])
    | inf s => cases s <;> decide
    | fin s m e =>
      have hfa : (Flt.fin s m e).IsFin binary32 := ha
      have hr := div_rounded binary32 hfa f100 (by rw [v100]; norm_num)
      rw [v100] at hr
      have hreg := rounded_reg binary32_ok hr
      obtain ⟨k, hk⟩ := isFin_grid hfa
      rw [lt_iff_ev (isFin_reg fz) hreg, ev_of_isFin fz, vz, lt_iff_toRat f50 hfa, v50]
      constructor
      · intro hpos
        by_contra hle
        rw [not_lt] at hle
        have hlow : Rounded binary32 ((2 : ℚ) ^ (-149 : Int) / 2) (Flt.fin false 0 (-149)) := by
          refine ⟨false, 1, 1, -150, by norm_num, by decide, ?_⟩
          simp only [sq, if_false, Bool.false_eq_true, one_mul, Nat.cast_one, div_one]
          rw [show (-149 : Int) = -150 + 1 by norm_num, zpow_add₀ (by norm_num : (2 : ℚ) ≠ 0)]
          norm_num
        have hm := rounded_mono binary32_ok hr hlow (by
          rw [div_le_div_iff₀ (by norm_num) (by norm_num)]
          linarith)
        rw [ev_of_isFin fz, vz] at hm
        linarith
      · intro hgt
        rw [hk] at hgt
        have hk51 : (51 : ℚ) ≤ (k : ℚ) := by
          have : (50 : ℚ) < (k : ℚ) := lt_of_mul_lt_mul_right hgt hu.le
          have : (50 : Int) < k := by exact_mod_cast this
          exact_mod_cast (show (51 : Int) ≤ k by omega)
        have hhigh : Rounded binary32 (51 / 100 * (2 : ℚ) ^ (-149 : Int))
            (Flt.fin false 1 (-149)) := by
          refine ⟨false, 51, 100, -149, by norm_num, by decide, ?_⟩
          simp [sq]
        have hm := rounded_mono binary32_ok hhigh hr (by
          rw [hk]
          have := mul_le_mul_of_nonneg_right hk51 hu.le
          linarith)
        rw [ev_of_isFin f1, v1] at hm
        linarith

/-- A quotient by `100.0f` that is above zero has a dividend above zero. -/
theorem pos_of_div_hundred_pos {a : Flt}
    (h : (flit 0 1).lt (binary32.div a (flit 100 1)) = true) : a.gt (flit 0 1) = true := by
  have hz : flit 0 1 = Flt.fin false 0 (-149) := by decide
  have h100 : flit 100 1 = Flt.fin false 13107200 (-17) := by decide
  unfold Flt.gt
  rw [hz, h100] at h
  rw [hz]
  cases a with
  | nan => exact absurd h (by decide)
  | inf s =>
    cases s
    · decide
    · exact absurd h (by decide)
  | fin s m e =>
    have hd : binary32.div (Flt.fin s m e) (Flt.fin false 13107200 (-17)) =
        binary32.round s m 13107200 (e - (-17)) := by
      simp [Fmt.div]
    rw [hd] at h
    by_cases hm : m = 0
    · subst hm
      simp [Fmt.round, Flt.lt, sgn] at h
    · cases s
      · simp only [Flt.lt, sgn, decide_eq_true_eq, Bool.false_eq_true, if_false]
        have hm0 : 0 < m := Nat.pos_of_ne_zero hm
        have hp : (0 : Int) < ((m * 2 ^ (e - min (-149) e).toNat : Nat) : Int) := by
          have : 0 < m * 2 ^ (e - min (-149) e).toNat := by positivity
          exact_mod_cast this
        simpa using hp
      · rcases round_cases binary32 binary32_ok true m 13107200 (e - (-17)) (by norm_num) with
          hc | ⟨m1, e1, hc, -⟩
        · rw [hc] at h
          exact absurd h (by decide)
        · rw [hc] at h
          simp only [Flt.lt, sgn, decide_eq_true_eq, if_true] at h
          have : (0 : Int) ≤ (m1 : Int) * 2 ^ (e1 - min (-149) e1).toNat := by positivity
          push_cast at h
          simp at h
          omega

set_option maxRecDepth 100000 in
/-- Claim C35 fails for the smallest positive `noiseAmount`: the default sound with
`noiseAmount = 2^-149` has `noiseAmount > 0`, but `noiseAmount / 100.0f` rounds to zero, so
that rendering sample 0 leaves the noise state at its initial value 700500 instead of
advancing it twice. -/
theorem noise_stream_counterexample :
    (flit 0 1).lt (Flt.fin false 1 (-149)) = true ∧
    (∀ L : libm_t,
      (state_at L { pfxr_get_default_sound with noiseAmount := Flt.fin false 1 (-149) }
          (pfxr_create_audio_buffer 1) 0).map (fun st => st.noise_seed) = some 700500 ∧
      (state_at L { pfxr_get_default_sound with noiseAmount := Flt.fin false 1 (-149) }
          (pfxr_create_audio_buffer 1) 1).map (fun st => st.noise_seed) = some 700500) ∧
    noise_next (noise_next 700500) ≠ 700500 :=
  ⟨by decide, fun _ => ⟨rfl, rfl⟩, by decide⟩

/-- Claim C35, amended in the condition under which the stream advances: one step of the
noise stream is `s -> ((s * 1103515245 + 12345) mod 2^32) AND 0x7fffffff`, which equals
`(1103515245 * s + 12345) mod 2^31` and is below `2^31`. In a render with defined behaviour,
the iteration of every rendered index `i` takes the noise state from the state before it to
the state after it by the noise stage, applied to the sample of the oscillator. When
`noiseAmount > 50 * 2^-149`, which for a float `noiseAmount` is exactly when
`noiseAmount / 100.0f` is above zero, the stage advances the state exactly twice and its
output is `clamp(d, -1, 1)` of the distortion `d`, which lies in `[-1, 1]` unless `d` is
NaN. When `noiseAmount <= 0`, and also when `noiseAmount / 100.0f` rounds to zero, the stage
leaves the sample and the state unchanged. -/
theorem noise_stream (L : libm_t) (config : pfxr_sound_t) (buffer r : pfxr_audio_buffer_t)
    (h : generate_sound L config buffer = some r) (i : Nat) (hi : (i : Int) < r.sample_count) :
    (∀ s : Nat, noise_next s = (1103515245 * s + 12345) % 2 ^ 31 ∧ noise_next s < 2 ^ 31) ∧
    (config.noiseAmount.IsFloat binary32 →
      ((flit 0 1).lt (binary32.div config.noiseAmount (flit 100 1)) = true ↔
        (Flt.fin false 50 (-149)).lt config.noiseAmount = true)) ∧
    (∃ (st st1 : synth_t) (sample : Flt),
      state_at L config buffer i = some st ∧ state_at L config buffer (i + 1) = some st1 ∧
      st1.noise_seed = (noise_stage config sample st.noise_seed).2) ∧
    ∀ (sample : Flt) (seed : Nat),
      ((flit 0 1).lt (binary32.div config.noiseAmount (flit 100 1)) = true →
        (noise_stage config sample seed).2 = noise_next (noise_next seed) ∧
        ∃ d : Flt,
          (noise_stage config sample seed).1 = clamp d (flit 1 1).neg (flit 1 1) ∧
          ((d = Flt.nan ∧ (noise_stage config sample seed).1 = Flt.nan) ∨
            ((noise_stage config sample seed).1).InUnit)) ∧
      ((config.noiseAmount.gt (flit 0 1) = false ∨
          (flit 0 1).lt (binary32.div config.noiseAmount (flit 100 1)) = false) →
        noise_stage config sample seed = (sample, seed)) := by
  refine ⟨noise_next_eq, noise_amount_pos_iff, ?_, ?_⟩
  · obtain ⟨st, st1, h1, h2, h3, -⟩ := generate_sound_states h i hi
    obtain ⟨-, hn, -⟩ := sample_step_stages h2
    exact ⟨st, st1, _, h1, h3, hn⟩
  · intro sample seed
    constructor
    · intro hpos
      have hgt := pos_of_div_hundred_pos hpos
      have hle : (binary32.div config.noiseAmount (flit 100 1)).le (flit 0 1) = false :=
        not_ge_of_lt hpos
      have e : ∃ d : Flt, noise_stage config sample seed =
          (clamp d (flit 1 1).neg (flit 1 1), noise_next (noise_next seed)) := by
        unfold noise_stage generate_noise_distortion
        simp only [hgt, hle, if_true, Bool.false_eq_true, if_false]
        exact ⟨_, rfl⟩
      obtain ⟨d, hd⟩ := e
      rw [hd]
      refine ⟨rfl, d, rfl, ?_⟩
      rcases clamp_range d with ⟨c1, c2⟩ | c
      · exact Or.inl ⟨c2, c1⟩
      · exact Or.inr c
    · intro hcase
      unfold noise_stage
      rcases hcase with hc | hc
      · simp only [hc, Bool.false_eq_true, if_false]
      · by_cases hgt : config.noiseAmount.gt (flit 0 1) = true
        · simp only [hgt, if_true]
          unfold generate_noise_distortion
          have hle : (binary32.div config.noiseAmount (flit 100 1)).le (flit 0 1) = true := by
            have hnn : config.noiseAmount ≠ Flt.nan := (ne_nan_of_lt hgt).2
            refine le_of_not_lt_flt (by decide) ?_ hc
            intro hn
            have h100 : flit 100 1 = Flt.fin false 13107200 (-17) := by decide
            rw [h100] at hn
            cases hna : config.noiseAmount with
            | nan => exact hnn hna
            | inf s => rw [hna] at hn; simp [Fmt.div] at hn
            | fin s m e =>
              rw [hna] at hn
              have hd : binary32.div (Flt.fin s m e) (Flt.fin false 13107200 (-17)) =
                  binary32.round s m 13107200 (e - (-17)) := by
                simp [Fmt.div]
              rw [hd] at hn
              have := round_reg binary32 binary32_ok s m 13107200 (e - (-17)) (by norm_num)
              rw [hn] at this
              exact this
          simp only [hle, if_true]
        · rw [if_neg hgt]

set_option maxRecDepth 100000 in
/-- The statement of C35 at the default sound with `noiseAmount = 50`, a fresh buffer of
capacity 2 and index 1, with the identity for `sinf` and `cosf`. -/
theorem noise_stream_witness :
    generate_sound ⟨id, id⟩ { pfxr_get_default_sound with noiseAmount := flit 50 1 }
        (pfxr_create_audio_buffer 2) =
      some { samples :=
               Function.update
                 (Function.update (fun _ => Flt.fin false 0 (-149)) 0
                   (Flt.fin false 0 (-149)))
                 1 (Flt.fin false 9493781 (-29)),
             sample_count := 2, capacity := 2 } ∧
    ((1 : Nat) : Int) < 2 ∧
    ∃ (st st1 : synth_t) (sample : Flt),
      state_at ⟨id, id⟩ { pfxr_get_default_sound with noiseAmount := flit 50 1 }
          (pfxr_create_audio_buffer 2) 1 = some st ∧
      state_at ⟨id, id⟩ { pfxr_get_default_sound with noiseAmount := flit 50 1 }
          (pfxr_create_audio_buffer 2) (1 + 1) = some st1 ∧
      st1.noise_seed =
        (noise_stage { pfxr_get_default_sound with noiseAmount := flit 50 1 } sample
          st.noise_seed).2 :=
  ⟨rfl, by decide,
    (noise_stream ⟨id, id⟩ { pfxr_get_default_sound with noiseAmount := flit 50 1 }
      (pfxr_create_audio_buffer 2)
      { samples :=
          Function.update
            (Function.update (fun _ => Flt.fin false 0 (-149)) 0 (Flt.fin false 0 (-149)))
            1 (Flt.fin false 9493781 (-29)),
        sample_count := 2, capacity := 2 }
      rfl 1 (by decide)).2.2.1⟩

/-! ## The filter stage of one iteration -/

/-- One iteration of the sample loop passes a sample through the filter stage: the filters
that the iteration leaves are those that the stage leaves, and the value stored at the index
is the output stage of the sample that the filter stage returns. -/
theorem sample_step_filter {L : libm_t} {config : pfxr_sound_t} {capacity : Int}
    {sample_rate duration : Flt} {i : Int} {st st1 : synth_t}
    (h : sample_step L config capacity sample_rate duration i st = some st1) :
    ∃ s1 : Flt,
      st1.lowpass_filter =
          (filter_stage config st.lowpass_filter st.highpass_filter s1).2.1 ∧
      st1.highpass_filter =
          (filter_stage config st.lowpass_filter st.highpass_filter s1).2.2 ∧
      st1.samples i.toNat =
        output_stage L config sample_rate i st.tremolo_phase
          (filter_stage config st.lowpass_filter st.highpass_filter s1).1 := by
  unfold sample_step at h
  simp only [] at h
  split at h
  · exact absurd h (by simp)
  · rename_i s1 hs1
    split at h
    · exact absurd h (by simp)
    · have hr := Option.some.inj h
      subst hr
      refine ⟨s1, rfl, rfl, ?_⟩
      simp only [Function.update_same]
      rfl

/-! ## The index that the phaser reads -/

/-- The phaser of one iteration of the sample loop, for `phaserDepth > 0`: the delay is
defined, the index `i - delay` that is read when `i >= delay` lies in the buffer, the sample
that enters the filter stage is the sample of the noise stage plus half of the sample read,
and the value stored at index `i` is the output stage of the filtered sample. -/
theorem sample_step_phaser {L : libm_t} {config : pfxr_sound_t} {capacity : Int}
    {sample_rate duration : Flt} {i : Int} {st st1 : synth_t}
    (h : sample_step L config capacity sample_rate duration i st = some st1)
    (hd : config.phaserDepth.gt (flit 0 1) = true) :
    ∃ (d : Int) (s1 : Flt),
      phaser_delay L config sample_rate st.phaser_phase = some d ∧
      (i ≥ d → 0 ≤ i - d ∧ i - d < capacity) ∧
      s1 =
        (if i ≥ d then
          binary32.add
            (noise_stage config
              (oscillator_stage L config sample_rate
                (current_frequency L config sample_rate duration i st.vibrato_phase)
                st.phase).1
              st.noise_seed).1
            (binary32.mul (st.samples (i - d).toNat) (flit 5 10))
        else
          (noise_stage config
            (oscillator_stage L config sample_rate
              (current_frequency L config sample_rate duration i st.vibrato_phase)
              st.phase).1
            st.noise_seed).1) ∧
      st1.samples i.toNat =
        output_stage L config sample_rate i st.tremolo_phase
          (filter_stage config st.lowpass_filter st.highpass_filter s1).1 := by
  unfold sample_step at h
  simp only [] at h
  split at h
  · exact absurd h (by simp)
  · rename_i s1 hs1
    split at h
    · exact absurd h (by simp)
    · have hr := Option.some.inj h
      subst hr
      simp only [hd, if_true] at hs1
      split at hs1
      · exact absurd hs1 (by simp)
      · rename_i d hdel
        refine ⟨d, s1, hdel, ?_, ?_, ?_⟩
        · intro hid
          simp only [hid, if_true] at hs1
          by_cases hc : i - d < 0 ∨ capacity ≤ i - d ∨ 2147483647 < i - d
          · simp only [hc, if_true] at hs1
            exact absurd hs1 (by simp)
          · push_neg at hc
            exact ⟨hc.1, hc.2.1⟩
        · by_cases hid : i ≥ d
          · simp only [hid, if_true] at hs1 ⊢
            by_cases hc : i - d < 0 ∨ capacity ≤ i - d ∨ 2147483647 < i - d
            · simp only [hc, if_true] at hs1
              exact absurd hs1 (by simp)
            · simp only [hc, if_false] at hs1
              exact (Option.some.inj hs1).symm
          · simp only [hid, if_false] at hs1 ⊢
            exact (Option.some.inj hs1).symm
        · simp only [Function.update_same]
          rfl

/-- At the start of the iteration of an index `i <= sample_count`, the samples below `i`
have the values that the render returns. -/
theorem generate_sound_finalized {L : libm_t} {config : pfxr_sound_t}
    {buffer r : pfxr_audio_buffer_t} (h : generate_sound L config buffer = some r)
    (i : Nat) (hi : (i : Int) ≤ r.sample_count) {st : synth_t}
    (hst : state_at L config buffer i = some st) :
    ∀ j : Nat, j < i → st.samples j = r.samples j := by
  unfold generate_sound at h
  simp only [] at h
  split at h
  · exact absurd h (by simp)
  · rename_i total0 ht
    split at h
    · exact absurd h (by simp)
    · rename_i ns hns
      split at h
      · exact absurd h (by simp)
      · rename_i stf hl
        have hr := Option.some.inj h
        subst hr
        simp only [] at hi
        change sample_loop L config buffer.capacity (binary32.ofInt PFXR_SAMPLE_RATE)
          (binary32.add (binary32.add config.attackTime config.sustainTime) config.decayTime)
          (if total0 > buffer.capacity then buffer.capacity else total0).toNat 0
          (initial_state L config buffer ns) = some stf at hl
        generalize hT : (if total0 > buffer.capacity then buffer.capacity else total0) = T
          at hl hi
        unfold state_at at hst
        rw [hns, Option.some_bind] at hst
        have hsplit : T.toNat = i + (T.toNat - i) := by omega
        rw [hsplit, sample_loop_add, hst, Option.some_bind] at hl
        simp only [zero_add] at hl
        obtain ⟨-, b2, -⟩ := sample_loop_samples _ i st stf hl
        intro j hj
        exact (b2 j (Or.inl hj)).symm

/-- A phaser delay that is defined is at least 1 when the divisor
`phaserBaseFrequency + sinf(phaser_phase) * phaserDepth + 1.0f` is above zero and at most
the sample rate. -/
theorem phaser_delay_pos {L : libm_t} {config : pfxr_sound_t} {phaser_phase : Flt} {d : Int}
    (hd : phaser_delay L config (binary32.ofInt PFXR_SAMPLE_RATE) phaser_phase = some d)
    (h0 : (flit 0 1).lt (phaser_divisor L config phaser_phase) = true)
    (h1 : (phaser_divisor L config phaser_phase).le (binary32.ofInt PFXR_SAMPLE_RATE) = true) :
    1 ≤ d := by
  obtain ⟨fsr, vsr⟩ := sample_rate_value
  have hfl : (phaser_divisor L config phaser_phase).IsFloat binary32 := by
    unfold phaser_divisor
    exact add_isFloat binary32 binary32_ok _ _
  unfold phaser_delay at hd
  generalize phaser_divisor L config phaser_phase = D at hd h0 h1 hfl
  rw [zero_eq] at h0
  have hDf : D.IsFin binary32 := by
    rcases hfl with hn | hreg
    · subst hn
      exact absurd h0 (by decide)
    · cases D with
      | nan => exact absurd hreg (by simp [Flt.Reg])
      | inf s =>
        have hsr : binary32.ofInt PFXR_SAMPLE_RATE = Flt.fin false 11289600 (-8) := by decide
        rw [hsr] at h1
        cases s
        · exact absurd h1 (by decide)
        · exact absurd h0 (by decide)
      | fin s m e => exact hreg
  have hpos : 0 < D.toRat := by
    have := (lt_iff_toRat zero_isFin hDf).mp h0
    rwa [zero_toRat] at this
  have hle : D.toRat ≤ 44100 := by
    have := (le_iff_toRat hDf fsr).mp h1
    rwa [vsr] at this
  have hr := div_rounded binary32 fsr hDf (ne_of_gt hpos)
  rw [vsr] at hr
  have hreg := rounded_reg binary32_ok hr
  have f1 : (Flt.fin false 8388608 (-23)).IsFin binary32 := by decide
  have v1 : (Flt.fin false 8388608 (-23)).toRat = 1 := by
    rw [toRat_fin]
    simp only [sq, if_false, Bool.false_eq_true, one_mul]
    rw [show (-23 : Int) = -((23 : Nat) : Int) by norm_num, zpow_neg, zpow_natCast]
    norm_num
  have hm := rounded_mono binary32_ok (rounded_self binary32_ok f1) hr (by
    rw [v1, le_div_iff₀ hpos]
    linarith)
  rw [ev_of_isFin f1, v1] at hm
  obtain ⟨ht, -, -⟩ := toInt32_some hd
  generalize binary32.div (binary32.ofInt PFXR_SAMPLE_RATE) D = q at hm hreg ht
  cases q with
  | nan => exact absurd ht (by simp [Flt.trunc])
  | inf s => exact absurd ht (by simp [Flt.trunc])
  | fin s m e =>
    have hqf : (Flt.fin s m e).IsFin binary32 := hreg
    rw [ev_of_isFin hqf] at hm
    have hnn : (Flt.fin s m e).NonNeg := sign_of_nonneg (by linarith)
    rw [trunc_floor hnn ht]
    exact Int.le_floor.mpr (by exact_mod_cast hm)

set_option maxRecDepth 100000 in
/-- A divisor above the sample rate makes the phaser read the current index: the default
sound with `phaserDepth = 1` and `phaserBaseFrequency = 50000`, rendered into a buffer of capacity 1
with a `sinf` that maps 0 to 0, renders index 0 with the delay `(int)(44100 / 50001) = 0`,
so that the phaser reads index `j = 0 - 0 = 0`, the current index. -/
theorem phaser_reads_earlier_counterexample :
    ({ pfxr_get_default_sound with
        phaserDepth := flit 1 1, phaserBaseFrequency := flit 50000 1 } :
      pfxr_sound_t).phaserDepth.gt (flit 0 1) = true ∧
    ∀ L : libm_t, L.sinf (flit 0 1) = flit 0 1 →
      ∃ (r : pfxr_audio_buffer_t) (st : synth_t),
        generate_sound L
            { pfxr_get_default_sound with
              phaserDepth := flit 1 1, phaserBaseFrequency := flit 50000 1 }
            (pfxr_create_audio_buffer 1) = some r ∧
        r.sample_count = 1 ∧
        state_at L
            { pfxr_get_default_sound with
              phaserDepth := flit 1 1, phaserBaseFrequency := flit 50000 1 }
            (pfxr_create_audio_buffer 1) 0 = some st ∧
        phaser_delay L
            { pfxr_get_default_sound with
              phaserDepth := flit 1 1, phaserBaseFrequency := flit 50000 1 }
            (binary32.ofInt PFXR_SAMPLE_RATE) st.phaser_phase = some 0 ∧
        phaser_index L
            { pfxr_get_default_sound with
              phaserDepth := flit 1 1, phaserBaseFrequency := flit 50000 1 }
            (binary32.ofInt PFXR_SAMPLE_RATE) 0 st.phaser_phase = some (some 0) := by
  refine ⟨by decide, ?_⟩
  intro L hL
  have e : L = ⟨fun x => if x = flit 0 1 then flit 0 1 else L.sinf x, L.cosf⟩ := by
    cases L with
    | mk s c =>
      simp only [libm_t.mk.injEq, and_true]
      funext x
      by_cases hx : x = flit 0 1
      · subst hx
        rw [if_pos rfl]
        exact hL
      · rw [if_neg hx]
  rw [e]
  exact ⟨_, _, rfl, rfl, rfl, rfl, rfl⟩

/-- The phaser with a divisor in range: in a render with defined behaviour of
a parameter set with `phaserDepth > 0`, the iteration of every rendered index `i` computes
the delay `d = (int)(44100 / (phaserBaseFrequency + sinf(phaser_phase) * phaserDepth + 1))`
and, when `i >= d`, adds half of the buffer sample at index `j = i - d`, which lies in the
buffer, to the sample of the noise stage. When the divisor is above zero and at most 44100,
the delay is at least 1, so that `0 <= j < i`, and the sample read is the final sample of
index `j` in the rendered buffer, never that of the current or of a future index. -/
theorem phaser_reads_earlier (L : libm_t) (config : pfxr_sound_t)
    (buffer r : pfxr_audio_buffer_t) (h : generate_sound L config buffer = some r)
    (i : Nat) (hi : (i : Int) < r.sample_count)
    (hd : config.phaserDepth.gt (flit 0 1) = true) :
    ∃ (st : synth_t) (d : Int) (s1 : Flt),
      state_at L config buffer i = some st ∧
      phaser_delay L config (binary32.ofInt PFXR_SAMPLE_RATE) st.phaser_phase = some d ∧
      phaser_index L config (binary32.ofInt PFXR_SAMPLE_RATE) (i : Int) st.phaser_phase =
        some (if (i : Int) ≥ d then some ((i : Int) - d) else none) ∧
      ((i : Int) ≥ d → 0 ≤ (i : Int) - d ∧ (i : Int) - d < buffer.capacity) ∧
      s1 =
        (if (i : Int) ≥ d then
          binary32.add
            (noise_stage config
              (oscillator_stage L config (binary32.ofInt PFXR_SAMPLE_RATE)
                (current_frequency L config (binary32.ofInt PFXR_SAMPLE_RATE)
                  (binary32.add (binary32.add config.attackTime config.sustainTime)
                    config.decayTime)
                  (i : Int) st.vibrato_phase)
                st.phase).1
              st.noise_seed).1
            (binary32.mul (st.samples ((i : Int) - d).toNat) (flit 5 10))
        else
          (noise_stage config
            (oscillator_stage L config (binary32.ofInt PFXR_SAMPLE_RATE)
              (current_frequency L config (binary32.ofInt PFXR_SAMPLE_RATE)
                (binary32.add (binary32.add config.attackTime config.sustainTime)
                  config.decayTime)
                (i : Int) st.vibrato_phase)
              st.phase).1
            st.noise_seed).1) ∧
      r.samples i =
        output_stage L config (binary32.ofInt PFXR_SAMPLE_RATE) (i : Int) st.tremolo_phase
          (filter_stage config st.lowpass_filter st.highpass_filter s1).1 ∧
      (((flit 0 1).lt (phaser_divisor L config st.phaser_phase) = true ∧
          (phaser_divisor L config st.phaser_phase).le (binary32.ofInt PFXR_SAMPLE_RATE) =
            true) →
        1 ≤ d ∧
        ((i : Int) ≥ d →
          0 ≤ (i : Int) - d ∧ (i : Int) - d < (i : Int) ∧
            st.samples ((i : Int) - d).toNat = r.samples ((i : Int) - d).toNat)) := by
  obtain ⟨st, st1, h1, h2, h3, h4⟩ := generate_sound_states h i hi
  obtain ⟨d, s1, a1, a2, a3, a4⟩ := sample_step_phaser h2 hd
  refine ⟨st, d, s1, h1, a1, ?_, a2, a3, ?_, ?_⟩
  · unfold phaser_index
    rw [if_pos hd, a1]
    simp only []
    split_ifs <;> rfl
  · rw [h4, ← a4]
    rfl
  · rintro ⟨c0, c1⟩
    have hd1 := phaser_delay_pos a1 c0 c1
    refine ⟨hd1, fun hid => ⟨(a2 hid).1, by omega, ?_⟩⟩
    exact generate_sound_finalized h i (le_of_lt hi) h1 _ (by omega)

set_option maxRecDepth 100000 in
/-- The phaser with a divisor in range, at the default sound with `phaserDepth = 1`, a
fresh buffer of capacity 1 and index 0, with the identity for `sinf` and `cosf`: the divisor is 101 and the
delay is 436. -/
theorem phaser_reads_earlier_witness :
    generate_sound ⟨id, id⟩ { pfxr_get_default_sound with phaserDepth := flit 1 1 }
        (pfxr_create_audio_buffer 1) =
      some { samples := Function.update (fun _ => Flt.fin false 0 (-149)) 0
               (Flt.fin false 0 (-149)),
             sample_count := 1, capacity := 1 } ∧
    ((0 : Nat) : Int) < 1 ∧
    ({ pfxr_get_default_sound with phaserDepth := flit 1 1 } :
      pfxr_sound_t).phaserDepth.gt (flit 0 1) = true ∧
    ∃ (st : synth_t) (d : Int),
      state_at ⟨id, id⟩ { pfxr_get_default_sound with phaserDepth := flit 1 1 }
          (pfxr_create_audio_buffer 1) 0 = some st ∧
      phaser_delay ⟨id, id⟩ { pfxr_get_default_sound with phaserDepth := flit 1 1 }
          (binary32.ofInt PFXR_SAMPLE_RATE) st.phaser_phase = some d ∧
      phaser_index ⟨id, id⟩ { pfxr_get_default_sound with phaserDepth := flit 1 1 }
          (binary32.ofInt PFXR_SAMPLE_RATE) ((0 : Nat) : Int) st.phaser_phase =
        some (if ((0 : Nat) : Int) ≥ d then some (((0 : Nat) : Int) - d) else none) :=
  ⟨rfl, by decide, by decide,
    (phaser_reads_earlier ⟨id, id⟩ { pfxr_get_default_sound with phaserDepth := flit 1 1 }
      (pfxr_create_audio_buffer 1)
      { samples := Function.update (fun _ => Flt.fin false 0 (-149)) 0
          (Flt.fin false 0 (-149)),
        sample_count := 1, capacity := 1 }
      rfl 0 (by decide) (by decide)).elim
      fun st hst => hst.elim fun d hd => hd.elim fun _ hs => ⟨st, d, hs.1, hs.2.1, hs.2.2.1⟩⟩

/-! ## C31: the phase of the oscillator -/

/-- A float below `K * 2^E`, for a significand `K` above `2^23`, is at most
`(K - 1) * 2^E`. -/
theorem float_lt_grid {a : Flt} (ha : a.IsFin binary32) (K : Nat) (E : Int)
    (hK : 2 ^ 23 + 1 ≤ K) (h : a.toRat < (K : ℚ) * (2 : ℚ) ^ E) :
    a.toRat ≤ ((K : ℚ) - 1) * (2 : ℚ) ^ E := by
  have hKq : ((2 : ℚ) ^ 23 + 1) ≤ (K : ℚ) := by exact_mod_cast hK
  have hE : (0 : ℚ) < (2 : ℚ) ^ E := zpow_two_pos E
  cases a with
  | nan => exact absurd ha id
  | inf s => exact absurd ha id
  | fin s m e =>
    have hc : binary32.canon m e := ha
    rw [toRat_fin] at h ⊢
    cases s
    · simp only [sq, Bool.false_eq_true, if_false, one_mul] at h ⊢
      by_cases he : E ≤ e
      · obtain ⟨n, hn⟩ := Int.eq_ofNat_of_zero_le (sub_nonneg.mpr he)
        have hpow : (2 : ℚ) ^ e = (2 : ℚ) ^ n * (2 : ℚ) ^ E := by
          rw [← zpow_natCast, ← zpow_add₀ (by norm_num : (2 : ℚ) ≠ 0), ← hn]
          congr 1
          ring
        rw [hpow, ← mul_assoc] at h ⊢
        have h1 : ((m : ℚ) * (2 : ℚ) ^ n) < (K : ℚ) := lt_of_mul_lt_mul_right h hE.le
        have h2 : m * 2 ^ n < K := by exact_mod_cast h1
        have h3 : ((m * 2 ^ n : Nat) : ℚ) ≤ (K : ℚ) - 1 := by
          have : m * 2 ^ n + 1 ≤ K := h2
          have : ((m * 2 ^ n + 1 : Nat) : ℚ) ≤ (K : ℚ) := by exact_mod_cast this
          push_cast at this ⊢
          linarith
        push_cast at h3
        exact mul_le_mul_of_nonneg_right h3 hE.le
      · push_neg at he
        have hm : (m : ℚ) < (2 : ℚ) ^ 24 := by
          have := hc.1
          simp only [binary32] at this
          exact_mod_cast this
        have hle : (2 : ℚ) ^ e ≤ (2 : ℚ) ^ (E - 1) := zpow_two_le (by omega)
        have hpow : (2 : ℚ) ^ (E - 1) = (2 : ℚ) ^ E / 2 := by
          rw [zpow_sub₀ (by norm_num : (2 : ℚ) ≠ 0)]
          norm_num
        have h1 : (m : ℚ) * (2 : ℚ) ^ e ≤ (2 : ℚ) ^ 24 * ((2 : ℚ) ^ E / 2) := by
          rw [← hpow]
          exact mul_le_mul hm.le hle (zpow_two_pos e).le (by positivity)
        have h2 : (2 : ℚ) ^ 24 * ((2 : ℚ) ^ E / 2) = (2 : ℚ) ^ 23 * (2 : ℚ) ^ E := by ring
        have h3 : (2 : ℚ) ^ 23 * (2 : ℚ) ^ E ≤ ((K : ℚ) - 1) * (2 : ℚ) ^ E :=
          mul_le_mul_of_nonneg_right (by linarith) hE.le
        linarith
    · simp only [sq, if_true] at h ⊢
      have h0 : (0 : ℚ) ≤ (m : ℚ) * (2 : ℚ) ^ e := by positivity
      have h3 : 0 ≤ ((K : ℚ) - 1) * (2 : ℚ) ^ E :=
        mul_nonneg (by linarith [show (0 : ℚ) ≤ (2 : ℚ) ^ 23 by positivity]) hE.le
      linarith

/-- A float strictly between two finite floats is finite. -/
theorem isFin_of_lt_lt {a lo hi : Flt} (ha : a.IsFloat binary32) (hlo : lo.IsFin binary32)
    (hhi : hi.IsFin binary32) (h1 : lo.lt a = true) (h2 : a.lt hi = true) :
    a.IsFin binary32 := by
  rcases ha with hn | hreg
  · subst hn
    exact absurd h2 (by simp [Flt.lt])
  · cases a with
    | nan => exact absurd hreg (by simp [Flt.Reg])
    | inf s =>
      cases lo with
      | nan => exact absurd hlo id
      | inf t => exact absurd hlo id
      | fin t m e =>
        cases hi with
        | nan => exact absurd hhi id
        | inf u => exact absurd hhi id
        | fin u m1 e1 =>
          cases s
          · exact absurd h2 (by simp [Flt.lt])
          · exact absurd h1 (by simp [Flt.lt])
    | fin s m e => exact hreg

/-- The current frequency of a sample is a float when `frequency` is. -/
theorem current_frequency_isFloat (L : libm_t) (config : pfxr_sound_t)
    (sample_rate duration : Flt) (i : Int) (vibrato_phase : Flt)
    (hf : config.frequency.IsFloat binary32) :
    (current_frequency L config sample_rate duration i vibrato_phase).IsFloat binary32 := by
  unfold current_frequency swept_frequency
  simp only []
  split_ifs
  all_goals first
    | exact add_isFloat binary32 binary32_ok _ _
    | exact hf

/-- One step of the oscillator keeps the phase in `[0, 1)` when the current frequency, if
above zero, is below the sample rate. -/
theorem oscillator_phase_step (L : libm_t) (config : pfxr_sound_t) {cf phase : Flt}
    (hcf : cf.IsFloat binary32)
    (hlt : cf.gt (flit 0 1) = true → cf.lt (binary32.ofInt PFXR_SAMPLE_RATE) = true)
    (hp : phase.IsFin binary32 ∧ 0 ≤ phase.toRat ∧ phase.toRat < 1) :
    (oscillator_stage L config (binary32.ofInt PFXR_SAMPLE_RATE) cf phase).2.IsFin binary32 ∧
      0 ≤ (oscillator_stage L config (binary32.ofInt PFXR_SAMPLE_RATE) cf phase).2.toRat ∧
      (oscillator_stage L config (binary32.ofInt PFXR_SAMPLE_RATE) cf phase).2.toRat < 1 := by
  obtain ⟨fsr, vsr⟩ := sample_rate_value
  obtain ⟨pf, p0, p1⟩ := hp
  unfold oscillator_stage
  simp only []
  by_cases hg : cf.gt (flit 0 1) = true
  · have hl := hlt hg
    simp only [hg, if_true, Bool.true_and]
    unfold Flt.gt at hg
    rw [zero_eq] at hg
    have hcfin : cf.IsFin binary32 := isFin_of_lt_lt hcf zero_isFin fsr hg hl
    have c0 : 0 < cf.toRat := by
      have := (lt_iff_toRat zero_isFin hcfin).mp hg
      rwa [zero_toRat] at this
    have c1 : cf.toRat < 44100 := by
      have := (lt_iff_toRat hcfin fsr).mp hl
      rwa [vsr] at this
    have e8 : (2 : ℚ) ^ (-8 : Int) = 1 / 256 := by
      rw [show (-8 : Int) = -((8 : Nat) : Int) by norm_num, zpow_neg, zpow_natCast]
      norm_num
    have e24 : (2 : ℚ) ^ (-24 : Int) = 1 / 16777216 := by
      rw [show (-24 : Int) = -((24 : Nat) : Int) by norm_num, zpow_neg, zpow_natCast]
      norm_num
    have e23 : (2 : ℚ) ^ (-23 : Int) = 1 / 8388608 := by
      rw [show (-23 : Int) = -((23 : Nat) : Int) by norm_num, zpow_neg, zpow_natCast]
      norm_num
    have c2 : cf.toRat ≤ 11289599 / 256 := by
      have := float_lt_grid hcfin 11289600 (-8) (by norm_num) (by rw [e8]; norm_num; linarith)
      rw [e8] at this
      norm_num at this
      linarith
    have p2 : phase.toRat ≤ 16777215 / 16777216 := by
      have := float_lt_grid pf 16777216 (-24) (by norm_num) (by rw [e24]; norm_num; linarith)
      rw [e24] at this
      norm_num at this
      linarith
    -- the increment
    have fP : (Flt.fin false 11289599 (-8)).IsFin binary32 := by decide
    have vP : (Flt.fin false 11289599 (-8)).toRat = 11289599 / 256 := by
      rw [toRat_fin]
      simp only [sq, if_false, Bool.false_eq_true, one_mul]
      rw [e8]
      norm_num
    have fI : (Flt.fin false 16777215 (-24)).IsFin binary32 := by decide
    have vI : (Flt.fin false 16777215 (-24)).toRat = 16777215 / 16777216 := by
      rw [toRat_fin]
      simp only [sq, if_false, Bool.false_eq_true, one_mul]
      rw [e24]
      norm_num
    have hdP : binary32.div (Flt.fin false 11289599 (-8)) (binary32.ofInt PFXR_SAMPLE_RATE) =
        Flt.fin false 16777215 (-24) := by decide
    have hdZ : binary32.div (Flt.fin false 0 (-149)) (binary32.ofInt PFXR_SAMPLE_RATE) =
        Flt.fin false 0 (-149) := by decide
    have hsr0 : (binary32.ofInt PFXR_SAMPLE_RATE).toRat ≠ 0 := by rw [vsr]; norm_num
    have rI := div_rounded binary32 hcfin fsr hsr0
    have rP := div_rounded binary32 fP fsr hsr0
    have rZ := div_rounded binary32 zero_isFin fsr hsr0
    rw [hdP] at rP
    rw [hdZ] at rZ
    rw [vsr] at rI rP rZ
    obtain ⟨fi, i0, i1⟩ := rounded_between_rounded binary32_ok rI rZ rP zero_isFin fI
      (by rw [zero_toRat]; apply div_le_div_of_nonneg_right c0.le; norm_num)
      (by rw [vP]; apply div_le_div_of_nonneg_right c2; norm_num)
    rw [zero_toRat] at i0
    rw [vI] at i1
    -- the sum
    have fS : (Flt.fin false 16777215 (-23)).IsFin binary32 := by decide
    have vS : (Flt.fin false 16777215 (-23)).toRat = 16777215 / 8388608 := by
      rw [toRat_fin]
      simp only [sq, if_false, Bool.false_eq_true, one_mul]
      rw [e23]
      norm_num
    have rS := add_rounded binary32 pf fi
    obtain ⟨fs, s0, s1⟩ := rounded_between binary32_ok rS zero_isFin fS
      (by rw [zero_toRat]; linarith) (by rw [vS]; linarith)
    rw [zero_toRat] at s0
    rw [vS] at s1
    have f1 : (flit 1 1).IsFin binary32 := by decide
    have v1 : (flit 1 1).toRat = 1 := by
      rw [one_eq, toRat_fin]
      simp only [sq, if_false, Bool.false_eq_true, one_mul]
      rw [e23]
      norm_num
    by_cases hge : (binary32.add phase
        (binary32.div cf (binary32.ofInt PFXR_SAMPLE_RATE))).ge (flit 1 1) = true
    · simp only [hge, if_true]
      unfold Flt.ge at hge
      have g1 := (le_iff_toRat f1 fs).mp hge
      rw [v1] at g1
      have fT : (Flt.fin false 16777214 (-24)).IsFin binary32 := by decide
      have vT : (Flt.fin false 16777214 (-24)).toRat = 16777214 / 16777216 := by
        rw [toRat_fin]
        simp only [sq, if_false, Bool.false_eq_true, one_mul]
        rw [e24]
        norm_num
      have rT := sub_rounded binary32 fs f1
      rw [v1] at rT
      obtain ⟨ft, t0, t1⟩ := rounded_between binary32_ok rT zero_isFin fT
        (by rw [zero_toRat]; linarith) (by rw [vT]; linarith)
      rw [zero_toRat] at t0
      rw [vT] at t1
      exact ⟨ft, t0, by linarith⟩
    · have hge2 : (binary32.add phase
          (binary32.div cf (binary32.ofInt PFXR_SAMPLE_RATE))).ge (flit 1 1) = false := by
        simpa using hge
      simp only [hge2, Bool.false_eq_true, if_false]
      refine ⟨fs, s0, ?_⟩
      unfold Flt.ge at hge
      have := (le_iff_toRat f1 fs).not.mp hge
      rw [v1] at this
      linarith
  · have hg2 : cf.gt (flit 0 1) = false := by simpa using hg
    simp only [hg2, Bool.false_eq_true, if_false, Bool.false_and]
    exact ⟨pf, p0, p1⟩

/-- The state in which the iteration of sample `k + 1` begins is the state that the
iteration of sample `k` leaves. -/
theorem state_at_succ (L : libm_t) (config : pfxr_sound_t) (buffer : pfxr_audio_buffer_t)
    (k : Nat) :
    state_at L config buffer (k + 1) =
      (state_at L config buffer k).bind fun st =>
        sample_step L config buffer.capacity (binary32.ofInt PFXR_SAMPLE_RATE)
          (binary32.add (binary32.add config.attackTime config.sustainTime) config.decayTime)
          (k : Int) st := by
  unfold state_at
  cases initial_noise_seed config with
  | none => rfl
  | some ns =>
    simp only [Option.some_bind]
    rw [sample_loop_add]
    congr 1
    funext st
    simp only [zero_add, sample_loop]
    cases sample_step L config buffer.capacity (binary32.ofInt PFXR_SAMPLE_RATE)
      (binary32.add (binary32.add config.attackTime config.sustainTime) config.decayTime)
      (k : Int) st <;> rfl

/-- The phase is in `[0, 1)` when the iteration of sample `i` begins, provided that the
current frequency of every earlier sample, if above zero, is below the sample rate. -/
theorem state_at_phase (L : libm_t) (config : pfxr_sound_t) (buffer : pfxr_audio_buffer_t)
    (hfr : config.frequency.IsFloat binary32) (i : Nat)
    (hf : ∀ (k : Nat) (st : synth_t), k < i → state_at L config buffer k = some st →
      (current_frequency L config (binary32.ofInt PFXR_SAMPLE_RATE)
          (binary32.add (binary32.add config.attackTime config.sustainTime) config.decayTime)
          (k : Int) st.vibrato_phase).gt (flit 0 1) = true →
      (current_frequency L config (binary32.ofInt PFXR_SAMPLE_RATE)
          (binary32.add (binary32.add config.attackTime config.sustainTime) config.decayTime)
          (k : Int) st.vibrato_phase).lt (binary32.ofInt PFXR_SAMPLE_RATE) = true) :
    ∀ st : synth_t, state_at L config buffer i = some st →
      st.phase.IsFin binary32 ∧ 0 ≤ st.phase.toRat ∧ st.phase.toRat < 1 := by
  induction i with
  | zero =>
    intro st hst
    unfold state_at at hst
    cases hns : initial_noise_seed config with
    | none => rw [hns] at hst; exact absurd hst (by simp)
    | some ns =>
      rw [hns, Option.some_bind, sample_loop] at hst
      have := Option.some.inj hst
      subst this
      simp only [initial_state]
      rw [zero_eq]
      exact ⟨zero_isFin, by rw [zero_toRat], by rw [zero_toRat]; norm_num⟩
  | succ k ih =>
    intro st1 hst1
    rw [state_at_succ] at hst1
    cases hk : state_at L config buffer k with
    | none => rw [hk] at hst1; exact absurd hst1 (by simp)
    | some st =>
      rw [hk, Option.some_bind] at hst1
      have hph := ih (fun j s hj => hf j s (by omega)) st hk
      obtain ⟨e1, -⟩ := sample_step_stages hst1
      rw [e1]
      exact oscillator_phase_step L config
        (current_frequency_isFloat L config _ _ _ _ hfr) (hf k st (by omega) hk) hph

set_option maxRecDepth 100000 in
/-- Claim C31 fails for a frequency above the sample rate: the default sound with
`frequency = 100000`, rendered into a buffer of capacity 2, whatever `sinf` and `cosf`
compute, renders two samples, and the phase passed to the waveform at sample 1 is
`10633178 * 2^-23`, about 1.2676, which is not below 1: the increment `100000 / 44100` is
above 2 and the wrap subtracts 1 only once. -/
theorem oscillator_phase_counterexample :
    (∀ L : libm_t, ∃ (r : pfxr_audio_buffer_t) (st : synth_t),
      generate_sound L { pfxr_get_default_sound with frequency := flit 100000 1 }
          (pfxr_create_audio_buffer 2) = some r ∧
      r.sample_count = 2 ∧
      state_at L { pfxr_get_default_sound with frequency := flit 100000 1 }
          (pfxr_create_audio_buffer 2) 1 = some st ∧
      st.phase = Flt.fin false 10633178 (-23)) ∧
    (flit 1 1).le (Flt.fin false 10633178 (-23)) = true :=
  ⟨fun _ => ⟨_, _, rfl, rfl, rfl, rfl⟩, by decide⟩

/-- Claim C31, amended by a bound on the current frequency: in a render with defined
behaviour of a parameter set whose `frequency` is a float, the phase starts at 0, and at
every rendered sample `i` such that the current frequency of each earlier sample, where it
is above zero, is below 44100, the phase passed to the waveform lies in `[0, 1)`. On a
sample whose current frequency is above zero the waveform is evaluated at that phase and the
phase advances by the float quotient `current frequency / 44100`, minus 1 when the sum
reaches 1; on any other sample the phase stays as it is. -/
theorem oscillator_phase_wraps (L : libm_t) (config : pfxr_sound_t)
    (buffer r : pfxr_audio_buffer_t) (h : generate_sound L config buffer = some r)
    (i : Nat) (hi : (i : Int) < r.sample_count)
    (hfr : config.frequency.IsFloat binary32)
    (hf : ∀ (k : Nat) (st : synth_t), k < i → state_at L config buffer k = some st →
      (current_frequency L config (binary32.ofInt PFXR_SAMPLE_RATE)
          (binary32.add (binary32.add config.attackTime config.sustainTime) config.decayTime)
          (k : Int) st.vibrato_phase).gt (flit 0 1) = true →
      (current_frequency L config (binary32.ofInt PFXR_SAMPLE_RATE)
          (binary32.add (binary32.add config.attackTime config.sustainTime) config.decayTime)
          (k : Int) st.vibrato_phase).lt (binary32.ofInt PFXR_SAMPLE_RATE) = true) :
    (∃ st0 : synth_t, state_at L config buffer 0 = some st0 ∧ st0.phase = flit 0 1) ∧
    ∃ (st st1 : synth_t) (cf : Flt),
      state_at L config buffer i = some st ∧ state_at L config buffer (i + 1) = some st1 ∧
      cf =
        current_frequency L config (binary32.ofInt PFXR_SAMPLE_RATE)
          (binary32.add (binary32.add config.attackTime config.sustainTime) config.decayTime)
          (i : Int) st.vibrato_phase ∧
      st.phase.IsFin binary32 ∧ 0 ≤ st.phase.toRat ∧ st.phase.toRat < 1 ∧
      (cf.gt (flit 0 1) = true →
        (oscillator_stage L config (binary32.ofInt PFXR_SAMPLE_RATE) cf st.phase).1 =
          generate_waveform L config.waveForm st.phase ∧
        st1.phase =
          (if (binary32.add st.phase
                (binary32.div cf (binary32.ofInt PFXR_SAMPLE_RATE))).ge (flit 1 1) then
            binary32.sub
              (binary32.add st.phase (binary32.div cf (binary32.ofInt PFXR_SAMPLE_RATE)))
              (flit 1 1)
          else binary32.add st.phase (binary32.div cf (binary32.ofInt PFXR_SAMPLE_RATE)))) ∧
      (cf.gt (flit 0 1) = false → st1.phase = st.phase) := by
  obtain ⟨st, st1, h1, h2, h3, -⟩ := generate_sound_states h i hi
  obtain ⟨e1, -⟩ := sample_step_stages h2
  constructor
  · unfold state_at at h1 ⊢
    cases hns : initial_noise_seed config with
    | none => rw [hns] at h1; exact absurd h1 (by simp)
    | some ns => exact ⟨_, rfl, rfl⟩
  · obtain ⟨a1, a2, a3⟩ := state_at_phase L config buffer hfr i hf st h1
    refine ⟨st, st1, _, h1, h3, rfl, a1, a2, a3, ?_, ?_⟩
    · intro hg
      rw [e1]
      unfold oscillator_stage
      simp only [hg, if_true, Bool.true_and]
      exact ⟨trivial, trivial⟩
    · intro hg
      rw [e1]
      unfold oscillator_stage
      simp only [hg, Bool.false_eq_true, if_false, Bool.false_and]

set_option maxRecDepth 100000 in
/-- The statement of C31 at the default sound, a fresh buffer of capacity 2 and index 1,
with the identity for `sinf` and `cosf`: the current frequency of sample 0 is 700. -/
theorem oscillator_phase_wraps_witness :
    generate_sound ⟨id, id⟩ pfxr_get_default_sound (pfxr_create_audio_buffer 2) =
      some { samples :=
               Function.update
                 (Function.update (fun _ => Flt.fin false 0 (-149)) 0
                   (Flt.fin false 0 (-149)))
                 1 (Flt.fin false 13385951 (-28)),
             sample_count := 2, capacity := 2 } ∧
    ((1 : Nat) : Int) < 2 ∧
    pfxr_get_default_sound.frequency.IsFloat binary32 ∧
    (∀ (k : Nat) (st : synth_t), k < 1 →
      state_at ⟨id, id⟩ pfxr_get_default_sound (pfxr_create_audio_buffer 2) k = some st →
      (current_frequency ⟨id, id⟩ pfxr_get_default_sound (binary32.ofInt PFXR_SAMPLE_RATE)
          (binary32.add
            (binary32.add pfxr_get_default_sound.attackTime
              pfxr_get_default_sound.sustainTime)
            pfxr_get_default_sound.decayTime)
          (k : Int) st.vibrato_phase).gt (flit 0 1) = true →
      (current_frequency ⟨id, id⟩ pfxr_get_default_sound (binary32.ofInt PFXR_SAMPLE_RATE)
          (binary32.add
            (binary32.add pfxr_get_default_sound.attackTime
              pfxr_get_default_sound.sustainTime)
            pfxr_get_default_sound.decayTime)
          (k : Int) st.vibrato_phase).lt (binary32.ofInt PFXR_SAMPLE_RATE) = true) ∧
    ∃ st0 : synth_t,
      state_at ⟨id, id⟩ pfxr_get_default_sound (pfxr_create_audio_buffer 2) 0 = some st0 ∧
      st0.phase = flit 0 1 :=
  have hf : ∀ (k : Nat) (st : synth_t), k < 1 →
      state_at ⟨id, id⟩ pfxr_get_default_sound (pfxr_create_audio_buffer 2) k = some st →
      (current_frequency ⟨id, id⟩ pfxr_get_default_sound (binary32.ofInt PFXR_SAMPLE_RATE)
          (binary32.add
            (binary32.add pfxr_get_default_sound.attackTime
              pfxr_get_default_sound.sustainTime)
            pfxr_get_default_sound.decayTime)
          (k : Int) st.vibrato_phase).gt (flit 0 1) = true →
      (current_frequency ⟨id, id⟩ pfxr_get_default_sound (binary32.ofInt PFXR_SAMPLE_RATE)
          (binary32.add
            (binary32.add pfxr_get_default_sound.attackTime
              pfxr_get_default_sound.sustainTime)
            pfxr_get_default_sound.decayTime)
          (k : Int) st.vibrato_phase).lt (binary32.ofInt PFXR_SAMPLE_RATE) = true := by
    intro k st hk _ _
    have hk0 : k = 0 := by omega
    subst hk0
    rfl
  ⟨rfl, by decide, Or.inr (isFin_reg (by decide)), hf,
    (oscillator_phase_wraps ⟨id, id⟩ pfxr_get_default_sound (pfxr_create_audio_buffer 2)
      { samples :=
          Function.update
            (Function.update (fun _ => Flt.fin false 0 (-149)) 0 (Flt.fin false 0 (-149)))
            1 (Flt.fin false 13385951 (-28)),
        sample_count := 2, capacity := 2 }
      rfl 1 (by decide) (Or.inr (isFin_reg (by decide))) hf).1⟩

/-! ## C37: the pitch floor of the templates -/

/-- A draw between finite bounds `lo <= hi` of magnitude at most `2^20` is finite, not below
`lo`, and not above the float sum `lo + (hi - lo)`, in which the difference is at least
zero. -/
theorem draw_lower (rng : pfxr_random_t) {lo hi : Flt} (hlo : lo.IsFin binary32)
    (hhi : hi.IsFin binary32) (hle : lo.toRat ≤ hi.toRat) (hb1 : -1048576 ≤ lo.toRat)
    (hb2 : hi.toRat ≤ 1048576) :
    (pfxr_random_float rng lo hi).1.IsFin binary32 ∧
      lo.toRat ≤ (pfxr_random_float rng lo hi).1.toRat ∧
      (binary32.sub hi lo).IsFin binary32 ∧
      (binary32.add lo (binary32.sub hi lo)).IsFin binary32 ∧
      (pfxr_random_float rng lo hi).1.toRat ≤
        (binary32.add lo (binary32.sub hi lo)).toRat := by
  have hok := binary32_ok
  have hlt : hi.lt lo = false := by
    rw [Bool.eq_false_iff]
    intro h
    have := (lt_iff_toRat hhi hlo).mp h
    linarith
  have hmin : fmin lo hi = lo := by simp [fmin, hlt]
  have hmax : fmax lo hi = hi := by simp [fmax, hlt]
  have fB : (Flt.fin false 8388608 (-2)).IsFin binary32 := by decide
  have vB : (Flt.fin false 8388608 (-2)).toRat = 2097152 := by
    rw [toRat_fin]; norm_num [sq]
  have fC : (Flt.fin false 8388608 (-1)).IsFin binary32 := by decide
  have vC : (Flt.fin false 8388608 (-1)).toRat = 4194304 := by
    rw [toRat_fin]; norm_num [sq]
  have hd := sub_rounded binary32 hhi hlo
  obtain ⟨d1, d2, d3⟩ := rounded_between hok hd zero_isFin fB
    (by rw [zero_toRat]; linarith) (by rw [vB]; linarith)
  rw [zero_toRat] at d2
  rw [vB] at d3
  obtain ⟨b1, b2, b3⟩ := pfxr_random_float_bounds rng lo hi hlo hhi
    (by rw [hmin, hmax]; exact d1)
  rw [hmin] at b2
  rw [hmin, hmax] at b3
  have hs := add_rounded binary32 hlo d1
  obtain ⟨s1, -, -⟩ := rounded_between hok hs hlo fC (by linarith) (by rw [vC]; linarith)
  have hv := isFin_of_ev_between b1 hlo s1 b2 b3
  rw [ev_of_isFin hlo, ev_of_isFin hv] at b2
  rw [ev_of_isFin hv, ev_of_isFin s1] at b3
  exact ⟨hv, b2, d1, s1, b3⟩

/-- A float between two finite floats, as C compares them, is finite and its value lies
between theirs. -/
theorem isFin_of_le_le {a lo hi : Flt} (ha : a.IsFloat binary32) (hlo : lo.IsFin binary32)
    (hhi : hi.IsFin binary32) (h1 : lo.le a = true) (h2 : a.le hi = true) :
    a.IsFin binary32 ∧ lo.toRat ≤ a.toRat ∧ a.toRat ≤ hi.toRat := by
  have hf : a.IsFin binary32 := by
    rcases ha with hn | hreg
    · subst hn
      exact absurd h2 (by simp [Flt.le])
    · cases a with
      | nan => exact absurd hreg (by simp [Flt.Reg])
      | inf s =>
        cases lo with
        | nan => exact absurd hlo id
        | inf t => exact absurd hlo id
        | fin t m e =>
          cases hi with
          | nan => exact absurd hhi id
          | inf u => exact absurd hhi id
          | fin u m1 e1 =>
            cases s
            · exact absurd h2 (by simp [Flt.le])
            · exact absurd h1 (by simp [Flt.le])
      | fin s m e => exact hreg
  exact ⟨hf, (le_iff_toRat hlo hf).mp h1, (le_iff_toRat hf hhi).mp h2⟩

/-- The sum of two finite floats whose exact sum is at least zero is at least zero. -/
theorem add_nonneg_flt {a b : Flt} (ha : a.IsFin binary32) (hb : b.IsFin binary32)
    (h : 0 ≤ a.toRat + b.toRat) : (flit 0 1).le (binary32.add a b) = true := by
  have hr := add_rounded binary32 ha hb
  have hm := rounded_mono binary32_ok (rounded_self binary32_ok zero_isFin) hr
    (by rw [zero_toRat]; exact h)
  rw [zero_eq, le_iff_ev (isFin_reg zero_isFin) (rounded_reg binary32_ok hr)]
  exact hm

/-- The value of a draw is a float. -/
theorem draw_isFloat (rng : pfxr_random_t) (lo hi : Flt) :
    (pfxr_random_float rng lo hi).1.IsFloat binary32 := by
  rw [pfxr_random_float_val]
  exact add_isFloat binary32 binary32_ok _ _

/-- A draw between two of the constant bounds of the templates, all between 0 and 4000, is
finite, at least the lower bound, which is at least zero, and at most 8192. -/
theorem draw_const (rng : pfxr_random_t) {lo hi : Flt} (hlo : lo.IsFin binary32)
    (hhi : hi.IsFin binary32) (h0 : (flit 0 1).le lo = true) (h1 : lo.le hi = true)
    (h2 : hi.le (flit 4000 1) = true) :
    (pfxr_random_float rng lo hi).1.IsFin binary32 ∧
      0 ≤ (pfxr_random_float rng lo hi).1.toRat ∧
      lo.toRat ≤ (pfxr_random_float rng lo hi).1.toRat ∧
      (pfxr_random_float rng lo hi).1.toRat ≤ 8192 := by
  have hok := binary32_ok
  have f4 : (flit 4000 1).IsFin binary32 := by decide
  have v4 : (flit 4000 1).toRat = 4000 := by
    rw [show flit 4000 1 = Flt.fin false 16384000 (-12) by decide, toRat_fin]; norm_num [sq]
  have f8 : (Flt.fin false 8388608 (-10)).IsFin binary32 := by decide
  have v8 : (Flt.fin false 8388608 (-10)).toRat = 8192 := by
    rw [toRat_fin]; norm_num [sq]
  rw [zero_eq] at h0
  have a0 := (le_iff_toRat zero_isFin hlo).mp h0
  rw [zero_toRat] at a0
  have a1 := (le_iff_toRat hlo hhi).mp h1
  have a2 := (le_iff_toRat hhi f4).mp h2
  rw [v4] at a2
  obtain ⟨b1, b2, b3, b4, b5⟩ := draw_lower rng hlo hhi a1 (by linarith) (by linarith)
  obtain ⟨-, -, d3⟩ := rounded_between hok (sub_rounded binary32 hhi hlo) zero_isFin f4
    (by rw [zero_toRat]; linarith) (by rw [v4]; linarith)
  rw [v4] at d3
  obtain ⟨-, -, s3⟩ := rounded_between hok (add_rounded binary32 hlo b3) zero_isFin f8
    (by
      rw [zero_toRat]
      have := (rounded_between hok (sub_rounded binary32 hhi hlo) zero_isFin f4
        (by rw [zero_toRat]; linarith) (by rw [v4]; linarith)).2.1
      rw [zero_toRat] at this
      linarith)
    (by rw [v8]; linarith)
  rw [v8] at s3
  exact ⟨b1, by linarith, b2, by linarith⟩

/-- A parameter set whose `frequency` and `pitchDelta` are finite and at least zero has the
pitch floor. -/
theorem pitch_floor_of {s : pfxr_sound_t}
    (hf : s.frequency.IsFin binary32 ∧ 0 ≤ s.frequency.toRat)
    (hd : s.pitchDelta.IsFin binary32 ∧ 0 ≤ s.pitchDelta.toRat) :
    pitch_floor s ∧ 0 ≤ s.pitchDelta.toRat :=
  ⟨⟨hf.1, hd.1, hf.2, by linarith [hf.2, hd.2]⟩, hd.2⟩

/-- A parameter set with a finite `frequency` that is at least zero and
`pitchDelta = -frequency` has the pitch floor. -/
theorem pitch_floor_neg {s : pfxr_sound_t}
    (hf : s.frequency.IsFin binary32 ∧ 0 ≤ s.frequency.toRat)
    (hd : s.pitchDelta = s.frequency.neg) : pitch_floor s ∧ s.pitchDelta = s.frequency.neg := by
  refine ⟨⟨hf.1, ?_, hf.2, ?_⟩, hd⟩
  · rw [hd]
    exact isFin_neg hf.1
  · rw [hd, toRat_neg]
    linarith

theorem default_pitch :
    (pfxr_get_default_sound.frequency.IsFin binary32 ∧
        0 ≤ pfxr_get_default_sound.frequency.toRat) ∧
      pfxr_get_default_sound.pitchDelta.IsFin binary32 ∧
        0 ≤ pfxr_get_default_sound.pitchDelta.toRat := by
  have hf : pfxr_get_default_sound.frequency = Flt.fin false 11468800 (-14) := by decide
  have hd : pfxr_get_default_sound.pitchDelta = Flt.fin false 0 (-149) := by decide
  have hfv : (Flt.fin false 11468800 (-14)).toRat = 700 := by
    rw [toRat_fin]; norm_num [sq]
  rw [hf, hd, hfv, zero_toRat]
  exact ⟨⟨by decide, by norm_num⟩, by decide, le_refl _⟩

section TemplatePitch

set_option maxRecDepth 8000

attribute [local irreducible] pfxr_random_float pfxr_random_bool pfxr_random_uint32

/-- The LASER draws of `frequency` and `pitchDelta`. -/
theorem laser_pair (rng : pfxr_random_t) :
    ((pfxr_random_float rng (flit 100 1) (flit 1300 1)).1.IsFin binary32 ∧
      (pfxr_random_float (pfxr_random_float rng (flit 100 1) (flit 1300 1)).2
        (pfxr_random_float rng (flit 100 1) (flit 1300 1)).1.neg
        (flit 100 1).neg).1.IsFin binary32 ∧
      0 ≤ (pfxr_random_float rng (flit 100 1) (flit 1300 1)).1.toRat ∧
      0 ≤ (pfxr_random_float rng (flit 100 1) (flit 1300 1)).1.toRat +
        (pfxr_random_float (pfxr_random_float rng (flit 100 1) (flit 1300 1)).2
          (pfxr_random_float rng (flit 100 1) (flit 1300 1)).1.neg
          (flit 100 1).neg).1.toRat) ∧
    -(pfxr_random_float rng (flit 100 1) (flit 1300 1)).1.toRat ≤
      (pfxr_random_float (pfxr_random_float rng (flit 100 1) (flit 1300 1)).2
        (pfxr_random_float rng (flit 100 1) (flit 1300 1)).1.neg
        (flit 100 1).neg).1.toRat := by
  obtain ⟨f1, f2, f3⟩ := laser_freq_range rng
  generalize pfxr_random_float rng (flit 100 1) (flit 1300 1) = fr at f1 f2 f3 ⊢
  obtain ⟨d1, d2⟩ := laser_delta_bounds fr.2 fr.1 f1 f2 f3
  obtain ⟨e1, e2, -⟩ := isFin_of_le_le (draw_isFloat _ _ _) (isFin_neg f1)
    (show (flit 100 1).neg.IsFin binary32 by decide) d1 d2
  rw [toRat_neg] at e2
  exact ⟨⟨f1, e1, by linarith, by linarith⟩, e2⟩

/-- The HIT draws of `frequency` and `pitchDelta`. -/
theorem hit_pair (rng : pfxr_random_t) :
    ((pfxr_random_float rng (flit 20 1) (flit 500 1)).1.IsFin binary32 ∧
      (pfxr_random_float (pfxr_random_float rng (flit 20 1) (flit 500 1)).2
        (pfxr_random_float rng (flit 20 1) (flit 500 1)).1.neg
        (binary32.mul (pfxr_random_float rng (flit 20 1) (flit 500 1)).1.neg
          (flit 2 10))).1.IsFin binary32 ∧
      0 ≤ (pfxr_random_float rng (flit 20 1) (flit 500 1)).1.toRat ∧
      0 ≤ (pfxr_random_float rng (flit 20 1) (flit 500 1)).1.toRat +
        (pfxr_random_float (pfxr_random_float rng (flit 20 1) (flit 500 1)).2
          (pfxr_random_float rng (flit 20 1) (flit 500 1)).1.neg
          (binary32.mul (pfxr_random_float rng (flit 20 1) (flit 500 1)).1.neg
            (flit 2 10))).1.toRat) ∧
    -(pfxr_random_float rng (flit 20 1) (flit 500 1)).1.toRat ≤
      (pfxr_random_float (pfxr_random_float rng (flit 20 1) (flit 500 1)).2
        (pfxr_random_float rng (flit 20 1) (flit 500 1)).1.neg
        (binary32.mul (pfxr_random_float rng (flit 20 1) (flit 500 1)).1.neg
          (flit 2 10))).1.toRat := by
  have hok := binary32_ok
  obtain ⟨f1, f2, -, f4⟩ := draw_const rng (show (flit 20 1).IsFin binary32 by decide)
    (show (flit 500 1).IsFin binary32 by decide) (by decide) (by decide) (by decide)
  generalize pfxr_random_float rng (flit 20 1) (flit 500 1) = fr at f1 f2 f4 ⊢
  have fc : (flit 2 10).IsFin binary32 := by decide
  have vc : (flit 2 10).toRat = 13421773 / 67108864 := by
    rw [show flit 2 10 = Flt.fin false 13421773 (-26) by decide, toRat_fin]; norm_num [sq]
  have hn := isFin_neg f1
  have hnv := toRat_neg fr.1
  have hm := mul_rounded binary32 hn fc
  rw [hnv, vc] at hm
  obtain ⟨m1, m2, m3⟩ := rounded_between hok hm hn zero_isFin
    (by rw [hnv]; nlinarith) (by rw [zero_toRat]; nlinarith)
  rw [hnv] at m2
  rw [zero_toRat] at m3
  obtain ⟨d1, d2, -⟩ := draw_lower fr.2 hn m1 (by rw [hnv]; exact m2)
    (by rw [hnv]; linarith) (by linarith)
  rw [hnv] at d2
  exact ⟨⟨f1, d1, f2, by linarith⟩, d2⟩

theorem template_pickup_pitch (rng : pfxr_random_t) :
    ∃ s, template_pickup pfxr_get_default_sound rng = some s ∧ pitch_floor s ∧
      0 ≤ s.pitchDelta.toRat := by
  obtain ⟨c, hch, -⟩ := choice4 rng
  unfold template_pickup
  rw [hch, Option.map_some']
  simp only []
  split_ifs
  · refine ⟨_, rfl, pitch_floor_of ?_ ?_⟩
    · exact ⟨(draw_const _ (by decide) (by decide) (by decide) (by decide) (by decide)).1,
        (draw_const _ (by decide) (by decide) (by decide) (by decide) (by decide)).2.1⟩
    · exact ⟨(draw_const _ (by decide) (by decide) (by decide) (by decide) (by decide)).1,
        (draw_const _ (by decide) (by decide) (by decide) (by decide) (by decide)).2.1⟩
  · refine ⟨_, rfl, pitch_floor_of ?_ default_pitch.2⟩
    exact ⟨(draw_const _ (by decide) (by decide) (by decide) (by decide) (by decide)).1,
      (draw_const _ (by decide) (by decide) (by decide) (by decide) (by decide)).2.1⟩

theorem template_laser_pitch (rng : pfxr_random_t) :
    ∃ s, template_laser pfxr_get_default_sound rng = some s ∧ pitch_floor s ∧
      -s.frequency.toRat ≤ s.pitchDelta.toRat := by
  obtain ⟨c, hch, -⟩ := choice4 rng
  unfold template_laser
  rw [hch, Option.map_some']
  exact ⟨_, rfl, laser_pair _⟩

theorem template_jump_pitch (rng : pfxr_random_t) :
    ∃ s, template_jump pfxr_get_default_sound rng = some s ∧ pitch_floor s ∧
      0 ≤ s.pitchDelta.toRat := by
  obtain ⟨c, hch, -⟩ := choice2 rng
  unfold template_jump
  rw [hch, Option.map_some']
  refine ⟨_, rfl, pitch_floor_of ?_ ?_⟩
  · exact ⟨(draw_const _ (by decide) (by decide) (by decide) (by decide) (by decide)).1,
      (draw_const _ (by decide) (by decide) (by decide) (by decide) (by decide)).2.1⟩
  · exact ⟨(draw_const _ (by decide) (by decide) (by decide) (by decide) (by decide)).1,
      (draw_const _ (by decide) (by decide) (by decide) (by decide) (by decide)).2.1⟩

theorem template_fall_pitch (rng : pfxr_random_t) :
    ∃ s, template_fall pfxr_get_default_sound rng = some s ∧ pitch_floor s ∧
      s.pitchDelta = s.frequency.neg := by
  obtain ⟨c, hch, -⟩ := choice3 rng
  unfold template_fall
  rw [hch, Option.map_some']
  refine ⟨_, rfl, pitch_floor_neg ?_ rfl⟩
  exact ⟨(draw_const _ (by decide) (by decide) (by decide) (by decide) (by decide)).1,
    (draw_const _ (by decide) (by decide) (by decide) (by decide) (by decide)).2.1⟩

theorem template_powerup_pitch (rng : pfxr_random_t) :
    ∃ s, template_powerup pfxr_get_default_sound rng = some s ∧ pitch_floor s ∧
      0 ≤ s.pitchDelta.toRat := by
  obtain ⟨c, hch, -⟩ := choice4 rng
  unfold template_powerup
  rw [hch, Option.map_some']
  refine ⟨_, rfl, pitch_floor_of ?_ ?_⟩
  · exact ⟨(draw_const _ (by decide) (by decide) (by decide) (by decide) (by decide)).1,
      (draw_const _ (by decide) (by decide) (by decide) (by decide) (by decide)).2.1⟩
  · exact ⟨(draw_const _ (by decide) (by decide) (by decide) (by decide) (by decide)).1,
      (draw_const _ (by decide) (by decide) (by decide) (by decide) (by decide)).2.1⟩

theorem template_explosion_pitch (rng : pfxr_random_t) :
    ∃ s, template_explosion pfxr_get_default_sound rng = some s ∧ pitch_floor s ∧
      s.pitchDelta = s.frequency.neg := by
  obtain ⟨c, hch, -⟩ := choice4 rng
  unfold template_explosion
  rw [hch, Option.map_some']
  refine ⟨_, rfl, pitch_floor_neg ?_ rfl⟩
  exact ⟨(draw_const _ (by decide) (by decide) (by decide) (by decide) (by decide)).1,
    (draw_const _ (by decide) (by decide) (by decide) (by decide) (by decide)).2.1⟩

theorem template_blip_pitch (rng : pfxr_random_t) :
    ∃ s, template_blip pfxr_get_default_sound rng = some s ∧ pitch_floor s ∧
      0 ≤ s.pitchDelta.toRat := by
  obtain ⟨c, hch, -⟩ := choice4 rng
  unfold template_blip
  rw [hch, Option.map_some']
  refine ⟨_, rfl, pitch_floor_of ?_ default_pitch.2⟩
  exact ⟨(draw_const _ (by decide) (by decide) (by decide) (by decide) (by decide)).1,
    (draw_const _ (by decide) (by decide) (by decide) (by decide) (by decide)).2.1⟩

theorem template_hit_pitch (rng : pfxr_random_t) :
    ∃ s, template_hit pfxr_get_default_sound rng = some s ∧ pitch_floor s ∧
      -s.frequency.toRat ≤ s.pitchDelta.toRat := by
  obtain ⟨c, hch, -⟩ := choice4 rng
  unfold template_hit
  rw [hch, Option.map_some']
  exact ⟨_, rfl, hit_pair _⟩

theorem template_fart_pitch (rng : pfxr_random_t) :
    ∃ s, template_fart pfxr_get_default_sound rng = some s ∧ pitch_floor s ∧
      s.pitchDelta = binary32.div s.frequency.neg (flit 2 1) ∧
      s.pitchDelta.toRat = -s.frequency.toRat / 2 := by
  unfold template_fart
  refine ⟨_, rfl, ?_⟩
  simp only []
  obtain ⟨f1, f2, f3, -⟩ := draw_const
    (pfxr_random_float
      (pfxr_random_float (pfxr_random_float rng (flit 0 1) (flit 2 10)).2 (flit 1 10)
        (flit 5 10)).2 (flit 3 10) (flit 5 10)).2
    (show (flit 30 1).IsFin binary32 by decide)
    (show (flit 150 1).IsFin binary32 by decide) (by decide) (by decide) (by decide)
  have v30 : (flit 30 1).toRat = 30 := by
    rw [show flit 30 1 = Flt.fin false 15728640 (-19) by decide, toRat_fin]; norm_num [sq]
  rw [v30] at f3
  obtain ⟨n1, n2⟩ := neg_half_exact _ f1 (by linarith)
  exact ⟨⟨f1, n1, f2, by rw [n2]; linarith⟩, trivial, n2⟩

end TemplatePitch

/-- A parameter set with the pitch floor has `frequency >= 0` and a float sum
`frequency + pitchDelta >= 0`, as C compares floats. -/
theorem pitch_floor_le {s : pfxr_sound_t} (h : pitch_floor s) :
    (flit 0 1).le s.frequency = true ∧
      (flit 0 1).le (binary32.add s.frequency s.pitchDelta) = true := by
  obtain ⟨h1, h2, h3, h4⟩ := h
  refine ⟨?_, add_nonneg_flt h1 h2 h4⟩
  rw [zero_eq, le_iff_toRat zero_isFin h1, zero_toRat]
  exact h3

/-- Claim C37: for every template other than RANDOM and every seed (and every clock
reading), `pfxr_apply_template` returns a parameter set whose `frequency` and `pitchDelta`
are finite floats with `frequency >= 0` and `frequency + pitchDelta >= 0`, both as exact
values and as the float sum that C computes. LASER and HIT draw `pitchDelta` no lower than
`-frequency`, FALL and EXPLOSION set it to `-frequency`, FART sets it to `-frequency / 2`,
which the float division computes exactly, and DEFAULT, PICKUP, JUMP, POWERUP and BLIP keep
it at least zero. -/
theorem template_pitch_floor (now : Int) (template : pfxr_template_t) (seed : Int)
    (ht : template ≠ pfxr_template_t.RANDOM) :
    ∃ s : pfxr_sound_t, pfxr_apply_template now template seed = some s ∧
      s.frequency.IsFin binary32 ∧ s.pitchDelta.IsFin binary32 ∧
      0 ≤ s.frequency.toRat ∧ 0 ≤ s.frequency.toRat + s.pitchDelta.toRat ∧
      (flit 0 1).le s.frequency = true ∧
      (flit 0 1).le (binary32.add s.frequency s.pitchDelta) = true ∧
      ((template = pfxr_template_t.LASER ∨ template = pfxr_template_t.HIT) →
        -s.frequency.toRat ≤ s.pitchDelta.toRat) ∧
      ((template = pfxr_template_t.FALL ∨ template = pfxr_template_t.EXPLOSION) →
        s.pitchDelta = s.frequency.neg) ∧
      (template = pfxr_template_t.FART →
        s.pitchDelta = binary32.div s.frequency.neg (flit 2 1) ∧
          s.pitchDelta.toRat = -s.frequency.toRat / 2) ∧
      ((template = pfxr_template_t.DEFAULT ∨ template = pfxr_template_t.PICKUP ∨
          template = pfxr_template_t.JUMP ∨ template = pfxr_template_t.POWERUP ∨
          template = pfxr_template_t.BLIP) →
        0 ≤ s.pitchDelta.toRat) := by
  unfold pfxr_apply_template template_switch
  cases template
  case RANDOM => exact absurd rfl ht
  case DEFAULT =>
    have hp := pitch_floor_of default_pitch.1 default_pitch.2
    refine ⟨_, rfl, hp.1.1, hp.1.2.1, hp.1.2.2.1, hp.1.2.2.2, (pitch_floor_le hp.1).1,
      (pitch_floor_le hp.1).2, ?_, ?_, ?_, fun _ => hp.2⟩
    · exact fun h => by rcases h with h | h <;> cases h
    · exact fun h => by rcases h with h | h <;> cases h
    · exact fun h => by cases h
  case PICKUP =>
    obtain ⟨s, hs, hp, hx⟩ := template_pickup_pitch (pfxr_random_init now (toU32 seed))
    refine ⟨s, hs, hp.1, hp.2.1, hp.2.2.1, hp.2.2.2, (pitch_floor_le hp).1,
      (pitch_floor_le hp).2, ?_, ?_, ?_, fun _ => hx⟩
    · exact fun h => by rcases h with h | h <;> cases h
    · exact fun h => by rcases h with h | h <;> cases h
    · exact fun h => by cases h
  case LASER =>
    obtain ⟨s, hs, hp, hx⟩ := template_laser_pitch (pfxr_random_init now (toU32 seed))
    refine ⟨s, hs, hp.1, hp.2.1, hp.2.2.1, hp.2.2.2, (pitch_floor_le hp).1,
      (pitch_floor_le hp).2, fun _ => hx, ?_, ?_, ?_⟩
    · exact fun h => by rcases h with h | h <;> cases h
    · exact fun h => by cases h
    · exact fun h => by rcases h with h | h | h | h | h <;> cases h
  case JUMP =>
    obtain ⟨s, hs, hp, hx⟩ := template_jump_pitch (pfxr_random_init now (toU32 seed))
    refine ⟨s, hs, hp.1, hp.2.1, hp.2.2.1, hp.2.2.2, (pitch_floor_le hp).1,
      (pitch_floor_le hp).2, ?_, ?_, ?_, fun _ => hx⟩
    · exact fun h => by rcases h with h | h <;> cases h
    · exact fun h => by rcases h with h | h <;> cases h
    · exact fun h => by cases h
  case FALL =>
    obtain ⟨s, hs, hp, hx⟩ := template_fall_pitch (pfxr_random_init now (toU32 seed))
    refine ⟨s, hs, hp.1, hp.2.1, hp.2.2.1, hp.2.2.2, (pitch_floor_le hp).1,
      (pitch_floor_le hp).2, ?_, fun _ => hx, ?_, ?_⟩
    · exact fun h => by rcases h with h | h <;> cases h
    · exact fun h => by cases h
    · exact fun h => by rcases h with h | h | h | h | h <;> cases h
  case POWERUP =>
    obtain ⟨s, hs, hp, hx⟩ := template_powerup_pitch (pfxr_random_init now (toU32 seed))
    refine ⟨s, hs, hp.1, hp.2.1, hp.2.2.1, hp.2.2.2, (pitch_floor_le hp).1,
      (pitch_floor_le hp).2, ?_, ?_, ?_, fun _ => hx⟩
    · exact fun h => by rcases h with h | h <;> cases h
    · exact fun h => by rcases h with h | h <;> cases h
    · exact fun h => by cases h
  case EXPLOSION =>
    obtain ⟨s, hs, hp, hx⟩ := template_explosion_pitch (pfxr_random_init now (toU32 seed))
    refine ⟨s, hs, hp.1, hp.2.1, hp.2.2.1, hp.2.2.2, (pitch_floor_le hp).1,
      (pitch_floor_le hp).2, ?_, fun _ => hx, ?_, ?_⟩
    · exact fun h => by rcases h with h | h <;> cases h
    · exact fun h => by cases h
    · exact fun h => by rcases h with h | h | h | h | h <;> cases h
  case BLIP =>
    obtain ⟨s, hs, hp, hx⟩ := template_blip_pitch (pfxr_random_init now (toU32 seed))
    refine ⟨s, hs, hp.1, hp.2.1, hp.2.2.1, hp.2.2.2, (pitch_floor_le hp).1,
      (pitch_floor_le hp).2, ?_, ?_, ?_, fun _ => hx⟩
    · exact fun h => by rcases h with h | h <;> cases h
    · exact fun h => by rcases h with h | h <;> cases h
    · exact fun h => by cases h
  case HIT =>
    obtain ⟨s, hs, hp, hx⟩ := template_hit_pitch (pfxr_random_init now (toU32 seed))
    refine ⟨s, hs, hp.1, hp.2.1, hp.2.2.1, hp.2.2.2, (pitch_floor_le hp).1,
      (pitch_floor_le hp).2, fun _ => hx, ?_, ?_, ?_⟩
    · exact fun h => by rcases h with h | h <;> cases h
    · exact fun h => by cases h
    · exact fun h => by rcases h with h | h | h | h | h <;> cases h
  case FART =>
    obtain ⟨s, hs, hp, hx⟩ := template_fart_pitch (pfxr_random_init now (toU32 seed))
    refine ⟨s, hs, hp.1, hp.2.1, hp.2.2.1, hp.2.2.2, (pitch_floor_le hp).1,
      (pitch_floor_le hp).2, ?_, ?_, fun _ => hx, ?_⟩
    · exact fun h => by rcases h with h | h <;> cases h
    · exact fun h => by rcases h with h | h <;> cases h
    · exact fun h => by rcases h with h | h | h | h | h <;> cases h

/-- The statement of C37 at the LASER template with seed 42 and clock reading 0. -/
theorem template_pitch_floor_witness :
    pfxr_template_t.LASER ≠ pfxr_template_t.RANDOM ∧
    ∃ s : pfxr_sound_t, pfxr_apply_template 0 pfxr_template_t.LASER 42 = some s ∧
      s.frequency.IsFin binary32 ∧ s.pitchDelta.IsFin binary32 ∧
      0 ≤ s.frequency.toRat ∧ 0 ≤ s.frequency.toRat + s.pitchDelta.toRat :=
  ⟨by decide,
    (template_pitch_floor 0 pfxr_template_t.LASER 42 (by decide)).elim
      fun s hs => ⟨s, hs.1, hs.2.1, hs.2.2.1, hs.2.2.2.1, hs.2.2.2.2.1⟩⟩

/-! ## C38: the gain identities of the filter coefficients -/

/-- The coefficients that `biquad_lowpass_coeffs` stores are the low-pass formulas evaluated
in the arithmetic of `float`. -/
theorem biquad_lowpass_coeffs_formula (L : libm_t) (filter : biquad_filter_t)
    (freq q sample_rate : Flt) :
    biquad_lowpass_coeffs L filter freq q sample_rate =
      { filter with
        a0 := (lowpass_formula float_arith (L.cosf (biquad_w freq sample_rate))
          (L.sinf (biquad_w freq sample_rate)) q).1,
        a1 := (lowpass_formula float_arith (L.cosf (biquad_w freq sample_rate))
          (L.sinf (biquad_w freq sample_rate)) q).2.1,
        a2 := (lowpass_formula float_arith (L.cosf (biquad_w freq sample_rate))
          (L.sinf (biquad_w freq sample_rate)) q).2.2.1,
        b1 := (lowpass_formula float_arith (L.cosf (biquad_w freq sample_rate))
          (L.sinf (biquad_w freq sample_rate)) q).2.2.2.1,
        b2 := (lowpass_formula float_arith (L.cosf (biquad_w freq sample_rate))
          (L.sinf (biquad_w freq sample_rate)) q).2.2.2.2 } := rfl

/-- The coefficients that `biquad_highpass_coeffs` stores are the high-pass formulas
evaluated in the arithmetic of `float`. -/
theorem biquad_highpass_coeffs_formula (L : libm_t) (filter : biquad_filter_t)
    (freq q sample_rate : Flt) :
    biquad_highpass_coeffs L filter freq q sample_rate =
      { filter with
        a0 := (highpass_formula float_arith (L.cosf (biquad_w freq sample_rate))
          (L.sinf (biquad_w freq sample_rate)) q).1,
        a1 := (highpass_formula float_arith (L.cosf (biquad_w freq sample_rate))
          (L.sinf (biquad_w freq sample_rate)) q).2.1,
        a2 := (highpass_formula float_arith (L.cosf (biquad_w freq sample_rate))
          (L.sinf (biquad_w freq sample_rate)) q).2.2.1,
        b1 := (highpass_formula float_arith (L.cosf (biquad_w freq sample_rate))
          (L.sinf (biquad_w freq sample_rate)) q).2.2.2.1,
        b2 := (highpass_formula float_arith (L.cosf (biquad_w freq sample_rate))
          (L.sinf (biquad_w freq sample_rate)) q).2.2.2.2 } := rfl

/-- In exact arithmetic the low-pass formulas have unit gain for a constant input. -/
theorem lowpass_formula_exact (cos_w sin_w q : ℚ) (h : 1 + sin_w / (2 * q) ≠ 0) :
    (lowpass_formula exact_arith cos_w sin_w q).1 +
        (lowpass_formula exact_arith cos_w sin_w q).2.1 +
        (lowpass_formula exact_arith cos_w sin_w q).2.2.1 =
      1 + (lowpass_formula exact_arith cos_w sin_w q).2.2.2.1 +
        (lowpass_formula exact_arith cos_w sin_w q).2.2.2.2 := by
  simp only [lowpass_formula, exact_arith, Nat.cast_one, Nat.cast_ofNat, div_one]
  field_simp
  ring

/-- In exact arithmetic the feed-forward high-pass formulas sum to zero. -/
theorem highpass_formula_exact (cos_w sin_w q : ℚ) (h : 1 + sin_w / (2 * q) ≠ 0) :
    (highpass_formula exact_arith cos_w sin_w q).1 +
        (highpass_formula exact_arith cos_w sin_w q).2.1 +
        (highpass_formula exact_arith cos_w sin_w q).2.2.1 = 0 := by
  simp only [highpass_formula, exact_arith, Nat.cast_one, Nat.cast_ofNat, div_one]
  field_simp
  ring

/-- Rounding commutes with the sign. -/
theorem round_not (f : Fmt) (neg : Bool) (num den : Nat) (ex : Int) :
    f.round (!neg) num den ex = (f.round neg num den ex).neg := by
  unfold Fmt.round Fmt.pack
  by_cases h : num = 0
  · simp [h, Flt.neg]
  · simp only [h, if_false]
    split_ifs <;> rfl

/-- Halving a value whose rounding is finite and whose unit in the last place is above the
least one halves the rounding: the significand stays and the exponent drops by one. -/
theorem round_half (f : Fmt) (neg : Bool) (num den : Nat) (ex : Int) (m : Nat) (e : Int)
    (hn : 0 < num)
    (hr : f.round neg num den ex = Flt.fin neg m e)
    (hE : f.emin + 1 ≤ ilog2q num den + ex - ((f.prec : Int) - 1)) :
    f.round neg num den (ex - 1) = Flt.fin neg m (e - 1) := by
  have h1 : max (ilog2q num den + ex - ((f.prec : Int) - 1)) f.emin =
      ilog2q num den + ex - ((f.prec : Int) - 1) := max_eq_left (by omega)
  have h2 : max (ilog2q num den + (ex - 1) - ((f.prec : Int) - 1)) f.emin =
      ilog2q num den + ex - ((f.prec : Int) - 1) - 1 := by
    rw [max_eq_left (by omega)]
    ring
  have h3 : ex - 1 - (ilog2q num den + ex - ((f.prec : Int) - 1) - 1) =
      ex - (ilog2q num den + ex - ((f.prec : Int) - 1)) := by ring
  unfold Fmt.round at hr ⊢
  rw [if_neg hn.ne'] at hr ⊢
  simp only [h1] at hr
  simp only [h2, h3]
  generalize rhe
    (if 0 ≤ ex - (ilog2q num den + ex - ((f.prec : Int) - 1)) then
      num * 2 ^ (ex - (ilog2q num den + ex - ((f.prec : Int) - 1))).toNat else num)
    (if 0 ≤ ex - (ilog2q num den + ex - ((f.prec : Int) - 1)) then den
      else den * 2 ^ (-(ex - (ilog2q num den + ex - ((f.prec : Int) - 1)))).toNat) = M
    at hr ⊢
  generalize ilog2q num den + ex - ((f.prec : Int) - 1) = E0 at hr ⊢
  unfold Fmt.pack at hr ⊢
  simp only [] at hr ⊢
  by_cases hM : M = 2 ^ f.prec
  · simp only [hM, if_true] at hr ⊢
    split_ifs at hr with hov
    have hinj := Flt.fin.inj hr
    rw [if_neg (by omega)]
    rw [← hinj.2.1, ← hinj.2.2]
    congr 1
    ring
  · simp only [hM, if_false] at hr ⊢
    split_ifs at hr with hov
    have hinj := Flt.fin.inj hr
    rw [if_neg (by omega)]
    rw [← hinj.2.1, ← hinj.2.2]

/-- The float quotients `(c / 2) / A` and `-c / A` of the high-pass coefficients cancel:
twice the first plus the second is zero, when `c` is zero, or when `c` is a normal number
and the quotient `c / A` is at least `2^-125` in magnitude, its float being finite. -/
theorem highpass_float_sum {c A : Flt} (hc : c.IsFin binary32) (hA : A.IsFin binary32)
    (hA0 : A.toRat ≠ 0) (hfin : (binary32.div c.neg A).IsFin binary32)
    (hq : c.toRat = 0 ∨
      ((2 : ℚ) ^ (-125 : Int) ≤ |c.toRat| ∧ (2 : ℚ) ^ (-125 : Int) ≤ |c.toRat / A.toRat|)) :
    (binary32.div (binary32.div c (flit 2 1)) A).toRat + (binary32.div c.neg A).toRat +
      (binary32.div (binary32.div c (flit 2 1)) A).toRat = 0 := by
  rw [two_eq]
  cases c with
  | nan => exact absurd hc id
  | inf s => exact absurd hc id
  | fin s mc ec =>
    cases A with
    | nan => exact absurd hA id
    | inf t => exact absurd hA id
    | fin t mb eb =>
      have hmb : mb ≠ 0 := by
        intro h
        apply hA0
        rw [toRat_fin, h]
        simp
      have hcc : binary32.canon mc ec := hc
      by_cases hmc : mc = 0
      · subst hmc
        simp [Fmt.div, Fmt.round, hmb, Flt.neg, Flt.toRat]
      · have hmc0 : 0 < mc := Nat.pos_of_ne_zero hmc
        have hmb0 : 0 < mb := Nat.pos_of_ne_zero hmb
        have hcne : (Flt.fin s mc ec).toRat ≠ 0 := by
          rw [toRat_fin]
          have : (0 : ℚ) < (mc : ℚ) * (2 : ℚ) ^ ec := by positivity
          cases s
          · simp only [sq, Bool.false_eq_true, if_false, one_mul]
            exact this.ne'
          · simp only [sq, if_true, neg_mul, one_mul, neg_ne_zero]
            exact this.ne'
        rcases hq with hq | ⟨hq1, hq2⟩
        · exact absurd hq hcne
        · have habs : |(Flt.fin s mc ec).toRat| = (mc : ℚ) * (2 : ℚ) ^ ec := by
            rw [toRat_fin]
            have : (0 : ℚ) ≤ (mc : ℚ) * (2 : ℚ) ^ ec := by positivity
            cases s
            · simp only [sq, Bool.false_eq_true, if_false, one_mul]
              exact abs_of_nonneg this
            · simp only [sq, if_true, neg_mul, one_mul, abs_neg]
              exact abs_of_nonneg this
          have habsA : |(Flt.fin t mb eb).toRat| = (mb : ℚ) * (2 : ℚ) ^ eb := by
            rw [toRat_fin]
            have : (0 : ℚ) ≤ (mb : ℚ) * (2 : ℚ) ^ eb := by positivity
            cases t
            · simp only [sq, Bool.false_eq_true, if_false, one_mul]
              exact abs_of_nonneg this
            · simp only [sq, if_true, neg_mul, one_mul, abs_neg]
              exact abs_of_nonneg this
          rw [habs] at hq1
          rw [abs_div, habs, habsA] at hq2
          have hp : binary32.prec = 24 := rfl
          have hemin : binary32.emin = -149 := rfl
          have hemax : binary32.emax = 104 := rfl
          obtain ⟨c1, c2, c3, c4⟩ := hcc
          rw [hp] at c1 c4
          rw [hemin] at c2 c4
          rw [hemax] at c3
          have hec : -148 ≤ ec := by
            by_contra hcon
            have hece : ec = -149 := by omega
            rw [hece] at hq1
            have : (mc : ℚ) < (2 : ℚ) ^ 24 := by exact_mod_cast c1
            have h2 : (mc : ℚ) * (2 : ℚ) ^ (-149 : Int) <
                (2 : ℚ) ^ 24 * (2 : ℚ) ^ (-149 : Int) :=
              mul_lt_mul_of_pos_right this (zpow_two_pos _)
            have h3 : (2 : ℚ) ^ 24 * (2 : ℚ) ^ (-149 : Int) = (2 : ℚ) ^ (-125 : Int) := by
              rw [← zpow_natCast, ← zpow_add₀ (by norm_num : (2 : ℚ) ≠ 0)]
              norm_num
            linarith
          have hm23 : 2 ^ (24 - 1) ≤ mc := by
            rcases c4 with h | h
            · exact h
            · omega
          -- the half of `c`
          have hhalf : binary32.div (Flt.fin s mc ec) (Flt.fin false 8388608 (-22)) =
              Flt.fin s mc (ec - 1) := by
            have hd : binary32.div (Flt.fin s mc ec) (Flt.fin false 8388608 (-22)) =
                binary32.round s mc 8388608 (ec - (-22)) := by
              simp [Fmt.div]
            rw [hd]
            refine round_exact binary32 binary32_ok s mc 8388608 _ hmc0 (by norm_num) mc
              (ec - 1) ⟨by rw [hp]; exact c1, by rw [hemin]; omega, by rw [hemax]; omega,
                Or.inl (by rw [hp]; exact hm23)⟩ ?_
            rw [show ec - (-22) = (ec - 1) + 23 by ring,
              zpow_add₀ (by norm_num : (2 : ℚ) ≠ 0)]
            norm_num
            ring
          rw [hhalf]
          -- the two quotients
          have hx : binary32.div (Flt.fin s mc ec).neg (Flt.fin t mb eb) =
              (binary32.round (xor s t) mc mb (ec - eb)).neg := by
            rw [← round_not]
            simp only [Flt.neg, Fmt.div, if_neg hmb]
            cases s <;> cases t <;> rfl
          have hy : binary32.div (Flt.fin s mc (ec - 1)) (Flt.fin t mb eb) =
              binary32.round (xor s t) mc mb (ec - eb - 1) := by
            simp only [Fmt.div, if_neg hmb]
            rw [show ec - 1 - eb = ec - eb - 1 by ring]
          rw [hx] at hfin ⊢
          rw [hy]
          rcases round_cases binary32 binary32_ok (xor s t) mc mb (ec - eb) hmb0 with
            hinf | ⟨m, e, hr, -⟩
          · rw [hinf] at hfin
            exact absurd hfin id
          · have hE : binary32.emin + 1 ≤
                ilog2q mc mb + (ec - eb) - ((binary32.prec : Int) - 1) := by
              obtain ⟨-, hi2⟩ := ilog2q_spec mc mb hmc0 hmb0
              have hmbq : (0 : ℚ) < (mb : ℚ) * (2 : ℚ) ^ eb := by positivity
              have hval : (mc : ℚ) * (2 : ℚ) ^ ec / ((mb : ℚ) * (2 : ℚ) ^ eb) =
                  (mc : ℚ) / mb * (2 : ℚ) ^ (ec - eb) := by
                rw [zpow_sub₀ (by norm_num : (2 : ℚ) ≠ 0)]
                have hmbne : (mb : ℚ) ≠ 0 := by exact_mod_cast hmb
                have hz : (2 : ℚ) ^ eb ≠ 0 := (zpow_two_pos eb).ne'
                field_simp
              rw [hval] at hq2
              have hlt : (mc : ℚ) / mb * (2 : ℚ) ^ (ec - eb) <
                  (2 : ℚ) ^ (ilog2q mc mb + 1) * (2 : ℚ) ^ (ec - eb) :=
                mul_lt_mul_of_pos_right hi2 (zpow_two_pos _)
              rw [← zpow_add₀ (by norm_num : (2 : ℚ) ≠ 0)] at hlt
              have := zpow_two_lt_imp (lt_of_le_of_lt hq2 hlt)
              rw [hp, hemin]
              push_cast
              omega
            rw [round_half binary32 (xor s t) mc mb (ec - eb) m e hmc0 hr hE, hr]
            simp only [Flt.neg, toRat_fin]
            have hsn : sq (!(xor s t)) = -sq (xor s t) := by
              cases s <;> cases t <;> simp [sq]
            rw [hsn, zpow_sub_one₀ (by norm_num : (2 : ℚ) ≠ 0)]
            ring

set_option maxRecDepth 100000 in
/-- Claim C38 fails for the float coefficients of the low-pass. At cutoff 1000 and
`q = 0.707f` with sample rate 44100, `w` is the float `9561393 * 2^-26`; with `sinf` and
`cosf` returning the floats nearest to the sine and the cosine of that `w`,
`9529077 * 2^-26` and `16607220 * 2^-24`, the divisor `1 + alpha` is `9230995 * 2^-23`, not
zero, and the stored coefficients have `a0 + a1 + a2 = 4943449 / 2^28` but
`1 + b1 + b2 = 4943456 / 2^28`. The float coefficients of the high-pass fail where a
quotient underflows: at cutoff 17000 and `q = 2^-126`, where `w` is `10158980 * 2^-22` and
the nearest floats to its sine and cosine are `11056370 * 2^-24` and `-12618703 * 2^-24`,
the divisor is `11056370 * 2^101` and the stored coefficients have
`a0 + a1 + a2 = 2^-149`. -/
theorem biquad_gain_counterexample :
    biquad_w (flit 1000 1) (binary32.ofInt PFXR_SAMPLE_RATE) = Flt.fin false 9561393 (-26) ∧
    binary32.add (flit 1 1)
        (binary32.div (Flt.fin false 9529077 (-26))
          (binary32.mul (flit 2 1) (flit 707 1000))) = Flt.fin false 9230995 (-23) ∧
    biquad_lowpass_coeffs
        ⟨fun _ => Flt.fin false 9529077 (-26), fun _ => Flt.fin false 16607220 (-24)⟩
        biquad_zero (flit 1000 1) (flit 707 1000) (binary32.ofInt PFXR_SAMPLE_RATE) =
      { biquad_zero with
        a0 := Flt.fin false 9886898 (-31), a1 := Flt.fin false 9886898 (-30),
        a2 := Flt.fin false 9886898 (-31), b1 := Flt.fin true 15091706 (-23),
        b2 := Flt.fin false 13715162 (-24) } ∧
    (Flt.fin false 9886898 (-31)).toRat + (Flt.fin false 9886898 (-30)).toRat +
        (Flt.fin false 9886898 (-31)).toRat = 4943449 / 268435456 ∧
    1 + (Flt.fin true 15091706 (-23)).toRat + (Flt.fin false 13715162 (-24)).toRat =
      4943456 / 268435456 ∧
    biquad_w (flit 17000 1) (binary32.ofInt PFXR_SAMPLE_RATE) =
      Flt.fin false 10158980 (-22) ∧
    binary32.add (flit 1 1)
        (binary32.div (Flt.fin false 11056370 (-24))
          (binary32.mul (flit 2 1) (Flt.fin false 8388608 (-149)))) =
      Flt.fin false 11056370 101 ∧
    biquad_highpass_coeffs
        ⟨fun _ => Flt.fin false 11056370 (-24), fun _ => Flt.fin true 12618703 (-24)⟩
        biquad_zero (flit 17000 1) (Flt.fin false 8388608 (-149))
        (binary32.ofInt PFXR_SAMPLE_RATE) =
      { biquad_zero with
        a0 := Flt.fin false 3155117 (-149), a1 := Flt.fin true 6310233 (-149),
        a2 := Flt.fin false 3155117 (-149), b1 := Flt.fin false 9573970 (-147),
        b2 := Flt.fin true 8388608 (-23) } ∧
    (Flt.fin false 3155117 (-149)).toRat + (Flt.fin true 6310233 (-149)).toRat +
        (Flt.fin false 3155117 (-149)).toRat = (2 : ℚ) ^ (-149 : Int) := by
  refine ⟨by decide, by decide, by decide, ?_, ?_, by decide, by decide, by decide, ?_⟩
  · simp only [toRat_fin, sq, Bool.false_eq_true, if_false, one_mul]
    norm_num
  · simp only [toRat_fin, sq, Bool.false_eq_true, if_false, if_true, one_mul]
    norm_num
  · simp only [toRat_fin, sq, Bool.false_eq_true, if_false, if_true, one_mul]
    ring

/-- Claim C38, amended for the rounding of the float operations. The coefficients that
`biquad_lowpass_coeffs` and `biquad_highpass_coeffs` store are the formulas of the source
evaluated in the arithmetic of `float`. Evaluated in exact arithmetic, for every cosine,
sine and Q for which the divisor `1 + alpha` is non-zero, the low-pass formulas satisfy
`a0 + a1 + a2 = 1 + b1 + b2` and the high-pass formulas satisfy `a0 + a1 + a2 = 0`. The
stored float coefficients of the high-pass satisfy `a0 + a1 + a2 = 0` exactly when
`1 + cos_w` and the divisor are finite, the divisor is non-zero, the stored `a1` is finite,
and `1 + cos_w` is zero or else it and its quotient by the divisor are at least `2^-125` in
magnitude, so that no quotient underflows. -/
theorem biquad_gain (L : libm_t) (filter : biquad_filter_t) (freq q sample_rate : Flt) :
    biquad_lowpass_coeffs L filter freq q sample_rate =
      { filter with
        a0 := (lowpass_formula float_arith (L.cosf (biquad_w freq sample_rate))
          (L.sinf (biquad_w freq sample_rate)) q).1,
        a1 := (lowpass_formula float_arith (L.cosf (biquad_w freq sample_rate))
          (L.sinf (biquad_w freq sample_rate)) q).2.1,
        a2 := (lowpass_formula float_arith (L.cosf (biquad_w freq sample_rate))
          (L.sinf (biquad_w freq sample_rate)) q).2.2.1,
        b1 := (lowpass_formula float_arith (L.cosf (biquad_w freq sample_rate))
          (L.sinf (biquad_w freq sample_rate)) q).2.2.2.1,
        b2 := (lowpass_formula float_arith (L.cosf (biquad_w freq sample_rate))
          (L.sinf (biquad_w freq sample_rate)) q).2.2.2.2 } ∧
    biquad_highpass_coeffs L filter freq q sample_rate =
      { filter with
        a0 := (highpass_formula float_arith (L.cosf (biquad_w freq sample_rate))
          (L.sinf (biquad_w freq sample_rate)) q).1,
        a1 := (highpass_formula float_arith (L.cosf (biquad_w freq sample_rate))
          (L.sinf (biquad_w freq sample_rate)) q).2.1,
        a2 := (highpass_formula float_arith (L.cosf (biquad_w freq sample_rate))
          (L.sinf (biquad_w freq sample_rate)) q).2.2.1,
        b1 := (highpass_formula float_arith (L.cosf (biquad_w freq sample_rate))
          (L.sinf (biquad_w freq sample_rate)) q).2.2.2.1,
        b2 := (highpass_formula float_arith (L.cosf (biquad_w freq sample_rate))
          (L.sinf (biquad_w freq sample_rate)) q).2.2.2.2 } ∧
    (∀ cos_w sin_w Q : ℚ, 1 + sin_w / (2 * Q) ≠ 0 →
      (lowpass_formula exact_arith cos_w sin_w Q).1 +
          (lowpass_formula exact_arith cos_w sin_w Q).2.1 +
          (lowpass_formula exact_arith cos_w sin_w Q).2.2.1 =
        1 + (lowpass_formula exact_arith cos_w sin_w Q).2.2.2.1 +
          (lowpass_formula exact_arith cos_w sin_w Q).2.2.2.2 ∧
      (highpass_formula exact_arith cos_w sin_w Q).1 +
          (highpass_formula exact_arith cos_w sin_w Q).2.1 +
          (highpass_formula exact_arith cos_w sin_w Q).2.2.1 = 0) ∧
    ((binary32.add (flit 1 1) (L.cosf (biquad_w freq sample_rate))).IsFin binary32 →
      (binary32.add (flit 1 1)
        (binary32.div (L.sinf (biquad_w freq sample_rate))
          (binary32.mul (flit 2 1) q))).IsFin binary32 →
      (binary32.add (flit 1 1)
        (binary32.div (L.sinf (biquad_w freq sample_rate))
          (binary32.mul (flit 2 1) q))).toRat ≠ 0 →
      (biquad_highpass_coeffs L filter freq q sample_rate).a1.IsFin binary32 →
      ((binary32.add (flit 1 1) (L.cosf (biquad_w freq sample_rate))).toRat = 0 ∨
        ((2 : ℚ) ^ (-125 : Int) ≤
            |(binary32.add (flit 1 1) (L.cosf (biquad_w freq sample_rate))).toRat| ∧
          (2 : ℚ) ^ (-125 : Int) ≤
            |(binary32.add (flit 1 1) (L.cosf (biquad_w freq sample_rate))).toRat /
              (binary32.add (flit 1 1)
                (binary32.div (L.sinf (biquad_w freq sample_rate))
                  (binary32.mul (flit 2 1) q))).toRat|)) →
      (biquad_highpass_coeffs L filter freq q sample_rate).a0.toRat +
          (biquad_highpass_coeffs L filter freq q sample_rate).a1.toRat +
          (biquad_highpass_coeffs L filter freq q sample_rate).a2.toRat = 0) := by
  refine ⟨rfl, rfl, fun cos_w sin_w Q h =>
    ⟨lowpass_formula_exact cos_w sin_w Q h, highpass_formula_exact cos_w sin_w Q h⟩, ?_⟩
  intro hc hA hA0 hfin hq
  exact highpass_float_sum hc hA hA0 hfin hq

set_option maxRecDepth 100000 in
/-- The statement of C38 at the exact values `cos_w = 1/2`, `sin_w = 1/2`, `Q = 1`, and at
the float coefficients of the high-pass for cutoff 1000 and `q = 0.707f` with the identity
for `sinf` and `cosf`, where `1 + cos_w` is `9583782 * 2^-23` and the divisor is
`9233851 * 2^-23`. -/
theorem biquad_gain_witness :
    (1 + (1 / 2 : ℚ) / (2 * 1) ≠ 0 ∧
      (lowpass_formula exact_arith (1 / 2) (1 / 2) 1).1 +
          (lowpass_formula exact_arith (1 / 2) (1 / 2) 1).2.1 +
          (lowpass_formula exact_arith (1 / 2) (1 / 2) 1).2.2.1 =
        1 + (lowpass_formula exact_arith (1 / 2) (1 / 2) 1).2.2.2.1 +
          (lowpass_formula exact_arith (1 / 2) (1 / 2) 1).2.2.2.2) ∧
    (biquad_highpass_coeffs ⟨id, id⟩ biquad_zero (flit 1000 1) (flit 707 1000)
        (binary32.ofInt PFXR_SAMPLE_RATE)).a0.toRat +
      (biquad_highpass_coeffs ⟨id, id⟩ biquad_zero (flit 1000 1) (flit 707 1000)
        (binary32.ofInt PFXR_SAMPLE_RATE)).a1.toRat +
      (biquad_highpass_coeffs ⟨id, id⟩ biquad_zero (flit 1000 1) (flit 707 1000)
        (binary32.ofInt PFXR_SAMPLE_RATE)).a2.toRat = 0 := by
  have hc : binary32.add (flit 1 1)
      ((⟨id, id⟩ : libm_t).cosf (biquad_w (flit 1000 1) (binary32.ofInt PFXR_SAMPLE_RATE))) =
      Flt.fin false 9583782 (-23) := by decide
  have hA : binary32.add (flit 1 1)
      (binary32.div
        ((⟨id, id⟩ : libm_t).sinf (biquad_w (flit 1000 1) (binary32.ofInt PFXR_SAMPLE_RATE)))
        (binary32.mul (flit 2 1) (flit 707 1000))) = Flt.fin false 9233851 (-23) := by decide
  have vc : (Flt.fin false 9583782 (-23)).toRat = 9583782 / 8388608 := by
    rw [toRat_fin]; norm_num [sq]
  have vA : (Flt.fin false 9233851 (-23)).toRat = 9233851 / 8388608 := by
    rw [toRat_fin]; norm_num [sq]
  have h125 : (2 : ℚ) ^ (-125 : Int) ≤ 1 := by
    rw [show (-125 : Int) = -((125 : Nat) : Int) by norm_num, zpow_neg, zpow_natCast]
    exact inv_le_one_of_one_le₀ (one_le_pow₀ (by norm_num))
  refine ⟨⟨by norm_num,
    ((biquad_gain ⟨id, id⟩ biquad_zero (flit 1000 1) (flit 707 1000)
      (binary32.ofInt PFXR_SAMPLE_RATE)).2.2.1 (1 / 2) (1 / 2) 1 (by norm_num)).1⟩,
    (biquad_gain ⟨id, id⟩ biquad_zero (flit 1000 1) (flit 707 1000)
      (binary32.ofInt PFXR_SAMPLE_RATE)).2.2.2 ?_ ?_ ?_ ?_ ?_⟩
  · rw [hc]; decide
  · rw [hA]; decide
  · rw [hA, vA]; norm_num
  · decide
  · right
    rw [hc, hA, vc, vA]
    constructor
    · refine le_trans h125 ?_
      rw [abs_of_nonneg (by norm_num)]
      norm_num
    · refine le_trans h125 ?_
      rw [abs_of_nonneg (by norm_num)]
      norm_num

/-! ## C34: the normalising divisor of the filter coefficients -/

theorem binary64_ok : binary64.ok := by decide

/-- The product of two finite floats of any formats, computed in format `f`, is the rounding
of the exact product. -/
theorem mul_rounded_of (f : Fmt) {g h : Fmt} {a b : Flt} (ha : a.IsFin g) (hb : b.IsFin h) :
    Rounded f (a.toRat * b.toRat) (f.mul a b) := by
  cases a with
  | nan => exact absurd ha id
  | inf s => exact absurd ha id
  | fin s ma ea =>
    cases b with
    | nan => exact absurd hb id
    | inf t => exact absurd hb id
    | fin t mb eb =>
      refine ⟨xor s t, ma * mb, 1, ea + eb, by norm_num, rfl, ?_⟩
      have two : (2 : ℚ) ≠ 0 := by norm_num
      rw [toRat_fin, toRat_fin, sq_xor, zpow_add₀ two]
      push_cast
      ring

/-- The quotient of two finite floats of any formats, computed in format `f`, is the
rounding of the exact quotient. -/
theorem div_rounded_of (f : Fmt) {g h : Fmt} {a b : Flt} (ha : a.IsFin g) (hb : b.IsFin h)
    (h0 : b.toRat ≠ 0) : Rounded f (a.toRat / b.toRat) (f.div a b) := by
  cases a with
  | nan => exact absurd ha id
  | inf s => exact absurd ha id
  | fin s ma ea =>
    cases b with
    | nan => exact absurd hb id
    | inf t => exact absurd hb id
    | fin t mb eb =>
      have hmb : mb ≠ 0 := by
        intro h
        apply h0
        rw [toRat_fin, h]
        simp
      have hmbq : (mb : ℚ) ≠ 0 := by exact_mod_cast hmb
      refine ⟨xor s t, ma, mb, ea - eb, Nat.pos_of_ne_zero hmb, ?_, ?_⟩
      · simp only [Fmt.div]
        rw [if_neg hmb]
      · have two : (2 : ℚ) ≠ 0 := by norm_num
        rw [toRat_fin, toRat_fin, sq_xor, zpow_sub₀ two]
        have hs : sq t ≠ 0 := by cases t <;> simp [sq]
        have hz : (2 : ℚ) ^ eb ≠ 0 := (zpow_two_pos eb).ne'
        have hss : sq t * sq t = 1 := by cases t <;> simp [sq]
        field_simp
        linear_combination (sq s * ((ma : ℚ) * (2 : ℚ) ^ ea) * ((mb : ℚ) * (2 : ℚ) ^ eb)) * hss

/-- The conversion of a finite float of any format to format `f` is the rounding of its
value. -/
theorem cvt_rounded_of (f : Fmt) {g : Fmt} {a : Flt} (ha : a.IsFin g) :
    Rounded f a.toRat (f.cvt a) := by
  cases a with
  | nan => exact absurd ha id
  | inf s => exact absurd ha id
  | fin s m e =>
    refine ⟨s, m, 1, e, by norm_num, rfl, ?_⟩
    rw [toRat_fin]
    simp

/-- The Q of the filter setup is above zero. -/
theorem filter_q_pos (resonance : Flt) : (filter_q resonance).gt (flit 0 1) = true := by
  unfold filter_q
  split_ifs with h
  · exact h
  · decide

/-- The Q of the filter setup is a float when the resonance is. -/
theorem filter_q_isFloat {resonance : Flt} (h : resonance.IsFloat binary32) :
    (filter_q resonance).IsFloat binary32 := by
  unfold filter_q
  split_ifs
  · exact h
  · exact Or.inr (isFin_reg (by decide))

set_option maxRecDepth 100000 in
/-- The float `w` of a cutoff between zero and 22050: it is finite, at least zero, and at
most `13176793 * 2^-22`, the `w` of the largest float below 22050. -/
theorem biquad_w_range {cutoff : Flt} (hc : cutoff.IsFloat binary32)
    (h0 : (flit 0 1).lt cutoff = true) (h1 : cutoff.lt (flit 22050 1) = true) :
    (biquad_w cutoff (binary32.ofInt PFXR_SAMPLE_RATE)).IsFin binary32 ∧
      0 ≤ (biquad_w cutoff (binary32.ofInt PFXR_SAMPLE_RATE)).toRat ∧
      (biquad_w cutoff (binary32.ofInt PFXR_SAMPLE_RATE)).toRat ≤ 13176793 / 4194304 := by
  obtain ⟨fsr, vsr⟩ := sample_rate_value
  have fN : (flit 22050 1).IsFin binary32 := by decide
  have vN : (flit 22050 1).toRat = 22050 := by
    rw [show flit 22050 1 = Flt.fin false 11289600 (-9) by decide, toRat_fin]; norm_num [sq]
  rw [zero_eq] at h0
  have cf : cutoff.IsFin binary32 := isFin_of_lt_lt hc zero_isFin fN h0 h1
  have c0 : 0 ≤ cutoff.toRat := by
    have := (lt_iff_toRat zero_isFin cf).mp h0
    rw [zero_toRat] at this
    exact this.le
  have c1 : cutoff.toRat < 22050 := by
    have := (lt_iff_toRat cf fN).mp h1
    rwa [vN] at this
  have e9 : (2 : ℚ) ^ (-9 : Int) = 1 / 512 := by
    rw [show (-9 : Int) = -((9 : Nat) : Int) by norm_num, zpow_neg, zpow_natCast]
    norm_num
  have c2 : cutoff.toRat ≤ 11289599 / 512 := by
    have := float_lt_grid cf 11289600 (-9) (by norm_num) (by rw [e9]; norm_num; linarith)
    rw [e9] at this
    norm_num at this
    linarith
  have fP : (Flt.fin false 11289599 (-9)).IsFin binary32 := by decide
  have vP : (Flt.fin false 11289599 (-9)).toRat = 11289599 / 512 := by
    rw [toRat_fin]
    simp only [sq, if_false, Bool.false_eq_true, one_mul]
    rw [e9]
    norm_num
  -- the constant `2.0f * M_PI`
  have hX : binary64.mul (flit 2 1) M_PI = Flt.fin false 7074237752028440 (-50) := by decide
  have fX : (Flt.fin false 7074237752028440 (-50)).IsFin binary64 := by decide
  have xpos : 0 ≤ (Flt.fin false 7074237752028440 (-50)).toRat := by
    rw [toRat_fin]
    simp only [sq, if_false, Bool.false_eq_true, one_mul]
    positivity
  have fZ : (Flt.fin false 0 (-1074)).IsFin binary64 := by decide
  have vZ : (Flt.fin false 0 (-1074)).toRat = 0 := by rw [toRat_fin]; simp
  unfold biquad_w
  rw [hX]
  -- the product with the cutoff
  have r2 := mul_rounded_of binary64 fX cf
  have r2lo := mul_rounded_of binary64 fX zero_isFin
  have r2hi := mul_rounded_of binary64 fX fP
  have e2lo : binary64.mul (Flt.fin false 7074237752028440 (-50)) (Flt.fin false 0 (-149)) =
      Flt.fin false 0 (-1074) := by decide
  have e2hi : binary64.mul (Flt.fin false 7074237752028440 (-50))
      (Flt.fin false 11289599 (-9)) = Flt.fin false 4760343280497940 (-35) := by decide
  have fH2 : (Flt.fin false 4760343280497940 (-35)).IsFin binary64 := by decide
  rw [e2lo] at r2lo
  rw [e2hi] at r2hi
  obtain ⟨f2, l2, u2⟩ := rounded_between_rounded binary64_ok r2 r2lo r2hi fZ fH2
    (by rw [zero_toRat]; exact mul_le_mul_of_nonneg_left c0 xpos)
    (by rw [vP]; exact mul_le_mul_of_nonneg_left c2 xpos)
  generalize binary64.mul (Flt.fin false 7074237752028440 (-50)) cutoff = x2 at f2 l2 u2 ⊢
  -- the quotient by the sample rate
  have hsr0 : (binary32.ofInt PFXR_SAMPLE_RATE).toRat ≠ 0 := by rw [vsr]; norm_num
  have r3 := div_rounded_of binary64 f2 fsr hsr0
  have r3lo := div_rounded_of binary64 fZ fsr hsr0
  have r3hi := div_rounded_of binary64 fH2 fsr hsr0
  have e3lo : binary64.div (Flt.fin false 0 (-1074)) (binary32.ofInt PFXR_SAMPLE_RATE) =
      Flt.fin false 0 (-1074) := by decide
  have e3hi : binary64.div (Flt.fin false 4760343280497940 (-35))
      (binary32.ofInt PFXR_SAMPLE_RATE) = Flt.fin false 7074237125412993 (-51) := by decide
  have fH3 : (Flt.fin false 7074237125412993 (-51)).IsFin binary64 := by decide
  rw [e3lo] at r3lo
  rw [e3hi] at r3hi
  rw [vsr] at r3 r3lo r3hi
  obtain ⟨f3, l3, u3⟩ := rounded_between_rounded binary64_ok r3 r3lo r3hi fZ fH3
    (by apply div_le_div_of_nonneg_right l2; norm_num)
    (by apply div_le_div_of_nonneg_right u2; norm_num)
  generalize binary64.div x2 (binary32.ofInt PFXR_SAMPLE_RATE) = x3 at f3 l3 u3 ⊢
  -- the conversion to `float`
  have r4 := cvt_rounded_of binary32 f3
  have r4lo := cvt_rounded_of binary32 fZ
  have r4hi := cvt_rounded_of binary32 fH3
  have e4lo : binary32.cvt (Flt.fin false 0 (-1074)) = Flt.fin false 0 (-149) := by decide
  have e4hi : binary32.cvt (Flt.fin false 7074237125412993 (-51)) =
      Flt.fin false 13176793 (-22) := by decide
  have fW : (Flt.fin false 13176793 (-22)).IsFin binary32 := by decide
  have vW : (Flt.fin false 13176793 (-22)).toRat = 13176793 / 4194304 := by
    rw [toRat_fin]; norm_num [sq]
  rw [e4lo] at r4lo
  rw [e4hi] at r4hi
  obtain ⟨f4, l4, u4⟩ := rounded_between_rounded binary32_ok r4 r4lo r4hi zero_isFin fW l3 u3
  rw [zero_toRat] at l4
  rw [vW] at u4
  exact ⟨f4, l4, u4⟩

set_option maxRecDepth 100000 in
/-- The float divisor `1 + sin_w / (2 q)` is at least 1 when `q` is a float above zero and
`sin_w` is finite and at least zero. -/
theorem divisor_ge_one {sin_w q : Flt} (hs : sin_w.IsFin binary32) (hs0 : 0 ≤ sin_w.toRat)
    (hq : q.IsFloat binary32) (hq0 : q.gt (flit 0 1) = true) :
    (flit 1 1).le
      (binary32.add (flit 1 1) (binary32.div sin_w (binary32.mul (flit 2 1) q))) = true := by
  have hok := binary32_ok
  have f1 : (flit 1 1).IsFin binary32 := by decide
  have v1 : (flit 1 1).toRat = 1 := by
    rw [one_eq, toRat_fin]; norm_num [sq]
  have f2 : (flit 2 1).IsFin binary32 := by decide
  have v2 : (flit 2 1).toRat = 2 := by
    rw [two_eq, toRat_fin]; norm_num [sq]
  -- the case of an infinite `2 q`: `alpha` is a zero
  have hinf : ∀ s m e, (flit 1 1).le
      (binary32.add (flit 1 1) (binary32.div (Flt.fin s m e) (Flt.inf false))) = true := by
    intro s m e
    have : binary32.div (Flt.fin s m e) (Flt.inf false) = Flt.fin (xor s false) 0 (-149) := rfl
    rw [this]
    cases s <;> decide
  -- the sum `1 + alpha` for a float `alpha` that is at least zero
  have hsum : ∀ alpha : Flt, alpha.Reg binary32 → 0 ≤ binary32.ev alpha →
      (flit 1 1).le (binary32.add (flit 1 1) alpha) = true := by
    intro alpha hr h0
    cases alpha with
    | nan => exact absurd hr id
    | inf s =>
      cases s
      · decide
      · exfalso
        have : binary32.ev (Flt.inf true) < 0 := by
          simp only [Fmt.ev, sq, if_true]
          have := omega_pos binary32
          linarith
        linarith
    | fin s m e =>
      have fa : (Flt.fin s m e).IsFin binary32 := hr
      rw [ev_of_isFin fa] at h0
      have hr2 := add_rounded binary32 f1 fa
      have hm := rounded_mono hok (rounded_self hok f1) hr2 (by rw [v1]; linarith)
      rw [le_iff_ev (isFin_reg f1) (rounded_reg hok hr2)]
      exact hm
  unfold Flt.gt at hq0
  rw [zero_eq] at hq0
  cases hsw : sin_w with
  | nan => rw [hsw] at hs; exact absurd hs id
  | inf s => rw [hsw] at hs; exact absurd hs id
  | fin s m e =>
    rw [hsw] at hs hs0
    rcases hq with hn | hreg
    · subst hn
      exact absurd hq0 (by decide)
    · cases q with
      | nan => exact absurd hreg id
      | inf t =>
        cases t
        · have : binary32.mul (flit 2 1) (Flt.inf false) = Flt.inf false := by decide
          rw [this]
          exact hinf s m e
        · exact absurd hq0 (by decide)
      | fin t mq eq =>
        have fq : (Flt.fin t mq eq).IsFin binary32 := hreg
        have q0 : 0 < (Flt.fin t mq eq).toRat := by
          have := (lt_iff_toRat zero_isFin fq).mp hq0
          rwa [zero_toRat] at this
        obtain ⟨k, hk⟩ := isFin_grid fq
        have hu : (0 : ℚ) < (2 : ℚ) ^ (-149 : Int) := zpow_two_pos _
        have hk1 : (1 : ℚ) ≤ (k : ℚ) := by
          rw [hk] at q0
          have : (0 : ℚ) < (k : ℚ) := by
            by_contra hc
            push_neg at hc
            have := mul_nonpos_of_nonpos_of_nonneg hc hu.le
            linarith
          have : (0 : Int) < k := by exact_mod_cast this
          exact_mod_cast (show (1 : Int) ≤ k by omega)
        have rT := mul_rounded binary32 f2 fq
        rw [v2] at rT
        have fU : (Flt.fin false 2 (-149)).IsFin binary32 := by decide
        have vU : (Flt.fin false 2 (-149)).toRat = 2 * (2 : ℚ) ^ (-149 : Int) := by
          rw [toRat_fin]
          simp [sq]
        have hmT := rounded_mono hok (rounded_self hok fU) rT (by
          rw [vU, hk]
          have := mul_le_mul_of_nonneg_right hk1 hu.le
          linarith)
        rw [ev_of_isFin fU, vU] at hmT
        have regT := rounded_reg hok rT
        generalize binary32.mul (flit 2 1) (Flt.fin t mq eq) = T at hmT regT ⊢
        cases T with
        | nan => exact absurd regT id
        | inf u =>
          cases u
          · exact hinf s m e
          · exfalso
            have : binary32.ev (Flt.inf true) < 0 := by
              simp only [Fmt.ev, sq, if_true]
              have := omega_pos binary32
              linarith
            linarith
        | fin u mt et =>
          have fT : (Flt.fin u mt et).IsFin binary32 := regT
          rw [ev_of_isFin fT] at hmT
          have t0 : 0 < (Flt.fin u mt et).toRat := by linarith
          have rA := div_rounded binary32 hs fT (ne_of_gt t0)
          have hmA := rounded_mono hok (rounded_self hok zero_isFin) rA (by
            rw [zero_toRat]
            exact div_nonneg hs0 t0.le)
          rw [ev_of_isFin zero_isFin, zero_toRat] at hmA
          exact hsum _ (rounded_reg hok rA) hmA

set_option maxRecDepth 100000 in
/-- Claim C34 fails in "strictly greater than 1" for the float divisor. With the cutoff
`0.0001f`, which lies between 0 and 22050, and the default resonance 0, so that
`Q = 0.707f`, `w` is the float `16041355 * 2^-50`, about `1.42e-8`; for so small an angle
the float nearest to its sine is the angle itself, and with such a `sinf` the divisor
`1.0f + sin_w / (2.0f * Q)` is exactly `1.0f`, which is not above 1. With the resonance at
the largest finite float, for every cutoff and every `sinf` that returns a finite float,
`2.0f * Q` overflows, `alpha` is zero and the divisor is exactly `1.0f` again. -/
theorem biquad_divisor_counterexample :
    (flit 0 1).lt (flit 1 10000) = true ∧ (flit 1 10000).lt (flit 22050 1) = true ∧
    filter_q (flit 0 1) = flit 707 1000 ∧
    biquad_w (flit 1 10000) (binary32.ofInt PFXR_SAMPLE_RATE) =
      Flt.fin false 16041355 (-50) ∧
    (∀ cosf : Flt → Flt,
      biquad_divisor ⟨id, cosf⟩ (flit 1 10000) (filter_q (flit 0 1))
        (binary32.ofInt PFXR_SAMPLE_RATE) = flit 1 1) ∧
    (flit 1 1).lt (flit 1 1) = false ∧
    (∀ (L : libm_t) (cutoff : Flt),
      (L.sinf (biquad_w cutoff (binary32.ofInt PFXR_SAMPLE_RATE))).IsFin binary32 →
      biquad_divisor L cutoff (filter_q (Flt.fin false 16777215 104))
        (binary32.ofInt PFXR_SAMPLE_RATE) = flit 1 1) := by
  refine ⟨by decide, by decide, by decide, by decide, fun _ => rfl, by decide, ?_⟩
  intro L cutoff hs
  unfold biquad_divisor
  have hq : binary32.mul (flit 2 1) (filter_q (Flt.fin false 16777215 104)) =
      Flt.inf false := by decide
  rw [hq]
  cases hsw : L.sinf (biquad_w cutoff (binary32.ofInt PFXR_SAMPLE_RATE)) with
  | nan => rw [hsw] at hs; exact absurd hs id
  | inf s => rw [hsw] at hs; exact absurd hs id
  | fin s m e =>
    have : binary32.div (Flt.fin s m e) (Flt.inf false) = Flt.fin (xor s false) 0 (-149) := rfl
    rw [this]
    cases s <;> decide

set_option maxRecDepth 100000 in
/-- Claim C34, amended in "strictly greater than 1". The Q that the filter setup uses is
the resonance when it is above zero and `0.707f` otherwise, hence above zero, and the
coefficients that `biquad_lowpass_coeffs` and `biquad_highpass_coeffs` store are quotients
by the same divisor `1.0f + sin_w / (2.0f * Q)`. For every float cutoff with
`0 < cutoff < 22050`, the float `w` is finite with `0 <= w < pi`. Whenever the resonance is
a float and `sinf` returns at `w` a finite float that is at least zero, as the sine of such
an angle is, the float divisor is at least 1, so it is not zero, for both filters; it can be
exactly 1. In exact arithmetic, for `0 < w < pi` and `Q > 0`, the divisor
`1 + sin(w) / (2 Q)` is strictly greater than 1. -/
theorem biquad_divisor_nonzero (L : libm_t) (cutoff resonance : Flt) :
    (filter_q resonance = (if resonance.gt (flit 0 1) then resonance else flit 707 1000) ∧
      (filter_q resonance).gt (flit 0 1) = true) ∧
    (∀ (config : pfxr_sound_t) (buffer : pfxr_audio_buffer_t) (noise_seed : Nat),
      (initial_state L config buffer noise_seed).lowpass_filter =
          (if config.lowPassCutoff.gt (flit 0 1) then
            biquad_lowpass_coeffs L biquad_zero config.lowPassCutoff
              (filter_q config.lowPassResonance) (binary32.ofInt PFXR_SAMPLE_RATE)
          else biquad_zero) ∧
        (initial_state L config buffer noise_seed).highpass_filter =
          (if config.highPassCutoff.gt (flit 0 1) then
            biquad_highpass_coeffs L biquad_zero config.highPassCutoff
              (filter_q config.highPassResonance) (binary32.ofInt PFXR_SAMPLE_RATE)
          else biquad_zero)) ∧
    (∀ (filter : biquad_filter_t) (q sample_rate : Flt),
      biquad_lowpass_coeffs L filter cutoff q sample_rate =
          { filter with
            a0 := binary32.div
              (binary32.div (binary32.sub (flit 1 1) (L.cosf (biquad_w cutoff sample_rate)))
                (flit 2 1))
              (biquad_divisor L cutoff q sample_rate),
            a1 := binary32.div
              (binary32.sub (flit 1 1) (L.cosf (biquad_w cutoff sample_rate)))
              (biquad_divisor L cutoff q sample_rate),
            a2 := binary32.div
              (binary32.div (binary32.sub (flit 1 1) (L.cosf (biquad_w cutoff sample_rate)))
                (flit 2 1))
              (biquad_divisor L cutoff q sample_rate),
            b1 := binary32.div
              (binary32.mul (flit 2 1).neg (L.cosf (biquad_w cutoff sample_rate)))
              (biquad_divisor L cutoff q sample_rate),
            b2 := binary32.div
              (binary32.sub (flit 1 1)
                (binary32.div (L.sinf (biquad_w cutoff sample_rate))
                  (binary32.mul (flit 2 1) q)))
              (biquad_divisor L cutoff q sample_rate) } ∧
        biquad_highpass_coeffs L filter cutoff q sample_rate =
          { filter with
            a0 := binary32.div
              (binary32.div (binary32.add (flit 1 1) (L.cosf (biquad_w cutoff sample_rate)))
                (flit 2 1))
              (biquad_divisor L cutoff q sample_rate),
            a1 := binary32.div
              (binary32.add (flit 1 1) (L.cosf (biquad_w cutoff sample_rate))).neg
              (biquad_divisor L cutoff q sample_rate),
            a2 := binary32.div
              (binary32.div (binary32.add (flit 1 1) (L.cosf (biquad_w cutoff sample_rate)))
                (flit 2 1))
              (biquad_divisor L cutoff q sample_rate),
            b1 := binary32.div
              (binary32.mul (flit 2 1).neg (L.cosf (biquad_w cutoff sample_rate)))
              (biquad_divisor L cutoff q sample_rate),
            b2 := binary32.div
              (binary32.sub (flit 1 1)
                (binary32.div (L.sinf (biquad_w cutoff sample_rate))
                  (binary32.mul (flit 2 1) q)))
              (biquad_divisor L cutoff q sample_rate) }) ∧
    (cutoff.IsFloat binary32 → (flit 0 1).lt cutoff = true →
      cutoff.lt (flit 22050 1) = true →
      (biquad_w cutoff (binary32.ofInt PFXR_SAMPLE_RATE)).IsFin binary32 ∧
        0 ≤ (biquad_w cutoff (binary32.ofInt PFXR_SAMPLE_RATE)).toRat ∧
        (((biquad_w cutoff (binary32.ofInt PFXR_SAMPLE_RATE)).toRat : ℚ) : ℝ) < Real.pi) ∧
    (resonance.IsFloat binary32 →
      (L.sinf (biquad_w cutoff (binary32.ofInt PFXR_SAMPLE_RATE))).IsFin binary32 →
      0 ≤ (L.sinf (biquad_w cutoff (binary32.ofInt PFXR_SAMPLE_RATE))).toRat →
      (flit 1 1).le
          (biquad_divisor L cutoff (filter_q resonance) (binary32.ofInt PFXR_SAMPLE_RATE)) =
        true ∧
      ∀ (s : Bool) (e : Int),
        biquad_divisor L cutoff (filter_q resonance) (binary32.ofInt PFXR_SAMPLE_RATE) ≠
          Flt.fin s 0 e) ∧
    (∀ w Q : ℝ, 0 < w → w < Real.pi → 0 < Q → 1 < 1 + Real.sin w / (2 * Q)) := by
  refine ⟨⟨rfl, filter_q_pos resonance⟩, fun _ _ _ => ⟨rfl, rfl⟩, fun _ _ _ => ⟨rfl, rfl⟩,
    ?_, ?_, ?_⟩
  · intro hc h0 h1
    obtain ⟨a1, a2, a3⟩ := biquad_w_range hc h0 h1
    refine ⟨a1, a2, ?_⟩
    have hq : (((biquad_w cutoff (binary32.ofInt PFXR_SAMPLE_RATE)).toRat : ℚ) : ℝ) ≤
        ((13176793 / 4194304 : ℚ) : ℝ) := by exact_mod_cast a3
    have hpi := Real.pi_gt_d20
    have hn : ((13176793 / 4194304 : ℚ) : ℝ) < 3.14159265358979323846 := by norm_num
    linarith
  · intro hr hs hs0
    have hle := divisor_ge_one hs hs0 (filter_q_isFloat hr) (filter_q_pos resonance)
    refine ⟨hle, ?_⟩
    intro s e h
    unfold biquad_divisor at h
    rw [h, one_eq] at hle
    simp only [Flt.le, sgn, decide_eq_true_eq, Bool.false_eq_true, if_false] at hle
    have hp : (0 : Int) < 8388608 * 2 ^ (-23 - min (-23) e).toNat := by positivity
    cases s <;> simp at hle <;> linarith
  · intro w Q hw0 hw1 hQ
    have hsin := Real.sin_pos_of_pos_of_lt_pi hw0 hw1
    have : 0 < Real.sin w / (2 * Q) := div_pos hsin (by linarith)
    linarith

set_option maxRecDepth 100000 in
/-- The statement of C34 at the cutoff 1000 and the default resonance 0, with the identity
for `sinf` and `cosf`: `w` is `9561393 * 2^-26`. -/
theorem biquad_divisor_nonzero_witness :
    ((flit 1000 1).IsFloat binary32 ∧ (flit 0 1).lt (flit 1000 1) = true ∧
      (flit 1000 1).lt (flit 22050 1) = true) ∧
    (((biquad_w (flit 1000 1) (binary32.ofInt PFXR_SAMPLE_RATE)).toRat : ℚ) : ℝ) < Real.pi ∧
    ((flit 0 1).IsFloat binary32 ∧
      ((⟨id, id⟩ : libm_t).sinf
        (biquad_w (flit 1000 1) (binary32.ofInt PFXR_SAMPLE_RATE))).IsFin binary32 ∧
      0 ≤ ((⟨id, id⟩ : libm_t).sinf
        (biquad_w (flit 1000 1) (binary32.ofInt PFXR_SAMPLE_RATE))).toRat) ∧
    (flit 1 1).le
        (biquad_divisor ⟨id, id⟩ (flit 1000 1) (filter_q (flit 0 1))
          (binary32.ofInt PFXR_SAMPLE_RATE)) = true := by
  have hw : (⟨id, id⟩ : libm_t).sinf
      (biquad_w (flit 1000 1) (binary32.ofInt PFXR_SAMPLE_RATE)) =
      Flt.fin false 9561393 (-26) := by decide
  have hv : 0 ≤ (Flt.fin false 9561393 (-26)).toRat := by
    rw [toRat_fin]
    simp only [sq, if_false, Bool.false_eq_true, one_mul]
    positivity
  have hcf : (flit 1000 1).IsFloat binary32 := Or.inr (isFin_reg (by decide))
  have hrf : (flit 0 1).IsFloat binary32 := Or.inr (isFin_reg (by decide))
  exact ⟨⟨hcf, by decide, by decide⟩,
    ((biquad_divisor_nonzero ⟨id, id⟩ (flit 1000 1) (flit 0 1)).2.2.2.1 hcf (by decide)
      (by decide)).2.2,
    ⟨hrf, by rw [hw]; decide, by rw [hw]; exact hv⟩,
    ((biquad_divisor_nonzero ⟨id, id⟩ (flit 1000 1) (flit 0 1)).2.2.2.2.1 hrf
      (by rw [hw]; decide) (by rw [hw]; exact hv)).1⟩

/-! ## The loop body in stages -/

/-- The body of the sample loop in stages: the phaser stage applied to the sample of the
noise stage, then the store at index `i`, which is inside the buffer or has no defined
behaviour, with the variables of `step_state`. -/
theorem sample_step_eq (L : libm_t) (config : pfxr_sound_t) (capacity : Int)
    (sample_rate duration : Flt) (i : Int) (st : synth_t) :
    sample_step L config capacity sample_rate duration i st =
      (phaser_stage L config capacity sample_rate i st.phaser_phase st.samples
        (noise_sample L config sample_rate duration i st)).bind fun sample1 =>
        if i < 0 ∨ capacity ≤ i then none
        else some (step_state L config sample_rate duration i st sample1) := by
  unfold sample_step phaser_stage phaser_delay phaser_divisor noise_sample step_state
  simp only []
  generalize config.phaserDepth.gt (flit 0 1) = b
  cases b
  · rfl
  · simp only [if_true]
    generalize (binary32.div sample_rate
        (binary32.add
          (binary32.add config.phaserBaseFrequency
            (binary32.mul (L.sinf st.phaser_phase) config.phaserDepth))
          (flit 1 1))).toInt32 = od
    cases od with
    | none => rfl
    | some d =>
      simp only []
      by_cases hid : i ≥ d
      · simp only [hid, if_true]
        by_cases hc : i - d < 0 ∨ capacity ≤ i - d ∨ 2147483647 < i - d
        · simp only [hc, if_true]
          rfl
        · simp only [hc, if_false]
          rfl
      · simp only [hid, if_false]
        rfl

/-- The phase of the phaser in the state of the loop when the iteration for sample `i`
begins. -/
theorem state_at_phaser_phase (L : libm_t) (config : pfxr_sound_t)
    (buffer : pfxr_audio_buffer_t) (i : Nat) :
    ∀ st, state_at L config buffer i = some st → st.phaser_phase = phaser_phase_at config i := by
  induction i with
  | zero =>
    intro st h
    unfold state_at at h
    cases hs : initial_noise_seed config with
    | none => rw [hs] at h; exact absurd h (by simp)
    | some seed =>
      rw [hs] at h
      simp only [Option.some_bind, sample_loop] at h
      have := Option.some.inj h
      subst this
      rfl
  | succ n ih =>
    intro st h
    rw [state_at_succ] at h
    cases h0 : state_at L config buffer n with
    | none => rw [h0] at h; exact absurd h (by simp)
    | some st0 =>
      rw [h0, Option.some_bind, sample_step_eq] at h
      cases hph : phaser_stage L config buffer.capacity (binary32.ofInt PFXR_SAMPLE_RATE) (n : Int)
          st0.phaser_phase st0.samples
          (noise_sample L config (binary32.ofInt PFXR_SAMPLE_RATE)
            (binary32.add (binary32.add config.attackTime config.sustainTime) config.decayTime)
            (n : Int) st0) with
      | none => rw [hph] at h; exact absurd h (by simp)
      | some s1 =>
        rw [hph, Option.some_bind] at h
        split_ifs at h with hw
        have := Option.some.inj h
        subst this
        show (if config.phaserDepth.gt (flit 0 1) then _ else _) = _
        rw [ih st0 h0]
        rfl

/-! ## The phaser of the EXPLOSION template -/

set_option maxRecDepth 100000 in
/-- The parameter set of the EXPLOSION template for seed 114, at every clock reading. -/
theorem explosion_114_config (now : Int) :
    pfxr_apply_template now pfxr_template_t.EXPLOSION 114 =
      some
        { waveForm := 3,
          volume := Flt.fin false 10066330 (-25),
          attackTime := Flt.fin false 0 (-149),
          sustainTime := Flt.fin false 11792102 (-24),
          sustainPunch := Flt.fin false 9522843 (-25),
          decayTime := Flt.fin false 13011998 (-25),
          frequency := Flt.fin false 9702985 (-17),
          pitchDelta := Flt.fin true 9702985 (-17),
          pitchDuration := Flt.fin false 8388608 (-23),
          pitchDelay := Flt.fin false 10314826 (-27),
          vibratoRate := Flt.fin false 13212464 (-18),
          vibratoDepth := Flt.fin false 12751884 (-17),
          tremoloRate := Flt.fin false 12811847 (-20),
          tremoloDepth := Flt.fin false 10325287 (-25),
          highPassCutoff := Flt.fin false 0 (-149),
          highPassResonance := Flt.fin false 0 (-149),
          lowPassCutoff := Flt.fin false 16384000 (-12),
          lowPassResonance := Flt.fin false 0 (-149),
          phaserBaseFrequency := Flt.fin false 13107200 (-17),
          phaserLfoFrequency := Flt.fin false 13107200 (-18),
          phaserDepth := Flt.fin false 15522044 (-14),
          noiseAmount := Flt.fin false 15938540 (-15) } := by
  rw [pfxr_apply_template_clock_free now 0 pfxr_template_t.EXPLOSION 114 (by decide)]
  rfl

/-- With the phaser on, the phase of the phaser `k` samples after sample `n` is the phase at
sample `n` advanced `k` times. -/
theorem phaser_phase_at_add (config : pfxr_sound_t)
    (hd : config.phaserDepth.gt (flit 0 1) = true) (n k : Nat) :
    phaser_phase_at config (n + k) =
      (fun x => advance_phase x config.phaserLfoFrequency
        (binary32.ofInt PFXR_SAMPLE_RATE))^[k] (phaser_phase_at config n) := by
  induction k with
  | zero => rfl
  | succ k ih =>
    rw [Function.iterate_succ_apply', ← ih]
    show (if config.phaserDepth.gt (flit 0 1) then _ else _) = _
    rw [if_pos hd]
    rfl

set_option maxRecDepth 100000 in
/-- The phase of a phaser of rate 50 over eight runs of 57 samples, from the phase 0. -/
theorem phaser_phase_50 :
    (fun x => advance_phase x (Flt.fin false 13107200 (-18))
        (binary32.ofInt PFXR_SAMPLE_RATE))^[57] (flit 0 1) = Flt.fin false 13624991 (-25) ∧
    (fun x => advance_phase x (Flt.fin false 13107200 (-18))
        (binary32.ofInt PFXR_SAMPLE_RATE))^[57] (Flt.fin false 13624991 (-25)) =
      Flt.fin false 13624971 (-24) ∧
    (fun x => advance_phase x (Flt.fin false 13107200 (-18))
        (binary32.ofInt PFXR_SAMPLE_RATE))^[57] (Flt.fin false 13624971 (-24)) =
      Flt.fin false 10218735 (-23) ∧
    (fun x => advance_phase x (Flt.fin false 13107200 (-18))
        (binary32.ofInt PFXR_SAMPLE_RATE))^[57] (Flt.fin false 10218735 (-23)) =
      Flt.fin false 13624998 (-23) ∧
    (fun x => advance_phase x (Flt.fin false 13107200 (-18))
        (binary32.ofInt PFXR_SAMPLE_RATE))^[57] (Flt.fin false 13624998 (-23)) =
      Flt.fin false 8515628 (-22) ∧
    (fun x => advance_phase x (Flt.fin false 13107200 (-18))
        (binary32.ofInt PFXR_SAMPLE_RATE))^[57] (Flt.fin false 8515628 (-22)) =
      Flt.fin false 10218731 (-22) ∧
    (fun x => advance_phase x (Flt.fin false 13107200 (-18))
        (binary32.ofInt PFXR_SAMPLE_RATE))^[57] (Flt.fin false 10218731 (-22)) =
      Flt.fin false 11921834 (-22) ∧
    (fun x => advance_phase x (Flt.fin false 13107200 (-18))
        (binary32.ofInt PFXR_SAMPLE_RATE))^[57] (Flt.fin false 11921834 (-22)) =
      Flt.fin false 13624937 (-22) := by
  refine ⟨?_, ?_, ?_, ?_, ?_, ?_, ?_, ?_⟩ <;> decide

/-- The phase of the phaser of the EXPLOSION sound of seed 114 when the iteration for sample
456 begins: the float `13624937 * 2^-22`, about 3.2484. -/
theorem explosion_114_phase (now : Int) (c : pfxr_sound_t)
    (h : pfxr_apply_template now pfxr_template_t.EXPLOSION 114 = some c) :
    phaser_phase_at c 456 = Flt.fin false 13624937 (-22) := by
  rw [explosion_114_config] at h
  have hc := Option.some.inj h
  subst hc
  obtain ⟨h1, h2, h3, h4, h5, h6, h7, h8⟩ := phaser_phase_50
  rw [show (456 : Nat) = 399 + 57 from rfl, phaser_phase_at_add _ (by decide),
    show (399 : Nat) = 342 + 57 from rfl, phaser_phase_at_add _ (by decide),
    show (342 : Nat) = 285 + 57 from rfl, phaser_phase_at_add _ (by decide),
    show (285 : Nat) = 228 + 57 from rfl, phaser_phase_at_add _ (by decide),
    show (228 : Nat) = 171 + 57 from rfl, phaser_phase_at_add _ (by decide),
    show (171 : Nat) = 114 + 57 from rfl, phaser_phase_at_add _ (by decide),
    show (114 : Nat) = 57 + 57 from rfl, phaser_phase_at_add _ (by decide),
    show (57 : Nat) = 0 + 57 from rfl, phaser_phase_at_add _ (by decide)]
  show (fun x => advance_phase x (Flt.fin false 13107200 (-18))
      (binary32.ofInt PFXR_SAMPLE_RATE))^[57] _ = _
  simp only [phaser_phase_at]
  rw [h1, h2, h3, h4, h5, h6, h7, h8]

set_option maxRecDepth 100000 in
/-- The length of the EXPLOSION sound of seed 114: 48097 samples, and its phaser is on. -/
theorem explosion_114_length (now : Int) (c : pfxr_sound_t)
    (h : pfxr_apply_template now pfxr_template_t.EXPLOSION 114 = some c) :
    (binary32.mul (binary32.add (binary32.add c.attackTime c.sustainTime) c.decayTime)
        (binary32.ofInt PFXR_SAMPLE_RATE)).toInt32 = some 48097 ∧
      c.phaserDepth.gt (flit 0 1) = true := by
  rw [explosion_114_config] at h
  have hc := Option.some.inj h
  subst hc
  exact ⟨by decide, by decide⟩

set_option maxRecDepth 100000 in
/-- The delay of the phaser of the EXPLOSION sound of seed 114 at the phase of sample 456,
for a `sinf` that returns there a float within two units in the last place of
`-14313286 * 2^-27`, the float nearest to the sine: the delay is negative, below -1382000,
and it is -1383171 for the nearest float itself. -/
theorem explosion_114_delay (now : Int) (c : pfxr_sound_t)
    (h : pfxr_apply_template now pfxr_template_t.EXPLOSION 114 = some c) (L : libm_t) (m : Nat)
    (hm : 14313284 ≤ m ∧ m ≤ 14313288)
    (hV : L.sinf (Flt.fin false 13624937 (-22)) = Flt.fin true m (-27)) :
    ∃ d : Int,
      phaser_delay L c (binary32.ofInt PFXR_SAMPLE_RATE) (Flt.fin false 13624937 (-22)) =
          some d ∧
        d ≤ -1382000 ∧ (m = 14313286 → d = -1383171) := by
  rw [explosion_114_config] at h
  have hc := Option.some.inj h
  subst hc
  unfold phaser_delay phaser_divisor
  rw [hV]
  obtain ⟨h1, h2⟩ := hm
  interval_cases m
  · exact ⟨-1383834, by decide, by decide, by decide⟩
  · exact ⟨-1383502, by decide, by decide, by decide⟩
  · exact ⟨-1383171, by decide, by decide, by decide⟩
  · exact ⟨-1382841, by decide, by decide, by decide⟩
  · exact ⟨-1382510, by decide, by decide, by decide⟩

/-- The iteration for sample 456 of the EXPLOSION sound of seed 114 has no defined
behaviour in a buffer of at most a million samples, whatever the state in which it begins:
the phaser reads `buffer->samples[456 - delay]` with a delay below -1382000. -/
theorem explosion_114_step (now : Int) (c : pfxr_sound_t)
    (h : pfxr_apply_template now pfxr_template_t.EXPLOSION 114 = some c) (L : libm_t) (m : Nat)
    (hm : 14313284 ≤ m ∧ m ≤ 14313288)
    (hV : L.sinf (Flt.fin false 13624937 (-22)) = Flt.fin true m (-27))
    (buffer : pfxr_audio_buffer_t) (hcap : buffer.capacity ≤ 1000000) (st : synth_t)
    (hst : state_at L c buffer 456 = some st) :
    st.phaser_phase = Flt.fin false 13624937 (-22) ∧
      sample_step L c buffer.capacity (binary32.ofInt PFXR_SAMPLE_RATE)
        (binary32.add (binary32.add c.attackTime c.sustainTime) c.decayTime)
        ((456 : Nat) : Int) st = none := by
  have hp : st.phaser_phase = Flt.fin false 13624937 (-22) := by
    rw [state_at_phaser_phase L c buffer 456 st hst]
    exact explosion_114_phase now c h
  refine ⟨hp, ?_⟩
  obtain ⟨d, hd, hd1, -⟩ := explosion_114_delay now c h L m hm hV
  rw [sample_step_eq]
  unfold phaser_stage
  rw [hp, hd]
  simp only [(explosion_114_length now c h).2, if_true]
  have hge : ((456 : Nat) : Int) ≥ d := by
    push_cast
    omega
  have hout : ((456 : Nat) : Int) - d < 0 ∨ buffer.capacity ≤ ((456 : Nat) : Int) - d ∨
      2147483647 < ((456 : Nat) : Int) - d := by
    right
    left
    push_cast
    omega
  simp only [hge, hout, if_true, Option.none_bind]

/-- The render of the EXPLOSION sound of seed 114 into a buffer whose capacity is between
457 and a million samples has no defined behaviour. -/
theorem explosion_114_render (now : Int) (c : pfxr_sound_t)
    (h : pfxr_apply_template now pfxr_template_t.EXPLOSION 114 = some c) (L : libm_t) (m : Nat)
    (hm : 14313284 ≤ m ∧ m ≤ 14313288)
    (hV : L.sinf (Flt.fin false 13624937 (-22)) = Flt.fin true m (-27))
    (buffer : pfxr_audio_buffer_t) (hcap : 457 ≤ buffer.capacity ∧ buffer.capacity ≤ 1000000) :
    generate_sound L c buffer = none := by
  cases hg : generate_sound L c buffer with
  | none => rfl
  | some r =>
    exfalso
    obtain ⟨total0, st0, st, ht, -, -, -, hcnt, -⟩ := generate_sound_inv hg
    rw [(explosion_114_length now c h).1] at ht
    have ht0 := Option.some.inj ht
    subst ht0
    have hi : ((456 : Nat) : Int) < r.sample_count := by
      rw [hcnt]
      split_ifs with hgt
      · push_cast
        omega
      · decide
    obtain ⟨s, s1, h1, h2, -, -⟩ := generate_sound_states hg 456 hi
    have h3 := (explosion_114_step now c h L m hm hV buffer hcap.2 s h1).2
    rw [h3] at h2
    exact absurd h2 (by simp)
/-- Claim C32, the failing input: the sound of the EXPLOSION template for seed 114, which is
48097 samples long with the phaser on. When the iteration for sample 456 begins the phase of
the phaser is `13624937 * 2^-22`, about 3.2484; with `sinf` returning there the float
nearest to the sine, `-14313286 * 2^-27`, the frequency `phaserBaseFrequency + sinf(phase) *
phaserDepth + 1` is negative, the delay `(int)delay_samples` is -1383171, the test
`i >= (int)delay_samples` holds, and the phaser reads `buffer->samples[1383627]`: an index
above 456, not a sample written before, and outside the 176400 samples of the buffer. -/
theorem explosion_phaser_counterexample :
    ∃ c : pfxr_sound_t,
      (∀ now : Int, pfxr_apply_template now pfxr_template_t.EXPLOSION 114 = some c) ∧
      c.phaserDepth.gt (flit 0 1) = true ∧
      (binary32.mul (binary32.add (binary32.add c.attackTime c.sustainTime) c.decayTime)
          (binary32.ofInt PFXR_SAMPLE_RATE)).toInt32 = some 48097 ∧
      phaser_phase_at c 456 = Flt.fin false 13624937 (-22) ∧
      ∀ L : libm_t, L.sinf (Flt.fin false 13624937 (-22)) = Flt.fin true 14313286 (-27) →
        phaser_delay L c (binary32.ofInt PFXR_SAMPLE_RATE) (Flt.fin false 13624937 (-22)) =
            some (-1383171) ∧
          phaser_index L c (binary32.ofInt PFXR_SAMPLE_RATE) ((456 : Nat) : Int)
              (phaser_phase_at c 456) = some (some 1383627) ∧
          ∀ (buffer : pfxr_audio_buffer_t) (st : synth_t),
            state_at L c buffer 456 = some st →
            phaser_index L c (binary32.ofInt PFXR_SAMPLE_RATE) ((456 : Nat) : Int)
                st.phaser_phase = some (some 1383627) := by
  obtain ⟨c, hc, -⟩ := apply_template_some 0 pfxr_template_t.EXPLOSION 114
  have hnow : ∀ now : Int, pfxr_apply_template now pfxr_template_t.EXPLOSION 114 = some c := by
    intro now
    rw [pfxr_apply_template_clock_free now 0 pfxr_template_t.EXPLOSION 114 (by decide)]
    exact hc
  refine ⟨c, hnow, (explosion_114_length 0 c hc).2, (explosion_114_length 0 c hc).1,
    explosion_114_phase 0 c hc, fun L hV => ?_⟩
  obtain ⟨d, hd, -, hd2⟩ := explosion_114_delay 0 c hc L 14313286 (by decide) hV
  have hd3 := hd2 rfl
  subst hd3
  have hi : phaser_index L c (binary32.ofInt PFXR_SAMPLE_RATE) ((456 : Nat) : Int)
      (phaser_phase_at c 456) = some (some 1383627) := by
    rw [explosion_114_phase 0 c hc]
    unfold phaser_index
    rw [hd]
    simp only [(explosion_114_length 0 c hc).2, if_true]
    rfl
  refine ⟨hd, hi, fun buffer st hst => ?_⟩
  rw [state_at_phaser_phase L c buffer 456 st hst]
  exact hi

/-- Claim C1, the failing input: the EXPLOSION template with seed 114, rendered into the
fresh buffer of `PFXR_MAX_SAMPLES = 176400` samples that `pfxr_create_sound_from_config`
creates. For every `sinf` that returns, at the phase `13624937 * 2^-22` of the phaser at
sample 456, a float within two units in the last place of the float nearest to the sine,
the render reads `buffer->samples[456 - delay]` with a delay below -1382000, that is memory
after the end of the buffer: `pfxr_generate_sound` and `pfxr_create_sound_from_template`
have no defined behaviour there, at every clock reading, so that the samples are not a
function of the template and the seed. The last part is the instance of a `sinf` that returns
the float nearest to that sine. -/
theorem explosion_render_counterexample :
    (114 : Int) ≠ 0 ∧ PFXR_MAX_SAMPLES = some 176400 ∧
    (∀ L : libm_t,
      (∃ m : Nat, (14313284 ≤ m ∧ m ≤ 14313288) ∧
        L.sinf (Flt.fin false 13624937 (-22)) = Flt.fin true m (-27)) →
      ∀ now : Int,
        (∃ c : pfxr_sound_t,
          pfxr_apply_template now pfxr_template_t.EXPLOSION 114 = some c ∧
          pfxr_generate_sound L (some c) (some (pfxr_create_audio_buffer 176400)) = none) ∧
        pfxr_create_sound_from_template L now pfxr_template_t.EXPLOSION 114 = none) ∧
    ∀ now : Int,
      pfxr_create_sound_from_template ⟨fun _ => Flt.fin true 14313286 (-27), id⟩ now
        pfxr_template_t.EXPLOSION 114 = none := by
  have key : ∀ L : libm_t,
      (∃ m : Nat, (14313284 ≤ m ∧ m ≤ 14313288) ∧
        L.sinf (Flt.fin false 13624937 (-22)) = Flt.fin true m (-27)) →
      ∀ now : Int,
        (∃ c : pfxr_sound_t,
          pfxr_apply_template now pfxr_template_t.EXPLOSION 114 = some c ∧
          pfxr_generate_sound L (some c) (some (pfxr_create_audio_buffer 176400)) = none) ∧
        pfxr_create_sound_from_template L now pfxr_template_t.EXPLOSION 114 = none := by
    intro L hL now
    obtain ⟨m, hm, hV⟩ := hL
    obtain ⟨c, hc, -⟩ := apply_template_some now pfxr_template_t.EXPLOSION 114
    have hg := explosion_114_render now c hc L m hm hV (pfxr_create_audio_buffer 176400)
      ⟨by decide, by decide⟩
    refine ⟨⟨c, hc, ?_⟩, ?_⟩
    · unfold pfxr_generate_sound
      simp only [hg, Option.map_none']
    · unfold pfxr_create_sound_from_template pfxr_create_sound_from_config
      rw [hc]
      have hmax : PFXR_MAX_SAMPLES = some 176400 := rfl
      simp only [Option.some_bind, hmax, hg, Option.none_bind]
  exact ⟨by decide, rfl, key, fun now =>
    (key ⟨fun _ => Flt.fin true 14313286 (-27), id⟩
      ⟨14313286, ⟨by decide, by decide⟩, rfl⟩ now).2⟩

/-! ## Inputs on which C20, C25 and C29 fail as stated -/

set_option maxRecDepth 100000 in
/-- **C20 (as stated) fails.** With the three times 0 and `frequency = -1` the value
`frequency * 1000 + noiseAmount * 100 + volume * 1000` of the default sound is -500, whose
conversion to `uint32_t` (audio.c line 170, before the loop) has no defined behaviour, so
that the render does not complete without error; and with the three times 0 and a buffer of
capacity -1 the render sets `sample_count = -1`, not 0. -/
theorem generate_sound_zero_length_counterexample :
    initial_noise_seed
        { pfxr_get_default_sound with
          attackTime := flit 0 1, sustainTime := flit 0 1, decayTime := flit 0 1,
          frequency := (flit 1 1).neg } = none ∧
    (∀ L : libm_t,
      generate_sound L
          { pfxr_get_default_sound with
            attackTime := flit 0 1, sustainTime := flit 0 1, decayTime := flit 0 1,
            frequency := (flit 1 1).neg }
          (pfxr_create_audio_buffer 176400) = none) ∧
    ∀ L : libm_t,
      generate_sound L
          { pfxr_get_default_sound with
            attackTime := flit 0 1, sustainTime := flit 0 1, decayTime := flit 0 1 }
          { samples := fun _ => flit 0 1, sample_count := 0, capacity := -1 } =
        some { samples := fun _ => flit 0 1, sample_count := -1, capacity := -1 } :=
  ⟨by decide, fun _ => rfl, fun _ => rfl⟩

/-- **C25 (as stated) fails.** For `N = 1` sample that is NaN, the product with `32767.0f`
is NaN and its cast to `int16_t` (wav.c line 52) has no defined behaviour, so that
`pfxr_create_wav_data` has no defined result, although `N > 0` and `2N + 44` is
representable. -/
theorem pfxr_create_wav_data_size_counterexample :
    (0 : Int) < 1 ∧ (44 + 2 * 1 : Int) ≤ 2147483647 ∧
      pfxr_create_wav_data (some fun _ => Flt.nan) 1 true = none := by
  decide

set_option maxRecDepth 100000 in
/-- **C29 (as stated) fails.** For the default sound (`frequency = 700`, `pitchDelta = 0`)
with `pitchDelay = -inf`, sample 0 is rendered and its time `t = 0` has `t >= pitchDelay`;
the code skips the sweep, because `pitchDelta` is 0, and the swept frequency is `frequency`,
while the quotient `(t - pitchDelay) / (D - pitchDelay)` is `inf / inf`, that is NaN, and
with it `frequency + pitchDelta * min(...)`. -/
theorem swept_frequency_counterexample :
    (generate_sound ⟨id, id⟩ { pfxr_get_default_sound with pitchDelay := Flt.inf true }
        (pfxr_create_audio_buffer 1)).map (fun r => r.sample_count) = some 1 ∧
    (sample_time 0).ge (Flt.inf true) = true ∧
    pfxr_get_default_sound.pitchDelta.ne (flit 0 1) = false ∧
    swept_frequency { pfxr_get_default_sound with pitchDelay := Flt.inf true }
        (binary32.add
          (binary32.add pfxr_get_default_sound.attackTime pfxr_get_default_sound.sustainTime)
          pfxr_get_default_sound.decayTime)
        (sample_time 0) = flit 700 1 ∧
    binary32.add pfxr_get_default_sound.frequency
        (binary32.mul pfxr_get_default_sound.pitchDelta
          (fmin
            (binary32.div (binary32.sub (sample_time 0) (Flt.inf true))
              (binary32.sub
                (binary32.add
                  (binary32.add pfxr_get_default_sound.attackTime
                    pfxr_get_default_sound.sustainTime)
                  pfxr_get_default_sound.decayTime)
                (Flt.inf true)))
            pfxr_get_default_sound.pitchDuration)) = Flt.nan := by
  refine ⟨rfl, ?_, ?_, ?_, ?_⟩ <;> decide

/-! ## C17: the stores of the render -/

/-- A loop without a defined result has an iteration without one, reached through
iterations that have one. -/
theorem sample_loop_none {L : libm_t} {config : pfxr_sound_t} {capacity : Int}
    {sample_rate duration : Flt} (n : Nat) :
    ∀ (i : Int) (st : synth_t),
      sample_loop L config capacity sample_rate duration n i st = none →
      ∃ (k : Nat) (st1 : synth_t), k < n ∧
        sample_loop L config capacity sample_rate duration k i st = some st1 ∧
        sample_step L config capacity sample_rate duration (i + k) st1 = none := by
  induction n with
  | zero =>
    intro i st h
    rw [sample_loop] at h
    exact absurd h (by simp)
  | succ n ih =>
    intro i st h
    rw [sample_loop] at h
    cases hs : sample_step L config capacity sample_rate duration i st with
    | none =>
      refine ⟨0, st, Nat.succ_pos n, by rw [sample_loop], ?_⟩
      rw [Nat.cast_zero, add_zero]
      exact hs
    | some st2 =>
      rw [hs] at h
      obtain ⟨k, st1, hk, h1, h2⟩ := ih (i + 1) st2 h
      refine ⟨k + 1, st1, Nat.succ_lt_succ hk, ?_, ?_⟩
      · rw [sample_loop, hs]
        exact h1
      · have e : i + ((k + 1 : Nat) : Int) = i + 1 + (k : Int) := by
          push_cast
          ring
        rw [e]
        exact h2

/-- The render as the sample loop over the indices below `total_samples`: the truncated
product `duration * 44100` capped by the capacity, the noise seed, the loop from the initial
state, and the buffer that the loop leaves with `sample_count = total_samples`. -/
theorem generate_sound_eq (L : libm_t) (config : pfxr_sound_t) (buffer : pfxr_audio_buffer_t) :
    generate_sound L config buffer =
      (binary32.mul
          (binary32.add (binary32.add config.attackTime config.sustainTime) config.decayTime)
          (binary32.ofInt PFXR_SAMPLE_RATE)).toInt32.bind fun total0 =>
        (initial_noise_seed config).bind fun noise_seed =>
          (sample_loop L config buffer.capacity (binary32.ofInt PFXR_SAMPLE_RATE)
            (binary32.add (binary32.add config.attackTime config.sustainTime)
              config.decayTime)
            (if total0 > buffer.capacity then buffer.capacity else total0).toNat 0
            (initial_state L config buffer noise_seed)).map fun st =>
            { samples := st.samples,
              sample_count := if total0 > buffer.capacity then buffer.capacity else total0,
              capacity := buffer.capacity } := by
  unfold generate_sound initial_state
  simp only []
  cases (binary32.mul
      (binary32.add (binary32.add config.attackTime config.sustainTime) config.decayTime)
      (binary32.ofInt PFXR_SAMPLE_RATE)).toInt32 with
  | none => rfl
  | some total0 =>
    simp only [Option.some_bind]
    cases initial_noise_seed config with
    | none => rfl
    | some noise_seed =>
      simp only [Option.some_bind]
      split <;> rename_i hl <;> rw [hl] <;> rfl

/-- Claim C17: `pfxr_generate_sound` never writes past the buffer, for every parameter set
and every buffer. (1) The render is the sample loop over the indices `i` below
`total_samples`, the truncated product `duration * 44100` capped by the capacity (audio.c
lines 163-167), and it leaves `sample_count = total_samples`. (2) Each index of the loop is
inside the buffer, `i < capacity`; the iteration for such an index is the phaser stage
followed by the variables of `step_state`, whose only store into the buffer is at index `i`:
the store of line 273 is always defined, and an iteration is without defined behaviour only
through what the phaser reads. (3) In every state that the loop reaches, the one in which
the iteration for sample `k` begins, the entries at the indices `>= k` are those of the
buffer before the call. (4) A call that returns has `sample_count <= capacity` and the
capacity unchanged, every entry at an index `>= sample_count` keeps the value it had before
the call, and every entry at an index `j < sample_count` holds the sample that iteration
`j` stored. (5) A call has no defined behaviour only through the cast of the sample count,
the cast of the noise seed or the phaser stage of an index below `total_samples`, never
through a store. -/
theorem generate_sound_frame (L : libm_t) (config : pfxr_sound_t)
    (buffer : pfxr_audio_buffer_t) :
    generate_sound L config buffer =
      ((binary32.mul
          (binary32.add (binary32.add config.attackTime config.sustainTime) config.decayTime)
          (binary32.ofInt PFXR_SAMPLE_RATE)).toInt32.bind fun total0 =>
        (initial_noise_seed config).bind fun noise_seed =>
          (sample_loop L config buffer.capacity (binary32.ofInt PFXR_SAMPLE_RATE)
            (binary32.add (binary32.add config.attackTime config.sustainTime)
              config.decayTime)
            (if total0 > buffer.capacity then buffer.capacity else total0).toNat 0
            (initial_state L config buffer noise_seed)).map fun st =>
            { samples := st.samples,
              sample_count := if total0 > buffer.capacity then buffer.capacity else total0,
              capacity := buffer.capacity }) ∧
    (∀ total0 : Int,
      (binary32.mul
          (binary32.add (binary32.add config.attackTime config.sustainTime) config.decayTime)
          (binary32.ofInt PFXR_SAMPLE_RATE)).toInt32 = some total0 →
      ∀ i : Nat, (i : Int) < (if total0 > buffer.capacity then buffer.capacity else total0) →
        (i : Int) < buffer.capacity ∧
        ∀ st : synth_t,
          sample_step L config buffer.capacity (binary32.ofInt PFXR_SAMPLE_RATE)
              (binary32.add (binary32.add config.attackTime config.sustainTime)
                config.decayTime)
              (i : Int) st =
            (phaser_stage L config buffer.capacity (binary32.ofInt PFXR_SAMPLE_RATE) (i : Int)
              st.phaser_phase st.samples
              (noise_sample L config (binary32.ofInt PFXR_SAMPLE_RATE)
                (binary32.add (binary32.add config.attackTime config.sustainTime)
                  config.decayTime)
                (i : Int) st)).map
              (step_state L config (binary32.ofInt PFXR_SAMPLE_RATE)
                (binary32.add (binary32.add config.attackTime config.sustainTime)
                  config.decayTime)
                (i : Int) st) ∧
          ∀ sample1 : Flt,
            (step_state L config (binary32.ofInt PFXR_SAMPLE_RATE)
                (binary32.add (binary32.add config.attackTime config.sustainTime)
                  config.decayTime)
                (i : Int) st sample1).samples =
              Function.update st.samples i
                (output_stage L config (binary32.ofInt PFXR_SAMPLE_RATE) (i : Int)
                  st.tremolo_phase
                  (filter_stage config st.lowpass_filter st.highpass_filter sample1).1)) ∧
    (∀ (k : Nat) (st : synth_t), state_at L config buffer k = some st →
      (k = 0 ∨ (k : Int) ≤ buffer.capacity) ∧
        ∀ j : Nat, k ≤ j → st.samples j = buffer.samples j) ∧
    (∀ r : pfxr_audio_buffer_t, generate_sound L config buffer = some r →
      r.sample_count ≤ buffer.capacity ∧ r.capacity = buffer.capacity ∧
      (∀ j : Nat, r.sample_count ≤ (j : Int) → r.samples j = buffer.samples j) ∧
      (∀ j : Nat, (j : Int) < r.sample_count →
        ∃ (st : synth_t) (sample1 : Flt),
          state_at L config buffer j = some st ∧
          phaser_stage L config buffer.capacity (binary32.ofInt PFXR_SAMPLE_RATE) (j : Int)
              st.phaser_phase st.samples
              (noise_sample L config (binary32.ofInt PFXR_SAMPLE_RATE)
                (binary32.add (binary32.add config.attackTime config.sustainTime)
                  config.decayTime)
                (j : Int) st) = some sample1 ∧
          r.samples j =
            output_stage L config (binary32.ofInt PFXR_SAMPLE_RATE) (j : Int)
              st.tremolo_phase
              (filter_stage config st.lowpass_filter st.highpass_filter sample1).1)) ∧
    (generate_sound L config buffer = none →
      (binary32.mul
          (binary32.add (binary32.add config.attackTime config.sustainTime) config.decayTime)
          (binary32.ofInt PFXR_SAMPLE_RATE)).toInt32 = none ∨
      initial_noise_seed config = none ∨
      ∃ (total0 : Int) (i : Nat) (st : synth_t),
        (binary32.mul
            (binary32.add (binary32.add config.attackTime config.sustainTime)
              config.decayTime)
            (binary32.ofInt PFXR_SAMPLE_RATE)).toInt32 = some total0 ∧
        (i : Int) < (if total0 > buffer.capacity then buffer.capacity else total0) ∧
        state_at L config buffer i = some st ∧
        phaser_stage L config buffer.capacity (binary32.ofInt PFXR_SAMPLE_RATE) (i : Int)
            st.phaser_phase st.samples
            (noise_sample L config (binary32.ofInt PFXR_SAMPLE_RATE)
              (binary32.add (binary32.add config.attackTime config.sustainTime)
                config.decayTime)
              (i : Int) st) = none) := by
  have hstep : ∀ i : Nat, (i : Int) < buffer.capacity → ∀ st : synth_t,
      sample_step L config buffer.capacity (binary32.ofInt PFXR_SAMPLE_RATE)
          (binary32.add (binary32.add config.attackTime config.sustainTime)
            config.decayTime)
          (i : Int) st =
        (phaser_stage L config buffer.capacity (binary32.ofInt PFXR_SAMPLE_RATE) (i : Int)
          st.phaser_phase st.samples
          (noise_sample L config (binary32.ofInt PFXR_SAMPLE_RATE)
            (binary32.add (binary32.add config.attackTime config.sustainTime)
              config.decayTime)
            (i : Int) st)).map
          (step_state L config (binary32.ofInt PFXR_SAMPLE_RATE)
            (binary32.add (binary32.add config.attackTime config.sustainTime)
              config.decayTime)
            (i : Int) st) := by
    intro i hi st
    rw [sample_step_eq]
    have hw : ¬ ((i : Int) < 0 ∨ buffer.capacity ≤ (i : Int)) := by omega
    simp only [hw, if_false]
    cases phaser_stage L config buffer.capacity (binary32.ofInt PFXR_SAMPLE_RATE) (i : Int)
      st.phaser_phase st.samples
      (noise_sample L config (binary32.ofInt PFXR_SAMPLE_RATE)
        (binary32.add (binary32.add config.attackTime config.sustainTime) config.decayTime)
        (i : Int) st) <;> rfl
  have hcapi : ∀ (total0 : Int) (i : Nat),
      (i : Int) < (if total0 > buffer.capacity then buffer.capacity else total0) →
      (i : Int) < buffer.capacity := by
    intro total0 i hi
    split_ifs at hi with hgt
    · exact hi
    · omega
  refine ⟨generate_sound_eq L config buffer, ?_, ?_, ?_, ?_⟩
  · intro total0 _ i hi
    have hic := hcapi total0 i hi
    refine ⟨hic, fun st => ⟨hstep i hic st, fun sample1 => ?_⟩⟩
    show Function.update st.samples (i : Int).toNat _ = _
    rw [Int.toNat_natCast]
  · intro k st hst
    unfold state_at at hst
    cases hs : initial_noise_seed config with
    | none =>
      rw [hs] at hst
      exact absurd hst (by simp)
    | some seed =>
      rw [hs, Option.some_bind] at hst
      have hst2 : sample_loop L config buffer.capacity (binary32.ofInt PFXR_SAMPLE_RATE)
          (binary32.add (binary32.add config.attackTime config.sustainTime) config.decayTime)
          k ((0 : Nat) : Int) (initial_state L config buffer seed) = some st := by
        rw [Nat.cast_zero]
        exact hst
      obtain ⟨b1, b2, -⟩ := sample_loop_samples k 0 _ _ hst2
      refine ⟨?_, fun j hj => ?_⟩
      · rcases b1 with b1 | b1
        · exact Or.inl b1
        · right
          rw [Nat.zero_add] at b1
          exact b1
      · rw [b2 j (Or.inr (by omega))]
        rfl
  · intro r h
    obtain ⟨c1, c2, c3, -⟩ := generate_sound_samples h
    refine ⟨c1, c2, c3, fun j hj => ?_⟩
    obtain ⟨st, st1, h1, h2, -, h4⟩ := generate_sound_states h j hj
    have hjc : (j : Int) < buffer.capacity := by omega
    rw [hstep j hjc st] at h2
    cases hp : phaser_stage L config buffer.capacity (binary32.ofInt PFXR_SAMPLE_RATE)
        (j : Int) st.phaser_phase st.samples
        (noise_sample L config (binary32.ofInt PFXR_SAMPLE_RATE)
          (binary32.add (binary32.add config.attackTime config.sustainTime) config.decayTime)
          (j : Int) st) with
    | none =>
      rw [hp] at h2
      exact absurd h2 (by simp)
    | some sample1 =>
      rw [hp] at h2
      have h5 := Option.some.inj h2
      refine ⟨st, sample1, h1, hp, ?_⟩
      rw [h4, ← h5]
      show Function.update st.samples (j : Int).toNat _ j = _
      rw [Int.toNat_natCast, Function.update_same]
  · intro h
    cases ht : (binary32.mul
        (binary32.add (binary32.add config.attackTime config.sustainTime) config.decayTime)
        (binary32.ofInt PFXR_SAMPLE_RATE)).toInt32 with
    | none => exact Or.inl rfl
    | some total0 =>
      right
      cases hs : initial_noise_seed config with
      | none => exact Or.inl rfl
      | some seed =>
        right
        have hl : sample_loop L config buffer.capacity (binary32.ofInt PFXR_SAMPLE_RATE)
            (binary32.add (binary32.add config.attackTime config.sustainTime)
              config.decayTime)
            (if total0 > buffer.capacity then buffer.capacity else total0).toNat 0
            (initial_state L config buffer seed) = none := by
          unfold generate_sound at h
          simp only [ht, hs] at h
          cases hl : sample_loop L config buffer.capacity (binary32.ofInt PFXR_SAMPLE_RATE)
              (binary32.add (binary32.add config.attackTime config.sustainTime)
                config.decayTime)
              (if total0 > buffer.capacity then buffer.capacity else total0).toNat 0
              (initial_state L config buffer seed) with
          | none => rfl
          | some st =>
            exfalso
            unfold initial_state at hl
            rw [hl] at h
            exact absurd h (by simp)
        obtain ⟨k, st1, hk, h1, h2⟩ := sample_loop_none _ _ _ hl
        have hki : (k : Int) <
            (if total0 > buffer.capacity then buffer.capacity else total0) := by
          omega
        have hkc := hcapi total0 k hki
        rw [zero_add, hstep k hkc st1] at h2
        refine ⟨total0, k, st1, rfl, hki, ?_, ?_⟩
        · unfold state_at
          rw [hs, Option.some_bind]
          exact h1
        · cases hp : phaser_stage L config buffer.capacity (binary32.ofInt PFXR_SAMPLE_RATE)
              (k : Int) st1.phaser_phase st1.samples
              (noise_sample L config (binary32.ofInt PFXR_SAMPLE_RATE)
                (binary32.add (binary32.add config.attackTime config.sustainTime)
                  config.decayTime)
                (k : Int) st1) with
          | none => rfl
          | some s1 =>
            rw [hp] at h2
            exact absurd h2 (by simp)

set_option maxRecDepth 100000 in
/-- The statement of C17 at the default sound with the phaser on (`phaserDepth = 1`,
`phaserBaseFrequency = 30000`, so that sample 1 reads sample 0), the identity for `sinf`
and `cosf`, and a buffer of capacity 2 whose memory holds `1.0f` everywhere: the sound is
16317 samples long and the render stops at the capacity, the entries 0 and 1 are written,
and the entries from index 2 on still hold `1.0f`. -/
theorem generate_sound_frame_witness :
    generate_sound ⟨id, id⟩
        { pfxr_get_default_sound with
          phaserDepth := flit 1 1, phaserBaseFrequency := flit 30000 1 }
        { samples := fun _ => flit 1 1, sample_count := 0, capacity := 2 } =
      some { samples :=
               Function.update
                 (Function.update (fun _ => flit 1 1) 0 (Flt.fin false 0 (-149)))
                 1 (Flt.fin false 13385951 (-28)),
             sample_count := 2, capacity := 2 } ∧
    ((2 : Int) ≤ 2 ∧
      ∀ j : Nat, (2 : Int) ≤ (j : Int) →
        Function.update
            (Function.update (fun _ => flit 1 1) 0 (Flt.fin false 0 (-149)))
            1 (Flt.fin false 13385951 (-28)) j = flit 1 1) ∧
    ((1 : Nat) : Int) < 2 :=
  ⟨rfl,
    ⟨((generate_sound_frame ⟨id, id⟩
        { pfxr_get_default_sound with
          phaserDepth := flit 1 1, phaserBaseFrequency := flit 30000 1 }
        { samples := fun _ => flit 1 1, sample_count := 0, capacity := 2 }).2.2.2.1
        { samples :=
            Function.update
              (Function.update (fun _ => flit 1 1) 0 (Flt.fin false 0 (-149)))
              1 (Flt.fin false 13385951 (-28)),
          sample_count := 2, capacity := 2 }
        rfl).1,
      ((generate_sound_frame ⟨id, id⟩
        { pfxr_get_default_sound with
          phaserDepth := flit 1 1, phaserBaseFrequency := flit 30000 1 }
        { samples := fun _ => flit 1 1, sample_count := 0, capacity := 2 }).2.2.2.1
        { samples :=
            Function.update
              (Function.update (fun _ => flit 1 1) 0 (Flt.fin false 0 (-149)))
              1 (Flt.fin false 13385951 (-28)),
          sample_count := 2, capacity := 2 }
        rfl).2.2.1⟩,
    ((generate_sound_frame ⟨id, id⟩
        { pfxr_get_default_sound with
          phaserDepth := flit 1 1, phaserBaseFrequency := flit 30000 1 }
        { samples := fun _ => flit 1 1, sample_count := 0, capacity := 2 }).2.1
      16317 (by decide) 1 (by decide)).1⟩

/-! ## C33: the filter stage -/

/-- Claim C33: in every render the low-pass biquad is applied to a sample if and only if
`0 < lowPassCutoff < 4000` and the high-pass biquad if and only if `highPassCutoff > 0`,
the low-pass first. (1) Every iteration of the sample loop is the phaser stage followed by
`step_state`, which passes the sample that leaves the phaser through the filter stage:
the filters of the next iteration are those that the stage leaves, and the sample stored at
index `i` is the output stage of the sample that the stage returns. (2) For the sample `x`
that enters, the stage computes a sample `mid`: when `0 < lowPassCutoff < 4000`, `mid` is
the biquad output `a0 * x + a1 * x1 + a2 * x2 - b1 * y1 - b2 * y2` of the low-pass filter,
in `float` and in this order, and the filter shifts its history (`x2 = x1`, `x1 = x`,
`y2 = y1`, `y1 = mid`); otherwise `mid = x` and the filter is unchanged. When
`highPassCutoff > 0` the sample returned is the biquad output of the high-pass filter for
the input `mid`, and that filter shifts its history; otherwise the sample returned is `mid`
and the filter is unchanged. (3) With the default parameter set (`lowPassCutoff = 4000`,
`highPassCutoff = 0`) the stage leaves every sample and both filters unchanged. (4) In a
render that completes, the sample of every index `i < sample_count` is the output stage of
the filter stage applied, with the filters of the state in which iteration `i` begins, to
the sample that leaves the phaser stage. -/
theorem filter_stage_applied (L : libm_t) (config : pfxr_sound_t) :
    (∀ (capacity : Int) (sample_rate duration : Flt) (i : Int) (st : synth_t),
      sample_step L config capacity sample_rate duration i st =
          ((phaser_stage L config capacity sample_rate i st.phaser_phase st.samples
            (noise_sample L config sample_rate duration i st)).bind fun sample1 =>
            if i < 0 ∨ capacity ≤ i then none
            else some (step_state L config sample_rate duration i st sample1)) ∧
        ∀ sample1 : Flt,
          (step_state L config sample_rate duration i st sample1).lowpass_filter =
              (filter_stage config st.lowpass_filter st.highpass_filter sample1).2.1 ∧
            (step_state L config sample_rate duration i st sample1).highpass_filter =
              (filter_stage config st.lowpass_filter st.highpass_filter sample1).2.2 ∧
            (step_state L config sample_rate duration i st sample1).samples i.toNat =
              output_stage L config sample_rate i st.tremolo_phase
                (filter_stage config st.lowpass_filter st.highpass_filter sample1).1) ∧
    (∀ (lp hp : biquad_filter_t) (x : Flt),
      ∃ mid : Flt,
        (((flit 0 1).lt config.lowPassCutoff = true ∧
            config.lowPassCutoff.lt (flit 4000 1) = true) →
          mid =
              binary32.sub
                (binary32.sub
                  (binary32.add
                    (binary32.add (binary32.mul lp.a0 x) (binary32.mul lp.a1 lp.x1))
                    (binary32.mul lp.a2 lp.x2))
                  (binary32.mul lp.b1 lp.y1))
                (binary32.mul lp.b2 lp.y2) ∧
            (filter_stage config lp hp x).2.1 =
              { lp with x2 := lp.x1, x1 := x, y2 := lp.y1, y1 := mid }) ∧
        (¬ ((flit 0 1).lt config.lowPassCutoff = true ∧
            config.lowPassCutoff.lt (flit 4000 1) = true) →
          mid = x ∧ (filter_stage config lp hp x).2.1 = lp) ∧
        ((flit 0 1).lt config.highPassCutoff = true →
          (filter_stage config lp hp x).1 =
              binary32.sub
                (binary32.sub
                  (binary32.add
                    (binary32.add (binary32.mul hp.a0 mid) (binary32.mul hp.a1 hp.x1))
                    (binary32.mul hp.a2 hp.x2))
                  (binary32.mul hp.b1 hp.y1))
                (binary32.mul hp.b2 hp.y2) ∧
            (filter_stage config lp hp x).2.2 =
              { hp with
                x2 := hp.x1, x1 := mid, y2 := hp.y1, y1 := (filter_stage config lp hp x).1 }) ∧
        (¬ (flit 0 1).lt config.highPassCutoff = true →
          (filter_stage config lp hp x).1 = mid ∧ (filter_stage config lp hp x).2.2 = hp)) ∧
    (pfxr_get_default_sound.lowPassCutoff = flit 4000 1 ∧
      pfxr_get_default_sound.highPassCutoff = flit 0 1 ∧
      ∀ (lp hp : biquad_filter_t) (x : Flt),
        filter_stage pfxr_get_default_sound lp hp x = (x, lp, hp)) ∧
    ∀ (buffer r : pfxr_audio_buffer_t), generate_sound L config buffer = some r →
      ∀ i : Nat, (i : Int) < r.sample_count →
        ∃ (st : synth_t) (sample1 : Flt),
          state_at L config buffer i = some st ∧
          phaser_stage L config buffer.capacity (binary32.ofInt PFXR_SAMPLE_RATE) (i : Int)
              st.phaser_phase st.samples
              (noise_sample L config (binary32.ofInt PFXR_SAMPLE_RATE)
                (binary32.add (binary32.add config.attackTime config.sustainTime)
                  config.decayTime)
                (i : Int) st) = some sample1 ∧
          state_at L config buffer (i + 1) =
            some
              (step_state L config (binary32.ofInt PFXR_SAMPLE_RATE)
                (binary32.add (binary32.add config.attackTime config.sustainTime)
                  config.decayTime)
                (i : Int) st sample1) ∧
          r.samples i =
            output_stage L config (binary32.ofInt PFXR_SAMPLE_RATE) (i : Int)
              st.tremolo_phase
              (filter_stage config st.lowpass_filter st.highpass_filter sample1).1 := by
  refine ⟨?_, ?_, ⟨rfl, rfl, ?_⟩, ?_⟩
  · intro capacity sample_rate duration i st
    refine ⟨sample_step_eq L config capacity sample_rate duration i st, fun sample1 => ?_⟩
    refine ⟨rfl, rfl, ?_⟩
    show Function.update st.samples i.toNat _ i.toNat = _
    rw [Function.update_same]
  · intro lp hp s
    unfold filter_stage biquad_process Flt.gt
    by_cases c1 : (flit 0 1).lt config.lowPassCutoff = true ∧
        config.lowPassCutoff.lt (flit 4000 1) = true
    · refine ⟨_, fun _ => ⟨rfl, ?_⟩, fun hn => absurd c1 hn, ?_, ?_⟩
      · simp only [c1.1, c1.2, Bool.and_self, if_true]
      · intro c2
        simp only [c1.1, c1.2, c2, Bool.and_self, if_true, and_self]
      · intro c2
        have c2f : (flit 0 1).lt config.highPassCutoff = false := by simpa using c2
        simp only [c1.1, c1.2, c2f, Bool.and_self, if_true, Bool.false_eq_true, if_false,
          and_self]
    · have hc : ((flit 0 1).lt config.lowPassCutoff &&
          config.lowPassCutoff.lt (flit 4000 1)) = false := by
        rw [Bool.and_eq_false_iff]
        by_contra hx
        push_neg at hx
        exact c1 ⟨by simpa using hx.1, by simpa using hx.2⟩
      refine ⟨s, fun hp1 => absurd hp1 c1, ?_, ?_, ?_⟩
      · intro _
        simp only [hc, Bool.false_eq_true, if_false, and_self]
      · intro c2
        simp only [hc, c2, Bool.false_eq_true, if_false, if_true, and_self]
      · intro c2
        have c2f : (flit 0 1).lt config.highPassCutoff = false := by simpa using c2
        simp only [hc, c2f, Bool.false_eq_true, if_false, and_self]
  · intro lp hp s
    have e1 : (pfxr_get_default_sound.lowPassCutoff.gt (flit 0 1) &&
        pfxr_get_default_sound.lowPassCutoff.lt (flit 4000 1)) = false := by decide
    have e2 : pfxr_get_default_sound.highPassCutoff.gt (flit 0 1) = false := by decide
    unfold filter_stage
    simp only [e1, e2, Bool.false_eq_true, if_false]
  · intro buffer r h i hi
    obtain ⟨st, st1, h1, h2, h3, h4⟩ := generate_sound_states h i hi
    rw [sample_step_eq] at h2
    cases hp : phaser_stage L config buffer.capacity (binary32.ofInt PFXR_SAMPLE_RATE)
        (i : Int) st.phaser_phase st.samples
        (noise_sample L config (binary32.ofInt PFXR_SAMPLE_RATE)
          (binary32.add (binary32.add config.attackTime config.sustainTime) config.decayTime)
          (i : Int) st) with
    | none =>
      rw [hp] at h2
      exact absurd h2 (by simp)
    | some sample1 =>
      rw [hp, Option.some_bind] at h2
      split_ifs at h2 with hw
      have h5 := Option.some.inj h2
      refine ⟨st, sample1, h1, hp, ?_, ?_⟩
      · rw [h3, ← h5]
      · rw [h4, ← h5]
        show Function.update st.samples (i : Int).toNat _ i = _
        rw [Int.toNat_natCast, Function.update_same]

set_option maxRecDepth 100000 in
/-- The statement of C33 at the default sound with `lowPassCutoff = 1000` and
`highPassCutoff = 500`, a fresh buffer of capacity 2 and index 1, with the identity for
`sinf` and `cosf`: both biquads are applied. The sample `13385951 * 2^-27` that enters the
stage at index 1 leaves the low-pass filter as `10428039 * 2^-28` and the high-pass filter
as `10635109 * 2^-29`, both filters record their input and output, and the sample stored
is `10635109 * 2^-30`, where the default sound stores `13385951 * 2^-28`. -/
theorem filter_stage_applied_witness :
    ((flit 0 1).lt (flit 1000 1) = true ∧ (flit 1000 1).lt (flit 4000 1) = true) ∧
    (flit 0 1).lt (flit 500 1) = true ∧
    generate_sound ⟨id, id⟩
        { pfxr_get_default_sound with
          lowPassCutoff := flit 1000 1, highPassCutoff := flit 500 1 }
        (pfxr_create_audio_buffer 2) =
      some { samples :=
               Function.update
                 (Function.update (fun _ => Flt.fin false 0 (-149)) 0
                   (Flt.fin false 0 (-149)))
                 1 (Flt.fin false 10635109 (-30)),
             sample_count := 2, capacity := 2 } ∧
    filter_stage
        { pfxr_get_default_sound with
          lowPassCutoff := flit 1000 1, highPassCutoff := flit 500 1 }
        { a0 := Flt.fin false 13069931 (-25), a1 := Flt.fin false 13069931 (-24),
          a2 := Flt.fin false 13069931 (-25), b1 := Flt.fin true 8686168 (-25),
          b2 := Flt.fin false 13705729 (-24), x1 := flit 0 1, x2 := flit 0 1,
          y1 := flit 0 1, y2 := flit 0 1 }
        { a0 := Flt.fin false 8555181 (-24), a1 := Flt.fin true 8555181 (-23),
          a2 := Flt.fin false 8555181 (-24), b1 := Flt.fin true 9102790 (-26),
          b2 := Flt.fin false 15167812 (-24), x1 := flit 0 1, x2 := flit 0 1,
          y1 := flit 0 1, y2 := flit 0 1 }
        (Flt.fin false 13385951 (-27)) =
      (Flt.fin false 10635109 (-29),
        { a0 := Flt.fin false 13069931 (-25), a1 := Flt.fin false 13069931 (-24),
          a2 := Flt.fin false 13069931 (-25), b1 := Flt.fin true 8686168 (-25),
          b2 := Flt.fin false 13705729 (-24), x1 := Flt.fin false 13385951 (-27),
          x2 := flit 0 1, y1 := Flt.fin false 10428039 (-28), y2 := flit 0 1 },
        { a0 := Flt.fin false 8555181 (-24), a1 := Flt.fin true 8555181 (-23),
          a2 := Flt.fin false 8555181 (-24), b1 := Flt.fin true 9102790 (-26),
          b2 := Flt.fin false 15167812 (-24), x1 := Flt.fin false 10428039 (-28),
          x2 := flit 0 1, y1 := Flt.fin false 10635109 (-29), y2 := flit 0 1 }) ∧
    ∃ (st : synth_t) (sample1 : Flt),
      state_at ⟨id, id⟩
          { pfxr_get_default_sound with
            lowPassCutoff := flit 1000 1, highPassCutoff := flit 500 1 }
          (pfxr_create_audio_buffer 2) 1 = some st ∧
      phaser_stage ⟨id, id⟩
          { pfxr_get_default_sound with
            lowPassCutoff := flit 1000 1, highPassCutoff := flit 500 1 }
          (pfxr_create_audio_buffer 2).capacity (binary32.ofInt PFXR_SAMPLE_RATE)
          ((1 : Nat) : Int) st.phaser_phase st.samples
          (noise_sample ⟨id, id⟩
            { pfxr_get_default_sound with
              lowPassCutoff := flit 1000 1, highPassCutoff := flit 500 1 }
            (binary32.ofInt PFXR_SAMPLE_RATE)
            (binary32.add
              (binary32.add pfxr_get_default_sound.attackTime
                pfxr_get_default_sound.sustainTime)
              pfxr_get_default_sound.decayTime)
            ((1 : Nat) : Int) st) = some sample1 ∧
      state_at ⟨id, id⟩
          { pfxr_get_default_sound with
            lowPassCutoff := flit 1000 1, highPassCutoff := flit 500 1 }
          (pfxr_create_audio_buffer 2) (1 + 1) =
        some
          (step_state ⟨id, id⟩
            { pfxr_get_default_sound with
              lowPassCutoff := flit 1000 1, highPassCutoff := flit 500 1 }
            (binary32.ofInt PFXR_SAMPLE_RATE)
            (binary32.add
              (binary32.add pfxr_get_default_sound.attackTime
                pfxr_get_default_sound.sustainTime)
              pfxr_get_default_sound.decayTime)
            ((1 : Nat) : Int) st sample1) ∧
      Function.update
          (Function.update (fun _ => Flt.fin false 0 (-149)) 0 (Flt.fin false 0 (-149)))
          1 (Flt.fin false 10635109 (-30)) 1 =
        output_stage ⟨id, id⟩
          { pfxr_get_default_sound with
            lowPassCutoff := flit 1000 1, highPassCutoff := flit 500 1 }
          (binary32.ofInt PFXR_SAMPLE_RATE) ((1 : Nat) : Int) st.tremolo_phase
          (filter_stage
            { pfxr_get_default_sound with
              lowPassCutoff := flit 1000 1, highPassCutoff := flit 500 1 }
            st.lowpass_filter st.highpass_filter sample1).1 :=
  ⟨by decide, by decide, rfl, by decide,
    (filter_stage_applied ⟨id, id⟩
      { pfxr_get_default_sound with
        lowPassCutoff := flit 1000 1, highPassCutoff := flit 500 1 }).2.2.2
      (pfxr_create_audio_buffer 2)
      { samples :=
          Function.update
            (Function.update (fun _ => Flt.fin false 0 (-149)) 0 (Flt.fin false 0 (-149)))
            1 (Flt.fin false 10635109 (-30)),
        sample_count := 2, capacity := 2 }
      rfl 1 (by decide)⟩

/-! ## C28: the divisors of the envelope and of the pitch sweep in exact arithmetic -/

/-- Claim C28: no division of the envelope or of the pitch sweep has a zero divisor in
exact arithmetic. (1) The functions `envelope_formula` and `sweep_formula` are the code of
the envelope and of the pitch sweep: in the arithmetic of `float`, where every division has
a result, they return what `envelope_at` and `swept_frequency` return. (2) In exact
arithmetic, where a division by zero has no result, they have a result at every rendered
index `j < sample_count`, the sample count being `(int)(duration * 44100)` capped by the
capacity: the divisions that are evaluated have a divisor other than zero. (3) At every
such index the attack branch `t < attackTime` is entered only when `attackTime > 0`, with
`decayTime = 0` the time is before `attackTime + sustainTime` so that the decay branch is
not entered, and the pitch-sweep branch `t >= pitchDelay` is entered only when
`duration - pitchDelay > 0`, which excludes a `pitchDelay` equal to the duration. -/
theorem no_zero_divisor (config : pfxr_sound_t) (capacity : Int) :
    ((∀ t : Flt,
        envelope_formula float_checked config.attackTime config.sustainTime config.decayTime
          config.sustainPunch t = some (envelope_at config t)) ∧
      ∀ duration t : Flt,
        sweep_formula float_checked config.frequency config.pitchDelta config.pitchDelay
          config.pitchDuration duration t = some (swept_frequency config duration t)) ∧
    (∀ j : Nat, (j : Int) < exact_total_samples config capacity →
      (∃ envelope : ℚ,
        envelope_formula exact_checked config.attackTime.toRat config.sustainTime.toRat
          config.decayTime.toRat config.sustainPunch.toRat (exact_time j) = some envelope) ∧
      (∃ freq : ℚ,
        sweep_formula exact_checked config.frequency.toRat config.pitchDelta.toRat
          config.pitchDelay.toRat config.pitchDuration.toRat (exact_duration config)
          (exact_time j) = some freq)) ∧
    (∀ j : Nat, (j : Int) < exact_total_samples config capacity →
      (exact_time j < config.attackTime.toRat → 0 < config.attackTime.toRat) ∧
      (config.decayTime.toRat = 0 →
        exact_time j < config.attackTime.toRat + config.sustainTime.toRat) ∧
      (config.pitchDelay.toRat ≤ exact_time j →
        0 < exact_duration config - config.pitchDelay.toRat) ∧
      (config.pitchDelay.toRat = exact_duration config →
        ¬ config.pitchDelay.toRat ≤ exact_time j)) := by
  refine ⟨⟨fun t => ?_, fun duration t => ?_⟩, fun j hj => ?_, fun j hj => ?_⟩
  · unfold envelope_formula envelope_at float_checked
    simp only []
    by_cases c1 : t.lt config.attackTime = true
    · simp only [c1, if_true, Option.map_some']
    · by_cases c2 : t.lt (binary32.add config.attackTime config.sustainTime) = true
      · simp only [c1, c2, Bool.false_eq_true, if_true, if_false, Option.map_some']
      · simp only [c1, c2, Bool.false_eq_true, if_false, Option.map_some']
  · unfold sweep_formula swept_frequency float_checked Flt.ne Flt.ge Flt.gt
    simp only []
    by_cases c1 : (!(config.pitchDelta.le (flit 0 1) && (flit 0 1).le config.pitchDelta) &&
        config.pitchDelay.le t) = true
    · simp only [c1, if_true, Option.map_some']
    · simp only [c1, Bool.false_eq_true, if_false]
  · obtain ⟨h0, hlt⟩ := exact_time_lt config capacity j hj
    unfold exact_duration at hlt
    constructor
    · unfold envelope_formula exact_checked
      simp only [decide_eq_true_eq]
      by_cases c1 : exact_time j < config.attackTime.toRat
      · have hne : config.attackTime.toRat ≠ 0 := by linarith
        simp only [c1, if_true, hne, if_false, Option.map_some']
        exact ⟨_, rfl⟩
      · by_cases c2 : exact_time j < config.attackTime.toRat + config.sustainTime.toRat
        · simp only [c1, c2, if_true, if_false, Option.map_some']
          exact ⟨_, rfl⟩
        · have hne : config.decayTime.toRat ≠ 0 := by
            intro hd
            rw [hd] at hlt
            linarith
          simp only [c1, c2, hne, if_false, Option.map_some']
          exact ⟨_, rfl⟩
    · unfold sweep_formula exact_checked exact_duration
      simp only []
      split_ifs with c1 c2
      · exfalso
        simp only [Bool.and_eq_true, decide_eq_true_eq] at c1
        have := c1.2
        linarith
      · exact ⟨_, rfl⟩
      · exact ⟨_, rfl⟩
  · obtain ⟨h0, hlt⟩ := exact_time_lt config capacity j hj
    refine ⟨fun ha => by linarith, fun hd => ?_, fun hp => by linarith, fun hp hq => by linarith⟩
    unfold exact_duration at hlt
    rw [hd] at hlt
    linarith

/-- The statement of C28 at a sound of exactly one second whose pitch sweep begins at the
end, `pitchDelay = duration = 1` with `pitchDelta = 100` (`attackTime = 0`,
`sustainTime = decayTime = 0.5`), a capacity of 176400 samples and the last rendered index
44099 of the 44100: the envelope and the sweep have a result in exact arithmetic, the sweep
branch is not entered, and the frequency is the base frequency 700. -/
theorem no_zero_divisor_witness :
    ((44099 : Nat) : Int) <
      exact_total_samples
        { pfxr_get_default_sound with
          attackTime := Flt.fin false 0 (-149), sustainTime := Flt.fin false 8388608 (-24),
          decayTime := Flt.fin false 8388608 (-24), pitchDelay := Flt.fin false 8388608 (-23),
          pitchDelta := Flt.fin false 13107200 (-17) } 176400 ∧
    (Flt.fin false 8388608 (-23)).toRat =
      exact_duration
        { pfxr_get_default_sound with
          attackTime := Flt.fin false 0 (-149), sustainTime := Flt.fin false 8388608 (-24),
          decayTime := Flt.fin false 8388608 (-24), pitchDelay := Flt.fin false 8388608 (-23),
          pitchDelta := Flt.fin false 13107200 (-17) } ∧
    sweep_formula exact_checked pfxr_get_default_sound.frequency.toRat
        (Flt.fin false 13107200 (-17)).toRat (Flt.fin false 8388608 (-23)).toRat
        pfxr_get_default_sound.pitchDuration.toRat
        (exact_duration
          { pfxr_get_default_sound with
            attackTime := Flt.fin false 0 (-149), sustainTime := Flt.fin false 8388608 (-24),
            decayTime := Flt.fin false 8388608 (-24),
            pitchDelay := Flt.fin false 8388608 (-23),
            pitchDelta := Flt.fin false 13107200 (-17) })
        (exact_time ((44099 : Nat) : Int)) = some 700 ∧
    (∃ envelope : ℚ,
      envelope_formula exact_checked (Flt.fin false 0 (-149)).toRat
        (Flt.fin false 8388608 (-24)).toRat (Flt.fin false 8388608 (-24)).toRat
        pfxr_get_default_sound.sustainPunch.toRat (exact_time ((44099 : Nat) : Int)) =
          some envelope) ∧
    ∃ freq : ℚ,
      sweep_formula exact_checked pfxr_get_default_sound.frequency.toRat
        (Flt.fin false 13107200 (-17)).toRat (Flt.fin false 8388608 (-23)).toRat
        pfxr_get_default_sound.pitchDuration.toRat
        (exact_duration
          { pfxr_get_default_sound with
            attackTime := Flt.fin false 0 (-149), sustainTime := Flt.fin false 8388608 (-24),
            decayTime := Flt.fin false 8388608 (-24),
            pitchDelay := Flt.fin false 8388608 (-23),
            pitchDelta := Flt.fin false 13107200 (-17) })
        (exact_time ((44099 : Nat) : Int)) = some freq := by
  have h1 : ((44099 : Nat) : Int) <
      exact_total_samples
        { pfxr_get_default_sound with
          attackTime := Flt.fin false 0 (-149), sustainTime := Flt.fin false 8388608 (-24),
          decayTime := Flt.fin false 8388608 (-24), pitchDelay := Flt.fin false 8388608 (-23),
          pitchDelta := Flt.fin false 13107200 (-17) } 176400 := by
    have h : exact_total_samples
        { pfxr_get_default_sound with
          attackTime := Flt.fin false 0 (-149), sustainTime := Flt.fin false 8388608 (-24),
          decayTime := Flt.fin false 8388608 (-24), pitchDelay := Flt.fin false 8388608 (-23),
          pitchDelta := Flt.fin false 13107200 (-17) } 176400 = 44100 := by
      unfold exact_total_samples exact_trunc exact_duration PFXR_SAMPLE_RATE
      simp only [Flt.toRat]
      norm_num
    rw [h]
    decide
  refine ⟨h1, ?_, ?_,
    (no_zero_divisor
      { pfxr_get_default_sound with
        attackTime := Flt.fin false 0 (-149), sustainTime := Flt.fin false 8388608 (-24),
        decayTime := Flt.fin false 8388608 (-24), pitchDelay := Flt.fin false 8388608 (-23),
        pitchDelta := Flt.fin false 13107200 (-17) } 176400).2.1 44099 h1⟩
  · unfold exact_duration
    simp only [Flt.toRat]
    norm_num
  · have hf : pfxr_get_default_sound.frequency = Flt.fin false 11468800 (-14) := by decide
    unfold sweep_formula exact_checked exact_duration exact_time PFXR_SAMPLE_RATE
    rw [hf]
    simp only [Flt.toRat]
    norm_num

end Pfxr
